import Mathlib

/-! memdb: a shallow embedding of the table store, evaluator, executor and snapshot codec.

Conventions of the embedding.

* A C++ function that may throw returns `Except Exception _`; a function that mutates an
  object and may throw returns the outcome paired with the object as it is left behind,
  so that effects that happen before a `throw` stay visible.
* `std::string` is `String` (a `Char` stands for one `char`), `std::vector<uint8_t>` is
  `List Nat` (octets), `int32_t` is `Int` with explicit wrapping, `uint32_t` is `Nat`
  with explicit `% 2^32`.
* `std::map<RowID, Row>` is the list of its rows in ascending key order; the key of an
  entry is the `id` of the row stored under it (every insertion site of the source
  stores `Row(new_id, ...)` under `new_id`).
* `std::unordered_map<std::string, Value>` (a binding) is an association list.
-/

namespace memdb

/-! ## Exceptions -/

/-- The exception classes thrown by the sources. -/
inductive ExcKind
  | invalid_argument
  | out_of_range
  | runtime_error
  | logic_error
  | TypeMismatchException
  | DatabaseException
  | TableNotFoundException
  | TableAlreadyExistsException
  | RowNotFoundException
  | SerializationException
  | json_exception
  | undefined_behaviour
deriving DecidableEq, Repr

/-- A thrown exception: its class and its `what()` text. -/
structure Exception where
  kind : ExcKind
  what : String
deriving DecidableEq, Repr

deriving instance DecidableEq for Except

/-- Does `catch (const exceptions::DatabaseException&)` catch this exception. -/
def Exception.isDatabaseException (e : Exception) : Bool :=
  match e.kind with
  | .DatabaseException => true
  | .TableNotFoundException => true
  | .TableAlreadyExistsException => true
  | .RowNotFoundException => true
  | .SerializationException => true
  | _ => false

/-- Does `catch (const std::invalid_argument&)` catch this exception. -/
def Exception.isInvalidArgument (e : Exception) : Bool :=
  match e.kind with
  | .invalid_argument => true
  | _ => false

/-- Does `catch (const std::exception&)` catch this exception (everything thrown by the
sources derives from it; the marker for undefined behaviour does not). -/
def Exception.isStdException (e : Exception) : Bool :=
  match e.kind with
  | .undefined_behaviour => false
  | _ => true

/-- The loop `for (size_t i = 0; i < n; ++i) body(i)` where the body may throw. -/
def forRange (n : Nat) (body : Nat → Except Exception Unit) : Except Exception Unit :=
  (List.range n).forM body

/-! ## Type, Value, DataType -/

/-- The enum `Type` of `enums/Type.h`. -/
inductive Ty
  | Int32
  | Bool
  | String
  | Bytes
  | Unknown
deriving DecidableEq, Repr

/-- The class `Value`: `data_` is an optional variant, `null` is the empty optional. -/
inductive Value
  | null
  | int32 (v : Int)
  | bool (v : Bool)
  | string (v : String)
  | bytes (v : List Nat)
deriving DecidableEq, Repr

namespace Value

def get_type : Value → Ty
  | null => Ty.Unknown
  | int32 _ => Ty.Int32
  | bool _ => Ty.Bool
  | string _ => Ty.String
  | bytes _ => Ty.Bytes

def has_value : Value → Bool
  | null => false
  | _ => true

def get_int : Value → Except Exception Int
  | int32 v => .ok v
  | _ => .error ⟨.TypeMismatchException, "Value is not of type Int32."⟩

def get_bool : Value → Except Exception Bool
  | bool v => .ok v
  | _ => .error ⟨.TypeMismatchException, "Value is not of type Bool."⟩

def get_string : Value → Except Exception String
  | string v => .ok v
  | _ => .error ⟨.TypeMismatchException, "Value is not of type String."⟩

def get_bytes : Value → Except Exception (List Nat)
  | bytes v => .ok v
  | _ => .error ⟨.TypeMismatchException, "Value is not of type Bytes."⟩

end Value

/-- The table `hex_chars[] = "0123456789ABCDEF"` indexed by a nibble. -/
def hex_char (n : Nat) : Char :=
  match n % 16 with
  | 0 => '0' | 1 => '1' | 2 => '2' | 3 => '3'
  | 4 => '4' | 5 => '5' | 6 => '6' | 7 => '7'
  | 8 => '8' | 9 => '9' | 10 => 'A' | 11 => 'B'
  | 12 => 'C' | 13 => 'D' | 14 => 'E' | _ => 'F'

/-- The loop that renders octets as upper-case hex digits after the prefix `0x`. -/
def hex_digits : List Nat → List Char
  | [] => []
  | byte :: rest => hex_char ((byte / 16) % 16) :: hex_char (byte % 16) :: hex_digits rest

/-- The rendering `"0x"` followed by two hex digits per octet. -/
def hex_str (bytes : List Nat) : String :=
  ⟨'0' :: 'x' :: hex_digits bytes⟩

/-- `Value::to_string`. -/
def Value.to_string : Value → String
  | .null => "NULL"
  | .int32 v => v.repr
  | .bool v => if v then "true" else "false"
  | .string v => "\"" ++ v ++ "\""
  | .bytes v => hex_str v

/-- The class `DataType`: a type and, for String and Bytes, the declared size. -/
structure DataType where
  type : Ty
  size : Nat
deriving DecidableEq, Repr

namespace DataType

/-- `DataType::DataType(Type type)`; its guard can never fire since `size_` is 0. -/
def of_type (type : Ty) : DataType := ⟨type, 0⟩

/-- `DataType::DataType(Type type, size_t size)`. -/
def of_type_size (type : Ty) (size : Nat) : Except Exception DataType :=
  if (type ≠ Ty.String ∧ type ≠ Ty.Bytes) ∨ size = 0 then
    .error ⟨.invalid_argument, "Size can only be set for String and Bytes types with size > 0."⟩
  else .ok ⟨type, size⟩

def get_type (d : DataType) : Ty := d.type
def is_string (d : DataType) : Bool := d.type = Ty.String
def is_bytes (d : DataType) : Bool := d.type = Ty.Bytes
def is_int32 (d : DataType) : Bool := d.type = Ty.Int32
def is_bool (d : DataType) : Bool := d.type = Ty.Bool

def get_size (d : DataType) : Except Exception Nat :=
  if !d.is_string && !d.is_bytes then
    .error ⟨.logic_error, "Only String and Bytes types have size."⟩
  else .ok d.size

def to_string (d : DataType) : String :=
  match d.type with
  | Ty.Int32 => "int32"
  | Ty.Bool => "bool"
  | Ty.String => "string[" ++ Nat.repr d.size ++ "]"
  | Ty.Bytes => "bytes[" ++ Nat.repr d.size ++ "]"
  | Ty.Unknown => "unknown"

end DataType

/-! ## Column, Row -/

inductive ColumnAttribute
  | Unique
  | AutoIncrement
  | Key
deriving DecidableEq, Repr

/-- The class `Column`. -/
structure Column where
  name : String
  type : DataType
  attributes : List ColumnAttribute
  default_value : Option Value
deriving DecidableEq, Repr

namespace Column

def get_name (c : Column) : String := c.name
def get_type (c : Column) : DataType := c.type
def get_default_value (c : Column) : Option Value := c.default_value

def has_attribute (c : Column) (wanted : ColumnAttribute) : Bool :=
  c.attributes.any (fun attr => attr = wanted)

/-- The checks of the constructor `Column::Column` on an assembled column. -/
def check (c : Column) : Except Exception Unit :=
  if c.name = "" then .error ⟨.invalid_argument, "Column name cannot be empty."⟩
  else
    match c.attributes.forM (fun attr =>
        if attr = ColumnAttribute.AutoIncrement ∧ c.type.is_int32 = false then
          (.error ⟨.invalid_argument,
            "AutoIncrement attribute can only be applied to int32 columns."⟩ :
            Except Exception Unit)
        else .ok ()) with
    | .error e => .error e
    | .ok _ =>
      match c.default_value with
      | none => .ok ()
      | some d =>
        if d.get_type ≠ c.type.get_type then
          .error ⟨.invalid_argument, "Default value type does not match column type."⟩
        else if c.type.is_string then
          match d.get_string, c.type.get_size with
          | .ok str, .ok n =>
            if str.length > n then
              .error ⟨.invalid_argument, "Default string value exceeds defined size."⟩
            else .ok ()
          | .error e, _ => .error e
          | _, .error e => .error e
        else if c.type.is_bytes then
          match d.get_bytes, c.type.get_size with
          | .ok bytes, .ok n =>
            if bytes.length > n then
              .error ⟨.invalid_argument, "Default bytes value exceeds defined size."⟩
            else .ok ()
          | .error e, _ => .error e
          | _, .error e => .error e
        else .ok ()

/-- The constructor `Column::Column(name, type, attributes, default_value)`. -/
def new (name : String) (type : DataType) (attributes : List ColumnAttribute)
    (default_value : Option Value) : Except Exception Column :=
  match check ⟨name, type, attributes, default_value⟩ with
  | .error e => .error e
  | .ok _ => .ok ⟨name, type, attributes, default_value⟩

end Column

/-- The alias `RowID = uint32_t`. -/
abbrev RowID := Nat

/-- The class `Row`. -/
structure Row where
  id : RowID
  values : List (Option Value)
deriving DecidableEq, Repr

namespace Row

/-- `Row::get_value(index)`. -/
def get_value (r : Row) (index : Nat) : Except Exception (Option Value) :=
  match r.values[index]? with
  | some v => .ok v
  | none => .error ⟨.out_of_range, "Column index out of range."⟩

/-- `Row::set_value(index, value)`: the outcome and the row as left behind. -/
def set_value (r : Row) (index : Nat) (value : Value) : Except Exception Unit × Row :=
  if index ≥ r.values.length then
    (.error ⟨.out_of_range, "Column index out of range."⟩, r)
  else (.ok (), { r with values := r.values.set index (some value) })

end Row

/-! ## Index (state only; the table operations below never touch it) -/

inductive IndexType
  | Ordered
  | Unordered
deriving DecidableEq, Repr

/-- The class `Index`: its kind, its columns and its two maps. -/
structure Index where
  type : IndexType
  columns : List String
  unordered_map : List (String × List RowID)
  ordered_map : List (String × RowID)
deriving DecidableEq, Repr

/-! ## Table -/

/-- The class `Table`; `rows` is `std::map<RowID, Row> rows_` in ascending key order. -/
structure Table where
  name : String
  columns : List Column
  rows : List Row
  indexes : List Index
  next_row_id : RowID
deriving DecidableEq, Repr

/-- `std::map::emplace`: the entry is added at its place in key order unless the key is
already present, in which case the map is left as it is. -/
def map_emplace : List Row → Row → List Row
  | [], r => [r]
  | x :: xs, r =>
    if r.id < x.id then r :: x :: xs
    else if r.id = x.id then x :: xs
    else x :: map_emplace xs r

/-- `std::map::find`. -/
def map_find (rows : List Row) (id : RowID) : Option Row :=
  rows.find? (fun r => r.id = id)

/-- `std::map::erase` of the entry with the given key. -/
def map_erase (rows : List Row) (id : RowID) : List Row :=
  rows.filter (fun r => r.id ≠ id)

/-- The conversion `static_cast<int32_t>` of a 32-bit unsigned value. -/
def to_int32 (n : Nat) : Int :=
  if n % 2 ^ 32 < 2 ^ 31 then ((n % 2 ^ 32 : Nat) : Int) else ((n % 2 ^ 32 : Nat) : Int) - 2 ^ 32

/-- The `switch (new_value.get_type())` that compares two values through the typed
getters of the new value's type; the `default` branch leaves `equal` false. -/
def switch_equal (new_value existing_value : Value) : Except Exception Bool :=
  match new_value.get_type with
  | Ty.Int32 =>
    match new_value.get_int, existing_value.get_int with
    | .ok a, .ok b => .ok (decide (a = b))
    | .error e, _ => .error e
    | _, .error e => .error e
  | Ty.Bool =>
    match new_value.get_bool, existing_value.get_bool with
    | .ok a, .ok b => .ok (decide (a = b))
    | .error e, _ => .error e
    | _, .error e => .error e
  | Ty.String =>
    match new_value.get_string, existing_value.get_string with
    | .ok a, .ok b => .ok (decide (a = b))
    | .error e, _ => .error e
    | _, .error e => .error e
  | Ty.Bytes =>
    match new_value.get_bytes, existing_value.get_bytes with
    | .ok a, .ok b => .ok (decide (a = b))
    | .error e, _ => .error e
    | _, .error e => .error e
  | Ty.Unknown => .ok false

namespace Table

/-- The loop of the constructor over the columns with the set of names seen so far: the
first column whose name was already seen. -/
def first_duplicate (seen : List String) : List Column → Option String
  | [] => none
  | c :: cs => if c.name ∈ seen then some c.name else first_duplicate (c.name :: seen) cs

/-- The constructor `Table::Table(name, columns)`; `next_row_id_` starts at 1. -/
def new (name : String) (columns : List Column) : Except Exception Table :=
  if name = "" then .error ⟨.invalid_argument, "Table name cannot be empty"⟩
  else if columns = [] then .error ⟨.invalid_argument, "Column definitions cannot be empty"⟩
  else
    match first_duplicate [] columns with
    | some n => .error ⟨.invalid_argument, "Duplicate column name: " ++ n⟩
    | none => .ok ⟨name, columns, [], [], 1⟩

/-- `Table::get_column_index`. -/
def get_column_index (t : Table) (column_name : String) : Except Exception Nat :=
  match (List.range t.columns.length).find?
      (fun i => match t.columns[i]? with
        | some c => c.name = column_name
        | none => false) with
  | some i => .ok i
  | none => .error ⟨.invalid_argument, "Column not found: " ++ column_name⟩

/-- Body of the first loop of `Table::validate_row`: type and size check of slot `i`. -/
def validate_row_value (columns : List Column) (values : List (Option Value)) (i : Nat) :
    Except Exception Unit :=
  match values[i]?, columns[i]? with
  | some (some value), some column =>
    if value.get_type ≠ column.type.get_type then
      .error ⟨.invalid_argument, "Type mismatch for column \"" ++ column.name ++
        "\". Expected: " ++ column.type.to_string ++ ", Got: " ++ value.to_string⟩
    else if column.type.is_string then
      match value.get_string, column.type.get_size with
      | .ok s, .ok n =>
        if s.length > n then
          .error ⟨.invalid_argument, "Value for column \"" ++ column.name ++
            "\" exceeds maximum length."⟩
        else .ok ()
      | .error e, _ => .error e
      | _, .error e => .error e
    else if column.type.is_bytes then
      match value.get_bytes, column.type.get_size with
      | .ok b, .ok n =>
        if b.length > n then
          .error ⟨.invalid_argument, "Value for column \"" ++ column.name ++
            "\" exceeds maximum byte size."⟩
        else .ok ()
      | .error e, _ => .error e
      | _, .error e => .error e
    else .ok ()
  | _, _ => .ok ()

/-- Body of the innermost loop of `Table::validate_row`: one existing row against the
new value of slot `i`. -/
def validate_row_against (column : Column) (new_value : Value) (i : Nat) (existing_row : Row) :
    Except Exception Unit :=
  match existing_row.get_value i with
  | .error e => .error e
  | .ok none => .ok ()
  | .ok (some existing_value) =>
    if new_value.get_type = existing_value.get_type then
      match switch_equal new_value existing_value with
      | .error e => .error e
      | .ok true =>
        .error ⟨.invalid_argument, "Duplicate value for unique/key column \"" ++
          column.name ++ "\"."⟩
      | .ok false => .ok ()
    else .ok ()

/-- Body of the second loop of `Table::validate_row`: uniqueness of slot `i`. -/
def validate_row_unique (t : Table) (values : List (Option Value)) (i : Nat) :
    Except Exception Unit :=
  match values[i]?, t.columns[i]? with
  | some (some new_value), some column =>
    if column.has_attribute .Unique || column.has_attribute .Key then
      t.rows.forM (validate_row_against column new_value i)
    else .ok ()
  | _, _ => .ok ()

/-- `Table::validate_row(values)`. -/
def validate_row (t : Table) (values : List (Option Value)) : Except Exception Unit :=
  if values.length > t.columns.length then
    .error ⟨.invalid_argument, "Too many values provided for insertion."⟩
  else
    match forRange values.length (validate_row_value t.columns values) with
    | .error e => .error e
    | .ok _ => forRange values.length (validate_row_unique t values)

/-- Body of the completion loop of `Table::insert_row(values)`: the value stored at
column position `i`. -/
def complete_value (t : Table) (values : List (Option Value)) (i : Nat) : Option Value :=
  match values[i]? with
  | some (some v) => some v
  | _ =>
    match t.columns[i]? with
    | some column =>
      if column.has_attribute .AutoIncrement then some (Value.int32 (to_int32 t.next_row_id))
      else
        match column.default_value with
        | some d => some d
        | none => none
    | none => none

/-- `Table::insert_row(values)`: the returned RowID or the exception, and the table as
left behind. -/
def insert_row (t : Table) (values : List (Option Value)) : Except Exception RowID × Table :=
  match t.validate_row values with
  | .error e => (.error e, t)
  | .ok _ =>
    let complete_values := (List.range t.columns.length).map (complete_value t values)
    let new_id := t.next_row_id
    (.ok new_id,
      { t with rows := map_emplace t.rows ⟨new_id, complete_values⟩,
               next_row_id := (t.next_row_id + 1) % 2 ^ 32 })

/-- Body of the completion loop of `Table::insert_row(values, id)` on a value list as
long as the column list. -/
def complete_value_id (t : Table) (values : List (Option Value)) (i : Nat) : Option Value :=
  match values[i]?, t.columns[i]? with
  | some slot, some column =>
    if column.has_attribute .AutoIncrement && slot.isNone then
      some (Value.int32 (to_int32 t.next_row_id))
    else if slot.isNone && column.default_value.isSome then column.default_value
    else slot
  | _, _ => none

/-- Body of the innermost loop of the uniqueness check of `Table::insert_row(values, id)`. -/
def insert_row_against (column : Column) (new_val : Value) (i : Nat) (new_id : RowID)
    (existing_row : Row) : Except Exception Unit :=
  if existing_row.id = new_id then .ok ()
  else
    match existing_row.get_value i with
    | .error e => .error e
    | .ok none => .ok ()
    | .ok (some existing_val) =>
      if new_val.get_type ≠ existing_val.get_type then .ok ()
      else
        match switch_equal new_val existing_val with
        | .error e => .error e
        | .ok true =>
          .error ⟨.invalid_argument, "Duplicate value for unique/key column '" ++
            column.name ++ "'."⟩
        | .ok false => .ok ()

/-- Body of the uniqueness loop of `Table::insert_row(values, id)` for column `i`. -/
def insert_row_unique (t : Table) (complete_values : List (Option Value)) (new_id : RowID)
    (i : Nat) : Except Exception Unit :=
  match t.columns[i]? with
  | some column =>
    if column.has_attribute .Unique || column.has_attribute .Key then
      match complete_values[i]? with
      | some (some new_val) => t.rows.forM (insert_row_against column new_val i new_id)
      | _ => .ok ()
    else .ok ()
  | none => .ok ()

/-- `Table::insert_row(values, id)`, the overload with an explicit RowID. The completion
loop indexes `complete_values[i]` for every column, which is only defined when the value
list is as long as the column list; a shorter list stops the model with the marker for
undefined behaviour. `next_row_id_` is moved before the uniqueness check, so it stays
moved when the check throws. -/
def insert_row_id (t : Table) (values : List (Option Value)) (id : RowID) :
    Except Exception RowID × Table :=
  match t.validate_row values with
  | .error e => (.error e, t)
  | .ok _ =>
    if values.length ≠ t.columns.length then
      (.error ⟨.undefined_behaviour, "complete_values[i] past the end"⟩, t)
    else
      let complete_values := (List.range t.columns.length).map (complete_value_id t values)
      let new_id := if id ≠ 0 then id else t.next_row_id
      let next :=
        if id ≠ 0 then (if id ≥ t.next_row_id then (id + 1) % 2 ^ 32 else t.next_row_id)
        else (t.next_row_id + 1) % 2 ^ 32
      let t1 := { t with next_row_id := next }
      match forRange t.columns.length (insert_row_unique t1 complete_values new_id) with
      | .error e => (.error e, t1)
      | .ok _ => (.ok new_id, { t1 with rows := map_emplace t1.rows ⟨new_id, complete_values⟩ })

/-- `Table::delete_row(id)`. -/
def delete_row (t : Table) (id : RowID) : Except Exception Unit × Table :=
  match map_find t.rows id with
  | some _ => (.ok (), { t with rows := map_erase t.rows id })
  | none => (.error ⟨.invalid_argument, "Row ID not found: " ++ Nat.repr id⟩, t)

/-- `Table::get_row(id)`. -/
def get_row (t : Table) (id : RowID) : Except Exception Row :=
  match map_find t.rows id with
  | some r => .ok r
  | none => .error ⟨.invalid_argument, "Row ID not found: " ++ Nat.repr id⟩

end Table

/-! ## Bindings and expressions -/

/-- A binding `std::unordered_map<std::string, Value>`. -/
abbrev Binding := List (String × Value)

namespace Binding

/-- `row.find(name)`. -/
def find (row : Binding) (name : String) : Option Value :=
  match row with
  | [] => none
  | (k, v) :: rest => if k = name then some v else find rest name

/-- `row[name] = value`: the entry is overwritten when the key is present and added
otherwise. -/
def set (row : Binding) (name : String) (value : Value) : Binding :=
  match row with
  | [] => [(name, value)]
  | (k, v) :: rest => if k = name then (name, value) :: rest else (k, v) :: set rest name value

end Binding

/-- `UnaryExpression::Operator`. -/
inductive UnaryOperator
  | Not
  | Length
deriving DecidableEq, Repr

/-- `BinaryExpression::Operator`. -/
inductive BinaryOperator
  | Add
  | Subtract
  | Multiply
  | Divide
  | Modulo
  | Less
  | LessEqual
  | Greater
  | GreaterEqual
  | Equal
  | NotEqual
  | And
  | Or
  | Xor
deriving DecidableEq, Repr

/-- The class hierarchy under `Expression` as a closed sum. -/
inductive Expression
  | Literal (value : Value)
  | Variable (name : String)
  | Unary (op : UnaryOperator) (operand : Expression)
  | Binary (op : BinaryOperator) (left right : Expression)
deriving DecidableEq, Repr

/-- The result of 32-bit signed arithmetic on a mathematical result: two's complement
wrap-around (the sources do no range check). -/
def wrap_int32 (x : Int) : Int :=
  (x + 2 ^ 31) % 2 ^ 32 - 2 ^ 31

/-- `std::string::compare`: the sign of the lexicographic comparison by character code, a
proper prefix being smaller. -/
def string_compare : List Char → List Char → Int
  | [], [] => 0
  | [], _ :: _ => -1
  | _ :: _, [] => 1
  | a :: as, b :: bs =>
    if a.toNat < b.toNat then -1
    else if b.toNat < a.toNat then 1
    else string_compare as bs

/-- `compare_values(left_val, right_val)`: -1, 0 or 1. -/
def compare_values (left_val right_val : Value) : Except Exception Int :=
  if left_val.get_type ≠ right_val.get_type then
    .error ⟨.TypeMismatchException, "Comparison requires operands of the same type."⟩
  else
    match left_val, right_val with
    | .int32 a, .int32 b => .ok (if a < b then -1 else if a > b then 1 else 0)
    | .bool a, .bool b => .ok (if a = b then 0 else if a = false then -1 else 1)
    | .string a, .string b => .ok (string_compare a.data b.data)
    | .bytes a, .bytes b => .ok (if a = b then 0 else if a < b then -1 else 1)
    | _, _ => .error ⟨.runtime_error, "Unsupported type for comparison operations."⟩

/-- A comparison operator of `BinaryExpression::evaluate`: the type check with the
operator's own message, then the test on the sign of `compare_values`. -/
def compare_op (msg : String) (test : Int → Bool) (left_val right_val : Value) :
    Except Exception Value :=
  if left_val.get_type ≠ right_val.get_type then .error ⟨.TypeMismatchException, msg⟩
  else
    match compare_values left_val right_val with
    | .error e => .error e
    | .ok c => .ok (.bool (test c))

/-- A logical operator of `BinaryExpression::evaluate`. -/
def logical_op (msg : String) (f : Bool → Bool → Bool) (left_val right_val : Value) :
    Except Exception Value :=
  match left_val, right_val with
  | .bool a, .bool b => .ok (.bool (f a b))
  | _, _ => .error ⟨.TypeMismatchException, msg⟩

/-- The `switch (op_)` of `BinaryExpression::evaluate` on the two operand values. -/
def binary_apply (op : BinaryOperator) (left_val right_val : Value) : Except Exception Value :=
  match op with
  | .Add =>
    match left_val, right_val with
    | .int32 a, .int32 b => .ok (.int32 (wrap_int32 (a + b)))
    | .string a, .string b => .ok (.string (a ++ b))
    | _, _ => .error ⟨.TypeMismatchException, "Operator '+' not supported for given types."⟩
  | .Subtract =>
    match left_val, right_val with
    | .int32 a, .int32 b => .ok (.int32 (wrap_int32 (a - b)))
    | _, _ => .error ⟨.TypeMismatchException, "Operator '-' requires numeric types."⟩
  | .Multiply =>
    match left_val, right_val with
    | .int32 a, .int32 b => .ok (.int32 (wrap_int32 (a * b)))
    | _, _ => .error ⟨.TypeMismatchException, "Operator '*' requires numeric types."⟩
  | .Divide =>
    match left_val, right_val with
    | .int32 a, .int32 b =>
      if b = 0 then .error ⟨.TypeMismatchException, "Division by zero."⟩
      else .ok (.int32 (wrap_int32 (Int.tdiv a b)))
    | _, _ => .error ⟨.TypeMismatchException, "Operator '/' requires numeric types."⟩
  | .Modulo =>
    match left_val, right_val with
    | .int32 a, .int32 b =>
      if b = 0 then .error ⟨.TypeMismatchException, "Modulo by zero."⟩
      else .ok (.int32 (wrap_int32 (Int.tmod a b)))
    | _, _ => .error ⟨.TypeMismatchException, "Operator '%' requires integer types."⟩
  | .Less =>
    compare_op "Comparison requires operands of the same type." (fun c => c < 0)
      left_val right_val
  | .LessEqual =>
    compare_op "Comparison requires operands of the same type." (fun c => c ≤ 0)
      left_val right_val
  | .Greater =>
    compare_op "Comparison requires operands of the same type." (fun c => c > 0)
      left_val right_val
  | .GreaterEqual =>
    compare_op "Comparison requires operands of the same type." (fun c => c ≥ 0)
      left_val right_val
  | .Equal =>
    compare_op "Equality comparison requires operands of the same type." (fun c => c = 0)
      left_val right_val
  | .NotEqual =>
    compare_op "Inequality comparison requires operands of the same type." (fun c => c ≠ 0)
      left_val right_val
  | .And => logical_op "Operator '&&' requires Bool types." (fun a b => a && b) left_val right_val
  | .Or => logical_op "Operator '||' requires Bool types." (fun a b => a || b) left_val right_val
  | .Xor => logical_op "Operator '^^' requires Bool types." (fun a b => xor a b) left_val right_val

/-- The `switch (op_)` of `UnaryExpression::evaluate` on the operand value. -/
def unary_apply (op : UnaryOperator) (val : Value) : Except Exception Value :=
  match op with
  | .Not =>
    match val with
    | .bool b => .ok (.bool (!b))
    | _ => .error ⟨.TypeMismatchException, "Operator '!' requires Bool type."⟩
  | .Length =>
    match val with
    | .string s => .ok (.int32 (to_int32 s.length))
    | .bytes b => .ok (.int32 (to_int32 b.length))
    | _ => .error ⟨.TypeMismatchException, "Operator '|var|' requires String or Bytes type."⟩

namespace Expression

/-- The virtual method `evaluate(row)` of the four expression classes. -/
def evaluate : Expression → Binding → Except Exception Value
  | Literal value, _ => .ok value
  | Variable name, row =>
    match row.find name with
    | none => .error ⟨.TypeMismatchException, "Column not found: " ++ name⟩
    | some v =>
      if !v.has_value then .error ⟨.TypeMismatchException, "NULL value for column: " ++ name⟩
      else .ok v
  | Unary op operand, row =>
    match evaluate operand row with
    | .error e => .error e
    | .ok val => unary_apply op val
  | Binary op left right, row =>
    match evaluate left row with
    | .error e => .error e
    | .ok left_val =>
      match evaluate right row with
      | .error e => .error e
      | .ok right_val => binary_apply op left_val right_val

/-- The virtual method `get_type()`: the static type of an expression. -/
def get_type : Expression → Ty
  | Literal value => value.get_type
  | Variable _ => Ty.Unknown
  | Unary .Not _ => Ty.Bool
  | Unary .Length _ => Ty.Int32
  | Binary op _ _ =>
    match op with
    | .Add | .Subtract | .Multiply | .Divide | .Modulo => Ty.Int32
    | _ => Ty.Bool

end Expression

/-! ## Plans, results, the database -/

/-- `struct ColumnInfo`. -/
structure ColumnInfo where
  name : String
  type : DataType
deriving DecidableEq, Repr

/-- The class `QueryResult`. -/
structure QueryResult where
  success : Bool
  error_message : String
  data : List (List (Option Value))
  columns : List ColumnInfo
deriving DecidableEq, Repr

namespace QueryResult

/-- `QueryResult()`. -/
def empty : QueryResult := ⟨true, "", [], []⟩
/-- `QueryResult(data)`. -/
def of_data (data : List (List (Option Value))) : QueryResult := ⟨true, "", data, []⟩
/-- `QueryResult(data, columns)`. -/
def of_data_columns (data : List (List (Option Value))) (columns : List ColumnInfo) :
    QueryResult := ⟨true, "", data, columns⟩
/-- `QueryResult(error_message)`. -/
def of_error (error_message : String) : QueryResult := ⟨false, error_message, [], []⟩

def is_ok (r : QueryResult) : Bool := r.success
def get_error (r : QueryResult) : String := r.error_message
def get_data (r : QueryResult) : List (List (Option Value)) := r.data

end QueryResult

/-- `struct SelectItem`; `alias_name` is the member `alias`. -/
structure SelectItem where
  expression : Expression
  alias_name : String
deriving DecidableEq, Repr

/-- `struct JoinInfo`. -/
structure JoinInfo where
  table_name : String
  table_alias : String
  join_condition : Expression
deriving DecidableEq, Repr

inductive QueryType
  | CreateTable
  | Insert
  | Select
  | Update
  | Delete
  | CreateIndex
deriving DecidableEq, Repr

/-- `struct ParsedQuery`. The map `update_assignments` is the list of its entries in
iteration order; a null `std::unique_ptr<Expression>` is `none`. -/
structure ParsedQuery where
  type : QueryType
  table_name : String := ""
  table_alias : String := ""
  columns : List Column := []
  insert_values : Option (List (Option Value)) := none
  select_items : List SelectItem := []
  where_clause : Option Expression := none
  update_assignments : List (String × Expression) := []
  update_where_clause : Option Expression := none
  delete_where_clause : Option Expression := none
  from_table : String := ""
  index_type : String := ""
  index_columns : List String := []
  joins : List JoinInfo := []
deriving DecidableEq, Repr

/-- The class `Database`: the catalog `tables_` as an association list. -/
structure Database where
  tables : List (String × Table)
deriving DecidableEq, Repr

namespace Database

/-- `Database::get_table`. -/
def get_table (db : Database) (table_name : String) : Except Exception Table :=
  match db.tables.find? (fun e => e.1 = table_name) with
  | some e => .ok e.2
  | none => .error ⟨.TableNotFoundException, "Table not found: " ++ table_name⟩

/-- The effect of mutating, through the shared pointer returned by `get_table`, the table
registered under `table_name`. -/
def put_table (db : Database) (table_name : String) (t : Table) : Database :=
  ⟨db.tables.map (fun e => if e.1 = table_name then (e.1, t) else e)⟩

end Database

/-! ## Executor -/

/-- The loop that builds `row_map` from a row: one entry per column position holding a
value, under the key `key column`. -/
def build_row_map (key : Column → String) (columns : List Column) (row : Row)
    (init : Binding) : Binding :=
  (List.range columns.length).foldl
    (fun row_map i =>
      match columns[i]?, row.values[i]? with
      | some column, some (some v) => row_map.set (key column) v
      | _, _ => row_map)
    init

/-- The binding of a row in the statements without join: keys are the column names. -/
def row_map_of (columns : List Column) (row : Row) : Binding :=
  build_row_map (fun c => c.name) columns row []

/-- The evaluation of an optional condition that every executor loop performs: `match`
stays true without a condition, the condition must yield a Bool. -/
def eval_condition (what : String) (cond : Option Expression) (row_map : Binding) :
    Except Exception Bool :=
  match cond with
  | none => .ok true
  | some c =>
    match c.evaluate row_map with
    | .error e => .error e
    | .ok v =>
      match v with
      | .bool b => .ok b
      | _ => .error ⟨.invalid_argument, what ++ " does not evaluate to a boolean."⟩

/-- The loop over `select_items` of `execute_select`: the failure of an item ends the
whole statement with the message returned here. -/
def eval_select_items (items : List SelectItem) (row_map : Binding) :
    Except String (List (Option Value)) :=
  match items with
  | [] => .ok []
  | item :: rest =>
    match item.expression.evaluate row_map with
    | .error e => .error ("Error evaluating expression in SELECT clause: " ++ e.what)
    | .ok val =>
      match eval_select_items rest row_map with
      | .error m => .error m
      | .ok vals => .ok (some val :: vals)

/-- The loop over the rows of `execute_select` without join; an error is the message of
the `QueryResult` the function ends with. -/
def select_rows (columns : List Column) (pq : ParsedQuery) :
    List Row → Except String (List (List (Option Value)))
  | [] => .ok []
  | row :: rest =>
    let row_map := row_map_of columns row
    match eval_condition "WHERE clause" pq.where_clause row_map with
    | .error e => .error e.what
    | .ok false => select_rows columns pq rest
    | .ok true =>
      match eval_select_items pq.select_items row_map with
      | .error m => .error m
      | .ok selected_values =>
        match select_rows columns pq rest with
        | .error m => .error m
        | .ok results => .ok (selected_values :: results)

/-- The inner loop of the join branch of `execute_select` over the rows of the second
table, for one row of the first table whose binding is `row_map`. -/
def join_inner (pq : ParsedQuery) (join : JoinInfo) (columns2 : List Column)
    (row_map : Binding) : List Row → Except String (List (List (Option Value)))
  | [] => .ok []
  | row2 :: rest =>
    let combined_row_map :=
      build_row_map (fun c => join.table_name ++ "." ++ (join.table_name ++ "." ++ c.name))
        columns2 row2 row_map
    match eval_condition "JOIN condition" (some join.join_condition) combined_row_map with
    | .error e => .error e.what
    | .ok false => join_inner pq join columns2 row_map rest
    | .ok true =>
      match eval_condition "WHERE clause" pq.where_clause combined_row_map with
      | .error e => .error e.what
      | .ok false => join_inner pq join columns2 row_map rest
      | .ok true =>
        match eval_select_items pq.select_items row_map with
        | .error m => .error m
        | .ok selected_values =>
          match join_inner pq join columns2 row_map rest with
          | .error m => .error m
          | .ok results => .ok (selected_values :: results)

/-- The outer loop of the join branch of `execute_select` over the rows of the first
table. The key of a column is `pq.table_name + "." + aliased_name` where the aliased name
is itself `pq.table_name + "." + column name`. -/
def join_outer (pq : ParsedQuery) (join : JoinInfo) (columns1 columns2 : List Column)
    (rows2 : List Row) : List Row → Except String (List (List (Option Value)))
  | [] => .ok []
  | row1 :: rest =>
    let row_map :=
      build_row_map (fun c => pq.table_name ++ "." ++ (pq.table_name ++ "." ++ c.name))
        columns1 row1 []
    match join_inner pq join columns2 row_map rows2 with
    | .error m => .error m
    | .ok here =>
      match join_outer pq join columns1 columns2 rows2 rest with
      | .error m => .error m
      | .ok results => .ok (here ++ results)

/-- `QueryExecutor::execute_select`. Every exception raised inside is caught by one of
the two handlers of the function and becomes `QueryResult(e.what())`. -/
def execute_select (pq : ParsedQuery) (db : Database) : QueryResult :=
  match pq.joins with
  | join :: _ =>
    match db.get_table pq.table_name with
    | .error e => QueryResult.of_error e.what
    | .ok table1 =>
      match db.get_table join.table_name with
      | .error e => QueryResult.of_error e.what
      | .ok table2 =>
        let result_columns :=
          table1.columns.map (fun col => ColumnInfo.mk (pq.table_name ++ "." ++ col.name) col.type)
          ++ table2.columns.map
            (fun col => ColumnInfo.mk (join.table_name ++ "." ++ col.name) col.type)
        match join_outer pq join table1.columns table2.columns table2.rows table1.rows with
        | .error m => QueryResult.of_error m
        | .ok results => QueryResult.of_data_columns results result_columns
  | [] =>
    match db.get_table pq.table_name with
    | .error e => QueryResult.of_error e.what
    | .ok table =>
      let result_columns :=
        pq.select_items.map
          (fun item => ColumnInfo.mk item.alias_name (DataType.of_type item.expression.get_type))
      match select_rows table.columns pq table.rows with
      | .error m => QueryResult.of_error m
      | .ok results => QueryResult.of_data_columns results result_columns

/-- The assignment loop of `execute_update` for one matching row: the outcome and the
row as left behind. `row_map` is rebound after every assignment. -/
def apply_assignments (table : Table) :
    List (String × Expression) → Row → Binding → Except Exception Unit × Row
  | [], row, _ => (.ok (), row)
  | (col_name, expr) :: rest, row, row_map =>
    match table.get_column_index col_name with
    | .error e => (.error e, row)
    | .ok col_index =>
      match table.columns[col_index]? with
      | none => (.error ⟨.undefined_behaviour, "columns[col_index] past the end"⟩, row)
      | some column =>
        match expr.evaluate row_map with
        | .error e => (.error e, row)
        | .ok new_val =>
          if new_val.get_type ≠ column.type.get_type then
            (.error ⟨.TypeMismatchException,
              "Type mismatch in SET assignment for column '" ++ col_name ++ "'."⟩, row)
          else
            match row.set_value col_index new_val with
            | (.error e, row1) => (.error e, row1)
            | (.ok _, row1) =>
              apply_assignments table rest row1 (row_map.set col_name new_val)

/-- The loop over the rows of `execute_update`: the number of updated rows or the
exception, and the rows as left behind (rows before the failing one keep their new
values). -/
def update_rows (table : Table) (pq : ParsedQuery) :
    List Row → Nat → Except Exception Nat × List Row
  | [], updated_count => (.ok updated_count, [])
  | row :: rest, updated_count =>
    let row_map := row_map_of table.columns row
    match eval_condition "WHERE clause" pq.update_where_clause row_map with
    | .error e => (.error e, row :: rest)
    | .ok false =>
      let r := update_rows table pq rest updated_count
      (r.1, row :: r.2)
    | .ok true =>
      match apply_assignments table pq.update_assignments row row_map with
      | (.error e, row1) => (.error e, row1 :: rest)
      | (.ok _, row1) =>
        let r := update_rows table pq rest (updated_count + 1)
        (r.1, row1 :: r.2)

/-- `QueryExecutor::execute_update`: the returned result, or the exception that leaves
the function (only `DatabaseException` is caught inside), and the database as left
behind. -/
def execute_update (pq : ParsedQuery) (db : Database) : Except Exception QueryResult × Database :=
  match db.get_table pq.table_name with
  | .error e => (.ok (QueryResult.of_error e.what), db)
  | .ok table =>
    let r := update_rows table pq table.rows 0
    let db1 := db.put_table pq.table_name { table with rows := r.2 }
    match r.1 with
    | .error e =>
      if e.isDatabaseException then (.ok (QueryResult.of_error e.what), db1) else (.error e, db1)
    | .ok updated_count =>
      (.ok (QueryResult.of_data [[some (Value.int32 (to_int32 updated_count))]]), db1)

/-- The first loop of `execute_delete`: the RowIDs of the rows that match. -/
def rows_to_delete (columns : List Column) (pq : ParsedQuery) :
    List Row → Except Exception (List RowID)
  | [] => .ok []
  | row :: rest =>
    match eval_condition "WHERE clause" pq.delete_where_clause (row_map_of columns row) with
    | .error e => .error e
    | .ok is_match =>
      match rows_to_delete columns pq rest with
      | .error e => .error e
      | .ok ids => .ok (if is_match then row.id :: ids else ids)

/-- The second loop of `execute_delete`: `delete_row` for every collected RowID. -/
def delete_rows (t : Table) : List RowID → Except Exception Unit × Table
  | [] => (.ok (), t)
  | id :: rest =>
    match t.delete_row id with
    | (.error e, t1) => (.error e, t1)
    | (.ok _, t1) => delete_rows t1 rest

/-- `QueryExecutor::execute_delete`. -/
def execute_delete (pq : ParsedQuery) (db : Database) : Except Exception QueryResult × Database :=
  match db.get_table pq.table_name with
  | .error e => (.ok (QueryResult.of_error e.what), db)
  | .ok table =>
    match rows_to_delete table.columns pq table.rows with
    | .error e =>
      if e.isDatabaseException then (.ok (QueryResult.of_error e.what), db) else (.error e, db)
    | .ok ids =>
      let r := delete_rows table ids
      let db1 := db.put_table pq.table_name r.2
      match r.1 with
      | .error e =>
        if e.isDatabaseException then (.ok (QueryResult.of_error e.what), db1)
        else (.error e, db1)
      | .ok _ => (.ok (QueryResult.of_data [[some (Value.int32 (to_int32 ids.length))]]), db1)

/-- The handlers of `Database::execute` around parsing and execution: what the caller
receives for an outcome of `executor_.execute`. -/
def Database.execute_handlers (outcome : Except Exception QueryResult) : QueryResult :=
  match outcome with
  | .ok r => r
  | .error e =>
    if e.isInvalidArgument then QueryResult.of_error e.what
    else if e.isDatabaseException then QueryResult.of_error e.what
    else if e.isStdException then QueryResult.of_error ("Standard exception: " ++ e.what)
    else QueryResult.of_error "Unknown error during query execution."

/-! ## Lexer -/

inductive TokenType
  | Identifier
  | IntLiteral
  | BoolLiteral
  | StringLiteral
  | BytesLiteral
  | Operator
  | Length
  | Comma
  | LeftParen
  | RightParen
  | EndOfInput
deriving DecidableEq, Repr

/-- `struct Token`. -/
structure Token where
  type : TokenType
  value : String
deriving DecidableEq, Repr

/-- `std::isspace` in the C locale. -/
def isspace (c : Char) : Bool :=
  c = ' ' || c = '\t' || c = '\n' || c = '\x0b' || c = '\x0c' || c = '\r'

/-- `std::isdigit`. -/
def isdigit (c : Char) : Bool := '0'.toNat ≤ c.toNat && c.toNat ≤ '9'.toNat

/-- `std::isalpha` in the C locale. -/
def isalpha (c : Char) : Bool :=
  ('a'.toNat ≤ c.toNat && c.toNat ≤ 'z'.toNat) || ('A'.toNat ≤ c.toNat && c.toNat ≤ 'Z'.toNat)

/-- `std::isalnum` in the C locale. -/
def isalnum (c : Char) : Bool := isalpha c || isdigit c

/-- `std::isxdigit`. -/
def isxdigit (c : Char) : Bool :=
  isdigit c || ('a'.toNat ≤ c.toNat && c.toNat ≤ 'f'.toNat) ||
    ('A'.toNat ≤ c.toNat && c.toNat ≤ 'F'.toNat)

/-- `::tolower` in the C locale. -/
def tolower (c : Char) : Char :=
  if 'A'.toNat ≤ c.toNat && c.toNat ≤ 'Z'.toNat then Char.ofNat (c.toNat + 32) else c

/-- `std::transform(s.begin(), s.end(), s.begin(), ::tolower)`. -/
def to_lower (s : String) : String := ⟨s.data.map tolower⟩

/-! The class `Lexer`. The state is the input from `pos_` on: the lexer only reads
forward. `peek()` yields the NUL character at the end of the input, so a NUL character in
the input is read as the end wherever the source compares `peek()` with NUL. -/

namespace Lexer

/-- `Lexer::skip_whitespace`. -/
def skip_whitespace : List Char → List Char
  | [] => []
  | c :: rest => if isspace c then skip_whitespace rest else c :: rest

/-- `Lexer::identifier`. -/
def identifier (input : List Char) : Token × List Char :=
  let result := input.takeWhile (fun c => isalnum c || c = '_' || c = '.')
  let rest := input.dropWhile (fun c => isalnum c || c = '_' || c = '.')
  if String.mk result = "true" ∨ String.mk result = "false" then
    (⟨.BoolLiteral, ⟨result⟩⟩, rest)
  else (⟨.Identifier, ⟨result⟩⟩, rest)

/-- `Lexer::number`: an optional sign, then the digits that follow. -/
def number (input : List Char) : Token × List Char :=
  match input with
  | c :: rest =>
    if c = '-' ∨ c = '+' then
      (⟨.IntLiteral, ⟨c :: rest.takeWhile isdigit⟩⟩, rest.dropWhile isdigit)
    else (⟨.IntLiteral, ⟨input.takeWhile isdigit⟩⟩, input.dropWhile isdigit)
  | [] => (⟨.IntLiteral, ""⟩, [])

/-- The `switch (esc)` of `Lexer::string_literal`. -/
def unescape (esc : Char) : Char :=
  if esc = 'n' then '\n'
  else if esc = 't' then '\t'
  else if esc = 'r' then '\r'
  else esc

/-- The loop of `Lexer::string_literal` after the opening quote, with the characters
collected so far; it ends behind the closing quote. -/
def string_body : List Char → List Char → Except Exception (Token × List Char)
  | [], _ => .error ⟨.TypeMismatchException, "Unterminated string literal."⟩
  | c :: rest, str =>
    if c = '"' then .ok (⟨.StringLiteral, ⟨str⟩⟩, rest)
    else if c = '\x00' then .error ⟨.TypeMismatchException, "Unterminated string literal."⟩
    else if c = '\\' then
      match rest with
      | [] => .error ⟨.TypeMismatchException, "Unterminated string literal."⟩
      | esc :: rest1 => string_body rest1 (str ++ [unescape esc])
    else string_body rest (str ++ [c])

/-- `Lexer::string_literal`, on an input that starts with the opening quote. -/
def string_literal (input : List Char) : Except Exception (Token × List Char) :=
  string_body (input.drop 1) []

/-- `Lexer::bytes_literal`, on an input that starts with `0x` or `0X`. -/
def bytes_literal (input : List Char) : Token × List Char :=
  (⟨.BytesLiteral, ⟨input.take 2 ++ (input.drop 2).takeWhile isxdigit⟩⟩,
    (input.drop 2).dropWhile isxdigit)

/-- The `case '|'` of `Lexer::get_next_token`, on the input behind the first bar. -/
def bar (rest : List Char) : Except Exception (Token × List Char) :=
  match rest with
  | '|' :: rest1 => .ok (⟨.Operator, "||"⟩, rest1)
  | _ =>
    let var_name := rest.takeWhile (fun c => isalnum c || c = '_')
    match rest.dropWhile (fun c => isalnum c || c = '_') with
    | '|' :: rest1 => .ok (⟨.Length, ⟨var_name⟩⟩, rest1)
    | _ => .error ⟨.TypeMismatchException, "Invalid operator after '|': expected '|'"⟩

/-- The operators of one or two characters: `first` alone, or `first` followed by
`second`. -/
def one_or_two (first second : Char) (rest : List Char) : Token × List Char :=
  match rest with
  | c :: rest1 =>
    if c = second then (⟨.Operator, ⟨[first, second]⟩⟩, rest1)
    else (⟨.Operator, ⟨[first]⟩⟩, rest)
  | [] => (⟨.Operator, ⟨[first]⟩⟩, rest)

/-- `Lexer::get_next_token`: the token and the input behind it. -/
def get_next_token (input : List Char) : Except Exception (Token × List Char) :=
  match skip_whitespace input with
  | [] => .ok (⟨.EndOfInput, ""⟩, [])
  | current :: rest =>
    if current = '\x00' then .ok (⟨.EndOfInput, ""⟩, current :: rest)
    else if isalpha current || current = '_' then .ok (identifier (current :: rest))
    else if current = '0' && (rest.head? = some 'x' || rest.head? = some 'X') then
      .ok (bytes_literal (current :: rest))
    else if isdigit current ||
        ((current = '-' || current = '+') && (rest.head?.map isdigit).getD false) then
      .ok (number (current :: rest))
    else if current = '"' then string_literal (current :: rest)
    else if current = ',' then .ok (⟨.Comma, ","⟩, rest)
    else if current = '(' then .ok (⟨.LeftParen, "("⟩, rest)
    else if current = ')' then .ok (⟨.RightParen, ")"⟩, rest)
    else if current = '+' then .ok (⟨.Operator, "+"⟩, rest)
    else if current = '-' then .ok (⟨.Operator, "-"⟩, rest)
    else if current = '*' then .ok (⟨.Operator, "*"⟩, rest)
    else if current = '/' then .ok (⟨.Operator, "/"⟩, rest)
    else if current = '%' then .ok (⟨.Operator, "%"⟩, rest)
    else if current = '<' then .ok (one_or_two '<' '=' rest)
    else if current = '>' then .ok (one_or_two '>' '=' rest)
    else if current = '=' then .ok (one_or_two '=' '=' rest)
    else if current = '!' then .ok (one_or_two '!' '=' rest)
    else if current = '&' then
      match rest with
      | '&' :: rest1 => .ok (⟨.Operator, "&&"⟩, rest1)
      | _ => .error ⟨.TypeMismatchException, "Invalid character after '&'"⟩
    else if current = '|' then bar rest
    else if current = '^' then
      match rest with
      | '^' :: rest1 => .ok (⟨.Operator, "^^"⟩, rest1)
      | _ => .error ⟨.TypeMismatchException, "Invalid character after '^'"⟩
    else .error ⟨.TypeMismatchException, "Unknown character: " ++ ⟨[current]⟩⟩

end Lexer

/-! ## Number conversions of the standard library -/

/-- The value of a run of decimal digits. -/
def digits_value (digits : List Char) : Nat :=
  digits.foldl (fun acc c => 10 * acc + (c.toNat - '0'.toNat)) 0

/-- The signed decimal conversion shared by `std::stoi` and `std::stoll`: leading white
space, an optional sign, then digits up to the first other character; `none` when there
is no digit. -/
def parse_decimal (s : String) : Option Int :=
  let cs := Lexer.skip_whitespace s.data
  let negative := cs.head? = some '-'
  let body := if cs.head? = some '-' ∨ cs.head? = some '+' then cs.drop 1 else cs
  let digits := body.takeWhile isdigit
  if digits.isEmpty then none
  else some (if negative then -(digits_value digits : Int) else (digits_value digits : Int))

/-- `std::stoll(s)`. -/
def stoll (s : String) : Except Exception Int :=
  match parse_decimal s with
  | none => .error ⟨.invalid_argument, "stoll"⟩
  | some v =>
    if v < -(2 ^ 63) ∨ v > 2 ^ 63 - 1 then .error ⟨.out_of_range, "stoll"⟩ else .ok v

/-- `std::stoi(s)`. -/
def stoi (s : String) : Except Exception Int :=
  match parse_decimal s with
  | none => .error ⟨.invalid_argument, "stoi"⟩
  | some v =>
    if v < -(2 ^ 31) ∨ v > 2 ^ 31 - 1 then .error ⟨.out_of_range, "stoi"⟩ else .ok v

/-- The value of a hexadecimal digit. -/
def hex_value (c : Char) : Nat :=
  if isdigit c then c.toNat - '0'.toNat
  else if 'a'.toNat ≤ c.toNat && c.toNat ≤ 'f'.toNat then c.toNat - 'a'.toNat + 10
  else if 'A'.toNat ≤ c.toNat && c.toNat ≤ 'F'.toNat then c.toNat - 'A'.toNat + 10
  else 0

/-- `std::stoi(byte_str, nullptr, 16)` on a piece of at most two characters, cast to
`uint8_t`: a hexadecimal digit may follow one white-space character or one sign, a
second character that is no digit ends the number; `none` when no digit is read. -/
def hex_byte (byte_str : List Char) : Option Nat :=
  match byte_str with
  | [] => none
  | [a] => if isxdigit a then some (hex_value a) else none
  | a :: b :: _ =>
    if isxdigit a then
      (if isxdigit b then some ((16 * hex_value a + hex_value b) % 256) else some (hex_value a))
    else if isspace a || a = '+' then (if isxdigit b then some (hex_value b) else none)
    else if a = '-' then (if isxdigit b then some ((256 - hex_value b) % 256) else none)
    else none

/-- The loop `for (i = 0; i < hex_str.size(); i += 2)` that converts two characters at a
time; `what` names the conversion that throws on a piece without digit. -/
def hex_bytes (what : String) : List Char → Except Exception (List Nat)
  | [] => .ok []
  | [a] =>
    match hex_byte [a] with
    | none => .error ⟨.invalid_argument, what⟩
    | some v => .ok [v]
  | a :: b :: rest =>
    match hex_byte [a, b] with
    | none => .error ⟨.invalid_argument, what⟩
    | some v =>
      match hex_bytes what rest with
      | .error e => .error e
      | .ok vs => .ok (v :: vs)

/-! ## Expression parser -/

/-- The class `ExpressionParser`: the lexer's remaining input and the current token. -/
structure ExpressionParser where
  lexer : List Char
  current_token : Token
deriving DecidableEq, Repr

namespace ExpressionParser

/-- `ExpressionParser::advance`. -/
def advance (p : ExpressionParser) : Except Exception ExpressionParser :=
  match Lexer.get_next_token p.lexer with
  | .error e => .error e
  | .ok (token, rest) => .ok ⟨rest, token⟩

/-- The constructor `ExpressionParser(input)`: it reads the first token. -/
def new (input : String) : Except Exception ExpressionParser :=
  advance ⟨input.data, ⟨.EndOfInput, ""⟩⟩

/-- `ExpressionParser::match(type, value)`. -/
def match_token (p : ExpressionParser) (type : TokenType) (value : String := "") : Bool :=
  p.current_token.type = type && (value.isEmpty || p.current_token.value = value)

/-- `ExpressionParser::consume(type, error_message)`. -/
def consume (p : ExpressionParser) (type : TokenType) (error_message : String) :
    Except Exception ExpressionParser :=
  if p.current_token.type ≠ type then .error ⟨.TypeMismatchException, error_message⟩
  else p.advance

/-- The exception that stands for a recursion deeper than the fuel given to the parser. -/
def out_of_fuel : Exception := ⟨.undefined_behaviour, "recursion deeper than the fuel"⟩

/-- The BytesLiteral branch of `parse_primary` on the token text. -/
def bytes_of_literal (hex_str : String) : Except Exception (List Nat) :=
  if hex_str.length < 2 ∨
      (hex_str.data.head? ≠ some '0' ∧ (hex_str.data.drop 1).head? ≠ some 'x' ∧
        (hex_str.data.drop 1).head? ≠ some 'X') then
    .error ⟨.TypeMismatchException, "Invalid bytes literal."⟩
  else if (hex_str.length - 2) % 2 ≠ 0 then
    .error ⟨.TypeMismatchException, "Invalid bytes literal length."⟩
  else hex_bytes "stoi" (hex_str.data.drop 2)

mutual

/-- `ExpressionParser::parse_expression`. -/
def parse_expression : Nat → ExpressionParser → Except Exception (Expression × ExpressionParser)
  | 0, _ => .error out_of_fuel
  | fuel + 1, p =>
    match parse_logical_or fuel p with
    | .error e => .error e
    | .ok (expr, p1) =>
      if p1.current_token.type ≠ .EndOfInput ∧
          ¬ (p1.current_token.type = .Identifier ∧ p1.current_token.value = "as") ∧
          p1.current_token.type ≠ .RightParen then
        .error ⟨.TypeMismatchException, "Unexpected token in expression."⟩
      else .ok (expr, p1)

/-- `ExpressionParser::parse_logical_or`: the first operand, then the loop. -/
def parse_logical_or : Nat → ExpressionParser → Except Exception (Expression × ExpressionParser)
  | 0, _ => .error out_of_fuel
  | fuel + 1, p =>
    match parse_logical_xor fuel p with
    | .error e => .error e
    | .ok (node, p1) => logical_or_loop fuel node p1

/-- The `while (match(Operator, "||"))` loop of `parse_logical_or`; its right operand is
read by `parse_logical_and`. -/
def logical_or_loop :
    Nat → Expression → ExpressionParser → Except Exception (Expression × ExpressionParser)
  | 0, _, _ => .error out_of_fuel
  | fuel + 1, node, p =>
    if p.match_token .Operator "||" then
      match p.advance with
      | .error e => .error e
      | .ok p1 =>
        match parse_logical_and fuel p1 with
        | .error e => .error e
        | .ok (right, p2) => logical_or_loop fuel (.Binary .Or node right) p2
    else .ok (node, p)

/-- `ExpressionParser::parse_logical_xor`. -/
def parse_logical_xor : Nat → ExpressionParser → Except Exception (Expression × ExpressionParser)
  | 0, _ => .error out_of_fuel
  | fuel + 1, p =>
    match parse_logical_and fuel p with
    | .error e => .error e
    | .ok (node, p1) => logical_xor_loop fuel node p1

/-- The `while (match(Operator, "^^"))` loop of `parse_logical_xor`. -/
def logical_xor_loop :
    Nat → Expression → ExpressionParser → Except Exception (Expression × ExpressionParser)
  | 0, _, _ => .error out_of_fuel
  | fuel + 1, node, p =>
    if p.match_token .Operator "^^" then
      match p.advance with
      | .error e => .error e
      | .ok p1 =>
        match parse_logical_and fuel p1 with
        | .error e => .error e
        | .ok (right, p2) => logical_xor_loop fuel (.Binary .Xor node right) p2
    else .ok (node, p)

/-- `ExpressionParser::parse_logical_and`. -/
def parse_logical_and : Nat → ExpressionParser → Except Exception (Expression × ExpressionParser)
  | 0, _ => .error out_of_fuel
  | fuel + 1, p =>
    match parse_equality fuel p with
    | .error e => .error e
    | .ok (node, p1) => logical_and_loop fuel node p1

/-- The `while (match(Operator, "&&"))` loop of `parse_logical_and`. -/
def logical_and_loop :
    Nat → Expression → ExpressionParser → Except Exception (Expression × ExpressionParser)
  | 0, _, _ => .error out_of_fuel
  | fuel + 1, node, p =>
    if p.match_token .Operator "&&" then
      match p.advance with
      | .error e => .error e
      | .ok p1 =>
        match parse_equality fuel p1 with
        | .error e => .error e
        | .ok (right, p2) => logical_and_loop fuel (.Binary .And node right) p2
    else .ok (node, p)

/-- `ExpressionParser::parse_equality`. -/
def parse_equality : Nat → ExpressionParser → Except Exception (Expression × ExpressionParser)
  | 0, _ => .error out_of_fuel
  | fuel + 1, p =>
    match parse_comparison fuel p with
    | .error e => .error e
    | .ok (node, p1) => equality_loop fuel node p1

/-- The loop of `parse_equality` over `==`, `!=` and `=`. -/
def equality_loop :
    Nat → Expression → ExpressionParser → Except Exception (Expression × ExpressionParser)
  | 0, _, _ => .error out_of_fuel
  | fuel + 1, node, p =>
    if p.match_token .Operator "==" || p.match_token .Operator "!=" || p.match_token .Operator "=" then
      let op := p.current_token.value
      match p.advance with
      | .error e => .error e
      | .ok p1 =>
        match parse_comparison fuel p1 with
        | .error e => .error e
        | .ok (right, p2) =>
          if op = "==" ∨ op = "=" then equality_loop fuel (.Binary .Equal node right) p2
          else equality_loop fuel (.Binary .NotEqual node right) p2
    else .ok (node, p)

/-- `ExpressionParser::parse_comparison`. -/
def parse_comparison : Nat → ExpressionParser → Except Exception (Expression × ExpressionParser)
  | 0, _ => .error out_of_fuel
  | fuel + 1, p =>
    match parse_term fuel p with
    | .error e => .error e
    | .ok (node, p1) => comparison_loop fuel node p1

/-- The loop of `parse_comparison` over `<`, `<=`, `>` and `>=`. -/
def comparison_loop :
    Nat → Expression → ExpressionParser → Except Exception (Expression × ExpressionParser)
  | 0, _, _ => .error out_of_fuel
  | fuel + 1, node, p =>
    if p.match_token .Operator "<" || p.match_token .Operator "<=" || p.match_token .Operator ">" ||
        p.match_token .Operator ">=" then
      let op := p.current_token.value
      match p.advance with
      | .error e => .error e
      | .ok p1 =>
        match parse_term fuel p1 with
        | .error e => .error e
        | .ok (right, p2) =>
          if op = "<" then comparison_loop fuel (.Binary .Less node right) p2
          else if op = "<=" then comparison_loop fuel (.Binary .LessEqual node right) p2
          else if op = ">" then comparison_loop fuel (.Binary .Greater node right) p2
          else comparison_loop fuel (.Binary .GreaterEqual node right) p2
    else .ok (node, p)

/-- `ExpressionParser::parse_term`. -/
def parse_term : Nat → ExpressionParser → Except Exception (Expression × ExpressionParser)
  | 0, _ => .error out_of_fuel
  | fuel + 1, p =>
    match parse_factor fuel p with
    | .error e => .error e
    | .ok (node, p1) => term_loop fuel node p1

/-- The loop of `parse_term` over `+` and `-`. -/
def term_loop :
    Nat → Expression → ExpressionParser → Except Exception (Expression × ExpressionParser)
  | 0, _, _ => .error out_of_fuel
  | fuel + 1, node, p =>
    if p.match_token .Operator "+" || p.match_token .Operator "-" then
      let op := p.current_token.value
      match p.advance with
      | .error e => .error e
      | .ok p1 =>
        match parse_factor fuel p1 with
        | .error e => .error e
        | .ok (right, p2) =>
          if op = "+" then term_loop fuel (.Binary .Add node right) p2
          else term_loop fuel (.Binary .Subtract node right) p2
    else .ok (node, p)

/-- `ExpressionParser::parse_factor`. -/
def parse_factor : Nat → ExpressionParser → Except Exception (Expression × ExpressionParser)
  | 0, _ => .error out_of_fuel
  | fuel + 1, p =>
    match parse_unary fuel p with
    | .error e => .error e
    | .ok (node, p1) => factor_loop fuel node p1

/-- The loop of `parse_factor` over `*`, `/` and `%`. -/
def factor_loop :
    Nat → Expression → ExpressionParser → Except Exception (Expression × ExpressionParser)
  | 0, _, _ => .error out_of_fuel
  | fuel + 1, node, p =>
    if p.match_token .Operator "*" || p.match_token .Operator "/" || p.match_token .Operator "%" then
      let op := p.current_token.value
      match p.advance with
      | .error e => .error e
      | .ok p1 =>
        match parse_unary fuel p1 with
        | .error e => .error e
        | .ok (right, p2) =>
          if op = "*" then factor_loop fuel (.Binary .Multiply node right) p2
          else if op = "/" then factor_loop fuel (.Binary .Divide node right) p2
          else factor_loop fuel (.Binary .Modulo node right) p2
    else .ok (node, p)

/-- `ExpressionParser::parse_unary`. -/
def parse_unary : Nat → ExpressionParser → Except Exception (Expression × ExpressionParser)
  | 0, _ => .error out_of_fuel
  | fuel + 1, p =>
    if p.match_token .Operator "!" then
      match p.advance with
      | .error e => .error e
      | .ok p1 =>
        match parse_unary fuel p1 with
        | .error e => .error e
        | .ok (operand, p2) => .ok (.Unary .Not operand, p2)
    else parse_primary fuel p

/-- `ExpressionParser::parse_primary`. -/
def parse_primary : Nat → ExpressionParser → Except Exception (Expression × ExpressionParser)
  | 0, _ => .error out_of_fuel
  | fuel + 1, p =>
    if p.match_token .Length then
      match p.advance with
      | .error e => .error e
      | .ok p1 => .ok (.Unary .Length (.Variable p.current_token.value), p1)
    else if p.match_token .LeftParen then
      match p.advance with
      | .error e => .error e
      | .ok p1 =>
        match parse_expression fuel p1 with
        | .error e => .error e
        | .ok (expr, p2) =>
          match p2.consume .RightParen "Expected ')' after expression." with
          | .error e => .error e
          | .ok p3 => .ok (expr, p3)
    else if p.match_token .IntLiteral then
      match stoll p.current_token.value with
      | .error e => .error e
      | .ok value =>
        match p.advance with
        | .error e => .error e
        | .ok p1 => .ok (.Literal (.int32 (wrap_int32 value)), p1)
    else if p.match_token .BoolLiteral then
      match p.advance with
      | .error e => .error e
      | .ok p1 => .ok (.Literal (.bool (p.current_token.value = "true")), p1)
    else if p.match_token .StringLiteral then
      match p.advance with
      | .error e => .error e
      | .ok p1 => .ok (.Literal (.string p.current_token.value), p1)
    else if p.match_token .BytesLiteral then
      match p.advance with
      | .error e => .error e
      | .ok p1 =>
        match bytes_of_literal p.current_token.value with
        | .error e => .error e
        | .ok bytes => .ok (.Literal (.bytes bytes), p1)
    else if p.match_token .Identifier then
      match p.advance with
      | .error e => .error e
      | .ok p1 => .ok (.Variable p.current_token.value, p1)
    else .error ⟨.TypeMismatchException, "Unexpected token in expression."⟩

end

end ExpressionParser

/-- The fuel that `parse_expression_of` gives the recursive descent: each token costs at
most one pass through the ten levels and one loop step. -/
def parse_fuel (input : String) : Nat := 12 * (input.length + 2)

/-- The two statements `ExpressionParser expr_parser(input); expr_parser.parse_expression()`. -/
def parse_expression_of (input : String) : Except Exception Expression :=
  match ExpressionParser.new input with
  | .error e => .error e
  | .ok p =>
    match ExpressionParser.parse_expression (parse_fuel input) p with
    | .error e => .error e
    | .ok (expr, _) => .ok expr

/-! ## Query parser: the statement frame and the update and delete branches -/

namespace QueryParser

/-- The loop of `QueryParser::validate_query` over the characters with the stack of open
brackets. -/
def validate_chars : List Char → List Char → Bool
  | [], s => s.isEmpty
  | ch :: rest, s =>
    if ch = '(' ∨ ch = '\x7b' then validate_chars rest (ch :: s)
    else if ch = ')' ∨ ch = '\x7d' then
      match s with
      | [] => false
      | open_ch :: s1 =>
        if (ch = ')' ∧ open_ch ≠ '(') ∨ (ch = '\x7d' ∧ open_ch ≠ '\x7b') then false
        else validate_chars rest s1
    else validate_chars rest s

/-- `QueryParser::validate_query`. -/
def validate_query (query : String) : Bool := validate_chars query.data []

/-- `QueryParser::trim`: the text without leading and trailing `isspace` characters. -/
def trim (s : String) : String :=
  ⟨((s.data.dropWhile isspace).reverse.dropWhile isspace).reverse⟩

/-- The characters of `" \t\r\n"`, the set the local trimming code searches for. -/
def is_blank (c : Char) : Bool := c = ' ' || c = '\t' || c = '\r' || c = '\n'

/-- The local trimming code (`find_first_not_of` and `find_last_not_of` on
`" \t\r\n"`, then `substr`); a text of blanks only becomes empty. -/
def trim_blank (s : String) : String :=
  ⟨((s.data.dropWhile is_blank).reverse.dropWhile is_blank).reverse⟩

/-- The set `reservedKeywords`. -/
def reservedKeywords : List String :=
  ["create", "table", "insert", "update", "delete", "join", "where", "int32", "string",
    "bytes", "bool", "key", "unique", "autoincrement", "index", "unordered", "ordered", "on",
    "select", "from", "values", "as"]

/-- `isValidIdentifier`: the text matches `^[a-zA-Z][a-zA-Z0-9_]*$` and its lower-case
form is no reserved keyword. -/
def isValidIdentifier (identifier : String) : Bool :=
  match identifier.data with
  | [] => false
  | c :: rest =>
    isalpha c && rest.all (fun d => isalnum d || d = '_') &&
      !(reservedKeywords.contains (to_lower identifier))

/-- The extraction `iss >> word`: white space is skipped, the word runs up to the next
white-space character; at the end of the input the word stays empty. -/
def read_word (iss : List Char) : String × List Char :=
  let s := Lexer.skip_whitespace iss
  (⟨s.takeWhile (fun c => !isspace c)⟩, s.dropWhile (fun c => !isspace c))

/-- `std::getline(iss, line)`: the text up to the first newline. -/
def getline (iss : List Char) : String × List Char :=
  (⟨iss.takeWhile (fun c => c ≠ '\n')⟩, (iss.dropWhile (fun c => c ≠ '\n')).drop 1)

/-- Does `needle` start the text. -/
def starts_with (needle : List Char) (text : List Char) : Bool :=
  text.take needle.length = needle

/-- `std::string::find(needle)`: the first position at which `needle` occurs. -/
def find_substring (needle : List Char) : List Char → Option Nat
  | [] => if needle.isEmpty then some 0 else none
  | c :: rest =>
    if starts_with needle (c :: rest) then some 0
    else (find_substring needle rest).map (fun n => n + 1)

/-- The loop of the update branch that splits the assignment list at the commas outside
brackets: the finished pieces and the piece being collected. -/
def split_assignments :
    List Char → Int → List String → List Char → List String × List Char
  | [], _, assignments, current_assignment => (assignments, current_assignment)
  | ch :: rest, brace_level, assignments, current_assignment =>
    let level1 := if ch = '(' ∨ ch = '\x7b' then brace_level + 1 else brace_level
    let level2 := if ch = ')' ∨ ch = '\x7d' then level1 - 1 else level1
    if ch = ',' ∧ level2 = 0 then
      let trimmed := trim_blank ⟨current_assignment⟩
      if !trimmed.isEmpty then split_assignments rest level2 (assignments ++ [trimmed]) []
      else split_assignments rest level2 assignments trimmed.data
    else split_assignments rest level2 assignments (current_assignment ++ [ch])

/-- `pq.update_assignments[col_name] = expression`: the entry of an existing key is
overwritten, a new key is added behind the others. -/
def assign (assignments : List (String × Expression)) (col_name : String)
    (expression : Expression) : List (String × Expression) :=
  match assignments with
  | [] => [(col_name, expression)]
  | (k, e) :: rest =>
    if k = col_name then (col_name, expression) :: rest
    else (k, e) :: assign rest col_name expression

/-- The loop of the update branch over the assignment texts. -/
def parse_assignments :
    List String → List (String × Expression) → Except Exception (List (String × Expression))
  | [], update_assignments => .ok update_assignments
  | assign_text :: rest, update_assignments =>
    match find_substring ['='] assign_text.data with
    | none => .error ⟨.invalid_argument, "Invalid assignment in UPDATE: " ++ assign_text⟩
    | some eq_pos =>
      let col_name := trim_blank ⟨assign_text.data.take eq_pos⟩
      let expr_str := trim_blank ⟨assign_text.data.drop (eq_pos + 1)⟩
      if !isValidIdentifier col_name then
        .error ⟨.invalid_argument, "Invalid column name: " ++ col_name⟩
      else if reservedKeywords.contains col_name then
        .error ⟨.invalid_argument, "Reserved keyword used as column name: " ++ col_name⟩
      else
        match parse_expression_of expr_str with
        | .error e => .error e
        | .ok expression => parse_assignments rest (assign update_assignments col_name expression)

/-- The branch `command == "update"` of `QueryParser::parse` on the stream behind the
command word. The condition is stored in the member `where_clause` of the plan. -/
def parse_update (iss : List Char) : Except Exception ParsedQuery :=
  let table_name := (read_word iss).1
  let iss1 := (read_word iss).2
  let set_word := to_lower (read_word iss1).1
  let iss2 := (read_word iss1).2
  if set_word ≠ "set" then
    .error ⟨.invalid_argument, "Expected \"set\" after table name in UPDATE."⟩
  else
    let rest := (getline iss2).1
    let where_pos := find_substring "where".data rest.data
    let assignments_str :=
      match where_pos with
      | some pos => trim_blank ⟨rest.data.take pos⟩
      | none => trim_blank rest
    let condition_str :=
      match where_pos with
      | some pos => trim_blank ⟨rest.data.drop (pos + 5)⟩
      | none => ""
    let pieces := split_assignments assignments_str.data 0 [] []
    let current_assignment := trim_blank ⟨pieces.2⟩
    if current_assignment.isEmpty ∧ pieces.1.isEmpty then
      .error ⟨.invalid_argument, "No assignment in UPDATE"⟩
    else
      let assignments :=
        if !current_assignment.isEmpty then pieces.1 ++ [current_assignment] else pieces.1
      match parse_assignments assignments [] with
      | .error e => .error e
      | .ok update_assignments =>
        if !condition_str.isEmpty then
          match parse_expression_of condition_str with
          | .error e => .error e
          | .ok condition_expression =>
            .ok { type := .Update
                  table_name := table_name
                  update_assignments := update_assignments
                  where_clause := some condition_expression }
        else
          .ok { type := .Update
                table_name := table_name
                update_assignments := update_assignments }

/-- The branch `command == "delete"` of `QueryParser::parse` on the stream behind the
command word. -/
def parse_delete (iss : List Char) : Except Exception ParsedQuery :=
  let table_name := (read_word iss).1
  let iss1 := (read_word iss).2
  let where_word := to_lower (read_word iss1).1
  let iss2 := (read_word iss1).2
  if where_word ≠ "where" then .error ⟨.invalid_argument, "Expected 'where' in DELETE."⟩
  else
    let line := (getline iss2).1
    let condition_str := if line.data.all is_blank then line else trim_blank line
    match parse_expression_of condition_str with
    | .error e => .error e
    | .ok condition =>
      .ok { type := .Delete
            table_name := table_name
            delete_where_clause := some condition }

/-- `QueryParser::parse`: the frame around the branches. The branches of `create`,
`insert` and `select` are the parameter `other_branches`, which receives the lower-case
command word, the trimmed query and the stream behind the command word. -/
def parse (other_branches : String → String → List Char → Except Exception ParsedQuery)
    (query : String) : Except Exception ParsedQuery :=
  if !validate_query query then
    .error ⟨.invalid_argument, "Unbalanced parentheses or braces in query."⟩
  else
    let trimmed := trim query
    let trimmed_query :=
      if !trimmed.isEmpty ∧ trimmed.data.getLast? = some ';' then
        trim ⟨trimmed.data.dropLast⟩
      else trimmed
    let command := to_lower (read_word trimmed_query.data).1
    let iss := (read_word trimmed_query.data).2
    if command = "create" ∨ command = "insert" ∨ command = "select" then
      other_branches command trimmed_query iss
    else if command = "update" then parse_update iss
    else if command = "delete" then parse_delete iss
    else .error ⟨.invalid_argument, "Unknown command: " ++ command⟩

end QueryParser

/-! ## Snapshot codec -/

/-- A JSON document of the library `nlohmann::json`; a number is an integer, an object is
the list of its members. -/
inductive Json
  | null
  | bool (b : Bool)
  | number (n : Int)
  | string (s : String)
  | array (elements : List Json)
  | object (members : List (String × Json))
deriving Repr

namespace Json

/-- The lookup `j.at(key)`: the member of an object, an exception of the library when
`j` is no object or has no such member. -/
def at_key (j : Json) (key : String) : Except Exception Json :=
  match j with
  | object members =>
    match members.find? (fun m => m.1 = key) with
    | some m => .ok m.2
    | none => .error ⟨.json_exception, "key '" ++ key ++ "' not found"⟩
  | _ => .error ⟨.json_exception, "cannot use at() with a value that is no object"⟩

/-- The test `j.contains(key)`. -/
def contains (j : Json) (key : String) : Bool :=
  match j with
  | object members => members.any (fun m => m.1 = key)
  | _ => false

/-- The conversion `get<std::string>()`. -/
def get_string (j : Json) : Except Exception String :=
  match j with
  | string s => .ok s
  | _ => .error ⟨.json_exception, "type must be string"⟩

/-- The conversion `get<bool>()`. -/
def get_bool (j : Json) : Except Exception Bool :=
  match j with
  | bool b => .ok b
  | _ => .error ⟨.json_exception, "type must be boolean"⟩

/-- The conversion `get<int32_t>()`: a number is cast, a boolean counts as 0 or 1. -/
def get_int32 (j : Json) : Except Exception Int :=
  match j with
  | number n => .ok (wrap_int32 n)
  | bool b => .ok (if b then 1 else 0)
  | _ => .error ⟨.json_exception, "type must be number"⟩

/-- The conversion `get<core::RowID>()` to `uint32_t`. -/
def get_uint32 (j : Json) : Except Exception Nat :=
  match j with
  | number n => .ok (n % 2 ^ 32).toNat
  | bool b => .ok (if b then 1 else 0)
  | _ => .error ⟨.json_exception, "type must be number"⟩

/-- The values a range-based `for` visits: the elements of an array, the member values
of an object, nothing for null, the value itself otherwise. -/
def items (j : Json) : List Json :=
  match j with
  | array elements => elements
  | object members => members.map (fun m => m.2)
  | null => []
  | other => [other]

/-- The unchecked access `val_array[i]` on a constant value. -/
def index (j : Json) (i : Nat) : Except Exception Json :=
  match j with
  | array elements =>
    match elements[i]? with
    | some e => .ok e
    | none => .error ⟨.undefined_behaviour, "array index past the end"⟩
  | _ => .error ⟨.json_exception, "cannot use operator[] with a numeric argument"⟩

def is_null (j : Json) : Bool :=
  match j with
  | null => true
  | _ => false

end Json

/-- The text an attribute is written as by `Table::to_json`. -/
def attribute_name (attr : ColumnAttribute) : String :=
  match attr with
  | .Unique => "unique"
  | .AutoIncrement => "autoincrement"
  | .Key => "key"

/-- The part of `Table::to_json` that writes one column. -/
def column_to_json (column : Column) : Json :=
  let members : List (String × Json) :=
    [("name", .string column.name), ("type", .string column.type.to_string),
      ("attributes", .array (column.attributes.map (fun attr => .string (attribute_name attr))))]
  match column.default_value with
  | some d => .object (members ++ [("default", .string d.to_string)])
  | none => .object members

/-- The part of `Table::to_json` that writes one value slot. -/
def value_to_json (value : Option Value) : Json :=
  match value with
  | some (.int32 v) => .number v
  | some (.bool v) => .bool v
  | some (.string v) => .string v
  | some (.bytes v) => .string (hex_str v)
  | some .null => .null
  | none => .null

/-- The part of `Table::to_json` that writes one row. -/
def row_to_json (row : Row) : Json :=
  .object [("id", .number row.id), ("values", .array (row.values.map value_to_json))]

/-- `Table::to_json`. -/
def Table.to_json (t : Table) : Json :=
  .object [("name", .string t.name), ("columns", .array (t.columns.map column_to_json)),
    ("rows", .array (t.rows.map row_to_json))]

/-- `std::string::substr(pos, len)`. -/
def substr (s : List Char) (pos len : Nat) : Except Exception (List Char) :=
  if pos > s.length then .error ⟨.out_of_range, "basic_string::substr"⟩
  else .ok ((s.drop pos).take len)

/-- The position `std::string::find(c)` or `find_last_of(c)` reports for an optional
index: `npos`, the largest `size_t`, when there is none. -/
def position (found : Option Nat) : Nat :=
  match found with
  | some i => i
  | none => 2 ^ 64 - 1

/-- The index of the last occurrence of a character. -/
def find_last (c : Char) (s : List Char) : Option Nat :=
  match s.reverse.indexOf? c with
  | some i => some (s.length - 1 - i)
  | none => none

/-- `std::stoul(s)`. -/
def stoul (s : String) : Except Exception Nat :=
  match parse_decimal s with
  | none => .error ⟨.invalid_argument, "stoul"⟩
  | some v =>
    if v.natAbs > 2 ^ 64 - 1 then .error ⟨.out_of_range, "stoul"⟩
    else .ok (v % 2 ^ 64).toNat

/-- The expression `std::stoul(col_type_str.substr(col_type_str.find('[') + 1,
col_type_str.find_last_of(']') - col_type_str.find('[') - 1))` in `size_t` arithmetic. -/
def declared_size (col_type_str : String) : Except Exception Nat :=
  let open_pos := position (col_type_str.data.indexOf? '[')
  let close_pos := position (find_last ']' col_type_str.data)
  match substr col_type_str.data ((open_pos + 1) % 2 ^ 64)
      ((close_pos + 2 ^ 64 - open_pos + 2 ^ 64 - 1) % 2 ^ 64) with
  | .error e => .error e
  | .ok piece => stoul ⟨piece⟩

/-- The part of `Table::from_json` that reads the type text of a column. -/
def type_of_json (col_type_str : String) : Except Exception (Ty × Nat) :=
  if (QueryParser.find_substring "int32".data col_type_str.data).isSome then .ok (Ty.Int32, 0)
  else if (QueryParser.find_substring "bool".data col_type_str.data).isSome then
    .ok (Ty.Bool, 0)
  else if (QueryParser.find_substring "string".data col_type_str.data).isSome then
    match declared_size col_type_str with
    | .error e => .error e
    | .ok size => .ok (Ty.String, size)
  else if (QueryParser.find_substring "bytes".data col_type_str.data).isSome then
    match declared_size col_type_str with
    | .error e => .error e
    | .ok size => .ok (Ty.Bytes, size)
  else .error ⟨.SerializationException, "Serialization Error: Unknown column type: " ++ col_type_str⟩

/-- The loop of `Table::from_json` over the attribute texts; an unknown text is skipped. -/
def attributes_of_json : List Json → Except Exception (List ColumnAttribute)
  | [] => .ok []
  | attr :: rest =>
    match attr.get_string with
    | .error e => .error e
    | .ok attr_str =>
      match attributes_of_json rest with
      | .error e => .error e
      | .ok attributes =>
        if attr_str = "unique" then .ok (.Unique :: attributes)
        else if attr_str = "autoincrement" then .ok (.AutoIncrement :: attributes)
        else if attr_str = "key" then .ok (.Key :: attributes)
        else .ok attributes

/-- The conversion of a rendered bytes value that `Table::from_json` applies to a
default and to a row value. -/
def bytes_of_json (text : String) : Except Exception (List Nat) :=
  if QueryParser.find_substring "0x".data text.data ≠ some 0 ∧
      QueryParser.find_substring "0X".data text.data ≠ some 0 then
    .error ⟨.SerializationException, "Serialization Error: Invalid bytes format."⟩
  else if (text.data.drop 2).length % 2 ≠ 0 then
    .error ⟨.SerializationException, "Serialization Error: Invalid hex length for bytes."⟩
  else hex_bytes "stoi" (text.data.drop 2)

/-- The part of `Table::from_json` that reads the default of a column of the given type. -/
def default_of_json (type : Ty) (col_type_str default_val_str : String) :
    Except Exception Value :=
  match type with
  | Ty.Int32 =>
    match stoi default_val_str with
    | .error e => .error e
    | .ok v => .ok (.int32 v)
  | Ty.Bool => .ok (.bool (default_val_str = "true"))
  | Ty.String =>
    if default_val_str.data.head? = some '"' ∧ default_val_str.data.getLast? = some '"' then
      .ok (.string ⟨(default_val_str.data.drop 1).take (default_val_str.length - 2)⟩)
    else .ok (.string default_val_str)
  | Ty.Bytes =>
    match bytes_of_json default_val_str with
    | .error e => .error e
    | .ok bytes => .ok (.bytes bytes)
  | Ty.Unknown =>
    .error ⟨.SerializationException, "Serialization Error: Unhandled column type: " ++ col_type_str⟩

/-- The body of the loop of `Table::from_json` over the columns. -/
def column_of_json (col_json : Json) : Except Exception Column :=
  match col_json.at_key "name" with
  | .error e => .error e
  | .ok name_json =>
  match name_json.get_string with
  | .error e => .error e
  | .ok col_name =>
  match col_json.at_key "type" with
  | .error e => .error e
  | .ok type_json =>
  match type_json.get_string with
  | .error e => .error e
  | .ok col_type_str =>
  match type_of_json col_type_str with
  | .error e => .error e
  | .ok (type, size) =>
  match col_json.at_key "attributes" with
  | .error e => .error e
  | .ok attrs_json =>
  match attributes_of_json attrs_json.items with
  | .error e => .error e
  | .ok attributes =>
  let default_result : Except Exception (Option Value) :=
    if col_json.contains "default" then
      match col_json.at_key "default" with
      | .error e => .error e
      | .ok default_json =>
        match default_json.get_string with
        | .error e => .error e
        | .ok default_val_str =>
          match default_of_json type col_type_str default_val_str with
          | .error e => .error e
          | .ok v => .ok (some v)
    else .ok none
  match default_result with
  | .error e => .error e
  | .ok default_value =>
  let data_type : Except Exception DataType :=
    if type = Ty.String ∨ type = Ty.Bytes then DataType.of_type_size type size
    else .ok (DataType.of_type type)
  match data_type with
  | .error e => .error e
  | .ok dt => Column.new col_name dt attributes default_value

/-- The loop of `Table::from_json` over the columns. -/
def columns_of_json : List Json → Except Exception (List Column)
  | [] => .ok []
  | col_json :: rest =>
    match column_of_json col_json with
    | .error e => .error e
    | .ok column =>
      match columns_of_json rest with
      | .error e => .error e
      | .ok columns => .ok (column :: columns)

/-- The part of `Table::from_json` that reads the value of one slot of a row. -/
def value_of_json (col : Column) (val_json : Json) : Except Exception (Option Value) :=
  if val_json.is_null then .ok none
  else
    match col.type.get_type with
    | Ty.Int32 =>
      match val_json.get_int32 with
      | .error e => .error e
      | .ok v => .ok (some (.int32 v))
    | Ty.Bool =>
      match val_json.get_bool with
      | .error e => .error e
      | .ok v => .ok (some (.bool v))
    | Ty.String =>
      match val_json.get_string with
      | .error e => .error e
      | .ok v => .ok (some (.string v))
    | Ty.Bytes =>
      match val_json.get_string with
      | .error e => .error e
      | .ok text =>
        match bytes_of_json text with
        | .error e => .error e
        | .ok bytes => .ok (some (.bytes bytes))
    | Ty.Unknown =>
      .error ⟨.SerializationException,
        "Serialization Error: Unknown column type: " ++ col.type.to_string⟩

/-- The loop `for (size_t i = 0; i < cols.size(); ++i)` of `Table::from_json` that reads
the values of a row, from column position `i` on. -/
def values_of_json (val_array : Json) : List Column → Nat → Except Exception (List (Option Value))
  | [], _ => .ok []
  | col :: cols, i =>
    match val_array.index i with
    | .error e => .error e
    | .ok val_json =>
      match value_of_json col val_json with
      | .error e => .error e
      | .ok value =>
        match values_of_json val_array cols (i + 1) with
        | .error e => .error e
        | .ok values => .ok (value :: values)

/-- The loop of `Table::from_json` over the rows: each row is read and inserted with its
RowID. -/
def rows_of_json (table : Table) : List Json → Except Exception Table
  | [] => .ok table
  | row_json :: rest =>
    match row_json.at_key "id" with
    | .error e => .error e
    | .ok id_json =>
    match id_json.get_uint32 with
    | .error e => .error e
    | .ok row_id =>
    match row_json.at_key "values" with
    | .error e => .error e
    | .ok val_array =>
    match values_of_json val_array table.columns 0 with
    | .error e => .error e
    | .ok values =>
      match table.insert_row_id values row_id with
      | (.error e, _) => .error e
      | (.ok _, table1) => rows_of_json table1 rest

/-- `Table::from_json`. -/
def Table.from_json (j : Json) : Except Exception Table :=
  match j.at_key "name" with
  | .error e => .error e
  | .ok name_json =>
  match name_json.get_string with
  | .error e => .error e
  | .ok table_name =>
  match j.at_key "columns" with
  | .error e => .error e
  | .ok columns_json =>
  match columns_of_json columns_json.items with
  | .error e => .error e
  | .ok columns =>
  match Table.new table_name columns with
  | .error e => .error e
  | .ok table =>
    match j.at_key "rows" with
    | .error e => .error e
    | .ok rows_json => rows_of_json table rows_json.items

/-! ## Properties stated by the specification -/

/-- The uniqueness invariant: in every column carrying Key or Unique, two stored rows
that hold the same non-NULL value are the same row. -/
def unique_columns_injective (t : Table) : Prop :=
  ∀ (i : Nat) (column : Column), t.columns[i]? = some column →
    (column.has_attribute .Key = true ∨ column.has_attribute .Unique = true) →
    ∀ r1 ∈ t.rows, ∀ r2 ∈ t.rows, ∀ v : Value,
      r1.values[i]? = some (some v) → r2.values[i]? = some (some v) → r1.id = r2.id

/-- A value as the constructors of `Value` and the typed columns produce it: not the
empty value, an integer within 32 bits, octets within 8 bits. -/
def Value.in_range : Value → Prop
  | .null => False
  | .int32 v => -(2 ^ 31) ≤ v ∧ v < 2 ^ 31
  | .bool _ => True
  | .string _ => True
  | .bytes b => ∀ x ∈ b, x < 256

/-- The length a declared size bounds: characters of a String, octets of a Bytes. -/
def Value.size : Value → Nat
  | .string s => s.length
  | .bytes b => b.length
  | _ => 0

/-- A value matches a column type and is within its declared size. -/
def Value.fits (v : Value) (d : DataType) : Prop :=
  v.get_type = d.type ∧ v.in_range ∧ v.size ≤ d.size

/-- The types a column can be declared with: `int32`, `bool`, `string[N]` and `bytes[N]`
with `N ≥ 1` (and `N` a `size_t`). -/
def DataType.declared (d : DataType) : Prop :=
  (d.type = Ty.Int32 ∧ d.size = 0) ∨ (d.type = Ty.Bool ∧ d.size = 0) ∨
  (d.type = Ty.String ∧ 0 < d.size ∧ d.size < 2 ^ 64) ∨
  (d.type = Ty.Bytes ∧ 0 < d.size ∧ d.size < 2 ^ 64)

/-- The column invariants of the data model: a non-empty name, a declared type,
AutoIncrement only on Int32, a default that matches the type and fits the size. -/
def Column.well_formed (c : Column) : Prop :=
  c.name ≠ "" ∧ c.type.declared ∧
  (c.has_attribute .AutoIncrement = true → c.type.type = Ty.Int32) ∧
  (∀ d, c.default_value = some d → d.fits c.type)

/-- The table invariants under which a snapshot is taken: a named table with columns of
distinct names, rows in ascending order of positive 32-bit RowIDs, every row as long as
the column list, every value matching its column and within the declared size, no NULL
where insertion substitutes a value (AutoIncrement or default), and Key/Unique columns
injective on non-NULL values. -/
def Table.snapshot_invariant (t : Table) : Prop :=
  t.name ≠ "" ∧ t.columns ≠ [] ∧ (t.columns.map (fun c => c.name)).Nodup ∧
  (∀ c ∈ t.columns, c.well_formed) ∧
  t.rows.Pairwise (fun a b => a.id < b.id) ∧
  (∀ r ∈ t.rows, 0 < r.id ∧ r.id < 2 ^ 32 ∧ r.values.length = t.columns.length) ∧
  (∀ r ∈ t.rows, ∀ (i : Nat) (c : Column) (slot : Option Value),
    t.columns[i]? = some c → r.values[i]? = some slot →
      match slot with
      | some v => v.fits c.type
      | none => c.has_attribute .AutoIncrement = false ∧ c.default_value = none) ∧
  unique_columns_injective t

/-- Does the optional condition hold on a binding: it is absent or evaluates to Bool
true. -/
def where_holds (w : Option Expression) (row_map : Binding) : Bool :=
  match w with
  | none => true
  | some e => decide (e.evaluate row_map = .ok (.bool true))

/-- The values of the select items on a binding (`none` for an item that fails). -/
def item_values (items : List SelectItem) (row_map : Binding) : List (Option Value) :=
  items.map (fun item =>
    match item.expression.evaluate row_map with
    | .ok v => some v
    | .error _ => none)

/-! ## Scenarios -/

/-- The column `{key, autoincrement} id : int32`. -/
def id_column : Column := ⟨"id", ⟨Ty.Int32, 0⟩, [.Key, .AutoIncrement], none⟩

/-- Scenario S2 after its first insert: `u ({unique} email: string[20])` holding `"a@x"`. -/
def s2_table : Table :=
  ⟨"u", [⟨"email", ⟨Ty.String, 20⟩, [.Unique], none⟩], [⟨1, [some (.string "a@x")]⟩], [], 2⟩

/-- The table of `InsertTest.EmptyValuesForDefaults` before its insert. -/
def defaults_table : Table :=
  ⟨"users",
    [id_column, ⟨"login", ⟨Ty.String, 32⟩, [], none⟩,
      ⟨"is_admin", ⟨Ty.Bool, 0⟩, [], some (.bool false)⟩],
    [], [], 1⟩

/-- Scenario S4: the table `users` after its two inserts. -/
def s4_users : Table :=
  ⟨"users", [id_column, ⟨"name", ⟨Ty.String, 8⟩, [], none⟩],
    [⟨1, [some (.int32 1), some (.string "ada")]⟩, ⟨2, [some (.int32 2), some (.string "bob")]⟩],
    [], 3⟩

/-- Scenario S4: the table `posts` after its three inserts. -/
def s4_posts : Table :=
  ⟨"posts",
    [id_column, ⟨"uid", ⟨Ty.Int32, 0⟩, [], none⟩, ⟨"txt", ⟨Ty.String, 16⟩, [], none⟩],
    [⟨1, [some (.int32 1), some (.int32 1), some (.string "hi")]⟩,
     ⟨2, [some (.int32 2), some (.int32 2), some (.string "yo")]⟩,
     ⟨3, [some (.int32 3), some (.int32 1), some (.string "bye")]⟩],
    [], 4⟩

/-- Scenario S4: the catalog. -/
def s4_db : Database := ⟨[("users", s4_users), ("posts", s4_posts)]⟩

/-- Scenario S4: the plan of
`select users.name, posts.txt from users join posts on users.id = posts.uid where true`. -/
def s4_join : ParsedQuery :=
  { type := .Select
    table_name := "users"
    select_items := [⟨.Variable "users.name", "users.name"⟩, ⟨.Variable "posts.txt", "posts.txt"⟩]
    joins := [⟨"posts", "", .Binary .Equal (.Variable "users.id") (.Variable "posts.uid")⟩]
    where_clause := some (.Literal (.bool true)) }

/-- Scenario S1: the plan of `select id, name from users where id > 0`. -/
def s1_select : ParsedQuery :=
  { type := .Select
    table_name := "users"
    select_items := [⟨.Variable "id", "id"⟩, ⟨.Variable "name", "name"⟩]
    where_clause := some (.Binary .Greater (.Variable "id") (.Literal (.int32 0))) }

/-- The plan of `delete users where name = "ada"`. -/
def delete_ada : ParsedQuery :=
  { type := .Delete
    table_name := "users"
    delete_where_clause := some (.Binary .Equal (.Variable "name") (.Literal (.string "ada"))) }

/-- The table of `UpdateTest.UpdateWithUniqueConstraintViolation` after its two inserts. -/
def unique_email_users : Table :=
  ⟨"users",
    [⟨"user_id", ⟨Ty.Int32, 0⟩, [.Key], none⟩, ⟨"username", ⟨Ty.String, 20⟩, [], none⟩,
      ⟨"email", ⟨Ty.String, 50⟩, [.Unique], none⟩],
    [⟨1, [some (.int32 1), some (.string "alice"), some (.string "alice@example.com")]⟩,
     ⟨2, [some (.int32 2), some (.string "bob"), some (.string "bob@example.com")]⟩],
    [], 3⟩

/-- The plan of `update users set email = "alice@example.com" where username = "bob"` as
`execute_update` reads it. -/
def update_email : ParsedQuery :=
  { type := .Update
    table_name := "users"
    update_assignments := [("email", .Literal (.string "alice@example.com"))]
    update_where_clause :=
      some (.Binary .Equal (.Variable "username") (.Literal (.string "bob"))) }

/-- The table `unique_email_users` with the e-mail address of row 1 also in row 2. -/
def duplicated_email_users : Table :=
  { unique_email_users with
    rows :=
      [⟨1, [some (.int32 1), some (.string "alice"), some (.string "alice@example.com")]⟩,
       ⟨2, [some (.int32 2), some (.string "bob"), some (.string "alice@example.com")]⟩] }

/-- The table of `UpdateTest.UpdateStringExceedsMaxLength` after its insert. -/
def code_table : Table :=
  ⟨"test_table", [⟨"id", ⟨Ty.Int32, 0⟩, [.Key], none⟩, ⟨"code", ⟨Ty.String, 5⟩, [], none⟩],
    [⟨1, [some (.int32 1), some (.string "12345")]⟩], [], 2⟩

/-- The plan of `update test_table set code = "123456" where id = 1` as `execute_update`
reads it. -/
def update_code : ParsedQuery :=
  { type := .Update
    table_name := "test_table"
    update_assignments := [("code", .Literal (.string "123456"))]
    update_where_clause := some (.Binary .Equal (.Variable "id") (.Literal (.int32 1))) }

/-- The table of `UpdateTest.UpdateAutoIncrementColumn` after its insert. -/
def tickets_table : Table :=
  ⟨"tickets",
    [⟨"ticket_id", ⟨Ty.Int32, 0⟩, [.Key, .AutoIncrement], none⟩,
      ⟨"issue", ⟨Ty.String, 50⟩, [], none⟩,
      ⟨"status", ⟨Ty.String, 20⟩, [], some (.string "open")⟩],
    [⟨1, [some (.int32 1), some (.string "Issue with login"), some (.string "open")]⟩], [], 2⟩

/-- The plan of `update tickets set ticket_id = 100 where issue = "Issue with login"` as
`execute_update` reads it. -/
def update_ticket_id : ParsedQuery :=
  { type := .Update
    table_name := "tickets"
    update_assignments := [("ticket_id", .Literal (.int32 100))]
    update_where_clause :=
      some (.Binary .Equal (.Variable "issue") (.Literal (.string "Issue with login"))) }

/-- The table of `UpdateTest.UpdateWithNoMatchingRows` after its insert. -/
def inventory_table : Table :=
  ⟨"inventory",
    [⟨"item_id", ⟨Ty.Int32, 0⟩, [.Key], none⟩, ⟨"item_name", ⟨Ty.String, 30⟩, [], none⟩,
      ⟨"quantity", ⟨Ty.Int32, 0⟩, [], none⟩],
    [⟨1, [some (.int32 1), some (.string "Widget"), some (.int32 100)]⟩], [], 2⟩

/-- The update statement of `UpdateTest.UpdateWithNoMatchingRows`. -/
def update_gadget_query : String :=
  "update inventory set quantity = quantity + 10 where item_name = \"Gadget\";"

/-- The condition of `update_gadget_query`. -/
def gadget_condition : Expression :=
  .Binary .Equal (.Variable "item_name") (.Literal (.string "Gadget"))

/-- The plan `QueryParser::parse` builds for `update_gadget_query`. -/
def update_gadget_plan : ParsedQuery :=
  { type := .Update
    table_name := "inventory"
    update_assignments :=
      [("quantity", .Binary .Add (.Variable "quantity") (.Literal (.int32 10)))]
    where_clause := some gadget_condition }

/-- A table holding a NULL in a column with a default: `t (y: int32 = -5)` with the row
`1 ↦ [NULL]`. -/
def null_default_table : Table :=
  ⟨"t", [⟨"y", ⟨Ty.Int32, 0⟩, [], some (.int32 (-5))⟩], [⟨1, [none]⟩], [], 2⟩

/-! ## Loading a catalog -/

namespace Database

/-- `tables_.emplace(name, table)` on the `std::unordered_map` of the catalog: nothing
happens when the name is already a key. -/
def emplace (db : Database) (table_name : String) (t : Table) : Database :=
  if db.tables.any (fun e => e.1 = table_name) then db
  else ⟨db.tables ++ [(table_name, t)]⟩

/-- The loop of `Database::load_from_file` over the tables of the document; the tables
registered before a failing one stay in the catalog. -/
def load_tables (db : Database) : List Json → Except Exception Unit × Database
  | [] => (.ok (), db)
  | table_json :: rest =>
    match Table.from_json table_json with
    | .error e => (.error e, db)
    | .ok table => load_tables (db.emplace table.name table) rest

/-- `Database::load_from_file`, from the document that `ifs >> j` reads (opening and
reading the file belong to the stream library). -/
def load_from_file (db : Database) (j : Json) : Except Exception Unit × Database :=
  if j.contains "tables" = false then
    (.error ⟨.SerializationException, "Serialization Error: Invalid database file format."⟩, db)
  else
    match j.at_key "tables" with
    | .error e => (.error e, db)
    | .ok tables_json => load_tables db tables_json.items

end Database

/-- A snapshot document that holds the table `posts` of scenario S4 and nothing else. -/
def posts_document : Json := .object [("tables", .array [Table.to_json s4_posts])]

/-- A table named `users` that differs from the one of scenario S4: its only row is
`7 ↦ (7, "eve")`. -/
def other_users : Table :=
  ⟨"users", [id_column, ⟨"name", ⟨Ty.String, 8⟩, [], none⟩],
    [⟨7, [some (.int32 7), some (.string "eve")]⟩], [], 8⟩

/-- A snapshot document that holds `other_users` and nothing else. -/
def users_document : Json := .object [("tables", .array [Table.to_json other_users])]

/-- A document whose only row holds three values for the two columns of `users`. -/
def long_values_document : Json :=
  .object [("name", .string "users"), ("columns", .array (s4_users.columns.map column_to_json)),
    ("rows", .array [.object [("id", .number 1),
      ("values", .array [.number 1, .string "ada", .number 99])]])]

/-- A document whose two rows both carry the `id` 1. -/
def duplicate_id_document : Json :=
  .object [("name", .string "users"), ("columns", .array (s4_users.columns.map column_to_json)),
    ("rows", .array [
      .object [("id", .number 1), ("values", .array [.number 1, .string "ada"])],
      .object [("id", .number 1), ("values", .array [.number 2, .string "bob"])]])]

/-- A document whose only row carries the boolean `true` as its `id`. -/
def boolean_id_document : Json :=
  .object [("name", .string "users"), ("columns", .array (s4_users.columns.map column_to_json)),
    ("rows", .array [.object [("id", .bool true),
      ("values", .array [.number 1, .string "ada"])]])]

/-- A document whose only column has the type text `uint32_t`, which holds the letters
`int32`. -/
def loose_type_document : Json :=
  .object [("name", .string "t"),
    ("columns", .array [.object [("name", .string "id"), ("type", .string "uint32_t"),
      ("attributes", .array [])]]),
    ("rows", .array [])]

/-- A document whose only row holds one value for the two columns of `users`. -/
def short_values_document : Json :=
  .object [("name", .string "users"), ("columns", .array (s4_users.columns.map column_to_json)),
    ("rows", .array [.object [("id", .number 1), ("values", .array [.number 1])]])]

/-- A document whose only column lists the attribute text `primary`. -/
def unknown_attribute_document : Json :=
  .object [("name", .string "t"),
    ("columns", .array [.object [("name", .string "id"), ("type", .string "int32"),
      ("attributes", .array [.string "primary"])]]),
    ("rows", .array [])]

/-! ## Adding a column -/

namespace Table

/-- `Table::has_column`. -/
def has_column (t : Table) (column_name : String) : Bool :=
  t.columns.any (fun column => column.name = column_name)

/-- The slot `Table::add_column` appends to every stored row: the default of the new
column, else the empty value of its type, else NULL. -/
def added_slot (column : Column) : Option Value :=
  match column.default_value with
  | some d => some d
  | none =>
    if column.type.is_string then some (.string "")
    else if column.type.is_bytes then some (.bytes [])
    else if column.type.is_int32 then some (.int32 0)
    else if column.type.is_bool then some (.bool false)
    else none

/-- `Table::add_column`. -/
def add_column (t : Table) (column : Column) : Except Exception Unit × Table :=
  if t.has_column column.name then
    (.error ⟨.invalid_argument, "Column already exists: " ++ column.name⟩, t)
  else
    (.ok (),
      { t with
        columns := t.columns ++ [column]
        rows := t.rows.map (fun row => { row with values := row.values ++ [added_slot column] }) })

/-- The row-length invariant: every stored row has as many slots as the table has
columns. -/
def rows_full (t : Table) : Prop :=
  ∀ r ∈ t.rows, r.values.length = t.columns.length

/-- The RowID invariant: `next_row_id` is greater than the RowID of every stored row. -/
def ids_below_next (t : Table) : Prop :=
  ∀ r ∈ t.rows, r.id < t.next_row_id

end Table

/-! ## Values of an insert statement -/

namespace QueryParser

/-- `parse_value(token_type, value_str, size)`. -/
def parse_value (token_type : TokenType) (value_str : String) (size : Nat) :
    Except Exception Value :=
  match token_type with
  | .StringLiteral =>
    if size > 0 ∧ value_str.length > size then
      .error ⟨.invalid_argument, "String value exceeds defined size of " ++ Nat.repr size⟩
    else .ok (.string value_str)
  | .BytesLiteral =>
    match substr value_str.data 2 (2 ^ 64 - 1) with
    | .error e => .error e
    | .ok hex_str =>
      if hex_str.length % 2 ≠ 0 then
        .error ⟨.invalid_argument, "Invalid hex string for bytes."⟩
      else if hex_str.length / 2 > size then
        .error ⟨.invalid_argument, "Bytes value exceeds defined size of " ++ Nat.repr size⟩
      else
        match hex_bytes "stoul" hex_str with
        | .error e => .error e
        | .ok bytes => .ok (.bytes bytes)
  | .BoolLiteral => .ok (.bool (value_str = "true"))
  | .IntLiteral =>
    match stoi value_str with
    | .error _ => .error ⟨.invalid_argument, "Invalid integer value: " ++ value_str⟩
    | .ok int_val => .ok (.int32 int_val)
  | _ => .error ⟨.invalid_argument, "Invalid value: " ++ value_str⟩

end QueryParser

namespace QueryParser

/-- The size argument `parse_values` passes to `parse_value`: the declared size of a
String or Bytes column, 0 for the other types. -/
def literal_size (column : Column) : Except Exception Nat :=
  if column.type.get_type = Ty.String ∨ column.type.get_type = Ty.Bytes then column.type.get_size
  else .ok 0

/-- Is the token one of the four literal kinds. -/
def is_literal (token : Token) : Bool :=
  token.type = .StringLiteral || token.type = .BytesLiteral ||
    token.type = .IntLiteral || token.type = .BoolLiteral

/-- The first loop of the positional branch of `parse_values`, `while (token.type !=
EndOfInput)`: the values and the column index behind the last token. Every turn reads at
least one token, so `fuel` turns suffice for an input of `fuel - 1` characters. A comma
at a column index past the end writes `values[column_index]`, which is undefined; the
model stops there with the marker for undefined behaviour. -/
def positional_loop (columns : List Column) :
    Nat → Token → List Char → List (Option Value) → Nat →
      Except Exception (List (Option Value) × Nat)
  | 0, _, _, _, _ => .error ExpressionParser.out_of_fuel
  | fuel + 1, token, lexer, values, column_index =>
    if token.type = .EndOfInput then .ok (values, column_index)
    else if token.type = .Comma then
      if column_index ≥ values.length then
        .error ⟨.undefined_behaviour, "values[column_index] past the end"⟩
      else
        match Lexer.get_next_token lexer with
        | .error e => .error e
        | .ok (token1, lexer1) =>
          positional_loop columns fuel token1 lexer1 (values.set column_index none)
            (column_index + 1)
    else
      match columns[column_index]? with
      | none => .error ⟨.invalid_argument, "Too many values for table columns"⟩
      | some current_column =>
        match literal_size current_column with
        | .error e => .error e
        | .ok size =>
          if is_literal token then
            let stored : Except Exception (Option Value) :=
              if token.value ≠ "" ∨ token.type = .StringLiteral then
                match parse_value token.type token.value size with
                | .error e => .error e
                | .ok v => .ok (some v)
              else .ok none
            match stored with
            | .error e => .error e
            | .ok slot =>
              match Lexer.get_next_token lexer with
              | .error e => .error e
              | .ok (token1, lexer1) =>
                if token1.type = .Comma then
                  match Lexer.get_next_token lexer1 with
                  | .error e => .error e
                  | .ok (token2, lexer2) =>
                    positional_loop columns fuel token2 lexer2 (values.set column_index slot)
                      (column_index + 1)
                else
                  positional_loop columns fuel token1 lexer1 (values.set column_index slot)
                    (column_index + 1)
          else
            .error ⟨.invalid_argument, "Invalid value in INSERT statement: " ++ token.value⟩

/-- The second loop of the positional branch, `while (column_index < columns.size())`,
over the columns from `column_index` on. -/
def fill_trailing : List Column → Nat → List (Option Value) →
    Except Exception (List (Option Value))
  | [], _, values => .ok values
  | column :: rest, column_index, values =>
    if column.has_attribute .AutoIncrement then fill_trailing rest (column_index + 1) values
    else
      match column.default_value with
      | some d => fill_trailing rest (column_index + 1) (values.set column_index (some d))
      | none => .error ⟨.invalid_argument, "Missing value for column: " ++ column.name⟩

/-- `parse_values(values_str, columns)`. The branch of the named format, taken when the
text holds a `=`, is the parameter `named_format`. -/
def parse_values
    (named_format : String → List Column → Except Exception (List (Option Value)))
    (values_str : String) (columns : List Column) : Except Exception (List (Option Value)) :=
  match Lexer.get_next_token values_str.data with
  | .error e => .error e
  | .ok (token, lexer) =>
    if '=' ∈ values_str.data then named_format values_str columns
    else
      match positional_loop columns (values_str.length + 1) token lexer
          (List.replicate columns.length none) 0 with
      | .error e => .error e
      | .ok (values, column_index) =>
        fill_trailing (columns.drop column_index) column_index values

/-- The class `\w` of the regular expressions. -/
def is_word (c : Char) : Bool := isalnum c || c = '_'

/-- The match of `^insert\s*\(([\s\S]*)\)\s*to\s+(\w+)$`, ignoring case, against the whole
text: its two groups. No `)` can follow the `)` of the pattern, so the first group ends
before the last `)` of the text. -/
def match_insert (text : List Char) : Option (String × String) :=
  if (text.take 6).map tolower ≠ "insert".data then none
  else
    match Lexer.skip_whitespace (text.drop 6) with
    | '(' :: rest =>
      match find_last ')' rest with
      | none => none
      | some k =>
        let tail := Lexer.skip_whitespace (rest.drop (k + 1))
        let after := tail.drop 2
        let name := Lexer.skip_whitespace after
        if (tail.take 2).map tolower ≠ "to".data then none
        else if (after.head?.map isspace).getD false = false then none
        else if name = [] ∨ name.all is_word = false then none
        else some (⟨rest.take k⟩, ⟨name⟩)
    | _ => none

/-- The branch `command == "insert"` of `QueryParser::parse` on the trimmed query, for a
parser whose database is set to `db`. -/
def parse_insert
    (named_format : String → List Column → Except Exception (List (Option Value)))
    (db : Database) (trimmed_query : String) : Except Exception ParsedQuery :=
  match match_insert trimmed_query.data with
  | none => .error ⟨.invalid_argument, "Invalid INSERT syntax."⟩
  | some (values_str, table_name) =>
    if isValidIdentifier table_name = false then
      .error ⟨.invalid_argument, "Invalid table name: " ++ table_name⟩
    else if reservedKeywords.contains table_name then
      .error ⟨.invalid_argument, "Reserved keyword used as table name: " ++ table_name⟩
    else
      match db.get_table table_name with
      | .error _ => .error ⟨.invalid_argument, "Table does not exist: " ++ table_name⟩
      | .ok table =>
        match parse_values named_format values_str table.columns with
        | .error e => .error e
        | .ok values =>
          .ok { type := .Insert
                table_name := table_name
                insert_values := some values }

/-- The branches handed to `QueryParser::parse` with the `insert` branch spelled out;
the branches of `create` and `select` stay the parameter `other_branches`. -/
def with_insert
    (named_format : String → List Column → Except Exception (List (Option Value)))
    (db : Database)
    (other_branches : String → String → List Char → Except Exception ParsedQuery)
    (command trimmed_query : String) (iss : List Char) : Except Exception ParsedQuery :=
  if command = "insert" then parse_insert named_format db trimmed_query
  else other_branches command trimmed_query iss

end QueryParser

/-- The `case ParsedQuery::QueryType::Insert` of `QueryExecutor::execute`: the returned
result, or the exception that leaves the function (only `DatabaseException` is caught
inside), and the database as left behind. An empty `insert_values` is dereferenced all
the same, which is undefined. -/
def execute_insert (pq : ParsedQuery) (db : Database) : Except Exception QueryResult × Database :=
  match db.get_table pq.table_name with
  | .error e => (.ok (QueryResult.of_error e.what), db)
  | .ok table =>
    match pq.insert_values with
    | none => (.error ⟨.undefined_behaviour, "insert_values holds no value"⟩, db)
    | some values =>
      let r := table.insert_row values
      let db1 := db.put_table pq.table_name r.2
      match r.1 with
      | .error e =>
        if e.isDatabaseException then (.ok (QueryResult.of_error e.what), db1) else (.error e, db1)
      | .ok new_row_id =>
        (.ok (QueryResult.of_data [[some (Value.int32 (to_int32 new_row_id))]]), db1)

namespace Database

/-- Body of the loop of `Database::insert_row` over the columns: the checks on slot
`i`. -/
def insert_row_check (columns : List Column) (values : List (Option Value)) (i : Nat) :
    Except Exception Unit :=
  match columns[i]? with
  | none => .ok ()
  | some column =>
    match values[i]? with
    | some (some value) =>
      if value.get_type ≠ column.type.get_type then
        .error ⟨.invalid_argument, "Invalid type for column '" ++ column.name ++ "'"⟩
      else if column.type.get_type = Ty.String ∨ column.type.get_type = Ty.Bytes then
        let value_size : Except Exception Nat :=
          if column.type.get_type = Ty.String then
            match value.get_string with
            | .error e => .error e
            | .ok s => .ok s.length
          else
            match value.get_bytes with
            | .error e => .error e
            | .ok b => .ok b.length
        match value_size, column.type.get_size with
        | .ok n, .ok size =>
          if n > size then
            .error ⟨.invalid_argument,
              (if column.type.get_type = Ty.String then "String" else "Bytes") ++
                " value exceeds defined size of " ++ Nat.repr size ++ " for column \"" ++
                column.name ++ "\""⟩
          else .ok ()
        | .error e, _ => .error e
        | _, .error e => .error e
      else .ok ()
    | _ =>
      if column.has_attribute .AutoIncrement then .ok ()
      else if column.default_value.isSome then .ok ()
      else .error ⟨.invalid_argument, "Missing value for column: " ++ column.name⟩

/-- `Database::insert_row(table_name, values)` of `memdb_project/src/core/Database.cpp`:
the checks over the columns, then `Table::insert_row`. -/
def insert_row (db : Database) (table_name : String) (values : List (Option Value)) :
    Except Exception RowID × Database :=
  match db.get_table table_name with
  | .error e => (.error e, db)
  | .ok table =>
    match forRange table.columns.length (insert_row_check table.columns values) with
    | .error e => (.error e, db)
    | .ok _ =>
      let r := table.insert_row values
      (r.1, db.put_table table_name r.2)

end Database

/-- The table of `InsertTest.MissingValues`: `users (id: int32, name: string[32], age:
int32)`, without rows. -/
def missing_values_users : Table :=
  ⟨"users",
    [⟨"id", ⟨Ty.Int32, 0⟩, [], none⟩, ⟨"name", ⟨Ty.String, 32⟩, [], none⟩,
      ⟨"age", ⟨Ty.Int32, 0⟩, [], none⟩],
    [], [], 1⟩

/-- The catalog of `InsertTest.MissingValues`. -/
def missing_values_db : Database := ⟨[("users", missing_values_users)]⟩

/-- The plan of `insert (1, , 30) to users`: the second slot is left empty. -/
def insert_empty_slot : ParsedQuery :=
  { type := .Insert
    table_name := "users"
    insert_values := some [some (.int32 1), none, some (.int32 30)] }

/-- The natural order of the values of one type, in the words of the specification:
integers numerically, `false` before `true`, strings and byte sequences
lexicographically; values of different types are not ordered. -/
def Value.natural_lt : Value → Value → Prop
  | .int32 a, .int32 b => a < b
  | .bool a, .bool b => a = false ∧ b = true
  | .string a, .string b => a < b
  | .bytes a, .bytes b => a < b
  | _, _ => False

/-- The table of `InsertTest.InsertMinMaxInt32`: `numbers (id: int32, value: int32)`,
without rows. -/
def numbers_table : Table :=
  ⟨"numbers", [⟨"id", ⟨Ty.Int32, 0⟩, [], none⟩, ⟨"value", ⟨Ty.Int32, 0⟩, [], none⟩], [], [], 1⟩

/-- The plan `QueryParser::parse` builds for
`update numbers set value = 2147483648 where id = 1;`. -/
def update_out_of_range_plan : ParsedQuery :=
  { type := .Update
    table_name := "numbers"
    update_assignments := [("value", .Literal (.int32 (-2147483648)))]
    where_clause := some (.Binary .Equal (.Variable "id") (.Literal (.int32 1))) }

/-- A table `users` whose second row holds NULL in the column `name`. -/
def null_name_users : Table :=
  ⟨"users", [⟨"id", ⟨Ty.Int32, 0⟩, [], none⟩, ⟨"name", ⟨Ty.String, 8⟩, [], none⟩],
    [⟨1, [some (.int32 1), some (.string "ada")]⟩, ⟨2, [some (.int32 2), none]⟩], [], 3⟩

/-- The plan of `update users set name = name where true` as `execute_update` reads it. -/
def update_name_to_itself : ParsedQuery :=
  { type := .Update
    table_name := "users"
    update_assignments := [("name", .Variable "name")]
    update_where_clause := some (.Literal (.bool true)) }

/-- The binary operators of the five tightest levels of the precedence ladder, one
constructor per spelling that the lexer delivers. -/
inductive LadderOp
  | mul | div | mod
  | add | sub
  | lt | le | gt | ge
  | eq | eqeq | ne
  | and
  deriving DecidableEq, Fintype

/-- The spelling of a ladder operator in the expression text. -/
def LadderOp.text : LadderOp → String
  | .mul => "*" | .div => "/" | .mod => "%"
  | .add => "+" | .sub => "-"
  | .lt => "<" | .le => "<=" | .gt => ">" | .ge => ">="
  | .eq => "=" | .eqeq => "==" | .ne => "!="
  | .and => "&&"

/-- The node that the parser builds for a ladder operator. -/
def LadderOp.op : LadderOp → BinaryOperator
  | .mul => .Multiply | .div => .Divide | .mod => .Modulo
  | .add => .Add | .sub => .Subtract
  | .lt => .Less | .le => .LessEqual | .gt => .Greater | .ge => .GreaterEqual
  | .eq => .Equal | .eqeq => .Equal | .ne => .NotEqual
  | .and => .And

/-- The binding strength that the specification gives a ladder operator: 5 for the
multiplicative operators, then 4, 3, 2, and 1 for the conjunction. -/
def LadderOp.level : LadderOp → Nat
  | .mul => 5 | .div => 5 | .mod => 5
  | .add => 4 | .sub => 4
  | .lt => 3 | .le => 3 | .gt => 3 | .ge => 3
  | .eq => 2 | .eqeq => 2 | .ne => 2
  | .and => 1

/-- The closing delimiter of an opening one: `)` for `(`, and the closing brace
otherwise. -/
def closer (open_ch : Char) : Char := if open_ch = '(' then ')' else '\x7d'

/-- Whether a character is one of the four delimiters that `validate_query` looks at. -/
def is_delimiter (ch : Char) : Bool := ch = '(' || ch = ')' || ch = '\x7b' || ch = '\x7d'

/-- Well-nested texts, as the specification's words describe them: the empty text; an
opening delimiter, a well-nested text, the closing delimiter of the same kind, and a
well-nested text; or a character that is no delimiter in front of a well-nested text. -/
inductive WellNested : List Char → Prop
  | empty : WellNested []
  | paren (a b : List Char) : WellNested a → WellNested b → WellNested ('(' :: a ++ ')' :: b)
  | brace (a b : List Char) :
      WellNested a → WellNested b → WellNested ('\x7b' :: a ++ '\x7d' :: b)
  | other (ch : Char) (a : List Char) :
      is_delimiter ch = false → WellNested a → WellNested (ch :: a)

/-- The texts that close every opener of a stack (top first), each opener by its own
closer, with well-nested text in between and behind. -/
def NestedFrom : List Char → List Char → Prop
  | [], cs => WellNested cs
  | open_ch :: s, cs =>
    ∃ a b, WellNested a ∧ cs = a ++ closer open_ch :: b ∧ NestedFrom s b

/-- A piece of the text between the quotes of a string literal: one character, or a
backslash and the character behind it. -/
inductive LiteralPiece
  | plain (c : Char)
  | escaped (x : Char)
deriving DecidableEq, Repr

namespace LiteralPiece

/-- The characters of a piece in the query text. -/
def source : LiteralPiece → List Char
  | plain c => [c]
  | escaped x => ['\\', x]

/-- The character a piece stands for, in the words of the specification: the escapes
`\n`, `\t`, `\r`, `\\` and `\"` are newline, tab, carriage return, backslash and double
quote, a backslash before another character is that character, and another character is
itself. -/
def decoded : LiteralPiece → Char
  | plain c => c
  | escaped x =>
    if x = 'n' then '\n'
    else if x = 't' then '\t'
    else if x = 'r' then '\r'
    else if x = '\\' then '\\'
    else if x = '"' then '"'
    else x

/-- A single character of the body is neither the quote nor the backslash. -/
def is_piece : LiteralPiece → Bool
  | plain c => c ≠ '"' && c ≠ '\\'
  | escaped _ => true

/-- A piece without a NUL character of its own: the lexer reads a NUL that is not behind
a backslash as the end of the input. -/
def nul_free : LiteralPiece → Bool
  | plain c => c ≠ '\x00'
  | escaped _ => true

end LiteralPiece

/-- The text of a sequence of pieces. -/
def literal_source : List LiteralPiece → List Char
  | [] => []
  | piece :: pieces => piece.source ++ literal_source pieces

/-- The string a sequence of pieces stands for. -/
def literal_decoded (pieces : List LiteralPiece) : String :=
  ⟨pieces.map LiteralPiece.decoded⟩

/-- The sizes under which `parse_value` accepts the text of a value: every size for an
Int32 and a Bool, 0 (no bound) or at least the length for a String, and at least the
number of octets for a Bytes. -/
def Value.admitted_by (v : Value) (size : Nat) : Prop :=
  match v with
  | .string s => size = 0 ∨ s.length ≤ size
  | .bytes b => b.length ≤ size
  | _ => True

/-- The characters that `Lexer::identifier` reads: letters, digits, `_` and `.`. -/
def is_identifier_char (c : Char) : Bool := isalnum c || c = '_' || c = '.'

/-- The texts that the lexer reads as one Identifier token: a letter or `_`, then
identifier characters, other than the two Bool literals. -/
def is_identifier (name : List Char) : Bool :=
  match name with
  | [] => false
  | c :: tail =>
    (isalpha c || c = '_') && tail.all is_identifier_char &&
      name ≠ "true".data && name ≠ "false".data

/-- The texts of decimal digits, at least one. -/
def is_digits (digits : List Char) : Bool := !digits.isEmpty && digits.all isdigit

/-- The plan of `update t set c = 1 where d = 2`: one assignment and the condition. -/
def update_keywords_plan : ParsedQuery :=
  { type := .Update
    table_name := "t"
    update_assignments := [("c", .Literal (.int32 1))]
    where_clause := some (.Binary .Equal (.Variable "d") (.Literal (.int32 2))) }

/-- The plan of `delete t where d = 2`. -/
def delete_keywords_plan : ParsedQuery :=
  { type := .Delete
    table_name := "t"
    delete_where_clause := some (.Binary .Equal (.Variable "d") (.Literal (.int32 2))) }

/-- A parsing function reads the expression `e` from the state `p` and ends in the state
`q`, whenever it is given enough fuel. -/
def Reads (parse : Nat → ExpressionParser → Except Exception (Expression × ExpressionParser))
    (p : ExpressionParser) (e : Expression) (q : ExpressionParser) : Prop :=
  ∃ k, ∀ fuel, k ≤ fuel → parse fuel p = .ok (e, q)

/-- A loop of the ladder, entered with the tree `node` in the state `p`, ends with the
tree `e` in the state `q`, whenever it is given enough fuel. -/
def LoopReads
    (loop : Nat → Expression → ExpressionParser → Except Exception (Expression × ExpressionParser))
    (node : Expression) (p : ExpressionParser) (e : Expression) (q : ExpressionParser) : Prop :=
  ∃ k, ∀ fuel, k ≤ fuel → loop fuel node p = .ok (e, q)

/-- The function of the source that parses the operators of a level of `LadderOp.level`,
and `parse_unary` above the tightest level. -/
def parse_level :
    Nat → Nat → ExpressionParser → Except Exception (Expression × ExpressionParser)
  | 1 => ExpressionParser.parse_logical_and
  | 2 => ExpressionParser.parse_equality
  | 3 => ExpressionParser.parse_comparison
  | 4 => ExpressionParser.parse_term
  | 5 => ExpressionParser.parse_factor
  | _ => ExpressionParser.parse_unary

/-- The loop of the function of a level. -/
def level_loop :
    Nat → Nat → Expression → ExpressionParser → Except Exception (Expression × ExpressionParser)
  | 1 => ExpressionParser.logical_and_loop
  | 2 => ExpressionParser.equality_loop
  | 3 => ExpressionParser.comparison_loop
  | 4 => ExpressionParser.term_loop
  | 5 => ExpressionParser.factor_loop
  | _ => fun _ node p => .ok (node, p)

/-- The tree that the ladder prescribes for `x o1 y o2 z`. -/
def ladder_tree (o1 o2 : LadderOp) (x y z : Expression) : Expression :=
  if o1.level < o2.level then .Binary o1.op x (.Binary o2.op y z)
  else .Binary o2.op (.Binary o1.op x y) z

/-- The plan of `select name + name as twice from users`. -/
def select_twice : ParsedQuery :=
  { type := .Select
    table_name := "users"
    select_items := [⟨.Binary .Add (.Variable "name") (.Variable "name"), "twice"⟩] }

/-- The plan of `update t set note = "some"`: one assignment, no condition. -/
def update_note_plan : ParsedQuery :=
  { type := .Update
    table_name := "t"
    update_assignments := [("note", .Literal (.string "some"))] }

/-- A table name as the statements of the tests write it: letters, digits and
underscores, at least one. -/
def is_plain_name (name : List Char) : Bool :=
  !name.isEmpty && name.all QueryParser.is_word

/-- A condition text as it stands at the end of a statement: it starts and ends with a
character that is no white space, does not end in `;`, holds no newline, and its
parentheses and braces are balanced. -/
def is_condition_text (text : List Char) : Bool :=
  match text.head?, text.getLast? with
  | some a, some b =>
    !isspace a && !isspace b && b ≠ ';' && text.all (fun c => c ≠ '\n') &&
      QueryParser.validate_chars text []
  | _, _ => false

/-- The Delete plan with a table name and a condition. -/
def delete_plan (table_name : String) (condition : Expression) : ParsedQuery :=
  { type := .Delete
    table_name := table_name
    delete_where_clause := some condition }

namespace QueryParser

/-- The inner loop of the named branch of `parse_values`,
`while (token.type != EndOfInput && token.type != Operator && token.value != "=")`: it
keeps the text of the last identifier as the column name and ends on the token that
stops it. -/
def named_skip : Nat → Token → List Char → String → Except Exception (Token × List Char × String)
  | 0, _, _, _ => .error ExpressionParser.out_of_fuel
  | fuel + 1, token, lexer, column_name =>
    if token.type ≠ .EndOfInput ∧ token.type ≠ .Operator ∧ token.value ≠ "=" then
      match Lexer.get_next_token lexer with
      | .error e => .error e
      | .ok (token1, lexer1) =>
        named_skip fuel token1 lexer1
          (if token.type = .Identifier then token.value else column_name)
    else .ok (token, lexer, column_name)

/-- The search `for (i = 0; i < columns.size(); i++) if (columns[i].get_name() ==
column_name)` of the named branch. -/
def named_column (columns : List Column) (column_name : String) : Option Nat :=
  (List.range columns.length).find?
    (fun i => match columns[i]? with
      | some c => c.name = column_name
      | none => false)

/-- The outer loop `while (token.type != EndOfInput)` of the named branch of
`parse_values`; `limit` is the fuel of the inner loop. -/
def named_loop (columns : List Column) (limit : Nat) :
    Nat → Token → List Char → List (Option Value) → List String →
      Except Exception (List (Option Value))
  | 0, _, _, _, _ => .error ExpressionParser.out_of_fuel
  | fuel + 1, token, lexer, values, processed_columns =>
    if token.type = .EndOfInput then .ok values
    else
      match named_skip limit token lexer "" with
      | .error e => .error e
      | .ok (token1, lexer1, column_name) =>
        if token1.type ≠ .Operator ∨ token1.value ≠ "=" then
          .error ⟨.invalid_argument, "Expected '=' after column name"⟩
        else
          match Lexer.get_next_token lexer1 with
          | .error e => .error e
          | .ok (token2, lexer2) =>
            if column_name ∈ processed_columns then
              .error ⟨.invalid_argument, "Duplicate column name: " ++ column_name⟩
            else
              match named_column columns column_name with
              | none => .error ⟨.invalid_argument, "Column not found: " ++ column_name⟩
              | some col_idx =>
                let stored : Except Exception (List (Option Value)) :=
                  if is_literal token2 then
                    match columns[col_idx]? with
                    | none => .error ⟨.undefined_behaviour, "columns[col_idx] past the end"⟩
                    | some col =>
                      match literal_size col with
                      | .error e => .error e
                      | .ok size =>
                        match parse_value token2.type token2.value size with
                        | .error e => .error e
                        | .ok v => .ok (values.set col_idx (some v))
                  else .ok values
                match stored with
                | .error e => .error e
                | .ok values1 =>
                  match Lexer.get_next_token lexer2 with
                  | .error e => .error e
                  | .ok (token3, lexer3) =>
                    if token3.type = .Comma then
                      match Lexer.get_next_token lexer3 with
                      | .error e => .error e
                      | .ok (token4, lexer4) =>
                        named_loop columns limit fuel token4 lexer4 values1
                          (column_name :: processed_columns)
                    else
                      named_loop columns limit fuel token3 lexer3 values1
                        (column_name :: processed_columns)

/-- The last loop of the named branch: a column without value keeps the empty slot when
it is autoincrement, takes its default when it has one, and is an error otherwise. -/
def named_fill : List Column → Nat → List (Option Value) →
    Except Exception (List (Option Value))
  | [], _, values => .ok values
  | column :: rest, i, values =>
    if (values[i]?).join.isSome then named_fill rest (i + 1) values
    else if column.has_attribute .AutoIncrement then named_fill rest (i + 1) values
    else
      match column.default_value with
      | some d => named_fill rest (i + 1) (values.set i (some d))
      | none => .error ⟨.invalid_argument, "Missing value for column: " ++ column.name⟩

/-- The branch `if (named_format)` of `parse_values(values_str, columns)`. -/
def named_values (values_str : String) (columns : List Column) :
    Except Exception (List (Option Value)) :=
  match Lexer.get_next_token values_str.data with
  | .error e => .error e
  | .ok (token, lexer) =>
    match named_loop columns (values_str.length + 1) (values_str.length + 1) token lexer
        (List.replicate columns.length none) [] with
    | .error e => .error e
    | .ok values => named_fill columns 0 values

end QueryParser

/-- The columns `(id: int32, name: string[8])` of a table. -/
def id_name_columns : List Column :=
  [⟨"id", ⟨Ty.Int32, 0⟩, [], none⟩, ⟨"name", ⟨Ty.String, 8⟩, [], none⟩]

/-- The catalog with the empty table `people (id: int32, name: string[8])`. -/
def people_db : Database := ⟨[("people", ⟨"people", id_name_columns, [], [], 1⟩)]⟩

/-- The plan of `insert (1, "ab") to people`. -/
def insert_ab_plan : ParsedQuery :=
  { type := .Insert
    table_name := "people"
    insert_values := some [some (.int32 1), some (.string "ab")] }

/-! ## Index operations and `Table::add_index` -/

namespace Index

/-- `Index::Index(type, columns)`: both maps are empty. -/
def new (type : IndexType) (columns : List String) : Index := ⟨type, columns, [], []⟩

/-- The loop of `add_row` and `remove_row` that renders the composite key of an unordered
index: for every index column the text of its value and a `|`; a column missing in the
row is an error. -/
def composite_key (row : Binding) : List String → String → Except Exception String
  | [], key => .ok key
  | col :: rest, key =>
    match row.find col with
    | none =>
      .error ⟨.invalid_argument, "Column '" ++ col ++ "' not found in row for index."⟩
    | some v => composite_key row rest (key ++ v.to_string ++ "|")

/-- `unordered_map_[key].push_back(row_id)`: the list under the key grows at its end; a
new key starts with the empty list. -/
def push_back_at :
    List (String × List RowID) → String → RowID → List (String × List RowID)
  | [], key, row_id => [(key, [row_id])]
  | (k, ids) :: rest, key, row_id =>
    if k = key then (k, ids ++ [row_id]) :: rest
    else (k, ids) :: push_back_at rest key row_id

/-- `ordered_map_[key] = row_id` on the map in ascending order of `std::string`: the
value under an existing key is overwritten, a new key is put at its place. -/
def ordered_assign : List (String × RowID) → String → RowID → List (String × RowID)
  | [], key, row_id => [(key, row_id)]
  | (k, v) :: rest, key, row_id =>
    if string_compare key.data k.data < 0 then (key, row_id) :: (k, v) :: rest
    else if string_compare k.data key.data < 0 then (k, v) :: ordered_assign rest key row_id
    else (k, row_id) :: rest

/-- `Index::add_row(row_id, row)`: the outcome and the index as left behind. -/
def add_row (index : Index) (row_id : RowID) (row : Binding) : Except Exception Unit × Index :=
  match index.type with
  | .Unordered =>
    match composite_key row index.columns "" with
    | .error e => (.error e, index)
    | .ok key =>
      (.ok (), { index with unordered_map := push_back_at index.unordered_map key row_id })
  | .Ordered =>
    match index.columns with
    | [col] =>
      match row.find col with
      | none =>
        (.error ⟨.invalid_argument, "Column '" ++ col ++ "' not found in row for index."⟩,
          index)
      | some v =>
        (.ok (), { index with ordered_map := ordered_assign index.ordered_map v.to_string row_id })
    | _ =>
      (.error ⟨.invalid_argument, "Ordered index can only be created on a single column."⟩,
        index)

/-- The body of the unordered branch of `remove_row` behind the key: every occurrence of
the RowID leaves the list under the key, and a list that becomes empty leaves the map. -/
def erase_at : List (String × List RowID) → String → RowID → List (String × List RowID)
  | [], _, _ => []
  | (k, ids) :: rest, key, row_id =>
    if k = key then
      if (ids.filter (fun id => id ≠ row_id)).isEmpty then rest
      else (k, ids.filter (fun id => id ≠ row_id)) :: rest
    else (k, ids) :: erase_at rest key row_id

/-- The body of the ordered branch of `remove_row` behind the key: the entry under the
key leaves the map when it holds the RowID. -/
def ordered_erase : List (String × RowID) → String → RowID → List (String × RowID)
  | [], _, _ => []
  | (k, v) :: rest, key, row_id =>
    if k = key then (if v = row_id then rest else (k, v) :: rest)
    else (k, v) :: ordered_erase rest key row_id

/-- `Index::remove_row(row_id, row)`: the outcome and the index as left behind. In the
ordered branch `row.at(col)` throws `std::out_of_range` for a missing column. -/
def remove_row (index : Index) (row_id : RowID) (row : Binding) :
    Except Exception Unit × Index :=
  match index.type with
  | .Unordered =>
    match composite_key row index.columns "" with
    | .error e => (.error e, index)
    | .ok key => (.ok (), { index with unordered_map := erase_at index.unordered_map key row_id })
  | .Ordered =>
    match index.columns with
    | [col] =>
      match row.find col with
      | none => (.error ⟨.out_of_range, "unordered_map::at"⟩, index)
      | some v =>
        (.ok (), { index with ordered_map := ordered_erase index.ordered_map v.to_string row_id })
    | _ =>
      (.error ⟨.invalid_argument, "Ordered index can only be created on a single column."⟩,
        index)

/-- The loop of `search_unordered` that renders the key of the condition; `none` when the
condition lacks an index column, on which the function returns its empty result. -/
def search_key (condition : Binding) : List String → String → Option String
  | [], key => some key
  | col :: rest, key =>
    match condition.find col with
    | none => none
    | some v => search_key condition rest (key ++ v.to_string ++ "|")

/-- `Index::search_unordered(condition)`. -/
def search_unordered (index : Index) (condition : Binding) : List RowID :=
  match search_key condition index.columns "" with
  | none => []
  | some key =>
    match index.unordered_map.find? (fun entry => entry.1 = key) with
    | some entry => entry.2
    | none => []

/-- `ordered_map_.lower_bound(key)` as a position: the first entry whose key is not less
than `key`. -/
def lower_bound (map : List (String × RowID)) (key : String) : Nat :=
  (map.takeWhile (fun entry => string_compare entry.1.data key.data < 0)).length

/-- `ordered_map_.upper_bound(key)` as a position: the first entry whose key is greater
than `key`. -/
def upper_bound (map : List (String × RowID)) (key : String) : Nat :=
  (map.takeWhile (fun entry => ¬ (string_compare key.data entry.1.data < 0))).length

/-- The loop `for (auto it = it_lower; it != it_upper; ++it) result.push_back(it->second)`
on the entries from the position `it` on. An iterator that stands at `end()` and differs
from `it_upper` is dereferenced and incremented, which is undefined; the model stops there
with the marker for undefined behaviour. -/
def walk : List (String × RowID) → Nat → Nat → Except Exception (List RowID)
  | [], it, it_upper =>
    if it = it_upper then .ok []
    else .error ⟨.undefined_behaviour, "iterator at end() dereferenced"⟩
  | entry :: rest, it, it_upper =>
    if it = it_upper then .ok []
    else
      match walk rest (it + 1) it_upper with
      | .error e => .error e
      | .ok result => .ok (entry.2 :: result)

/-- `Index::search_ordered(column, lower, lower_inclusive, upper, upper_inclusive)`. -/
def search_ordered (index : Index) (column : String) (lower : Option Value)
    (lower_inclusive : Bool) (upper : Option Value) (upper_inclusive : Bool) :
    Except Exception (List RowID) :=
  if index.columns.length ≠ 1 ∨ index.columns[0]? ≠ some column then .ok []
  else
    let it_lower :=
      match lower with
      | some l =>
        if lower_inclusive then lower_bound index.ordered_map l.to_string
        else upper_bound index.ordered_map l.to_string
      | none => 0
    let it_upper :=
      match upper with
      | some u =>
        if upper_inclusive then upper_bound index.ordered_map u.to_string
        else lower_bound index.ordered_map u.to_string
      | none => index.ordered_map.length
    walk (index.ordered_map.drop it_lower) it_lower it_upper

end Index

namespace Table

/-- The inner loop of `Table::add_index` that builds `row_map` from the index columns of
a row; a NULL in an index column is an error. -/
def index_row_map (t : Table) (row : Row) : List String → Binding → Except Exception Binding
  | [], row_map => .ok row_map
  | col_name :: rest, row_map =>
    match t.get_column_index col_name with
    | .error e => .error e
    | .ok col_index =>
      match row.values[col_index]? with
      | none => .error ⟨.undefined_behaviour, "get_values()[col_index] past the end"⟩
      | some (some v) => index_row_map t row rest (row_map.set col_name v)
      | some none =>
        .error ⟨.invalid_argument, "Cannot index NULL value in column '" ++ col_name ++ "'."⟩

/-- The loop of `Table::add_index` over the rows in ascending RowID. -/
def index_rows (t : Table) (columns : List String) : List Row → Index → Except Exception Index
  | [], index => .ok index
  | row :: rest, index =>
    match index_row_map t row columns [] with
    | .error e => .error e
    | .ok row_map =>
      match index.add_row row.id row_map with
      | (.error e, _) => .error e
      | (.ok _, index1) => index_rows t columns rest index1

/-- `Table::add_index(index_type_str, columns)`: the outcome and the table as left
behind; the index joins the table only behind the loop over the rows. -/
def add_index (t : Table) (index_type_str : String) (columns : List String) :
    Except Exception Unit × Table :=
  if index_type_str ≠ "ordered" ∧ index_type_str ≠ "unordered" then
    (.error ⟨.invalid_argument, "Unknown index type: " ++ index_type_str⟩, t)
  else
    let index_type := if index_type_str = "ordered" then IndexType.Ordered else IndexType.Unordered
    match index_rows t columns t.rows (Index.new index_type columns) with
    | .error e => (.error e, t)
    | .ok index => (.ok (), { t with indexes := t.indexes ++ [index] })

end Table

/-- Does the index hold the RowID of a row under the key rendered from the values of the
row in the index columns (the specification's index coherence for one row). -/
def Index.holds_row (index : Index) (columns : List Column) (row : Row) : Bool :=
  match index.type with
  | .Unordered =>
    match Index.composite_key (row_map_of columns row) index.columns "" with
    | .error _ => false
    | .ok key =>
      match index.unordered_map.find? (fun entry => entry.1 = key) with
      | some entry => entry.2.contains row.id
      | none => false
  | .Ordered =>
    match index.columns with
    | [col] =>
      match (row_map_of columns row).find col with
      | none => false
      | some v =>
        match index.ordered_map.find? (fun entry => entry.1 = v.to_string) with
        | some entry => entry.2 = row.id
        | none => false
    | _ => false

/-- The RowIDs that an index holds. -/
def Index.row_ids (index : Index) : List RowID :=
  match index.type with
  | .Unordered => index.unordered_map.foldr (fun entry ids => entry.2 ++ ids) []
  | .Ordered => index.ordered_map.map (fun entry => entry.2)

/-- Index coherence of a table in the words of the specification: every index holds
every current row under the key of its values, and holds no RowID that is not the RowID of
a current row. -/
def Table.index_coherent (t : Table) : Bool :=
  t.indexes.all (fun index =>
    t.rows.all (fun row => index.holds_row t.columns row) &&
      index.row_ids.all (fun id => t.rows.any (fun row => row.id = id)))

/-- The table of `CreateIndexTest.DuplicateValuesInIndex` with three of its rows: the
values 5, 7 and 5. -/
def duplicates_table : Table :=
  ⟨"duplicates_test", [id_column, ⟨"value", ⟨Ty.Int32, 0⟩, [], none⟩],
    [⟨1, [some (.int32 1), some (.int32 5)]⟩, ⟨2, [some (.int32 2), some (.int32 7)]⟩,
      ⟨3, [some (.int32 3), some (.int32 5)]⟩],
    [], 4⟩

/-- The unordered index over `value` that `add_index` builds on `duplicates_table`. -/
def duplicates_unordered : Index :=
  ⟨.Unordered, ["value"], [("5|", [1, 3]), ("7|", [2])], []⟩

/-- The ordered index over `value` that `add_index` builds on `duplicates_table`: the
key `5` holds the last of the two rows only. -/
def duplicates_ordered : Index :=
  ⟨.Ordered, ["value"], [], [("5", 3), ("7", 2)]⟩

/-- The plan of `update duplicates_test set value = 8 where id = 2` as `execute_update`
reads it. -/
def update_duplicates_plan : ParsedQuery :=
  { type := .Update
    table_name := "duplicates_test"
    update_assignments := [("value", .Literal (.int32 8))]
    update_where_clause := some (.Binary .Equal (.Variable "id") (.Literal (.int32 2))) }

/-- The keys of an ordered map stand in strictly ascending order of `std::string`. -/
def keys_ascending (map : List (String × RowID)) : Prop :=
  map.Pairwise (fun e1 e2 => string_compare e1.1.data e2.1.data < 0)

/-- Does a key satisfy a lower bound, in the words of the specification: no constraint
without a bound, `key >= render(lower)` for an inclusive and `key > render(lower)` for an
exclusive bound, in the order of `std::string`. -/
def satisfies_lower (lower : Option Value) (inclusive : Bool) (key : String) : Bool :=
  match lower with
  | none => true
  | some l =>
    if inclusive then string_compare key.data l.to_string.data ≥ 0
    else string_compare key.data l.to_string.data > 0

/-- Does a key satisfy an upper bound: no constraint without a bound,
`key <= render(upper)` for an inclusive and `key < render(upper)` for an exclusive bound. -/
def satisfies_upper (upper : Option Value) (inclusive : Bool) (key : String) : Bool :=
  match upper with
  | none => true
  | some u =>
    if inclusive then string_compare key.data u.to_string.data ≤ 0
    else string_compare key.data u.to_string.data < 0

/-- An ordered index over `value` with the one key `4`. -/
def four_index : Index := ⟨.Ordered, ["value"], [], [("4", 1)]⟩

/-- The numeric range of claim C38 in the words of the specification: `lower <= v` for an
inclusive and `lower < v` for an exclusive lower bound, and the upper bound likewise. -/
def in_numeric_range (lower : Int) (lower_inclusive : Bool) (upper : Int)
    (upper_inclusive : Bool) (v : Int) : Bool :=
  (if lower_inclusive then decide (lower ≤ v) else decide (lower < v)) &&
    (if upper_inclusive then decide (v ≤ upper) else decide (v < upper))

/-- The entries of an ordered index over an Int32 column: the key of a value is its
rendering. -/
def render_entries (entries : List (Int × RowID)) : List (String × RowID) :=
  entries.map (fun e => ((Value.int32 e.1).to_string, e.2))

/-- A table with the one Int32 column `value` and ten rows: the row with RowID i holds the
value i. -/
def one_to_ten_table : Table :=
  ⟨"numbers", [⟨"value", ⟨Ty.Int32, 0⟩, [], none⟩],
    [⟨1, [some (.int32 1)]⟩, ⟨2, [some (.int32 2)]⟩, ⟨3, [some (.int32 3)]⟩,
      ⟨4, [some (.int32 4)]⟩, ⟨5, [some (.int32 5)]⟩, ⟨6, [some (.int32 6)]⟩,
      ⟨7, [some (.int32 7)]⟩, ⟨8, [some (.int32 8)]⟩, ⟨9, [some (.int32 9)]⟩,
      ⟨10, [some (.int32 10)]⟩],
    [], 11⟩

/-- The values and RowIDs of `one_to_ten_table` in the order of their keys. -/
def one_to_ten_entries : List (Int × RowID) :=
  [(1, 1), (10, 10), (2, 2), (3, 3), (4, 4), (5, 5), (6, 6), (7, 7), (8, 8), (9, 9)]

/-- The ordered index over `value` that `add_index` builds on `one_to_ten_table`: the key
`10` stands between the keys `1` and `2`. -/
def one_to_ten_index : Index :=
  ⟨.Ordered, ["value"], [],
    [("1", 1), ("10", 10), ("2", 2), ("3", 3), ("4", 4), ("5", 5), ("6", 6), ("7", 7),
      ("8", 8), ("9", 9)]⟩

/-- Three values of two digits with their RowIDs, in the order of their keys. -/
def two_digit_entries : List (Int × RowID) := [(10, 1), (25, 2), (40, 3)]

/-- The ordered index over `value` with the keys of `two_digit_entries`. -/
def two_digit_index : Index := ⟨.Ordered, ["value"], [], [("10", 1), ("25", 2), ("40", 3)]⟩

/-- A call of `Index::add_row(row_id, row)` or of `Index::remove_row(row_id, row)`. -/
inductive IndexCall
  | add (row_id : RowID) (row : Binding)
  | remove (row_id : RowID) (row : Binding)
deriving DecidableEq, Repr

/-- The index as one call leaves it behind; a call that throws leaves it as it was. -/
def Index.call (index : Index) : IndexCall → Index
  | .add row_id row => (index.add_row row_id row).2
  | .remove row_id row => (index.remove_row row_id row).2

/-- The index as a sequence of calls leaves it behind. -/
def Index.after (index : Index) (calls : List IndexCall) : Index :=
  calls.foldl Index.call index

/-- One call in the history of a key: a row added under the key joins the RowIDs at the
end, a row removed under the key leaves them. -/
def key_step (columns : List String) (key : String) (ids : List RowID) :
    IndexCall → List RowID
  | .add row_id row =>
    if Index.composite_key row columns "" = .ok key then ids ++ [row_id] else ids
  | .remove row_id row =>
    if Index.composite_key row columns "" = .ok key then ids.filter (fun id => id ≠ row_id)
    else ids

/-- The RowIDs that were added with a row whose composite key is `key` and not since removed
with such a row, in the order they were added. -/
def ids_under_key (columns : List String) (key : String) (calls : List IndexCall) :
    List RowID :=
  calls.foldl (key_step columns key) []

/-- Do the values of a row in every column of an index equal the values of a binding, in
the words of claim C34. -/
def values_agree (columns : List String) (row binding : Binding) : Bool :=
  columns.all (fun col =>
    match row.find col with
    | some v => binding.find col = some v
    | none => false)

/-- One call in the history of the values of a binding: a row added with these values
joins the RowIDs at the end, a row removed with these values leaves them. -/
def value_step (columns : List String) (binding : Binding) (ids : List RowID) :
    IndexCall → List RowID
  | .add row_id row => if values_agree columns row binding then ids ++ [row_id] else ids
  | .remove row_id row =>
    if values_agree columns row binding then ids.filter (fun id => id ≠ row_id) else ids

/-- The RowIDs that were added with a row whose values in the index columns equal the
binding's and not since removed with such a row, in the order they were added: the result
that claim C34 states. -/
def ids_with_values (columns : List String) (binding : Binding) (calls : List IndexCall) :
    List RowID :=
  calls.foldl (value_step columns binding) []

/-- A value whose rendering shows where it ends: a String without the character `"`; every
value of another type. -/
def Value.key_safe : Value → Prop
  | .string s => '"' ∉ s.data
  | _ => True

/-- The row of the rows handed to the calls of an index. -/
def IndexCall.row : IndexCall → Binding
  | .add _ row => row
  | .remove _ row => row

/-- The row with `a = x"|"y` and `b = z`. -/
def quoted_row : Binding := [("a", .string "x\"|\"y"), ("b", .string "z")]

/-- The binding with `a = x` and `b = y"|"z`. -/
def quoted_binding : Binding := [("a", .string "x"), ("b", .string "y\"|\"z")]

/-- The list that `unordered_map_.find(key)` reaches, empty without an entry. -/
def ids_at (map : List (String × List RowID)) (key : String) : List RowID :=
  match map.find? (fun entry => entry.1 = key) with
  | some entry => entry.2
  | none => []

/-- The text that the key loops of `add_row`, `remove_row` and `search_unordered` append
to the key for the columns of an index: for every column the rendering of its value and a
`|`; `none` when the row lacks a column. -/
def key_text (row : Binding) : List String → Option (List Char)
  | [] => some []
  | col :: rest =>
    match row.find col, key_text row rest with
    | some v, some text => some (v.to_string.data ++ '|' :: text)
    | _, _ => none

/-- The row with `a = 7` and `b = red`. -/
def seven_red : Binding := [("a", .int32 7), ("b", .string "red")]

/-- The row with `a = 7` and `b = blue`. -/
def seven_blue : Binding := [("a", .int32 7), ("b", .string "blue")]

/-- A history of an index over `a` and `b`: three rows are added, two of them with the same
values, and the first is removed. -/
def red_blue_calls : List IndexCall :=
  [.add 1 seven_red, .add 2 seven_blue, .add 3 seven_red, .remove 1 seven_red]

/-! # Theorems -/

/-! ## Loops that may throw -/

theorem forM_ok_iff {α : Type} (l : List α) (f : α → Except Exception Unit) :
    l.forM f = .ok () ↔ ∀ x ∈ l, f x = .ok () := by
  induction l with
  | nil => simp [List.forM, pure, Except.pure]
  | cons a as ih =>
    simp only [List.forM, List.mem_cons, forall_eq_or_imp]
    cases h : f a with
    | error e => simp [bind, Except.bind]
    | ok u => simp [bind, Except.bind, ih]

theorem forRange_ok_iff (n : Nat) (f : Nat → Except Exception Unit) :
    forRange n f = .ok () ↔ ∀ i, i < n → f i = .ok () := by
  simp [forRange, forM_ok_iff]

theorem except_unit_cases (r : Except Exception Unit) : r = .ok () ∨ ∃ e, r = .error e := by
  cases r with
  | error e => exact Or.inr ⟨e, rfl⟩
  | ok u => exact Or.inl rfl

theorem lt_length_of_getElem? {α : Type} {l : List α} {i : Nat} {a : α}
    (h : l[i]? = some a) : i < l.length := by
  by_contra hcon
  rw [List.getElem?_eq_none (by omega)] at h
  cases h

/-! ## Rows as a map -/

theorem map_find_emplace_self (rows : List Row) (r : Row) (h : map_find rows r.id = none) :
    map_find (map_emplace rows r) r.id = some r := by
  induction rows with
  | nil => simp [map_emplace, map_find]
  | cons x xs ih =>
    have hx : x.id ≠ r.id := by
      intro heq
      simp [map_find, List.find?, heq] at h
    have hxs : map_find xs r.id = none := by
      simpa [map_find, List.find?, hx] using h
    unfold map_emplace
    split
    · simp [map_find]
    · split
      · rename_i h2; exact absurd h2.symm hx
      · simpa [map_find, List.find?, hx] using ih hxs

theorem map_find_isSome_of_mem (rows : List Row) (id : RowID)
    (h : id ∈ rows.map (fun r => r.id)) : ∃ r, map_find rows id = some r := by
  induction rows with
  | nil => simp at h
  | cons x xs ih =>
    by_cases hx : x.id = id
    · exact ⟨x, by simp [map_find, List.find?, hx]⟩
    · have : id ∈ xs.map (fun r => r.id) := by
        simp only [List.map_cons, List.mem_cons] at h
        rcases h with h | h
        · exact absurd h.symm hx
        · exact h
      obtain ⟨r, hr⟩ := ih this
      exact ⟨r, by simpa [map_find, List.find?, hx] using hr⟩

/-! ## The catalog -/

theorem find_put (tables : List (String × Table)) (name other : String) (t1 : Table) :
    (tables.map (fun e => if e.1 = name then (e.1, t1) else e)).find?
        (fun e => decide (e.1 = other)) =
      (tables.find? (fun e => decide (e.1 = other))).map
        (fun e => if e.1 = name then (e.1, t1) else e) := by
  induction tables with
  | nil => rfl
  | cons e es ih =>
    obtain ⟨k, tb⟩ := e
    simp only [List.map_cons, List.find?_cons]
    by_cases he : k = name
    · subst he
      by_cases ho : k = other
      · subst ho; simp
      · simp [ho, ih]
    · by_cases ho : k = other
      · subst ho; simp [he]
      · simp [he, ho, ih]

theorem get_table_put_table (db : Database) (name : String) (t t1 : Table)
    (h : db.get_table name = .ok t) : (db.put_table name t1).get_table name = .ok t1 := by
  obtain ⟨tables⟩ := db
  simp only [Database.get_table, Database.put_table, find_put] at h ⊢
  cases hf : tables.find? (fun e => decide (e.1 = name)) with
  | none => simp [hf] at h
  | some e =>
    have := List.find?_some hf
    simp at this
    simp [this]

theorem get_table_put_table_other (db : Database) (name other : String) (t1 : Table)
    (h : other ≠ name) : (db.put_table name t1).get_table other = db.get_table other := by
  obtain ⟨tables⟩ := db
  simp only [Database.get_table, Database.put_table, find_put]
  cases hf : tables.find? (fun e => decide (e.1 = other)) with
  | none => simp
  | some e =>
    have := List.find?_some hf
    simp at this
    have hne : e.1 ≠ name := fun h2 => h (this ▸ h2)
    simp [hne]

/-! ## Conditions and select items -/

theorem eval_condition_eq (what : String) (w : Option Expression) (rm : Binding)
    (h : ∀ e, w = some e → ∃ b, e.evaluate rm = .ok (.bool b)) :
    eval_condition what w rm = .ok (where_holds w rm) := by
  cases w with
  | none => rfl
  | some e =>
    obtain ⟨b, hb⟩ := h e rfl
    cases b <;> simp [eval_condition, where_holds, hb]

theorem eval_select_items_eq (items : List SelectItem) (rm : Binding)
    (h : ∀ item ∈ items, ∃ v, item.expression.evaluate rm = .ok v) :
    eval_select_items items rm = .ok (item_values items rm) := by
  induction items with
  | nil => rfl
  | cons item rest ih =>
    obtain ⟨v, hv⟩ := h item (List.mem_cons_self _ _)
    have ih1 := ih (fun it hit => h it (List.mem_cons_of_mem _ hit))
    simp [eval_select_items, hv, ih1, item_values]

theorem select_rows_eq (columns : List Column) (pq : ParsedQuery) (rows : List Row)
    (hw : ∀ row ∈ rows, ∀ e, pq.where_clause = some e →
      ∃ b, e.evaluate (row_map_of columns row) = .ok (.bool b))
    (hi : ∀ row ∈ rows, where_holds pq.where_clause (row_map_of columns row) = true →
      ∀ item ∈ pq.select_items, ∃ v, item.expression.evaluate (row_map_of columns row) = .ok v) :
    select_rows columns pq rows =
      .ok ((rows.filter (fun row => where_holds pq.where_clause (row_map_of columns row))).map
        (fun row => item_values pq.select_items (row_map_of columns row))) := by
  induction rows with
  | nil => rfl
  | cons row rest ih =>
    have ih1 := ih (fun r hr => hw r (List.mem_cons_of_mem _ hr))
      (fun r hr => hi r (List.mem_cons_of_mem _ hr))
    have hc := eval_condition_eq "WHERE clause" pq.where_clause (row_map_of columns row)
      (hw row (List.mem_cons_self _ _))
    unfold select_rows
    simp only [hc]
    cases hm : where_holds pq.where_clause (row_map_of columns row) with
    | false => simp [ih1, hm]
    | true =>
      have hit := eval_select_items_eq pq.select_items (row_map_of columns row)
        (hi row (List.mem_cons_self _ _) hm)
      simp [ih1, hm, hit]

theorem rows_to_delete_eq (columns : List Column) (pq : ParsedQuery) (rows : List Row)
    (hw : ∀ row ∈ rows, ∀ e, pq.delete_where_clause = some e →
      ∃ b, e.evaluate (row_map_of columns row) = .ok (.bool b)) :
    rows_to_delete columns pq rows =
      .ok ((rows.filter
        (fun row => where_holds pq.delete_where_clause (row_map_of columns row))).map
          (fun row => row.id)) := by
  induction rows with
  | nil => rfl
  | cons row rest ih =>
    have ih1 := ih (fun r hr => hw r (List.mem_cons_of_mem _ hr))
    have hc := eval_condition_eq "WHERE clause" pq.delete_where_clause (row_map_of columns row)
      (hw row (List.mem_cons_self _ _))
    unfold rows_to_delete
    simp only [hc, ih1]
    cases hm : where_holds pq.delete_where_clause (row_map_of columns row) <;> simp [hm]

theorem delete_rows_eq (ids : List RowID) (t : Table)
    (hmem : ∀ id ∈ ids, id ∈ t.rows.map (fun r => r.id)) (hnd : ids.Nodup) :
    delete_rows t ids =
      (.ok (), { t with rows := t.rows.filter (fun r => decide (r.id ∉ ids)) }) := by
  induction ids generalizing t with
  | nil => simp [delete_rows]
  | cons id rest ih =>
    obtain ⟨r, hr⟩ := map_find_isSome_of_mem t.rows id (hmem id (List.mem_cons_self _ _))
    have hnd1 := List.nodup_cons.mp hnd
    have hmem1 : ∀ j ∈ rest, j ∈ (map_erase t.rows id).map (fun r => r.id) := by
      intro j hj
      have hjin := hmem j (List.mem_cons_of_mem _ hj)
      have hne : j ≠ id := fun h => hnd1.1 (h ▸ hj)
      simp only [List.mem_map, map_erase, List.mem_filter] at hjin ⊢
      obtain ⟨x, hx, hxid⟩ := hjin
      exact ⟨x, ⟨hx, by simp [hxid, hne]⟩, hxid⟩
    have ih1 := ih { t with rows := map_erase t.rows id } hmem1 hnd1.2
    unfold delete_rows
    simp only [Table.delete_row, hr, ih1]
    simp only [map_erase, List.filter_filter, List.mem_cons, not_or]
    congr 2
    apply List.filter_congr
    intro x _
    by_cases h1 : x.id = id <;> simp [h1]

theorem switch_equal_self (v : Value) (h : v ≠ Value.null) : switch_equal v v = .ok true := by
  cases v <;>
    simp_all [switch_equal, Value.get_type, Value.get_int, Value.get_bool, Value.get_string,
      Value.get_bytes]


/-! ## Claims on the table store -/

/-- Claim C1, evaluated on the code: the uniqueness invariant does not survive the
operations. Starting from a new table with the one column `{key, autoincrement} id`,
inserting the value 2 and then inserting with the slot omitted stores the substituted
`next_row_id` 2 a second time; and `execute_update` writes an e-mail address that
another row already holds into a `{unique}` column. Both runs succeed and leave a table
whose Key/Unique column holds one value in two rows. -/
theorem uniqueness_invariant_violated :
    (∃ t0 t1 t2 : Table,
      Table.new "t" [id_column] = .ok t0 ∧
      t0.insert_row [some (.int32 2)] = (.ok 1, t1) ∧
      t1.insert_row [none] = (.ok 2, t2) ∧
      t2.rows = [⟨1, [some (.int32 2)]⟩, ⟨2, [some (.int32 2)]⟩] ∧
      ¬ unique_columns_injective t2) ∧
    (∃ (db1 : Database) (t : Table),
      execute_update update_email ⟨[("users", unique_email_users)]⟩ =
        (.ok (QueryResult.of_data [[some (.int32 1)]]), db1) ∧
      db1.get_table "users" = .ok t ∧
      ¬ unique_columns_injective t) := by
  constructor
  · refine ⟨⟨"t", [id_column], [], [], 1⟩,
      ⟨"t", [id_column], [⟨1, [some (.int32 2)]⟩], [], 2⟩,
      ⟨"t", [id_column], [⟨1, [some (.int32 2)]⟩, ⟨2, [some (.int32 2)]⟩], [], 3⟩,
      by decide, by decide, by decide, rfl, ?_⟩
    intro h
    have h1 := h 0 id_column rfl (Or.inl (by decide))
      ⟨1, [some (.int32 2)]⟩ (by simp) ⟨2, [some (.int32 2)]⟩ (by simp) (.int32 2) rfl rfl
    simp at h1
  · refine ⟨⟨[("users", duplicated_email_users)]⟩, duplicated_email_users,
      by decide, by decide, ?_⟩
    intro h
    have h1 := h 2 ⟨"email", ⟨Ty.String, 50⟩, [.Unique], none⟩ rfl (Or.inr (by decide))
      ⟨1, [some (.int32 1), some (.string "alice"), some (.string "alice@example.com")]⟩
      (by simp [duplicated_email_users])
      ⟨2, [some (.int32 2), some (.string "bob"), some (.string "alice@example.com")]⟩
      (by simp [duplicated_email_users]) (.string "alice@example.com") rfl rfl
    simp at h1

/-- Claim C2: `Table::insert_row(values)` fails whenever a supplied non-NULL value sits in
a Key or Unique column and equals the value an existing row holds in that column, and
the table after the failed call is the table before it (rows, values, `next_row_id`). -/
theorem insert_row_duplicate_fails (t : Table) (values : List (Option Value)) (i : Nat)
    (v : Value) (column : Column) (row : Row)
    (hv : values[i]? = some (some v)) (hnn : v ≠ Value.null)
    (hc : t.columns[i]? = some column)
    (hattr : column.has_attribute .Key = true ∨ column.has_attribute .Unique = true)
    (hrow : row ∈ t.rows) (hval : row.values[i]? = some (some v)) :
    ∃ e, t.insert_row values = (.error e, t) := by
  have hnot : t.validate_row values ≠ .ok () := by
    intro hok
    unfold Table.validate_row at hok
    split at hok
    · cases hok
    · split at hok
      · cases hok
      · rw [forRange_ok_iff] at hok
        have h1 := hok i (lt_length_of_getElem? hv)
        unfold Table.validate_row_unique at h1
        rw [hv, hc] at h1
        simp only at h1
        have hb : (column.has_attribute .Unique || column.has_attribute .Key) = true := by
          rcases hattr with h | h <;> simp [h]
        rw [if_pos hb, forM_ok_iff] at h1
        have h2 := h1 row hrow
        simp [Table.validate_row_against, Row.get_value, hval, switch_equal_self v hnn] at h2
  unfold Table.insert_row
  rcases except_unit_cases (t.validate_row values) with h | ⟨e, h⟩
  · exact absurd h hnot
  · exact ⟨e, by rw [h]⟩

/-- Scenario S2: the second insert of `"a@x"` into `u ({unique} email: string[20])` fails
and leaves the table as it was. -/
theorem insert_row_duplicate_fails_witness :
    ∃ e, s2_table.insert_row [some (.string "a@x")] = (.error e, s2_table) :=
  insert_row_duplicate_fails s2_table [some (.string "a@x")] 0 (.string "a@x")
    ⟨"email", ⟨Ty.String, 20⟩, [.Unique], none⟩ ⟨1, [some (.string "a@x")]⟩
    rfl (by decide) rfl (Or.inr (by decide)) (by simp [s2_table]) rfl

/-- Claim C3: the insert completion rule. After a successful `Table::insert_row(values)`
on a table whose `next_row_id` is not yet the RowID of a row, the returned RowID is the
pre-call `next_row_id` and the row stored under it has one slot per column, holding at
position `i`: `values[i]` if it was supplied and non-NULL; otherwise the pre-call
`next_row_id` as Int32 if the column is AutoIncrement; otherwise the column's default if
it has one; otherwise NULL. So an AutoIncrement slot is never NULL, and an omitted slot
of a column that is not AutoIncrement and has a default holds that default. -/
theorem insert_row_completion (t t1 : Table) (values : List (Option Value)) (id : RowID)
    (hfresh : map_find t.rows t.next_row_id = none)
    (h : t.insert_row values = (.ok id, t1)) :
    id = t.next_row_id ∧
    ∃ row, map_find t1.rows id = some row ∧ row.values.length = t.columns.length ∧
      (∀ (i : Nat) (column : Column), t.columns[i]? = some column →
        ((∃ v, values[i]? = some (some v) ∧ row.values[i]? = some (some v)) ∨
         ((values[i]? = none ∨ values[i]? = some none) ∧
            column.has_attribute .AutoIncrement = true ∧
            row.values[i]? = some (some (Value.int32 (to_int32 t.next_row_id)))) ∨
         ((values[i]? = none ∨ values[i]? = some none) ∧
            column.has_attribute .AutoIncrement = false ∧
            ∃ d, column.default_value = some d ∧ row.values[i]? = some (some d)) ∨
         ((values[i]? = none ∨ values[i]? = some none) ∧
            column.has_attribute .AutoIncrement = false ∧
            column.default_value = none ∧ row.values[i]? = some none))) ∧
      (∀ (i : Nat) (column : Column), t.columns[i]? = some column →
        column.has_attribute .AutoIncrement = true → ∃ v, row.values[i]? = some (some v)) ∧
      (∀ (i : Nat) (column : Column) (d : Value), t.columns[i]? = some column →
        column.has_attribute .AutoIncrement = false → column.default_value = some d →
        (values[i]? = none ∨ values[i]? = some none) → row.values[i]? = some (some d)) := by
  unfold Table.insert_row at h
  cases hvr : t.validate_row values with
  | error e => rw [hvr] at h; simp at h
  | ok u =>
    rw [hvr] at h
    simp only [Prod.mk.injEq, Except.ok.injEq] at h
    obtain ⟨hid, ht1⟩ := h
    subst ht1
    have key : ∀ (i : Nat) (column : Column), t.columns[i]? = some column →
        ((List.range t.columns.length).map (Table.complete_value t values))[i]? =
          some (match values[i]? with
            | some (some v) => some v
            | _ =>
              if column.has_attribute .AutoIncrement then
                some (Value.int32 (to_int32 t.next_row_id))
              else
                match column.default_value with
                | some d => some d
                | none => none) := by
      intro i column hc
      simp only [List.getElem?_map, List.getElem?_range (lt_length_of_getElem? hc),
        Option.map_some']
      unfold Table.complete_value
      rw [hc]
    refine ⟨hid.symm,
      ⟨t.next_row_id, (List.range t.columns.length).map (Table.complete_value t values)⟩,
      ?_, ?_, ?_, ?_, ?_⟩
    · rw [← hid]
      exact map_find_emplace_self t.rows ⟨t.next_row_id, _⟩ hfresh
    · simp
    · intro i column hc
      simp only [key i column hc]
      rcases hvi : values[i]? with _ | _ | v
      · cases hA : column.has_attribute .AutoIncrement
        · cases hd : column.default_value <;> simp [hA, hd]
        · simp [hA]
      · cases hA : column.has_attribute .AutoIncrement
        · cases hd : column.default_value <;> simp [hA, hd]
        · simp [hA]
      · simp
    · intro i column hc hA
      simp only [key i column hc]
      rcases hvi : values[i]? with _ | _ | v <;> simp [hA]
    · intro i column d hc hA hd hvi
      simp only [key i column hc]
      rcases hvi with hvi | hvi <;> simp [hvi, hA, hd]

/-- The insert of `InsertTest.EmptyValuesForDefaults`, `insert (, "bob", ) to users`:
the stored row is `(1, "bob", false)`. -/
theorem insert_row_completion_witness :
    map_find defaults_table.rows defaults_table.next_row_id = none ∧
    defaults_table.insert_row [none, some (.string "bob"), none] =
      (.ok 1, { defaults_table with
        rows := [⟨1, [some (.int32 1), some (.string "bob"), some (.bool false)]⟩],
        next_row_id := 2 }) ∧
    ∃ row, map_find [(⟨1, [some (.int32 1), some (.string "bob"), some (.bool false)]⟩ : Row)] 1
        = some row ∧
      ∀ (i : Nat) (column : Column), defaults_table.columns[i]? = some column →
        column.has_attribute .AutoIncrement = true → ∃ v, row.values[i]? = some (some v) :=
  ⟨by decide, by decide,
    match insert_row_completion defaults_table
      { defaults_table with
        rows := [⟨1, [some (.int32 1), some (.string "bob"), some (.bool false)]⟩],
        next_row_id := 2 }
      [none, some (.string "bob"), none] 1 (by decide) (by decide) with
    | ⟨_, row, h1, _, _, h4, _⟩ => ⟨row, h1, h4⟩⟩

/-! ## Claims on the executor -/

/-- Claim C4: a select without join on table `t`, whose where-expression (when present)
evaluates to a Bool on every row and whose select items evaluate on every matching row,
succeeds and returns, in the order of the rows of `t` (ascending RowID), exactly one
result row for each row on which the where-expression evaluates to Bool true, namely the
list of the select items' values on the binding of that row; when the where-expression
is absent or the literal `true` there is one result row for every row of `t`. -/
theorem execute_select_no_join (pq : ParsedQuery) (db : Database) (table : Table)
    (hj : pq.joins = []) (ht : db.get_table pq.table_name = .ok table)
    (hw : ∀ row ∈ table.rows, ∀ e, pq.where_clause = some e →
      ∃ b, e.evaluate (row_map_of table.columns row) = .ok (.bool b))
    (hi : ∀ row ∈ table.rows,
      where_holds pq.where_clause (row_map_of table.columns row) = true →
      ∀ item ∈ pq.select_items,
        ∃ v, item.expression.evaluate (row_map_of table.columns row) = .ok v) :
    (execute_select pq db).is_ok = true ∧
    (execute_select pq db).data =
      (table.rows.filter
        (fun row => where_holds pq.where_clause (row_map_of table.columns row))).map
        (fun row => item_values pq.select_items (row_map_of table.columns row)) ∧
    ((pq.where_clause = none ∨ pq.where_clause = some (.Literal (.bool true))) →
      (execute_select pq db).data =
        table.rows.map
          (fun row => item_values pq.select_items (row_map_of table.columns row))) := by
  have hsel := select_rows_eq table.columns pq table.rows hw hi
  have hres : execute_select pq db = QueryResult.of_data_columns
      ((table.rows.filter
        (fun row => where_holds pq.where_clause (row_map_of table.columns row))).map
        (fun row => item_values pq.select_items (row_map_of table.columns row)))
      (pq.select_items.map
        (fun item =>
          ColumnInfo.mk item.alias_name (DataType.of_type item.expression.get_type))) := by
    unfold execute_select
    simp [hj, ht, hsel]
  refine ⟨by rw [hres]; rfl, by rw [hres]; rfl, ?_⟩
  intro hall
  rw [hres]
  have : ∀ rm, where_holds pq.where_clause rm = true := by
    intro rm
    rcases hall with h | h <;> simp [h, where_holds, Expression.evaluate]
  simp [QueryResult.of_data_columns, this]

/-- Scenario S1: `select id, name from users where id > 0` returns `(1, "ada")` and
`(2, "bob")` in that order. -/
theorem execute_select_no_join_witness :
    (execute_select s1_select s4_db).is_ok = true ∧
    (execute_select s1_select s4_db).data =
      [[some (.int32 1), some (.string "ada")], [some (.int32 2), some (.string "bob")]] :=
  have h := execute_select_no_join s1_select s4_db s4_users rfl rfl
    (by
      intro row hrow e he
      cases he
      simp only [s4_users, List.mem_cons, List.mem_singleton, List.not_mem_nil, or_false] at hrow
      rcases hrow with rfl | rfl
      · exact ⟨true, by decide⟩
      · exact ⟨true, by decide⟩)
    (by
      intro row hrow _ item hitem
      simp only [s4_users, List.mem_cons, List.mem_singleton, List.not_mem_nil, or_false] at hrow
      simp only [s1_select, List.mem_cons, List.mem_singleton, List.not_mem_nil, or_false]
        at hitem
      rcases hrow with rfl | rfl <;> rcases hitem with rfl | rfl
      · exact ⟨.int32 1, by decide⟩
      · exact ⟨.string "ada", by decide⟩
      · exact ⟨.int32 2, by decide⟩
      · exact ⟨.string "bob", by decide⟩)
  ⟨h.1, h.2.1.trans (by decide)⟩

/-- Claim C5, evaluated on the code: the join of scenario S4. The tables are the ones
the scenario's inserts build; the join branch binds a column of `users` under the key
`users.users.id`, so the join condition `users.id = posts.uid` finds no column
`users.id` and `execute_select` returns an error result, not the three pairings. A join
whose condition is the literal `true` fails in the same way on its first select item. -/
theorem join_scenario_returns_error :
    (∃ t0 t1 : Table,
      Table.new "users" [id_column, ⟨"name", ⟨Ty.String, 8⟩, [], none⟩] = .ok t0 ∧
      t0.insert_row [none, some (.string "ada")] = (.ok 1, t1) ∧
      t1.insert_row [none, some (.string "bob")] = (.ok 2, s4_users)) ∧
    (∃ t0 t1 t2 : Table,
      Table.new "posts"
        [id_column, ⟨"uid", ⟨Ty.Int32, 0⟩, [], none⟩, ⟨"txt", ⟨Ty.String, 16⟩, [], none⟩]
        = .ok t0 ∧
      t0.insert_row [none, some (.int32 1), some (.string "hi")] = (.ok 1, t1) ∧
      t1.insert_row [none, some (.int32 2), some (.string "yo")] = (.ok 2, t2) ∧
      t2.insert_row [none, some (.int32 1), some (.string "bye")] = (.ok 3, s4_posts)) ∧
    execute_select s4_join s4_db = QueryResult.of_error "Column not found: users.id" ∧
    (execute_select s4_join s4_db).is_ok = false ∧
    execute_select { s4_join with joins := [⟨"posts", "", .Literal (.bool true)⟩] } s4_db =
      QueryResult.of_error
        "Error evaluating expression in SELECT clause: Column not found: users.name" := by
  refine ⟨⟨⟨"users", [id_column, ⟨"name", ⟨Ty.String, 8⟩, [], none⟩], [], [], 1⟩,
      ⟨"users", [id_column, ⟨"name", ⟨Ty.String, 8⟩, [], none⟩],
        [⟨1, [some (.int32 1), some (.string "ada")]⟩], [], 2⟩, by decide, by decide, by decide⟩,
    ⟨⟨"posts", s4_posts.columns, [], [], 1⟩,
      ⟨"posts", s4_posts.columns,
        [⟨1, [some (.int32 1), some (.int32 1), some (.string "hi")]⟩], [], 2⟩,
      ⟨"posts", s4_posts.columns,
        [⟨1, [some (.int32 1), some (.int32 1), some (.string "hi")]⟩,
         ⟨2, [some (.int32 2), some (.int32 2), some (.string "yo")]⟩], [], 3⟩,
      by decide, by decide, by decide, by decide⟩,
    by decide, by decide, by decide⟩

/-- Claim C7, evaluated on the code: `execute_update` applies no uniqueness and no length
check. The update of `UpdateTest.UpdateWithUniqueConstraintViolation` returns a success
result with count 1 and stores in the `{unique}` column `email` of row 2 the address row
1 holds; the update of `UpdateTest.UpdateStringExceedsMaxLength` returns a success
result with count 1 and stores a six-character value in a `string[5]` column. -/
theorem update_stores_duplicate_and_overlong :
    execute_update update_email ⟨[("users", unique_email_users)]⟩ =
      (.ok (QueryResult.of_data [[some (.int32 1)]]), ⟨[("users", duplicated_email_users)]⟩) ∧
    (Database.execute_handlers
      (execute_update update_email ⟨[("users", unique_email_users)]⟩).1).is_ok = true ∧
    execute_update update_code ⟨[("test_table", code_table)]⟩ =
      (.ok (QueryResult.of_data [[some (.int32 1)]]),
        ⟨[("test_table",
          { code_table with rows := [⟨1, [some (.int32 1), some (.string "123456")]⟩] })]⟩) ∧
    (Database.execute_handlers
      (execute_update update_code ⟨[("test_table", code_table)]⟩).1).is_ok = true := by
  refine ⟨by decide, by decide, by decide, by decide⟩

/-- Claim C8, evaluated on the code: `execute_update` has no guard for AutoIncrement
columns. The update of `UpdateTest.UpdateAutoIncrementColumn`,
`update tickets set ticket_id = 100 where issue = "Issue with login"`, returns a success
result with count 1 and rewrites the AutoIncrement column of the row from 1 to 100. -/
theorem update_rewrites_autoincrement_column :
    execute_update update_ticket_id ⟨[("tickets", tickets_table)]⟩ =
      (.ok (QueryResult.of_data [[some (.int32 1)]]),
        ⟨[("tickets",
          { tickets_table with
            rows := [⟨1, [some (.int32 100), some (.string "Issue with login"),
              some (.string "open")]⟩] })]⟩) ∧
    (Database.execute_handlers
      (execute_update update_ticket_id ⟨[("tickets", tickets_table)]⟩).1).is_ok = true := by
  refine ⟨by decide, by decide⟩

/-- Claim C9: a delete on a table with fewer than 2^31 rows, whose where-expression (when
present) evaluates to a Bool on every row, returns the number of rows on which it
evaluates to true, removes exactly those rows and leaves every other row, with its RowID
and values and in the same relative order, and every other table, unchanged; with
`where false` the returned count is 0 and the table after the call is the table before
it. -/
theorem execute_delete_removes_matching (pq : ParsedQuery) (db : Database) (table : Table)
    (ht : db.get_table pq.table_name = .ok table)
    (hkeys : (table.rows.map (fun r => r.id)).Nodup)
    (hsize : table.rows.length < 2 ^ 31)
    (hw : ∀ row ∈ table.rows, ∀ e, pq.delete_where_clause = some e →
      ∃ b, e.evaluate (row_map_of table.columns row) = .ok (.bool b)) :
    (execute_delete pq db).1 = .ok (QueryResult.of_data [[some (Value.int32
      ((table.rows.filter (fun row =>
        where_holds pq.delete_where_clause (row_map_of table.columns row))).length : Nat))]]) ∧
    (execute_delete pq db).2.get_table pq.table_name = .ok
      { table with rows := table.rows.filter (fun row =>
          !where_holds pq.delete_where_clause (row_map_of table.columns row)) } ∧
    (∀ other, other ≠ pq.table_name →
      (execute_delete pq db).2.get_table other = db.get_table other) ∧
    (pq.delete_where_clause = some (.Literal (.bool false)) →
      (execute_delete pq db).1 = .ok (QueryResult.of_data [[some (Value.int32 0)]]) ∧
      (execute_delete pq db).2.get_table pq.table_name = .ok table) := by
  have hrt := rows_to_delete_eq table.columns pq table.rows hw
  have hmem : ∀ id ∈ (table.rows.filter (fun row =>
      where_holds pq.delete_where_clause (row_map_of table.columns row))).map (fun row => row.id),
      id ∈ table.rows.map (fun r => r.id) := by
    intro id hid
    simp only [List.mem_map, List.mem_filter] at hid ⊢
    obtain ⟨x, ⟨hx, _⟩, hxid⟩ := hid
    exact ⟨x, hx, hxid⟩
  have hnd : ((table.rows.filter (fun row =>
      where_holds pq.delete_where_clause (row_map_of table.columns row))).map
        (fun row => row.id)).Nodup :=
    List.Nodup.sublist (List.Sublist.map _ (List.filter_sublist _)) hkeys
  have hdel := delete_rows_eq _ table hmem hnd
  have hfilter : table.rows.filter (fun r => decide (r.id ∉ (table.rows.filter (fun row =>
      where_holds pq.delete_where_clause (row_map_of table.columns row))).map (fun row => row.id)))
      = table.rows.filter (fun row =>
          !where_holds pq.delete_where_clause (row_map_of table.columns row)) := by
    apply List.filter_congr
    intro x hx
    have hinj := List.inj_on_of_nodup_map hkeys
    by_cases hm : where_holds pq.delete_where_clause (row_map_of table.columns x) = true
    · have : x.id ∈ (table.rows.filter (fun row =>
          where_holds pq.delete_where_clause (row_map_of table.columns row))).map
            (fun row => row.id) :=
        List.mem_map.mpr ⟨x, List.mem_filter.mpr ⟨hx, hm⟩, rfl⟩
      simp [this, hm]
    · have : x.id ∉ (table.rows.filter (fun row =>
          where_holds pq.delete_where_clause (row_map_of table.columns row))).map
            (fun row => row.id) := by
        intro hin
        obtain ⟨y, hy, hyid⟩ := List.mem_map.mp hin
        obtain ⟨hy1, hy2⟩ := List.mem_filter.mp hy
        have := hinj hy1 hx hyid
        subst this
        exact hm hy2
      simp [this, hm]
  have hlen : (table.rows.filter (fun row =>
      where_holds pq.delete_where_clause (row_map_of table.columns row))).length < 2 ^ 31 :=
    lt_of_le_of_lt (List.length_filter_le _ _) hsize
  have hcount : to_int32 (table.rows.filter (fun row =>
      where_holds pq.delete_where_clause (row_map_of table.columns row))).length =
      ((table.rows.filter (fun row =>
        where_holds pq.delete_where_clause (row_map_of table.columns row))).length : Nat) := by
    unfold to_int32
    have h1 : (table.rows.filter (fun row =>
      where_holds pq.delete_where_clause (row_map_of table.columns row))).length % 2 ^ 32 =
      (table.rows.filter (fun row =>
      where_holds pq.delete_where_clause (row_map_of table.columns row))).length :=
      Nat.mod_eq_of_lt (by omega)
    rw [h1, if_pos hlen]
  have hres : execute_delete pq db =
      (.ok (QueryResult.of_data [[some (Value.int32
        ((table.rows.filter (fun row =>
          where_holds pq.delete_where_clause (row_map_of table.columns row))).length : Nat))]]),
       db.put_table pq.table_name { table with rows := table.rows.filter (fun row =>
          !where_holds pq.delete_where_clause (row_map_of table.columns row)) }) := by
    unfold execute_delete
    simp only [ht, hrt, hdel, hfilter, List.length_map, hcount]
  refine ⟨by rw [hres], by rw [hres]; exact get_table_put_table _ _ _ _ ht,
    fun other ho => by rw [hres]; exact get_table_put_table_other _ _ _ _ ho, ?_⟩
  intro hfalse
  have hnone : ∀ rm, where_holds pq.delete_where_clause rm = false := by
    intro rm
    simp [hfalse, where_holds, Expression.evaluate]
  rw [hres]
  constructor
  · simp [hnone]
  · simp only [hnone, Bool.not_false, List.filter_true]
    exact get_table_put_table _ _ _ _ ht

/-- The delete `delete users where name = "ada"` on the tables of scenario S4 returns 1,
leaves the row of bob in `users` and leaves `posts` as it was. -/
theorem execute_delete_removes_matching_witness :
    (execute_delete delete_ada s4_db).1 = .ok (QueryResult.of_data [[some (Value.int32 1)]]) ∧
    (execute_delete delete_ada s4_db).2.get_table "users" = .ok
      { s4_users with rows := [⟨2, [some (.int32 2), some (.string "bob")]⟩] } ∧
    (execute_delete delete_ada s4_db).2.get_table "posts" = .ok s4_posts :=
  have h := execute_delete_removes_matching delete_ada s4_db s4_users rfl (by decide)
    (by decide)
    (by
      intro row hrow e he
      cases he
      simp only [s4_users, List.mem_cons, List.mem_singleton, List.not_mem_nil, or_false] at hrow
      rcases hrow with rfl | rfl
      · exact ⟨true, by decide⟩
      · exact ⟨false, by decide⟩)
  ⟨h.1.trans (by decide), h.2.1.trans (by decide), (h.2.2.1 "posts" (by decide)).trans (by decide)⟩

/-- Claim C6, evaluated on the code: the update statement of
`UpdateTest.UpdateWithNoMatchingRows`. `QueryParser::parse` stores the condition in the
member `where_clause` of the plan and leaves `update_where_clause` null, while
`execute_update` reads `update_where_clause`; so although the condition evaluates to
false on the only row, that row is rewritten (quantity 100 becomes 110) and the returned
count is 1, not 0. -/
theorem update_condition_is_not_applied
    (other_branches : String → String → List Char → Except Exception ParsedQuery) :
    QueryParser.parse other_branches update_gadget_query = .ok update_gadget_plan ∧
    update_gadget_plan.update_where_clause = none ∧
    gadget_condition.evaluate
      (row_map_of inventory_table.columns
        ⟨1, [some (.int32 1), some (.string "Widget"), some (.int32 100)]⟩) =
      .ok (.bool false) ∧
    execute_update update_gadget_plan ⟨[("inventory", inventory_table)]⟩ =
      (.ok (QueryResult.of_data [[some (.int32 1)]]),
        ⟨[("inventory",
          { inventory_table with
            rows := [⟨1, [some (.int32 1), some (.string "Widget"), some (.int32 110)]⟩] })]⟩) := by
  refine ⟨by rfl, rfl, by decide, by decide⟩

/-! ## Decimal and hexadecimal renderings read back -/

theorem digitChar_lt_ten (k : Nat) (h : k < 10) :
    isdigit (Nat.digitChar k) = true ∧ (Nat.digitChar k).toNat - '0'.toNat = k := by
  interval_cases k <;> decide

theorem digits_value_append (l : List Char) (c : Char) :
    digits_value (l ++ [c]) = 10 * digits_value l + (c.toNat - '0'.toNat) := by
  simp [digits_value, List.foldl_append]

theorem toDigitsCore_spec (fuel : Nat) : ∀ (n : Nat) (ds : List Char), n < fuel →
    ∃ l : List Char, Nat.toDigitsCore 10 fuel n ds = l ++ ds ∧ digits_value l = n ∧
      l ≠ [] ∧ (∀ c ∈ l, isdigit c = true) ∧ l.length ≤ n / 2 + 1 := by
  induction fuel with
  | zero => intro n ds h; omega
  | succ fuel ih =>
    intro n ds h
    unfold Nat.toDigitsCore
    have hd := digitChar_lt_ten (n % 10) (Nat.mod_lt _ (by omega))
    by_cases h0 : n / 10 = 0
    · refine ⟨[Nat.digitChar (n % 10)], by simp [h0], ?_, by simp, by simpa using hd.1,
        by simp⟩
      have h48 : '0'.toNat = 48 := rfl
      have h2 := hd.2
      rw [h48] at h2
      simp only [digits_value, List.foldl, Nat.mul_zero, Nat.zero_add, h48]
      omega
    · obtain ⟨l, hl, hv, hne, hall, hlen⟩ :=
        ih (n / 10) (Nat.digitChar (n % 10) :: ds) (by omega)
      refine ⟨l ++ [Nat.digitChar (n % 10)], by simp [h0, hl], ?_, by simp, ?_, ?_⟩
      · rw [digits_value_append, hv, hd.2]; omega
      · intro c hc
        simp only [List.mem_append, List.mem_singleton] at hc
        rcases hc with hc | hc
        · exact hall c hc
        · rw [hc]; exact hd.1
      · simp only [List.length_append, List.length_singleton]
        omega

theorem repr_digits (n : Nat) :
    digits_value (Nat.repr n).data = n ∧ (Nat.repr n).data ≠ [] ∧
      (∀ c ∈ (Nat.repr n).data, isdigit c = true) ∧ (Nat.repr n).data.length ≤ n / 2 + 1 := by
  obtain ⟨l, hl, hv, hne, hall, hlen⟩ := toDigitsCore_spec (n + 1) n [] (by omega)
  have : (Nat.repr n).data = l := by
    simp [Nat.repr, Nat.toDigits, hl, List.asString]
  rw [this]
  exact ⟨hv, hne, hall, hlen⟩

theorem isdigit_bounds {c : Char} (h : isdigit c = true) : 48 ≤ c.toNat ∧ c.toNat ≤ 57 := by
  simp only [isdigit, Bool.and_eq_true, decide_eq_true_eq] at h
  exact h

theorem isspace_of_isdigit {c : Char} (h : isdigit c = true) : isspace c = false := by
  have hb := isdigit_bounds h
  simp only [isspace, Bool.or_eq_false_iff, decide_eq_false_iff_not]
  refine ⟨⟨⟨⟨⟨?_, ?_⟩, ?_⟩, ?_⟩, ?_⟩, ?_⟩ <;>
    (intro hc; rw [hc] at hb; revert hb; decide)

theorem skip_whitespace_digit (c : Char) (rest : List Char) (h : isdigit c = true) :
    Lexer.skip_whitespace (c :: rest) = c :: rest := by
  simp [Lexer.skip_whitespace, isspace_of_isdigit h]

theorem takeWhile_all {α : Type} (p : α → Bool) (l : List α) (h : ∀ c ∈ l, p c = true) :
    l.takeWhile p = l := by
  induction l with
  | nil => rfl
  | cons a as ih =>
    simp [List.takeWhile, h a (List.mem_cons_self _ _),
      ih (fun c hc => h c (List.mem_cons_of_mem _ hc))]

theorem parse_decimal_repr (n : Nat) : parse_decimal (Nat.repr n) = some (n : Int) := by
  obtain ⟨hv, hne, hall, _⟩ := repr_digits n
  obtain ⟨c, rest, hcr⟩ := List.exists_cons_of_ne_nil hne
  have hc : isdigit c = true := hall c (by rw [hcr]; exact List.mem_cons_self _ _)
  have hcm : c ≠ '-' := by intro h; rw [h] at hc; revert hc; decide
  have hcp : c ≠ '+' := by intro h; rw [h] at hc; revert hc; decide
  unfold parse_decimal
  simp only [hcr, skip_whitespace_digit c rest hc, List.head?_cons, Option.some.injEq, hcm, hcp,
    or_self, if_false, decide_False]
  rw [← hcr, takeWhile_all isdigit _ hall, hv]
  simp [hne]

theorem parse_decimal_neg_repr (n : Nat) :
    parse_decimal ("-" ++ Nat.repr n) = some (-(n : Int)) := by
  obtain ⟨hv, hne, hall, _⟩ := repr_digits n
  unfold parse_decimal
  have hd : ("-" ++ Nat.repr n).data = '-' :: (Nat.repr n).data := by
    simp [String.data_append]
  have hs : Lexer.skip_whitespace ('-' :: (Nat.repr n).data) = '-' :: (Nat.repr n).data := by
    simp [Lexer.skip_whitespace, isspace]
  simp only [hd, hs]
  simp [takeWhile_all isdigit _ hall, hv, hne]

theorem parse_decimal_int_repr (v : Int) : parse_decimal v.repr = some v := by
  cases v with
  | ofNat n => simpa [Int.repr] using parse_decimal_repr n
  | negSucc m =>
    have := parse_decimal_neg_repr (m + 1)
    simp only [Int.repr, Nat.succ_eq_add_one]
    rw [this]
    rfl

theorem stoi_repr (v : Int) (h1 : -(2 ^ 31) ≤ v) (h2 : v < 2 ^ 31) : stoi v.repr = .ok v := by
  unfold stoi
  rw [parse_decimal_int_repr]
  simp only
  rw [if_neg (by omega)]

theorem stoul_repr (n : Nat) (h : n < 2 ^ 64) : stoul (Nat.repr n) = .ok n := by
  unfold stoul
  rw [parse_decimal_repr]
  simp only [Int.natAbs_ofNat]
  rw [if_neg (by omega)]
  congr 1
  have : ((n : Int) % 2 ^ 64) = (n : Int) := Int.emod_eq_of_lt (by omega) (by exact_mod_cast h)
  rw [this]
  simp

theorem hex_char_spec (n : Nat) (h : n < 16) :
    isxdigit (hex_char n) = true ∧ hex_value (hex_char n) = n := by
  interval_cases n <;> decide

theorem hex_byte_pair (b : Nat) (h : b < 256) :
    hex_byte [hex_char ((b / 16) % 16), hex_char (b % 16)] = some b := by
  have h1 := hex_char_spec ((b / 16) % 16) (Nat.mod_lt _ (by omega))
  have h2 := hex_char_spec (b % 16) (Nat.mod_lt _ (by omega))
  simp only [hex_byte, h1.1, h1.2, h2.1, h2.2, if_true]
  congr 1
  omega

theorem hex_bytes_digits (what : String) (bs : List Nat) (h : ∀ b ∈ bs, b < 256) :
    hex_bytes what (hex_digits bs) = .ok bs := by
  induction bs with
  | nil => rfl
  | cons b rest ih =>
    have hb := hex_byte_pair b (h b (List.mem_cons_self _ _))
    have ih1 := ih (fun x hx => h x (List.mem_cons_of_mem _ hx))
    simp only [hex_digits, hex_bytes, hb, ih1]

theorem hex_digits_length (bs : List Nat) : (hex_digits bs).length = 2 * bs.length := by
  induction bs with
  | nil => rfl
  | cons b rest ih => simp only [hex_digits, List.length_cons, ih]; omega

theorem bytes_of_json_hex_str (bs : List Nat) (h : ∀ b ∈ bs, b < 256) :
    bytes_of_json (hex_str bs) = .ok bs := by
  have h0 : QueryParser.find_substring "0x".data (hex_str bs).data = some 0 := by
    simp [hex_str, QueryParser.find_substring, QueryParser.starts_with]
  unfold bytes_of_json
  rw [if_neg (by simp [h0])]
  have hd : (hex_str bs).data.drop 2 = hex_digits bs := by simp [hex_str]
  rw [hd, if_neg (by rw [hex_digits_length]; omega)]
  exact hex_bytes_digits _ bs h

/-! ## The type text read back -/

theorem find_substring_none (c : Char) (needle text : List Char) (hc : c ∉ text) :
    QueryParser.find_substring (c :: needle) text = none := by
  induction text with
  | nil => simp [QueryParser.find_substring]
  | cons a rest ih =>
    have ha : a ≠ c := fun h => hc (h ▸ List.mem_cons_self _ _)
    have hrest : c ∉ rest := fun h => hc (List.mem_cons_of_mem _ h)
    simp [QueryParser.find_substring, QueryParser.starts_with, ha, ih hrest]

theorem not_mem_digits_bracket (c : Char) (digits : List Char)
    (hd : ∀ d ∈ digits, isdigit d = true) (hc : isdigit c = false) (hb : c ≠ ']') :
    c ∉ digits ++ [']'] := by
  intro hmem
  simp only [List.mem_append, List.mem_singleton] at hmem
  rcases hmem with h | h
  · rw [hd c h] at hc; cases hc
  · exact hb h

theorem find_last_bracket (body : List Char) :
    find_last ']' (body ++ [']']) = some body.length := by
  simp [find_last, List.indexOf?, List.findIdx?_cons]

theorem declared_size_of (pre digits : List Char) (n : Nat)
    (hpre : pre.indexOf? '[' = some (pre.length - 1)) (hpos : 0 < pre.length)
    (hlen : pre.length + digits.length + 1 < 2 ^ 64)
    (hv : stoul ⟨digits⟩ = .ok n) :
    declared_size ⟨pre ++ (digits ++ [']'])⟩ = .ok n := by
  have hopen : (pre ++ (digits ++ [']'])).indexOf? '[' = some (pre.length - 1) := by
    simp only [List.indexOf?] at hpre ⊢
    rw [List.findIdx?_append, hpre]
    rfl
  have hclose : find_last ']' (pre ++ (digits ++ [']'])) = some (pre.length + digits.length) := by
    rw [← List.append_assoc, find_last_bracket]
    simp
  unfold declared_size
  simp only [hopen, hclose, position]
  have h1 : (pre.length - 1 + 1) % 2 ^ 64 = pre.length := by
    rw [Nat.sub_add_cancel hpos]
    exact Nat.mod_eq_of_lt (by omega)
  have h2 : (pre.length + digits.length + 2 ^ 64 - (pre.length - 1) + 2 ^ 64 - 1) % 2 ^ 64 =
      digits.length := by
    have : pre.length + digits.length + 2 ^ 64 - (pre.length - 1) + 2 ^ 64 - 1 =
        digits.length + 2 * 2 ^ 64 := by omega
    rw [this, Nat.add_mul_mod_self_right]
    exact Nat.mod_eq_of_lt (by omega)
  rw [h1, h2]
  unfold substr
  rw [if_neg (by simp)]
  simp only [List.drop_left, List.take_left, hv]

theorem type_of_json_to_string (d : DataType)
    (h : (d.type = Ty.Int32 ∧ d.size = 0) ∨ (d.type = Ty.Bool ∧ d.size = 0) ∨
      (d.type = Ty.String ∧ d.size < 2 ^ 64) ∨ (d.type = Ty.Bytes ∧ d.size < 2 ^ 64)) :
    type_of_json d.to_string = .ok (d.type, d.size) := by
  obtain ⟨type, size⟩ := d
  obtain ⟨_, hne, hall, hlen⟩ := repr_digits size
  rcases h with ⟨ht, hs⟩ | ⟨ht, hs⟩ | ⟨ht, hs⟩ | ⟨ht, hs⟩
  · simp only at ht hs
    subst ht hs
    decide
  · simp only at ht hs
    subst ht hs
    decide
  · simp only at ht hs
    subst ht
    have hdata : (DataType.to_string ⟨Ty.String, size⟩).data =
        ['s', 't', 'r', 'i', 'n', 'g', '['] ++ ((Nat.repr size).data ++ [']']) := by
      simp [DataType.to_string, String.data_append]
    have hi : ∀ c, c ≠ ']' → isdigit c = false → c ∉ (Nat.repr size).data ++ [']'] :=
      fun c hb hc => not_mem_digits_bracket c _ hall hc hb
    have hsize := declared_size_of ['s', 't', 'r', 'i', 'n', 'g', '['] (Nat.repr size).data size
      (by decide) (by decide) (by simp only [List.length_cons, List.length_nil]; omega)
      (stoul_repr size hs)
    have e1 : QueryParser.find_substring "int32".data
        (DataType.to_string ⟨Ty.String, size⟩).data = none := by
      rw [hdata]
      have := find_substring_none 'i' ['n', 't', '3', '2']
        (['n', 'g', '['] ++ ((Nat.repr size).data ++ [']']))
        (by
          have := hi 'i' (by decide) (by decide)
          simp only [List.cons_append, List.nil_append, List.mem_cons, not_or]
          exact ⟨by decide, by decide, by decide, this⟩)
      simp [QueryParser.find_substring, QueryParser.starts_with] at this ⊢
      exact this
    have e2 : QueryParser.find_substring "bool".data
        (DataType.to_string ⟨Ty.String, size⟩).data = none := by
      rw [hdata]
      exact find_substring_none 'b' ['o', 'o', 'l'] _
        (by
          have := hi 'b' (by decide) (by decide)
          simp only [List.cons_append, List.nil_append, List.mem_cons, not_or]
          exact ⟨by decide, by decide, by decide, by decide, by decide, by decide, by decide,
            this⟩)
    have e3 : (QueryParser.find_substring "string".data
        (DataType.to_string ⟨Ty.String, size⟩).data).isSome = true := by
      rw [hdata]
      simp [QueryParser.find_substring, QueryParser.starts_with]
    have e4 : declared_size (DataType.to_string ⟨Ty.String, size⟩) = .ok size := by
      have : DataType.to_string ⟨Ty.String, size⟩ =
          ⟨['s', 't', 'r', 'i', 'n', 'g', '['] ++ ((Nat.repr size).data ++ [']'])⟩ := by
        rw [← hdata]
      rw [this]
      exact hsize
    unfold type_of_json
    simp only [e1, e2, e3, e4, Option.isSome_none, if_true, Bool.false_eq_true, if_false]
  · simp only at ht hs
    subst ht
    have hdata : (DataType.to_string ⟨Ty.Bytes, size⟩).data =
        ['b', 'y', 't', 'e', 's', '['] ++ ((Nat.repr size).data ++ [']']) := by
      simp [DataType.to_string, String.data_append]
    have hi : ∀ c, c ≠ ']' → isdigit c = false → c ∉ (Nat.repr size).data ++ [']'] :=
      fun c hb hc => not_mem_digits_bracket c _ hall hc hb
    have hsize := declared_size_of ['b', 'y', 't', 'e', 's', '['] (Nat.repr size).data size
      (by decide) (by decide) (by simp only [List.length_cons, List.length_nil]; omega)
      (stoul_repr size hs)
    have e1 : QueryParser.find_substring "int32".data
        (DataType.to_string ⟨Ty.Bytes, size⟩).data = none := by
      rw [hdata]
      exact find_substring_none 'i' ['n', 't', '3', '2'] _
        (by
          have := hi 'i' (by decide) (by decide)
          simp only [List.cons_append, List.nil_append, List.mem_cons, not_or]
          exact ⟨by decide, by decide, by decide, by decide, by decide, by decide, this⟩)
    have e2 : QueryParser.find_substring "bool".data
        (DataType.to_string ⟨Ty.Bytes, size⟩).data = none := by
      rw [hdata]
      have := find_substring_none 'b' ['o', 'o', 'l']
        (['y', 't', 'e', 's', '['] ++ ((Nat.repr size).data ++ [']']))
        (by
          have := hi 'b' (by decide) (by decide)
          simp only [List.cons_append, List.nil_append, List.mem_cons, not_or]
          exact ⟨by decide, by decide, by decide, by decide, by decide, this⟩)
      simp [QueryParser.find_substring, QueryParser.starts_with] at this ⊢
      exact this
    have e3 : QueryParser.find_substring "string".data
        (DataType.to_string ⟨Ty.Bytes, size⟩).data = none := by
      rw [hdata]
      have := find_substring_none 's' ['t', 'r', 'i', 'n', 'g']
        (['['] ++ ((Nat.repr size).data ++ [']']))
        (by
          have := hi 's' (by decide) (by decide)
          simp only [List.cons_append, List.nil_append, List.mem_cons, not_or]
          exact ⟨by decide, this⟩)
      simp [QueryParser.find_substring, QueryParser.starts_with] at this ⊢
      exact this
    have e5 : (QueryParser.find_substring "bytes".data
        (DataType.to_string ⟨Ty.Bytes, size⟩).data).isSome = true := by
      rw [hdata]
      simp [QueryParser.find_substring, QueryParser.starts_with]
    have e4 : declared_size (DataType.to_string ⟨Ty.Bytes, size⟩) = .ok size := by
      have : DataType.to_string ⟨Ty.Bytes, size⟩ =
          ⟨['b', 'y', 't', 'e', 's', '['] ++ ((Nat.repr size).data ++ [']'])⟩ := by
        rw [← hdata]
      rw [this]
      exact hsize
    unfold type_of_json
    simp only [e1, e2, e3, e4, e5, Option.isSome_none, if_true, Bool.false_eq_true, if_false]

/-! ## Columns written and read back -/

theorem attributes_of_json_names (attrs : List ColumnAttribute) :
    attributes_of_json (attrs.map (fun attr => Json.string (attribute_name attr))) =
      .ok attrs := by
  induction attrs with
  | nil => rfl
  | cons a rest ih =>
    simp only [List.map_cons, attributes_of_json, Json.get_string, ih]
    cases a <;> simp [attribute_name]

theorem strip_quotes (s : String) :
    (("\"" ++ s ++ "\"").data.head? = some '"' ∧
      ("\"" ++ s ++ "\"").data.getLast? = some '"') ∧
    (⟨(("\"" ++ s ++ "\"").data.drop 1).take (("\"" ++ s ++ "\"").length - 2)⟩ : String) = s := by
  have hd : ("\"" ++ s ++ "\"").data = '"' :: (s.data ++ ['"']) := by
    rw [String.data_append, String.data_append]
    rfl
  have hl : ("\"" ++ s ++ "\"").length = s.data.length + 2 := by
    show ("\"" ++ s ++ "\"").data.length = s.data.length + 2
    rw [hd]
    simp
  refine ⟨⟨by rw [hd]; rfl, ?_⟩, ?_⟩
  · rw [hd, ← List.cons_append, List.getLast?_concat]
  · rw [hl, hd]
    simp

theorem default_of_json_to_string (d : DataType) (text : String) (v : Value)
    (h : v.fits d) : default_of_json d.type text v.to_string = .ok v := by
  obtain ⟨ht, hr, _⟩ := h
  cases v with
  | null => exact absurd hr (by simp [Value.in_range])
  | int32 n =>
    simp only [Value.get_type] at ht
    simp only [Value.in_range] at hr
    rw [← ht]
    simp only [default_of_json, Value.to_string, stoi_repr n hr.1 hr.2]
  | bool b =>
    simp only [Value.get_type] at ht
    rw [← ht]
    cases b <;> simp [default_of_json, Value.to_string]
  | string s =>
    simp only [Value.get_type] at ht
    rw [← ht]
    have hq := strip_quotes s
    simp only [default_of_json, Value.to_string]
    rw [if_pos hq.1, hq.2]
  | bytes b =>
    simp only [Value.get_type] at ht
    simp only [Value.in_range] at hr
    rw [← ht]
    simp only [default_of_json, Value.to_string, bytes_of_json_hex_str b hr]

theorem forM_autoincrement_ok (c : Column)
    (h : c.has_attribute .AutoIncrement = true → c.type.type = Ty.Int32) :
    c.attributes.forM (fun attr =>
        if attr = ColumnAttribute.AutoIncrement ∧ c.type.is_int32 = false then
          (.error ⟨.invalid_argument,
            "AutoIncrement attribute can only be applied to int32 columns."⟩ :
            Except Exception Unit)
        else .ok ()) = .ok () := by
  rw [forM_ok_iff]
  intro attr hattr
  by_cases ha : attr = ColumnAttribute.AutoIncrement
  · have hhas : c.has_attribute .AutoIncrement = true := by
      simp only [Column.has_attribute, List.any_eq_true, decide_eq_true_eq]
      exact ⟨attr, hattr, ha⟩
    have := h hhas
    simp [DataType.is_int32, this]
  · simp [ha]

theorem column_check_ok (c : Column) (h : c.well_formed) : c.check = .ok () := by
  obtain ⟨hname, hdecl, hauto, hdef⟩ := h
  unfold Column.check
  rw [if_neg hname, forM_autoincrement_ok c hauto]
  simp only
  cases hd : c.default_value with
  | none => rfl
  | some d =>
    obtain ⟨ht, hr, hs⟩ := hdef d hd
    simp only
    rw [if_neg (by simp [DataType.get_type, ht])]
    cases d with
    | null => exact absurd hr (by simp [Value.in_range])
    | int32 n =>
      simp only [Value.get_type] at ht
      simp [DataType.is_string, DataType.is_bytes, ← ht]
    | bool b =>
      simp only [Value.get_type] at ht
      simp [DataType.is_string, DataType.is_bytes, ← ht]
    | string s =>
      simp only [Value.get_type] at ht
      simp only [Value.size] at hs
      simp [DataType.is_string, DataType.is_bytes, DataType.get_size, ← ht, Value.get_string]
      omega
    | bytes b =>
      simp only [Value.get_type] at ht
      simp only [Value.size] at hs
      simp [DataType.is_string, DataType.is_bytes, DataType.get_size, ← ht, Value.get_bytes]
      omega

theorem column_of_json_to_json (c : Column) (h : c.well_formed) :
    column_of_json (column_to_json c) = .ok c := by
  have hcheck := column_check_ok c h
  obtain ⟨hname, hdecl, hauto, hdef⟩ := h
  have htype : type_of_json c.type.to_string = .ok (c.type.type, c.type.size) := by
    apply type_of_json_to_string
    rcases hdecl with h1 | h1 | h1 | h1
    · exact Or.inl h1
    · exact Or.inr (Or.inl h1)
    · exact Or.inr (Or.inr (Or.inl ⟨h1.1, h1.2.2⟩))
    · exact Or.inr (Or.inr (Or.inr ⟨h1.1, h1.2.2⟩))
  have hattrs := attributes_of_json_names c.attributes
  obtain ⟨name, ⟨type, size⟩, attributes, default_value⟩ := c
  simp only at hname hdecl hauto hdef htype hattrs
  have hdt : (if type = Ty.String ∨ type = Ty.Bytes then DataType.of_type_size type size
      else .ok (DataType.of_type type)) = .ok (⟨type, size⟩ : DataType) := by
    rcases hdecl with ⟨h1, h2⟩ | ⟨h1, h2⟩ | ⟨h1, h2, _⟩ | ⟨h1, h2, _⟩ <;>
      simp only [DataType.declared] at h1 h2 <;> subst h1
    · subst h2; simp [DataType.of_type]
    · subst h2; simp [DataType.of_type]
    · simp [DataType.of_type_size]; omega
    · simp [DataType.of_type_size]; omega
  cases default_value with
  | none =>
    simp only [column_to_json, column_of_json, Json.at_key, Json.get_string, Json.contains,
      Json.items, List.find?, List.any]
    simp only [decide_True, decide_False, Bool.false_eq_true, if_false, Bool.or_false,
      String.reduceEq]
    rw [htype]
    simp [hattrs, hdt, Column.new, hcheck]
  | some d =>
    have hdv := default_of_json_to_string ⟨type, size⟩ (DataType.to_string ⟨type, size⟩) d
      (hdef d rfl)
    simp only at hdv
    simp only [column_to_json, column_of_json, Json.at_key, Json.get_string, Json.contains,
      Json.items, List.find?, List.any, List.cons_append, List.nil_append]
    simp only [decide_True, decide_False, Bool.false_eq_true, if_false, Bool.or_false,
      String.reduceEq]
    rw [htype]
    simp [hattrs, hdt, hdv, Column.new, hcheck]

theorem columns_of_json_to_json (columns : List Column) (h : ∀ c ∈ columns, c.well_formed) :
    columns_of_json (columns.map column_to_json) = .ok columns := by
  induction columns with
  | nil => rfl
  | cons c rest ih =>
    simp only [List.map_cons, columns_of_json,
      column_of_json_to_json c (h c (List.mem_cons_self _ _)),
      ih (fun x hx => h x (List.mem_cons_of_mem _ hx))]

/-! ## Rows written and read back -/

theorem wrap_int32_of_range (n : Int) (h1 : -(2 ^ 31) ≤ n) (h2 : n < 2 ^ 31) :
    wrap_int32 n = n := by
  unfold wrap_int32
  omega

theorem value_of_json_to_json (c : Column) (slot : Option Value)
    (h : ∀ v, slot = some v → v.fits c.type) :
    value_of_json c (value_to_json slot) = .ok slot := by
  cases slot with
  | none => rfl
  | some v =>
    obtain ⟨ht, hr, _⟩ := h v rfl
    cases v with
    | null => exact absurd hr (by simp [Value.in_range])
    | int32 n =>
      simp only [Value.get_type] at ht
      simp only [Value.in_range] at hr
      simp [value_of_json, value_to_json, Json.is_null, DataType.get_type, ← ht, Json.get_int32,
        wrap_int32_of_range n hr.1 hr.2]
    | bool b =>
      simp only [Value.get_type] at ht
      simp [value_of_json, value_to_json, Json.is_null, DataType.get_type, ← ht, Json.get_bool]
    | string s =>
      simp only [Value.get_type] at ht
      simp [value_of_json, value_to_json, Json.is_null, DataType.get_type, ← ht, Json.get_string]
    | bytes b =>
      simp only [Value.get_type] at ht
      simp only [Value.in_range] at hr
      simp [value_of_json, value_to_json, Json.is_null, DataType.get_type, ← ht, Json.get_string,
        bytes_of_json_hex_str b hr]

theorem values_of_json_to_json (values : List (Option Value)) :
    ∀ (cols : List Column) (i : Nat), cols.length + i = values.length →
      (∀ (k : Nat) (c : Column) (slot : Option Value), cols[k]? = some c →
        values[i + k]? = some slot → ∀ v, slot = some v → v.fits c.type) →
      values_of_json (.array (values.map value_to_json)) cols i = .ok (values.drop i) := by
  intro cols
  induction cols with
  | nil =>
    intro i hlen _
    have : values.length ≤ i := by simp at hlen; omega
    simp [values_of_json, List.drop_eq_nil_of_le this]
  | cons col cols ih =>
    intro i hlen hslots
    have hi : i < values.length := by simp at hlen; omega
    have hget : values[i]? = some values[i] := List.getElem?_eq_getElem hi
    have hv := value_of_json_to_json col values[i]
      (hslots 0 col values[i] (by simp) (by simp [hget]))
    have ih1 := ih (i + 1) (by simp at hlen ⊢; omega)
      (fun k c slot hc hs => hslots (k + 1) c slot (by simpa using hc)
        (by rw [← hs]; congr 1; omega))
    simp only [values_of_json, Json.index, List.getElem?_map, hget, Option.map_some', hv, ih1]
    rw [List.drop_eq_getElem_cons hi]

theorem switch_equal_sound (v w : Value) (h : v.get_type = w.get_type) :
    ∃ b, switch_equal v w = .ok b ∧ (b = true → v = w) := by
  cases v <;> cases w <;> simp_all [switch_equal, Value.get_type, Value.get_int, Value.get_bool,
    Value.get_string, Value.get_bytes]

theorem map_emplace_append (rows : List Row) (r : Row) (h : ∀ x ∈ rows, x.id < r.id) :
    map_emplace rows r = rows ++ [r] := by
  induction rows with
  | nil => rfl
  | cons x xs ih =>
    have hx := h x (List.mem_cons_self _ _)
    have ih1 := ih (fun y hy => h y (List.mem_cons_of_mem _ hy))
    unfold map_emplace
    rw [if_neg (Nat.lt_asymm hx), if_neg (Nat.ne_of_gt hx), ih1]
    rfl

theorem first_duplicate_none (columns : List Column) (seen : List String)
    (h1 : ∀ c ∈ columns, c.name ∉ seen) (h2 : (columns.map (fun c => c.name)).Nodup) :
    Table.first_duplicate seen columns = none := by
  induction columns generalizing seen with
  | nil => rfl
  | cons c rest ih =>
    have hc := h1 c (List.mem_cons_self _ _)
    simp only [List.map_cons, List.nodup_cons, List.mem_map, not_exists, not_and] at h2
    unfold Table.first_duplicate
    rw [if_neg hc]
    apply ih
    · intro x hx hmem
      simp only [List.mem_cons] at hmem
      rcases hmem with hmem | hmem
      · exact h2.1 x hx hmem
      · exact h1 x (List.mem_cons_of_mem _ hx) hmem
    · exact h2.2

/-! ## Rows inserted under their RowIDs -/

theorem validate_row_value_ok (columns : List Column) (values : List (Option Value)) (i : Nat)
    (h : ∀ (c : Column) (v : Value), columns[i]? = some c → values[i]? = some (some v) →
      v.fits c.type) :
    Table.validate_row_value columns values i = .ok () := by
  unfold Table.validate_row_value
  rcases hv : values[i]? with _ | _ | v
  · rfl
  · rfl
  · rcases hc : columns[i]? with _ | c
    · rfl
    · obtain ⟨ht, hr, hs⟩ := h c v hc hv
      simp only
      rw [if_neg (by simp [DataType.get_type, ht])]
      cases v with
      | null => exact absurd hr (by simp [Value.in_range])
      | int32 n =>
        simp only [Value.get_type] at ht
        simp [DataType.is_string, DataType.is_bytes, ← ht]
      | bool b =>
        simp only [Value.get_type] at ht
        simp [DataType.is_string, DataType.is_bytes, ← ht]
      | string s =>
        simp only [Value.get_type] at ht
        simp only [Value.size] at hs
        simp [DataType.is_string, DataType.is_bytes, DataType.get_size, ← ht, Value.get_string]
        omega
      | bytes b =>
        simp only [Value.get_type] at ht
        simp only [Value.size] at hs
        simp [DataType.is_string, DataType.is_bytes, DataType.get_size, ← ht, Value.get_bytes]
        omega

theorem validate_row_against_ok (column : Column) (v : Value) (i : Nat) (x : Row)
    (slot : Option Value) (hx : x.values[i]? = some slot) (hne : slot ≠ some v) :
    Table.validate_row_against column v i x = .ok () := by
  unfold Table.validate_row_against
  simp only [Row.get_value, hx]
  cases slot with
  | none => rfl
  | some w =>
    simp only
    by_cases ht : v.get_type = w.get_type
    · obtain ⟨b, hb, hsound⟩ := switch_equal_sound v w ht
      rw [if_pos ht, hb]
      cases b with
      | false => rfl
      | true => exact absurd (by rw [hsound rfl]) hne
    · rw [if_neg ht]

theorem insert_row_against_ok (column : Column) (v : Value) (i : Nat) (new_id : RowID)
    (x : Row) (slot : Option Value) (hx : x.values[i]? = some slot) (hne : slot ≠ some v) :
    Table.insert_row_against column v i new_id x = .ok () := by
  unfold Table.insert_row_against
  by_cases hid : x.id = new_id
  · rw [if_pos hid]
  · rw [if_neg hid]
    simp only [Row.get_value, hx]
    cases slot with
    | none => rfl
    | some w =>
      simp only
      by_cases ht : v.get_type = w.get_type
      · obtain ⟨b, hb, hsound⟩ := switch_equal_sound v w ht
        rw [if_neg (by simp [ht]), hb]
        cases b with
        | false => rfl
        | true => exact absurd (by rw [hsound rfl]) hne
      · rw [if_pos ht]

theorem complete_value_id_same (t : Table) (values : List (Option Value)) (i : Nat)
    (c : Column) (slot : Option Value) (hc : t.columns[i]? = some c)
    (hv : values[i]? = some slot)
    (h : slot = none → c.has_attribute .AutoIncrement = false ∧ c.default_value = none) :
    Table.complete_value_id t values i = slot := by
  unfold Table.complete_value_id
  rw [hv, hc]
  cases slot with
  | some v => simp
  | none =>
    obtain ⟨h1, h2⟩ := h rfl
    simp [h1, h2]

theorem insert_row_id_next (name : String) (columns : List Column) (pre : List Row)
    (nx : RowID) (r : Row)
    (hid : 0 < r.id) (hlen : r.values.length = columns.length)
    (hprelen : ∀ x ∈ pre, x.values.length = columns.length)
    (hpre : ∀ x ∈ pre, x.id < r.id)
    (hfits : ∀ (i : Nat) (c : Column) (v : Value), columns[i]? = some c →
      r.values[i]? = some (some v) → v.fits c.type)
    (hnull : ∀ (i : Nat) (c : Column), columns[i]? = some c → r.values[i]? = some none →
      c.has_attribute .AutoIncrement = false ∧ c.default_value = none)
    (huniq : ∀ (i : Nat) (c : Column), columns[i]? = some c →
      (c.has_attribute .Key = true ∨ c.has_attribute .Unique = true) →
      ∀ x ∈ pre, ∀ v : Value, r.values[i]? = some (some v) → x.values[i]? ≠ some (some v)) :
    ∃ nx1, Table.insert_row_id ⟨name, columns, pre, [], nx⟩ r.values r.id =
      (.ok r.id, ⟨name, columns, pre ++ [r], [], nx1⟩) := by
  have hslot_pre : ∀ x ∈ pre, ∀ i, i < columns.length → ∃ slot, x.values[i]? = some slot := by
    intro x hx i hi
    have hi2 : i < x.values.length := by rw [hprelen x hx]; exact hi
    exact ⟨x.values[i], List.getElem?_eq_getElem hi2⟩
  have hattr : ∀ c : Column, (c.has_attribute .Unique || c.has_attribute .Key) = true →
      (c.has_attribute .Key = true ∨ c.has_attribute .Unique = true) := by
    intro c h
    simp only [Bool.or_eq_true] at h
    exact h.symm
  -- the checks of validate_row pass
  have hvalid : Table.validate_row ⟨name, columns, pre, [], nx⟩ r.values = .ok () := by
    unfold Table.validate_row
    rw [if_neg (by show ¬ r.values.length > columns.length; omega)]
    have h1 : forRange r.values.length (Table.validate_row_value columns r.values) = .ok () := by
      rw [forRange_ok_iff]
      intro i _
      exact validate_row_value_ok columns r.values i (fun c v hc hv => hfits i c v hc hv)
    simp only [h1]
    rw [forRange_ok_iff]
    intro i hi
    unfold Table.validate_row_unique
    rcases hv : r.values[i]? with _ | _ | v
    · rfl
    · rfl
    · rcases hc : columns[i]? with _ | c
      · rfl
      · simp only
        by_cases hb : (c.has_attribute .Unique || c.has_attribute .Key) = true
        · rw [if_pos hb, forM_ok_iff]
          intro x hx
          obtain ⟨slot, hslot⟩ := hslot_pre x hx i (lt_length_of_getElem? hc)
          exact validate_row_against_ok c v i x slot hslot
            (fun h => huniq i c hc (hattr c hb) x hx v hv (by rw [hslot, h]))
        · rw [if_neg hb]
  -- the completion loop changes nothing
  have hcomplete : (List.range columns.length).map
      (Table.complete_value_id ⟨name, columns, pre, [], nx⟩ r.values) = r.values := by
    apply List.ext_getElem?
    intro i
    by_cases hi : i < columns.length
    · have hiv : i < r.values.length := by omega
      rw [List.getElem?_map, List.getElem?_range hi, Option.map_some',
        List.getElem?_eq_getElem hiv]
      congr 1
      apply complete_value_id_same _ _ i (columns[i]) (r.values[i])
        (List.getElem?_eq_getElem hi) (List.getElem?_eq_getElem hiv)
      intro hnone
      exact hnull i columns[i] (List.getElem?_eq_getElem hi)
        (by rw [List.getElem?_eq_getElem hiv, hnone])
    · rw [List.getElem?_eq_none (by simp; omega), List.getElem?_eq_none (by omega)]
  -- the uniqueness loop passes
  have hunique : ∀ nx1, forRange columns.length
      (Table.insert_row_unique ⟨name, columns, pre, [], nx1⟩ r.values r.id) = .ok () := by
    intro nx1
    rw [forRange_ok_iff]
    intro i hi
    unfold Table.insert_row_unique
    simp only [List.getElem?_eq_getElem hi]
    by_cases hb : (columns[i].has_attribute .Unique || columns[i].has_attribute .Key) = true
    · rw [if_pos hb]
      rcases hv : r.values[i]? with _ | _ | v
      · rfl
      · rfl
      · simp only
        rw [forM_ok_iff]
        intro x hx
        obtain ⟨slot, hslot⟩ := hslot_pre x hx i hi
        exact insert_row_against_ok columns[i] v i r.id x slot hslot
          (fun h => huniq i columns[i] (List.getElem?_eq_getElem hi) (hattr _ hb) x hx v hv
            (by rw [hslot, h]))
    · rw [if_neg hb]
  have hne : r.id ≠ 0 := Nat.ne_of_gt hid
  unfold Table.insert_row_id
  simp only [hvalid, hcomplete, hne, ne_eq, not_false_eq_true, if_true, hlen, not_true_eq_false,
    if_false, hunique, map_emplace_append pre ⟨r.id, r.values⟩ hpre]
  exact ⟨_, rfl⟩

/-! ## The rows of a snapshot read back -/

theorem get_uint32_number (n : Nat) (h : n < 2 ^ 32) :
    Json.get_uint32 (.number (n : Int)) = .ok n := by
  simp only [Json.get_uint32]
  congr 1
  omega

theorem row_to_json_id (r : Row) : (row_to_json r).at_key "id" = .ok (.number r.id) := by
  simp [row_to_json, Json.at_key, List.find?]

theorem row_to_json_values (r : Row) :
    (row_to_json r).at_key "values" = .ok (.array (r.values.map value_to_json)) := by
  simp [row_to_json, Json.at_key, List.find?]

theorem rows_of_json_to_json (name : String) (columns : List Column) (rows : List Row)
    (hord : rows.Pairwise (fun a b => a.id < b.id))
    (hrows : ∀ r ∈ rows, 0 < r.id ∧ r.id < 2 ^ 32 ∧ r.values.length = columns.length)
    (hslots : ∀ r ∈ rows, ∀ (i : Nat) (c : Column) (slot : Option Value),
      columns[i]? = some c → r.values[i]? = some slot →
        match slot with
        | some v => v.fits c.type
        | none => c.has_attribute .AutoIncrement = false ∧ c.default_value = none)
    (huniq : ∀ (i : Nat) (c : Column), columns[i]? = some c →
      (c.has_attribute .Key = true ∨ c.has_attribute .Unique = true) →
      ∀ r1 ∈ rows, ∀ r2 ∈ rows, ∀ v : Value,
        r1.values[i]? = some (some v) → r2.values[i]? = some (some v) → r1.id = r2.id) :
    ∀ (rest pre : List Row) (nx : RowID), rows = pre ++ rest →
      ∃ nx1, rows_of_json ⟨name, columns, pre, [], nx⟩ (rest.map row_to_json) =
        .ok ⟨name, columns, rows, [], nx1⟩ := by
  intro rest
  induction rest with
  | nil =>
    intro pre nx h
    refine ⟨nx, ?_⟩
    simp [rows_of_json, h]
  | cons r rest ih =>
    intro pre nx h
    have hr : r ∈ rows := by rw [h]; simp
    have hpre_mem : ∀ x ∈ pre, x ∈ rows := by intro x hx; rw [h]; simp [hx]
    obtain ⟨hid, hid32, hlen⟩ := hrows r hr
    have hlt : ∀ x ∈ pre, x.id < r.id := by
      intro x hx
      rw [h] at hord
      exact (List.pairwise_append.mp hord).2.2 x hx r (List.mem_cons_self _ _)
    obtain ⟨nx1, hins⟩ := insert_row_id_next name columns pre nx r hid hlen
      (fun x hx => (hrows x (hpre_mem x hx)).2.2) hlt
      (fun i c v hc hv => hslots r hr i c (some v) hc hv)
      (fun i c hc hv => hslots r hr i c none hc hv)
      (fun i c hc hattr x hx v hv hxv =>
        absurd (huniq i c hc hattr x (hpre_mem x hx) r hr v hxv hv) (Nat.ne_of_lt (hlt x hx)))
    have hvals : values_of_json (.array (r.values.map value_to_json)) columns 0 =
        .ok r.values := by
      have := values_of_json_to_json r.values columns 0 (by simp [hlen])
        (fun k c slot hc hs v hv => by
          subst hv
          exact hslots r hr k c (some v) hc (by simpa using hs))
      simpa using this
    obtain ⟨nx2, hrest⟩ := ih (pre ++ [r]) nx1 (by rw [h]; simp)
    refine ⟨nx2, ?_⟩
    simp only [List.map_cons, rows_of_json, row_to_json_id, get_uint32_number r.id hid32,
      row_to_json_values, hvals, hins, hrest]

/-- C10 (snapshot round trip): for every table that satisfies the table invariants (a
named table with well-formed columns of distinct names, every row as long as the column
list and stored under a positive 32-bit RowID, every value matching its column type and
within the declared size, no NULL where insertion substitutes a value, Key/Unique columns
injective on non-NULL values), `Table::from_json(Table::to_json(t))` succeeds and yields
a table with the same name, the same column list and the same rows under the same
RowIDs. -/
theorem snapshot_round_trip (t : Table) (h : t.snapshot_invariant) :
    ∃ t1, Table.from_json (Table.to_json t) = .ok t1 ∧
      t1.name = t.name ∧ t1.columns = t.columns ∧ t1.rows = t.rows := by
  obtain ⟨hname, hcols, hnodup, hwf, hord, hrows, hslots, huniq⟩ := h
  have hnew : Table.new t.name t.columns = .ok ⟨t.name, t.columns, [], [], 1⟩ := by
    unfold Table.new
    rw [if_neg hname, if_neg hcols, first_duplicate_none t.columns [] (by simp) hnodup]
  obtain ⟨nx1, hloop⟩ := rows_of_json_to_json t.name t.columns t.rows hord hrows hslots huniq
    t.rows [] 1 rfl
  refine ⟨⟨t.name, t.columns, t.rows, [], nx1⟩, ?_, rfl, rfl, rfl⟩
  have h1 : (Table.to_json t).at_key "name" = .ok (.string t.name) := by
    simp [Table.to_json, Json.at_key, List.find?]
  have h2 : (Table.to_json t).at_key "columns" = .ok (.array (t.columns.map column_to_json)) := by
    simp [Table.to_json, Json.at_key, List.find?]
  have h3 : (Table.to_json t).at_key "rows" = .ok (.array (t.rows.map row_to_json)) := by
    simp [Table.to_json, Json.at_key, List.find?]
  simp only [Table.from_json, h1, h2, h3, Json.get_string, Json.items,
    columns_of_json_to_json t.columns hwf, hnew]
  exact hloop

theorem tickets_table_invariant : tickets_table.snapshot_invariant := by
  refine ⟨by decide, by simp [tickets_table], by simp [tickets_table], ?_, ?_, ?_, ?_, ?_⟩
  · intro c hc
    simp only [tickets_table, List.mem_cons, List.mem_singleton, List.not_mem_nil, or_false] at hc
    rcases hc with hc | hc | hc <;> subst hc
    · refine ⟨by decide, Or.inl ⟨rfl, rfl⟩, fun _ => rfl, ?_⟩
      intro d hd
      cases hd
    · refine ⟨by decide, Or.inr (Or.inr (Or.inl ⟨rfl, by decide, by decide⟩)), ?_, ?_⟩
      · intro h
        exact absurd h (by decide)
      · intro d hd
        cases hd
    · refine ⟨by decide, Or.inr (Or.inr (Or.inl ⟨rfl, by decide, by decide⟩)), ?_, ?_⟩
      · intro h
        exact absurd h (by decide)
      · intro d hd
        cases hd
        exact ⟨rfl, trivial, by decide⟩
  · simp [tickets_table]
  · intro r hr
    simp only [tickets_table, List.mem_singleton] at hr
    subst hr
    exact ⟨by decide, by decide, rfl⟩
  · intro r hr i c slot hc hs
    simp only [tickets_table, List.mem_singleton] at hr
    subst hr
    match i with
    | 0 =>
      cases hc
      cases hs
      exact ⟨rfl, by simp [Value.in_range], by decide⟩
    | 1 =>
      cases hc
      cases hs
      exact ⟨rfl, trivial, by decide⟩
    | 2 =>
      cases hc
      cases hs
      exact ⟨rfl, trivial, by decide⟩
    | n + 3 => cases hc
  · intro i c _ _ r1 h1 r2 h2 v _ _
    simp only [tickets_table, List.mem_singleton] at h1 h2
    rw [h1, h2]

/-- C10 at the table of `UpdateTest.UpdateAutoIncrementColumn`: it satisfies the
invariants and is read back from its snapshot. -/
theorem snapshot_round_trip_witness :
    tickets_table.snapshot_invariant ∧
    ∃ t1, Table.from_json (Table.to_json tickets_table) = .ok t1 ∧
      t1.name = tickets_table.name ∧ t1.columns = tickets_table.columns ∧
      t1.rows = tickets_table.rows :=
  ⟨tickets_table_invariant, snapshot_round_trip tickets_table tickets_table_invariant⟩

/-- The hypothesis on NULL of the table invariants is needed: a NULL stored in a column
with a default is written as `null` and filled with the default when the snapshot is
read, because `Table::from_json` inserts every row through `Table::insert_row`. -/
theorem reload_fills_null_in_defaulted_column :
    Table.from_json (Table.to_json null_default_table) =
      .ok ⟨"t", [⟨"y", ⟨Ty.Int32, 0⟩, [], some (.int32 (-5))⟩],
        [⟨1, [some (.int32 (-5))]⟩], [], 2⟩ := by
  decide

/-! ## Claims on the catalog -/

theorem get_table_emplace (db : Database) (n : String) (t : Table) (name : String) :
    (db.emplace n t).get_table name =
      match db.get_table name with
      | .ok x => .ok x
      | .error e => if n = name then .ok t else .error e := by
  unfold Database.emplace
  by_cases hany : db.tables.any (fun e => e.1 = n) = true
  · rw [if_pos hany]
    cases hg : db.get_table name with
    | ok x => rfl
    | error e =>
      by_cases hn : n = name
      · subst hn
        exfalso
        unfold Database.get_table at hg
        cases hf : db.tables.find? (fun e => e.1 = n) with
        | some x => rw [hf] at hg; cases hg
        | none =>
          rw [List.find?_eq_none] at hf
          rw [List.any_eq_true] at hany
          obtain ⟨x, hx, hxn⟩ := hany
          exact hf x hx hxn
      · simp only [if_neg hn]
  · rw [if_neg hany]
    unfold Database.get_table
    simp only [List.find?_append]
    cases hf : db.tables.find? (fun e => e.1 = name) with
    | some x => rfl
    | none =>
      by_cases hn : n = name
      · simp [hn]
      · simp [hn]

theorem load_tables_spec (items : List Json) :
    ∀ (db db1 : Database), Database.load_tables db items = (.ok (), db1) →
      ∃ loaded : List Table,
        List.Forall₂ (fun table_json t => Table.from_json table_json = .ok t) items loaded ∧
        ∀ name : String, db1.get_table name =
          match db.get_table name with
          | .ok t => .ok t
          | .error e =>
            match loaded.find? (fun t => t.name = name) with
            | some t => .ok t
            | none => .error e := by
  induction items with
  | nil =>
    intro db db1 h
    simp only [Database.load_tables, Prod.mk.injEq, true_and] at h
    subst h
    refine ⟨[], List.Forall₂.nil, ?_⟩
    intro name
    cases db.get_table name <;> rfl
  | cons table_json rest ih =>
    intro db db1 h
    unfold Database.load_tables at h
    cases hf : Table.from_json table_json with
    | error e => rw [hf] at h; simp at h
    | ok table =>
      rw [hf] at h
      obtain ⟨loaded, hall, hget⟩ := ih _ _ h
      refine ⟨table :: loaded, List.Forall₂.cons hf hall, ?_⟩
      intro name
      rw [hget name, get_table_emplace]
      cases hg : db.get_table name with
      | ok x => rfl
      | error e =>
        by_cases hn : table.name = name
        · simp [hn]
        · simp [hn]

/-- Claim C11, as stated, fails on the code: `Database::load_from_file` never clears the
catalog and registers each loaded table with `emplace`. Loading a document that holds
only `posts` into a catalog holding `users` succeeds and leaves `users` in the catalog;
loading a document that holds another table named `users` succeeds and leaves the
catalog's own `users` in place, although the document's table reads back as a different
table. -/
theorem load_from_file_does_not_replace :
    Database.load_from_file ⟨[("users", s4_users)]⟩ posts_document =
      (.ok (), ⟨[("users", s4_users), ("posts", s4_posts)]⟩) ∧
    (Database.load_from_file ⟨[("users", s4_users)]⟩ posts_document).2.get_table "users" =
      .ok s4_users ∧
    Table.from_json (Table.to_json other_users) = .ok other_users ∧
    other_users ≠ s4_users ∧
    Database.load_from_file ⟨[("users", s4_users)]⟩ users_document =
      (.ok (), ⟨[("users", s4_users)]⟩) := by
  refine ⟨by decide, by decide, by decide, by decide, by decide⟩

/-- Claim C11, amended: after `Database::load_from_file` succeeds, every table of the
document was read by `Table::from_json`, and the catalog answers `get_table name` with
the table it held under that name before the load when there was one, otherwise with
the first table of that name in the document, and with the same error as before when
there is neither. -/
theorem load_from_file_merges (db db1 : Database) (j : Json)
    (h : db.load_from_file j = (.ok (), db1)) :
    ∃ (tables_json : Json) (loaded : List Table),
      j.at_key "tables" = .ok tables_json ∧
      List.Forall₂ (fun table_json t => Table.from_json table_json = .ok t)
        tables_json.items loaded ∧
      ∀ name : String, db1.get_table name =
        match db.get_table name with
        | .ok t => .ok t
        | .error e =>
          match loaded.find? (fun t => t.name = name) with
          | some t => .ok t
          | none => .error e := by
  unfold Database.load_from_file at h
  by_cases hc : j.contains "tables" = false
  · rw [if_pos hc] at h
    simp at h
  · rw [if_neg hc] at h
    cases ha : j.at_key "tables" with
    | error e => rw [ha] at h; simp at h
    | ok tables_json =>
      rw [ha] at h
      obtain ⟨loaded, hall, hget⟩ := load_tables_spec _ _ _ h
      exact ⟨tables_json, loaded, rfl, hall, hget⟩

/-- The amended claim C11 at the catalog holding `users` and the document holding
`posts`. -/
theorem load_from_file_merges_witness :
    Database.load_from_file ⟨[("users", s4_users)]⟩ posts_document =
      (.ok (), ⟨[("users", s4_users), ("posts", s4_posts)]⟩) ∧
    ∃ (tables_json : Json) (loaded : List Table),
      posts_document.at_key "tables" = .ok tables_json ∧
      List.Forall₂ (fun table_json t => Table.from_json table_json = .ok t)
        tables_json.items loaded ∧
      ∀ name : String,
        (⟨[("users", s4_users), ("posts", s4_posts)]⟩ : Database).get_table name =
        match (⟨[("users", s4_users)]⟩ : Database).get_table name with
        | .ok t => .ok t
        | .error e =>
          match loaded.find? (fun t => t.name = name) with
          | some t => .ok t
          | none => .error e :=
  ⟨by decide, load_from_file_merges _ _ posts_document (by decide)⟩

/-! ## Claims on reading a snapshot -/

theorem insert_row_id_frame (t : Table) (values : List (Option Value)) (id : RowID) :
    (t.insert_row_id values id).2.name = t.name ∧
    (t.insert_row_id values id).2.columns = t.columns := by
  unfold Table.insert_row_id
  cases t.validate_row values with
  | error e => exact ⟨rfl, rfl⟩
  | ok u =>
    simp only
    by_cases hl : values.length ≠ t.columns.length
    · rw [if_pos hl]
      exact ⟨rfl, rfl⟩
    · rw [if_neg hl]
      split <;> exact ⟨rfl, rfl⟩

theorem at_key_thrown {j : Json} {key : String} {e : Exception}
    (h : j.at_key key = .error e) : e.isStdException = true := by
  unfold Json.at_key at h
  repeat' split at h
  all_goals first
    | (cases h; done)
    | (cases h; rfl)

theorem get_string_thrown {j : Json} {e : Exception}
    (h : j.get_string = .error e) : e.isStdException = true := by
  unfold Json.get_string at h
  repeat' split at h
  all_goals first
    | (cases h; done)
    | (cases h; rfl)

theorem get_bool_thrown {j : Json} {e : Exception}
    (h : j.get_bool = .error e) : e.isStdException = true := by
  unfold Json.get_bool at h
  repeat' split at h
  all_goals first
    | (cases h; done)
    | (cases h; rfl)

theorem get_int32_thrown {j : Json} {e : Exception}
    (h : j.get_int32 = .error e) : e.isStdException = true := by
  unfold Json.get_int32 at h
  repeat' split at h
  all_goals first
    | (cases h; done)
    | (cases h; rfl)

theorem get_uint32_thrown {j : Json} {e : Exception}
    (h : j.get_uint32 = .error e) : e.isStdException = true := by
  unfold Json.get_uint32 at h
  repeat' split at h
  all_goals first
    | (cases h; done)
    | (cases h; rfl)

theorem stoi_thrown {s : String} {e : Exception}
    (h : stoi s = .error e) : e.isStdException = true := by
  unfold stoi at h
  repeat' split at h
  all_goals first
    | (cases h; done)
    | (cases h; rfl)

theorem stoul_thrown {s : String} {e : Exception}
    (h : stoul s = .error e) : e.isStdException = true := by
  unfold stoul at h
  repeat' split at h
  all_goals first
    | (cases h; done)
    | (cases h; rfl)

theorem substr_thrown {s : List Char} {pos len : Nat} {e : Exception}
    (h : substr s pos len = .error e) : e.isStdException = true := by
  unfold substr at h
  repeat' split at h
  all_goals first
    | (cases h; done)
    | (cases h; rfl)

theorem declared_size_thrown {s : String} {e : Exception}
    (h : declared_size s = .error e) : e.isStdException = true := by
  unfold declared_size at h
  simp only at h
  repeat' split at h
  all_goals first
    | (cases h; done)
    | (cases h; exact substr_thrown (by assumption))
    | exact stoul_thrown h

theorem type_of_json_thrown {s : String} {e : Exception}
    (h : type_of_json s = .error e) : e.isStdException = true := by
  unfold type_of_json at h
  repeat' split at h
  all_goals first
    | (cases h; done)
    | (cases h; rfl)
    | (cases h; exact declared_size_thrown (by assumption))

theorem attributes_of_json_thrown (items : List Json) {e : Exception}
    (h : attributes_of_json items = .error e) : e.isStdException = true := by
  induction items with
  | nil => cases h
  | cons attr rest ih =>
    unfold attributes_of_json at h
    repeat' split at h
    all_goals first
      | (cases h; done)
      | (cases h; exact get_string_thrown (by assumption))
      | (cases h; exact ih (by assumption))

theorem hex_bytes_thrown (what : String) : ∀ (cs : List Char) {e : Exception},
    hex_bytes what cs = .error e → e.isStdException = true := by
  intro cs
  induction cs using hex_bytes.induct what with
  | case1 => intro e h; cases h
  | case2 a hb => intro e h; simp [hex_bytes, hb] at h; rw [← h]; rfl
  | case3 a v hb => intro e h; simp [hex_bytes, hb] at h
  | case4 a b rest hb => intro e h; simp [hex_bytes, hb] at h; rw [← h]; rfl
  | case5 a b rest v hb e1 hr ih =>
    intro e h
    simp only [hex_bytes, hb, hr] at h
    cases h
    exact ih hr
  | case6 a b rest v hb vs hr ih => intro e h; simp [hex_bytes, hb, hr] at h

theorem bytes_of_json_thrown {text : String} {e : Exception}
    (h : bytes_of_json text = .error e) : e.isStdException = true := by
  unfold bytes_of_json at h
  repeat' split at h
  all_goals first
    | (cases h; done)
    | (cases h; rfl)
    | exact hex_bytes_thrown _ _ h

theorem default_of_json_thrown {type : Ty} {s d : String} {e : Exception}
    (h : default_of_json type s d = .error e) : e.isStdException = true := by
  unfold default_of_json at h
  repeat' split at h
  all_goals first
    | (cases h; done)
    | (cases h; rfl)
    | (cases h; exact stoi_thrown (by assumption))
    | (cases h; exact bytes_of_json_thrown (by assumption))

theorem forM_error {α : Type} (l : List α) (f : α → Except Exception Unit) {e : Exception}
    (h : l.forM f = .error e) : ∃ x ∈ l, f x = .error e := by
  induction l with
  | nil => simp [List.forM, pure, Except.pure] at h
  | cons a rest ih =>
    simp only [List.forM] at h
    cases ha : f a with
    | error e1 =>
      rw [ha] at h
      simp only [bind, Except.bind] at h
      cases h
      exact ⟨a, List.mem_cons_self _ _, ha⟩
    | ok u =>
      rw [ha] at h
      simp only [bind, Except.bind] at h
      obtain ⟨x, hx, hfx⟩ := ih h
      exact ⟨x, List.mem_cons_of_mem _ hx, hfx⟩

theorem forRange_error (n : Nat) (f : Nat → Except Exception Unit) {e : Exception}
    (h : forRange n f = .error e) : ∃ i, f i = .error e := by
  obtain ⟨i, _, hi⟩ := forM_error _ f h
  exact ⟨i, hi⟩

theorem of_type_size_thrown {type : Ty} {size : Nat} {e : Exception}
    (h : DataType.of_type_size type size = .error e) : e.isStdException = true := by
  unfold DataType.of_type_size at h
  repeat' split at h
  all_goals first
    | (cases h; done)
    | (cases h; rfl)

theorem get_size_thrown {d : DataType} {e : Exception}
    (h : d.get_size = .error e) : e.isStdException = true := by
  unfold DataType.get_size at h
  repeat' split at h
  all_goals first
    | (cases h; done)
    | (cases h; rfl)

theorem value_getter_thrown (v : Value) {e : Exception} :
    (v.get_int = .error e → e.isStdException = true) ∧
    (v.get_bool = .error e → e.isStdException = true) ∧
    (v.get_string = .error e → e.isStdException = true) ∧
    (v.get_bytes = .error e → e.isStdException = true) := by
  refine ⟨?_, ?_, ?_, ?_⟩ <;> intro h <;>
    cases v <;> simp only [Value.get_int, Value.get_bool, Value.get_string, Value.get_bytes] at h <;>
    first
      | (cases h; done)
      | (cases h; rfl)

theorem column_check_thrown {c : Column} {e : Exception}
    (h : c.check = .error e) : e.isStdException = true := by
  unfold Column.check at h
  split at h
  · cases h; rfl
  · split at h
    · rename_i e1 hforM
      cases h
      obtain ⟨x, _, hx⟩ := forM_error _ _ hforM
      split at hx
      · cases hx; rfl
      · cases hx
    · repeat' split at h
      all_goals first
        | (cases h; done)
        | (cases h; rfl)
        | (cases h; exact (value_getter_thrown _).2.2.1 (by assumption))
        | (cases h; exact (value_getter_thrown _).2.2.2 (by assumption))
        | (cases h; exact get_size_thrown (by assumption))

theorem column_new_thrown {name : String} {type : DataType} {attrs : List ColumnAttribute}
    {d : Option Value} {e : Exception}
    (h : Column.new name type attrs d = .error e) : e.isStdException = true := by
  unfold Column.new at h
  repeat' split at h
  all_goals first
    | (cases h; done)
    | (cases h; exact column_check_thrown (by assumption))

theorem table_new_thrown {name : String} {columns : List Column} {e : Exception}
    (h : Table.new name columns = .error e) : e.isStdException = true := by
  unfold Table.new at h
  repeat' split at h
  all_goals first
    | (cases h; done)
    | (cases h; rfl)

theorem column_of_json_thrown {col_json : Json} {e : Exception}
    (h : column_of_json col_json = .error e) : e.isStdException = true := by
  unfold column_of_json at h
  simp only at h
  repeat' split at h
  all_goals first
    | (cases h; done)
    | (cases h; exact at_key_thrown (by assumption))
    | (cases h; exact get_string_thrown (by assumption))
    | (cases h; exact type_of_json_thrown (by assumption))
    | (cases h; exact attributes_of_json_thrown _ (by assumption))
    | exact column_new_thrown h
    | (cases h
       rename_i hd
       repeat' split at hd
       all_goals first
         | (cases hd; done)
         | (cases hd; exact at_key_thrown (by assumption))
         | (cases hd; exact get_string_thrown (by assumption))
         | (cases hd; exact default_of_json_thrown (by assumption))
         | exact of_type_size_thrown hd)

theorem columns_of_json_thrown (items : List Json) {e : Exception}
    (h : columns_of_json items = .error e) : e.isStdException = true := by
  induction items generalizing e with
  | nil => cases h
  | cons col_json rest ih =>
    unfold columns_of_json at h
    repeat' split at h
    all_goals first
      | (cases h; done)
      | (cases h; exact column_of_json_thrown (by assumption))
      | (cases h; exact ih (by assumption))

theorem value_of_json_thrown {col : Column} {val_json : Json} {e : Exception}
    (h : value_of_json col val_json = .error e) : e.isStdException = true := by
  unfold value_of_json at h
  repeat' split at h
  all_goals first
    | (cases h; done)
    | (cases h; rfl)
    | (cases h; exact get_int32_thrown (by assumption))
    | (cases h; exact get_bool_thrown (by assumption))
    | (cases h; exact get_string_thrown (by assumption))
    | (cases h; exact bytes_of_json_thrown (by assumption))

theorem values_of_json_length (val_array : Json) : ∀ (cols : List Column) (i : Nat)
    (values : List (Option Value)),
    values_of_json val_array cols i = .ok values → values.length = cols.length := by
  intro cols
  induction cols with
  | nil =>
    intro i values h
    simp only [values_of_json, Except.ok.injEq] at h
    subst h
    rfl
  | cons col cols ih =>
    intro i values h
    unfold values_of_json at h
    repeat' split at h
    all_goals first
      | (cases h; done)
      | (cases h
         simp only [List.length_cons]
         rw [ih _ _ (by assumption)])

/-- The loop over the values of a row stops with the marker for undefined behaviour only
at a `values` array that ends before the last column. -/
theorem values_of_json_undefined (val_array : Json) : ∀ (cols : List Column) (i : Nat)
    (e : Exception), values_of_json val_array cols i = .error e →
    e.isStdException = false →
    ∃ vs, val_array = .array vs ∧ vs.length < i + cols.length := by
  intro cols
  induction cols with
  | nil => intro i e h; cases h
  | cons col cols ih =>
    intro i e h hk
    unfold values_of_json at h
    cases hidx : val_array.index i with
    | error e1 =>
      rw [hidx] at h
      cases h
      cases val_array with
      | array elements =>
        refine ⟨elements, rfl, ?_⟩
        simp only [Json.index] at hidx
        cases hget : elements[i]? with
        | some x => rw [hget] at hidx; cases hidx
        | none =>
          have := List.getElem?_eq_none_iff.mp hget
          simp only [List.length_cons]
          omega
      | null => simp [Json.index] at hidx; rw [← hidx] at hk; cases hk
      | bool b => simp [Json.index] at hidx; rw [← hidx] at hk; cases hk
      | number n => simp [Json.index] at hidx; rw [← hidx] at hk; cases hk
      | string s => simp [Json.index] at hidx; rw [← hidx] at hk; cases hk
      | object m => simp [Json.index] at hidx; rw [← hidx] at hk; cases hk
    | ok val_json =>
      rw [hidx] at h
      simp only at h
      cases hv : value_of_json col val_json with
      | error e1 =>
        rw [hv] at h
        cases h
        rw [value_of_json_thrown hv] at hk
        cases hk
      | ok value =>
        rw [hv] at h
        simp only at h
        cases hrest : values_of_json val_array cols (i + 1) with
        | ok rest => rw [hrest] at h; cases h
        | error e1 =>
          rw [hrest] at h
          cases h
          obtain ⟨vs, hvs, hlen⟩ := ih (i + 1) _ hrest hk
          refine ⟨vs, hvs, ?_⟩
          simp only [List.length_cons]
          omega

theorem row_get_value_thrown {r : Row} {i : Nat} {e : Exception}
    (h : r.get_value i = .error e) : e.isStdException = true := by
  unfold Row.get_value at h
  repeat' split at h
  all_goals first
    | (cases h; done)
    | (cases h; rfl)

theorem switch_equal_thrown {a b : Value} {e : Exception}
    (h : switch_equal a b = .error e) : e.isStdException = true := by
  unfold switch_equal at h
  repeat' split at h
  all_goals first
    | (cases h; done)
    | (cases h; exact (value_getter_thrown _).1 (by assumption))
    | (cases h; exact (value_getter_thrown _).2.1 (by assumption))
    | (cases h; exact (value_getter_thrown _).2.2.1 (by assumption))
    | (cases h; exact (value_getter_thrown _).2.2.2 (by assumption))

theorem validate_row_value_thrown {columns : List Column} {values : List (Option Value)}
    {i : Nat} {e : Exception}
    (h : Table.validate_row_value columns values i = .error e) : e.isStdException = true := by
  unfold Table.validate_row_value at h
  repeat' split at h
  all_goals first
    | (cases h; done)
    | (cases h; rfl)
    | (cases h; exact (value_getter_thrown _).2.2.1 (by assumption))
    | (cases h; exact (value_getter_thrown _).2.2.2 (by assumption))
    | (cases h; exact get_size_thrown (by assumption))

theorem validate_row_against_thrown {column : Column} {v : Value} {i : Nat} {r : Row}
    {e : Exception}
    (h : Table.validate_row_against column v i r = .error e) : e.isStdException = true := by
  unfold Table.validate_row_against at h
  repeat' split at h
  all_goals first
    | (cases h; done)
    | (cases h; rfl)
    | (cases h; exact row_get_value_thrown (by assumption))
    | (cases h; exact switch_equal_thrown (by assumption))

theorem validate_row_unique_thrown {t : Table} {values : List (Option Value)} {i : Nat}
    {e : Exception}
    (h : t.validate_row_unique values i = .error e) : e.isStdException = true := by
  unfold Table.validate_row_unique at h
  repeat' split at h
  all_goals first
    | cases h
    | (obtain ⟨x, _, hx⟩ := forM_error _ _ h
       exact validate_row_against_thrown hx)

theorem validate_row_thrown {t : Table} {values : List (Option Value)} {e : Exception}
    (h : t.validate_row values = .error e) : e.isStdException = true := by
  unfold Table.validate_row at h
  repeat' split at h
  all_goals first
    | (cases h; done)
    | (cases h; rfl)
    | (cases h
       obtain ⟨i, hi⟩ := forRange_error _ _ (by assumption)
       exact validate_row_value_thrown hi)
    | (obtain ⟨i, hi⟩ := forRange_error _ _ h
       exact validate_row_unique_thrown hi)

theorem insert_row_against_thrown {column : Column} {v : Value} {i : Nat} {id : RowID}
    {r : Row} {e : Exception}
    (h : Table.insert_row_against column v i id r = .error e) : e.isStdException = true := by
  unfold Table.insert_row_against at h
  repeat' split at h
  all_goals first
    | (cases h; done)
    | (cases h; rfl)
    | (cases h; exact row_get_value_thrown (by assumption))
    | (cases h; exact switch_equal_thrown (by assumption))

theorem insert_row_unique_thrown {t : Table} {values : List (Option Value)} {id : RowID}
    {i : Nat} {e : Exception}
    (h : t.insert_row_unique values id i = .error e) : e.isStdException = true := by
  unfold Table.insert_row_unique at h
  repeat' split at h
  all_goals first
    | cases h
    | (obtain ⟨x, _, hx⟩ := forM_error _ _ h
       exact insert_row_against_thrown hx)

/-- With as many values as columns `Table::insert_row(values, id)` returns or throws. -/
theorem insert_row_id_thrown {t : Table} {values : List (Option Value)} {id : RowID}
    {e : Exception} (hlen : values.length = t.columns.length)
    (h : (t.insert_row_id values id).1 = .error e) : e.isStdException = true := by
  unfold Table.insert_row_id at h
  split at h
  · simp only at h
    cases h
    exact validate_row_thrown (by assumption)
  · rw [if_neg (by simpa using hlen)] at h
    simp only at h
    split at h
    · simp only at h
      cases h
      obtain ⟨i, hi⟩ := forRange_error _ _ (by assumption)
      exact insert_row_unique_thrown hi
    · cases h

theorem values_of_json_array (val_array : Json) (col : Column) (cols : List Column) (i : Nat)
    (values : List (Option Value))
    (h : values_of_json val_array (col :: cols) i = .ok values) :
    ∃ elements, val_array = .array elements := by
  unfold values_of_json at h
  cases hidx : val_array.index i with
  | error e => rw [hidx] at h; cases h
  | ok val_json =>
    cases val_array with
    | array elements => exact ⟨elements, rfl⟩
    | null => simp [Json.index] at hidx
    | bool b => simp [Json.index] at hidx
    | number n => simp [Json.index] at hidx
    | string s => simp [Json.index] at hidx
    | object m => simp [Json.index] at hidx

theorem get_uint32_ok {j : Json} {id : Nat} (h : j.get_uint32 = .ok id) :
    (∃ n, j = .number n) ∨ ∃ b, j = .bool b := by
  cases j with
  | number n => exact Or.inl ⟨n, rfl⟩
  | bool b => exact Or.inr ⟨b, rfl⟩
  | null => simp [Json.get_uint32] at h
  | string s => simp [Json.get_uint32] at h
  | array a => simp [Json.get_uint32] at h
  | object m => simp [Json.get_uint32] at h

theorem type_of_json_ok {s : String} {ty : Ty × Nat} (h : type_of_json s = .ok ty) :
    (QueryParser.find_substring "int32".data s.data).isSome = true ∨
    (QueryParser.find_substring "bool".data s.data).isSome = true ∨
    (QueryParser.find_substring "string".data s.data).isSome = true ∨
    (QueryParser.find_substring "bytes".data s.data).isSome = true := by
  unfold type_of_json at h
  by_cases h1 : (QueryParser.find_substring "int32".data s.data).isSome = true
  · exact Or.inl h1
  · by_cases h2 : (QueryParser.find_substring "bool".data s.data).isSome = true
    · exact Or.inr (Or.inl h2)
    · by_cases h3 : (QueryParser.find_substring "string".data s.data).isSome = true
      · exact Or.inr (Or.inr (Or.inl h3))
      · by_cases h4 : (QueryParser.find_substring "bytes".data s.data).isSome = true
        · exact Or.inr (Or.inr (Or.inr h4))
        · rw [if_neg h1, if_neg h2, if_neg h3, if_neg h4] at h
          cases h

theorem rows_of_json_structure (items : List Json) :
    ∀ (table t : Table), rows_of_json table items = .ok t → table.columns ≠ [] →
      t.name = table.name ∧ t.columns = table.columns ∧
      ∀ row_json ∈ items, ∃ (id_json : Json) (vs : List Json),
        row_json.at_key "id" = .ok id_json ∧
        ((∃ n, id_json = .number n) ∨ ∃ b, id_json = .bool b) ∧
        row_json.at_key "values" = .ok (.array vs) := by
  induction items with
  | nil =>
    intro table t h _
    simp only [rows_of_json, Except.ok.injEq] at h
    subst h
    exact ⟨rfl, rfl, fun _ hmem => absurd hmem (List.not_mem_nil _)⟩
  | cons row_json rest ih =>
    intro table t h hne
    unfold rows_of_json at h
    cases hid : row_json.at_key "id" with
    | error e => rw [hid] at h; cases h
    | ok id_json =>
      rw [hid] at h
      simp only at h
      cases hu : id_json.get_uint32 with
      | error e => rw [hu] at h; cases h
      | ok row_id =>
        rw [hu] at h
        simp only at h
        cases hva : row_json.at_key "values" with
        | error e => rw [hva] at h; cases h
        | ok val_array =>
          rw [hva] at h
          simp only at h
          cases hvs : values_of_json val_array table.columns 0 with
          | error e => rw [hvs] at h; cases h
          | ok values =>
            rw [hvs] at h
            simp only at h
            obtain ⟨col, cols, hcols⟩ := List.exists_cons_of_ne_nil hne
            obtain ⟨elements, he⟩ :=
              values_of_json_array val_array col cols 0 values (by rw [← hcols]; exact hvs)
            have hframe := insert_row_id_frame table values row_id
            cases hins : table.insert_row_id values row_id with
            | mk outcome table1 =>
              rw [hins] at h hframe
              simp only at hframe
              cases outcome with
              | error e => cases h
              | ok new_id =>
                simp only at h
                obtain ⟨h1, h2, h3⟩ := ih table1 t h (by rw [hframe.2]; exact hne)
                refine ⟨h1.trans hframe.1, h2.trans hframe.2, ?_⟩
                intro rj hmem
                simp only [List.mem_cons] at hmem
                rcases hmem with hmem | hmem
                · subst hmem
                  subst he
                  exact ⟨id_json, elements, hid, get_uint32_ok hu, hva⟩
                · exact h3 rj hmem

/-- The loop over the rows stops with the marker for undefined behaviour only at a row
whose `values` array holds fewer entries than the table has columns. -/
theorem rows_of_json_undefined (items : List Json) :
    ∀ (table : Table) (e : Exception), rows_of_json table items = .error e →
      e.isStdException = false →
      ∃ row_json ∈ items, ∃ vs : List Json,
        row_json.at_key "values" = .ok (.array vs) ∧ vs.length < table.columns.length := by
  induction items with
  | nil => intro table e h; cases h
  | cons row_json rest ih =>
    intro table e h hk
    unfold rows_of_json at h
    cases hid : row_json.at_key "id" with
    | error e1 =>
      rw [hid] at h
      cases h
      rw [at_key_thrown hid] at hk
      cases hk
    | ok id_json =>
      rw [hid] at h
      simp only at h
      cases hu : id_json.get_uint32 with
      | error e1 =>
        rw [hu] at h
        cases h
        rw [get_uint32_thrown hu] at hk
        cases hk
      | ok row_id =>
        rw [hu] at h
        simp only at h
        cases hva : row_json.at_key "values" with
        | error e1 =>
          rw [hva] at h
          cases h
          rw [at_key_thrown hva] at hk
          cases hk
        | ok val_array =>
          rw [hva] at h
          simp only at h
          cases hvs : values_of_json val_array table.columns 0 with
          | error e1 =>
            rw [hvs] at h
            cases h
            obtain ⟨vs, he, hlen⟩ := values_of_json_undefined val_array _ 0 _ hvs hk
            subst he
            exact ⟨row_json, List.mem_cons_self _ _, vs, hva, by omega⟩
          | ok values =>
            rw [hvs] at h
            simp only at h
            have hlen := values_of_json_length val_array _ 0 values hvs
            have hframe := insert_row_id_frame table values row_id
            cases hins : table.insert_row_id values row_id with
            | mk outcome table1 =>
              rw [hins] at h hframe
              simp only at hframe
              cases outcome with
              | error e1 =>
                simp only at h
                cases h
                have : (table.insert_row_id values row_id).1 = .error e := by rw [hins]
                rw [insert_row_id_thrown hlen this] at hk
                cases hk
              | ok new_id =>
                simp only at h
                obtain ⟨rj, hmem, vs, h1, h2⟩ := ih table1 e h hk
                exact ⟨rj, List.mem_cons_of_mem _ hmem, vs, h1, by rw [← hframe.2]; exact h2⟩

theorem attributes_of_json_strings (items : List Json) :
    ∀ attrs, attributes_of_json items = .ok attrs → ∀ a ∈ items, ∃ s, a = Json.string s := by
  induction items with
  | nil => intro _ _ a hmem; exact absurd hmem (List.not_mem_nil _)
  | cons attr rest ih =>
    intro attrs h a hmem
    unfold attributes_of_json at h
    cases hs : attr.get_string with
    | error e => rw [hs] at h; cases h
    | ok attr_str =>
      rw [hs] at h
      simp only at h
      cases hr : attributes_of_json rest with
      | error e => rw [hr] at h; cases h
      | ok attributes =>
        simp only [List.mem_cons] at hmem
        rcases hmem with hmem | hmem
        · subst hmem
          cases a <;> simp [Json.get_string] at hs
          exact ⟨_, rfl⟩
        · exact ih attributes hr a hmem

theorem get_string_ok {j : Json} {s : String} (h : j.get_string = .ok s) : j = .string s := by
  cases j <;> simp [Json.get_string] at h
  rw [h]

theorem column_of_json_structure (col_json : Json) (c : Column)
    (h : column_of_json col_json = .ok c) :
    ∃ (name type_text : String) (attrs : Json),
      col_json.at_key "name" = .ok (.string name) ∧
      col_json.at_key "type" = .ok (.string type_text) ∧
      (∃ ty, type_of_json type_text = .ok ty) ∧
      ((QueryParser.find_substring "int32".data type_text.data).isSome = true ∨
        (QueryParser.find_substring "bool".data type_text.data).isSome = true ∨
        (QueryParser.find_substring "string".data type_text.data).isSome = true ∨
        (QueryParser.find_substring "bytes".data type_text.data).isSome = true) ∧
      col_json.at_key "attributes" = .ok attrs ∧
      ∀ a ∈ attrs.items, ∃ s, a = Json.string s := by
  unfold column_of_json at h
  cases h1 : col_json.at_key "name" with
  | error e => rw [h1] at h; cases h
  | ok name_json =>
    rw [h1] at h
    simp only at h
    cases h2 : name_json.get_string with
    | error e => rw [h2] at h; cases h
    | ok col_name =>
      rw [h2] at h
      simp only at h
      cases h3 : col_json.at_key "type" with
      | error e => rw [h3] at h; cases h
      | ok type_json =>
        rw [h3] at h
        simp only at h
        cases h4 : type_json.get_string with
        | error e => rw [h4] at h; cases h
        | ok col_type_str =>
          rw [h4] at h
          simp only at h
          cases h5 : type_of_json col_type_str with
          | error e => rw [h5] at h; cases h
          | ok ty =>
            rw [h5] at h
            simp only at h
            cases h6 : col_json.at_key "attributes" with
            | error e => rw [h6] at h; cases h
            | ok attrs_json =>
              rw [h6] at h
              simp only at h
              cases h7 : attributes_of_json attrs_json.items with
              | error e => rw [h7] at h; cases h
              | ok attributes =>
                rw [get_string_ok h2, get_string_ok h4]
                exact ⟨col_name, col_type_str, attrs_json, rfl, rfl, ⟨ty, h5⟩,
                  type_of_json_ok h5, rfl, attributes_of_json_strings _ attributes h7⟩

theorem columns_of_json_structure (items : List Json) :
    ∀ cols, columns_of_json items = .ok cols →
      ∀ col_json ∈ items, ∃ c, column_of_json col_json = .ok c := by
  induction items with
  | nil => intro _ _ a hmem; exact absurd hmem (List.not_mem_nil _)
  | cons col_json rest ih =>
    intro cols h a hmem
    unfold columns_of_json at h
    cases hc : column_of_json col_json with
    | error e => rw [hc] at h; cases h
    | ok column =>
      rw [hc] at h
      simp only at h
      cases hr : columns_of_json rest with
      | error e => rw [hr] at h; cases h
      | ok columns =>
        simp only [List.mem_cons] at hmem
        rcases hmem with hmem | hmem
        · subst hmem
          exact ⟨column, hc⟩
        · exact ih columns hr a hmem

theorem first_duplicate_nodup (columns : List Column) :
    ∀ seen : List String, Table.first_duplicate seen columns = none →
      (columns.map (fun c => c.name)).Nodup ∧ ∀ c ∈ columns, c.name ∉ seen := by
  induction columns with
  | nil => intro seen _; exact ⟨List.nodup_nil, fun _ hmem => absurd hmem (List.not_mem_nil _)⟩
  | cons c rest ih =>
    intro seen h
    unfold Table.first_duplicate at h
    by_cases hc : c.name ∈ seen
    · rw [if_pos hc] at h; cases h
    · rw [if_neg hc] at h
      obtain ⟨hnd, hseen⟩ := ih (c.name :: seen) h
      refine ⟨?_, ?_⟩
      · simp only [List.map_cons, List.nodup_cons, List.mem_map, not_exists, not_and]
        refine ⟨?_, hnd⟩
        intro x hx heq
        exact hseen x hx (by rw [heq]; exact List.mem_cons_self _ _)
      · intro x hx
        simp only [List.mem_cons] at hx
        rcases hx with hx | hx
        · rw [hx]; exact hc
        · intro hmem
          exact hseen x hx (List.mem_cons_of_mem _ hmem)

theorem table_new_ok {name : String} {columns : List Column} {t : Table}
    (h : Table.new name columns = .ok t) :
    t = ⟨name, columns, [], [], 1⟩ ∧ name ≠ "" ∧ columns ≠ [] ∧
      (columns.map (fun c => c.name)).Nodup := by
  unfold Table.new at h
  by_cases h1 : name = ""
  · rw [if_pos h1] at h; cases h
  · rw [if_neg h1] at h
    by_cases h2 : columns = []
    · rw [if_pos h2] at h; cases h
    · rw [if_neg h2] at h
      cases hd : Table.first_duplicate [] columns with
      | some n => rw [hd] at h; cases h
      | none =>
        rw [hd] at h
        simp only [Except.ok.injEq] at h
        exact ⟨h.symm, h1, h2, (first_duplicate_nodup columns [] hd).1⟩

/-- Claim C12, as stated, fails on the code: `Table::from_json` reads one value per
column and never looks at the length of a row's `values` array, and it inserts rows with
`emplace`, which leaves an existing RowID alone. A document whose row holds three values
for two columns is read with the surplus value ignored, and a document whose two rows
both carry the `id` 1 is read with the second row dropped; neither load fails. -/
theorem from_json_accepts_deviations :
    Table.from_json long_values_document =
      .ok ⟨"users", s4_users.columns, [⟨1, [some (.int32 1), some (.string "ada")]⟩], [], 2⟩ ∧
    Table.from_json duplicate_id_document =
      .ok ⟨"users", s4_users.columns, [⟨1, [some (.int32 1), some (.string "ada")]⟩], [], 2⟩ := by
  refine ⟨by decide, by decide⟩

/-- Claim C12, amended: `Table::from_json` returns a table only for a document that has the
snapshot structure in the following respects. It is an object with a string `name` that
is not empty, with `columns` and with `rows`; there is at least one column and no two
columns share a name; every column is an object with a string `name`, a string `type`
that holds one of the texts `int32`, `bool`, `string` and `bytes`, and `attributes` whose
entries are all strings; every row is an object with an `id` that is a number or a boolean
and with `values` that is an array. When the load stops without a thrown exception, some
row has a `values` array with fewer entries than there are columns: the read
`val_array[i]` past its end is not checked and is undefined, so no failure is guaranteed
there. The last parts evaluate three documents: a row whose `id` is `true` is loaded with
the RowID 1, a column of the type text `uint32_t` is loaded as an int32 column, and a row
with one value for two columns runs into the undefined read. -/
theorem from_json_requires_structure (j : Json) :
    (∀ t, Table.from_json j = .ok t →
      ∃ (columns_json rows_json : Json),
        j.at_key "name" = .ok (.string t.name) ∧
        j.at_key "columns" = .ok columns_json ∧
        j.at_key "rows" = .ok rows_json ∧
        columns_of_json columns_json.items = .ok t.columns ∧
        t.name ≠ "" ∧ t.columns ≠ [] ∧ (t.columns.map (fun c => c.name)).Nodup ∧
        (∀ col_json ∈ columns_json.items, ∃ (name type_text : String) (attrs : Json),
          col_json.at_key "name" = .ok (.string name) ∧
          col_json.at_key "type" = .ok (.string type_text) ∧
          (∃ ty, type_of_json type_text = .ok ty) ∧
          ((QueryParser.find_substring "int32".data type_text.data).isSome = true ∨
            (QueryParser.find_substring "bool".data type_text.data).isSome = true ∨
            (QueryParser.find_substring "string".data type_text.data).isSome = true ∨
            (QueryParser.find_substring "bytes".data type_text.data).isSome = true) ∧
          col_json.at_key "attributes" = .ok attrs ∧
          ∀ a ∈ attrs.items, ∃ s, a = Json.string s) ∧
        (∀ row_json ∈ rows_json.items, ∃ (id_json : Json) (vs : List Json),
          row_json.at_key "id" = .ok id_json ∧
          ((∃ n, id_json = .number n) ∨ ∃ b, id_json = .bool b) ∧
          row_json.at_key "values" = .ok (.array vs))) ∧
    (∀ e, Table.from_json j = .error e → e.isStdException = false →
      ∃ (columns_json rows_json : Json) (columns : List Column),
        j.at_key "columns" = .ok columns_json ∧
        columns_of_json columns_json.items = .ok columns ∧
        j.at_key "rows" = .ok rows_json ∧
        ∃ row_json ∈ rows_json.items, ∃ vs : List Json,
          row_json.at_key "values" = .ok (.array vs) ∧ vs.length < columns.length) ∧
    Table.from_json boolean_id_document =
      .ok ⟨"users", s4_users.columns, [⟨1, [some (.int32 1), some (.string "ada")]⟩], [], 2⟩ ∧
    Table.from_json loose_type_document =
      .ok ⟨"t", [⟨"id", ⟨Ty.Int32, 0⟩, [], none⟩], [], [], 1⟩ ∧
    Table.from_json short_values_document =
      .error ⟨.undefined_behaviour, "array index past the end"⟩ := by
  refine ⟨?_, ?_, by decide, by decide, by decide⟩
  · intro t h
    unfold Table.from_json at h
    cases h1 : j.at_key "name" with
    | error e => rw [h1] at h; cases h
    | ok name_json =>
      rw [h1] at h
      simp only at h
      cases h2 : name_json.get_string with
      | error e => rw [h2] at h; cases h
      | ok table_name =>
        rw [h2] at h
        simp only at h
        cases h3 : j.at_key "columns" with
        | error e => rw [h3] at h; cases h
        | ok columns_json =>
          rw [h3] at h
          simp only at h
          cases h4 : columns_of_json columns_json.items with
          | error e => rw [h4] at h; cases h
          | ok columns =>
            rw [h4] at h
            simp only at h
            cases h5 : Table.new table_name columns with
            | error e => rw [h5] at h; cases h
            | ok table =>
              rw [h5] at h
              simp only at h
              cases h6 : j.at_key "rows" with
              | error e => rw [h6] at h; cases h
              | ok rows_json =>
                rw [h6] at h
                simp only at h
                obtain ⟨htable, hname, hcols, hnodup⟩ := table_new_ok h5
                subst htable
                obtain ⟨hn, hc, hrows⟩ := rows_of_json_structure _ _ t h hcols
                simp only at hn hc hrows
                rw [get_string_ok h2, hn, hc]
                refine ⟨columns_json, rows_json, rfl, rfl, rfl, h4, hname, hcols, hnodup, ?_,
                  hrows⟩
                intro col_json hmem
                obtain ⟨c, hcol⟩ := columns_of_json_structure _ columns h4 col_json hmem
                exact column_of_json_structure col_json c hcol
  · intro e h hk
    unfold Table.from_json at h
    cases h1 : j.at_key "name" with
    | error e1 =>
      rw [h1] at h
      cases h
      rw [at_key_thrown h1] at hk
      cases hk
    | ok name_json =>
      rw [h1] at h
      simp only at h
      cases h2 : name_json.get_string with
      | error e1 =>
        rw [h2] at h
        cases h
        rw [get_string_thrown h2] at hk
        cases hk
      | ok table_name =>
        rw [h2] at h
        simp only at h
        cases h3 : j.at_key "columns" with
        | error e1 =>
          rw [h3] at h
          cases h
          rw [at_key_thrown h3] at hk
          cases hk
        | ok columns_json =>
          rw [h3] at h
          simp only at h
          cases h4 : columns_of_json columns_json.items with
          | error e1 =>
            rw [h4] at h
            cases h
            rw [columns_of_json_thrown _ h4] at hk
            cases hk
          | ok columns =>
            rw [h4] at h
            simp only at h
            cases h5 : Table.new table_name columns with
            | error e1 =>
              rw [h5] at h
              cases h
              rw [table_new_thrown h5] at hk
              cases hk
            | ok table =>
              rw [h5] at h
              simp only at h
              cases h6 : j.at_key "rows" with
              | error e1 =>
                rw [h6] at h
                cases h
                rw [at_key_thrown h6] at hk
                cases hk
              | ok rows_json =>
                rw [h6] at h
                simp only at h
                obtain ⟨htable, _, _, _⟩ := table_new_ok h5
                subst htable
                obtain ⟨row_json, hmem, vs, hv, hlen⟩ := rows_of_json_undefined _ _ e h hk
                exact ⟨columns_json, rows_json, columns, rfl, h4, rfl, row_json, hmem, vs, hv,
                  hlen⟩

/-- The amended claim C12 at the snapshot of the table `posts` of scenario S4, which is
read back, and at the document with a short `values` array, where the load stops without
a thrown exception. -/
theorem from_json_requires_structure_witness :
    Table.from_json (Table.to_json s4_posts) = .ok s4_posts ∧
    (∃ (columns_json rows_json : Json),
      (Table.to_json s4_posts).at_key "name" = .ok (.string s4_posts.name) ∧
      (Table.to_json s4_posts).at_key "columns" = .ok columns_json ∧
      (Table.to_json s4_posts).at_key "rows" = .ok rows_json ∧
      columns_of_json columns_json.items = .ok s4_posts.columns ∧
      s4_posts.name ≠ "" ∧ s4_posts.columns ≠ [] ∧
      (s4_posts.columns.map (fun c => c.name)).Nodup ∧
      (∀ col_json ∈ columns_json.items, ∃ (name type_text : String) (attrs : Json),
        col_json.at_key "name" = .ok (.string name) ∧
        col_json.at_key "type" = .ok (.string type_text) ∧
        (∃ ty, type_of_json type_text = .ok ty) ∧
        ((QueryParser.find_substring "int32".data type_text.data).isSome = true ∨
          (QueryParser.find_substring "bool".data type_text.data).isSome = true ∨
          (QueryParser.find_substring "string".data type_text.data).isSome = true ∨
          (QueryParser.find_substring "bytes".data type_text.data).isSome = true) ∧
        col_json.at_key "attributes" = .ok attrs ∧
        ∀ a ∈ attrs.items, ∃ s, a = Json.string s) ∧
      (∀ row_json ∈ rows_json.items, ∃ (id_json : Json) (vs : List Json),
        row_json.at_key "id" = .ok id_json ∧
        ((∃ n, id_json = .number n) ∨ ∃ b, id_json = .bool b) ∧
        row_json.at_key "values" = .ok (.array vs))) ∧
    (∃ (columns_json rows_json : Json) (columns : List Column),
      short_values_document.at_key "columns" = .ok columns_json ∧
      columns_of_json columns_json.items = .ok columns ∧
      short_values_document.at_key "rows" = .ok rows_json ∧
      ∃ row_json ∈ rows_json.items, ∃ vs : List Json,
        row_json.at_key "values" = .ok (.array vs) ∧ vs.length < columns.length) :=
  ⟨by decide, (from_json_requires_structure _).1 s4_posts (by decide),
    (from_json_requires_structure short_values_document).2.1
      ⟨.undefined_behaviour, "array index past the end"⟩ (by decide) (by decide)⟩

/-- An attribute text other than `key`, `unique` and `autoincrement` is skipped by
`Table::from_json` (the branch is marked `TODO: unknown attributes` in the source): the
document whose column lists `primary` is read, and the column carries no attribute. -/
theorem from_json_skips_unknown_attribute :
    Table.from_json unknown_attribute_document =
      .ok ⟨"t", [⟨"id", ⟨Ty.Int32, 0⟩, [], none⟩], [], [], 1⟩ := by
  decide

/-! ## Invariants of the table store -/

theorem mem_map_emplace {rows : List Row} {r x : Row} (h : x ∈ map_emplace rows r) :
    x ∈ rows ∨ x = r := by
  induction rows with
  | nil =>
    simp only [map_emplace, List.mem_singleton] at h
    exact Or.inr h
  | cons y ys ih =>
    unfold map_emplace at h
    by_cases h1 : r.id < y.id
    · rw [if_pos h1] at h
      simp only [List.mem_cons] at h ⊢
      rcases h with h | h | h
      · exact Or.inr h
      · exact Or.inl (Or.inl h)
      · exact Or.inl (Or.inr h)
    · rw [if_neg h1] at h
      by_cases h2 : r.id = y.id
      · rw [if_pos h2] at h
        exact Or.inl h
      · rw [if_neg h2] at h
        simp only [List.mem_cons] at h ⊢
        rcases h with h | h
        · exact Or.inl (Or.inl h)
        · rcases ih h with h3 | h3
          · exact Or.inl (Or.inr h3)
          · exact Or.inr h3

theorem mem_map_erase {rows : List Row} {id : RowID} {x : Row} (h : x ∈ map_erase rows id) :
    x ∈ rows := by
  unfold map_erase at h
  exact List.mem_of_mem_filter h

theorem apply_assignments_frame (table : Table) (assignments : List (String × Expression)) :
    ∀ (row : Row) (row_map : Binding),
      (apply_assignments table assignments row row_map).2.values.length = row.values.length ∧
      (apply_assignments table assignments row row_map).2.id = row.id := by
  induction assignments with
  | nil => intro row row_map; exact ⟨rfl, rfl⟩
  | cons a rest ih =>
    intro row row_map
    obtain ⟨col_name, expr⟩ := a
    unfold apply_assignments
    cases table.get_column_index col_name with
    | error e => exact ⟨rfl, rfl⟩
    | ok col_index =>
      simp only
      cases table.columns[col_index]? with
      | none => exact ⟨rfl, rfl⟩
      | some column =>
        simp only
        cases expr.evaluate row_map with
        | error e => exact ⟨rfl, rfl⟩
        | ok new_val =>
          simp only
          by_cases ht : new_val.get_type ≠ column.type.get_type
          · rw [if_pos ht]
            exact ⟨rfl, rfl⟩
          · rw [if_neg ht]
            unfold Row.set_value
            by_cases hi : col_index ≥ row.values.length
            · rw [if_pos hi]
              exact ⟨rfl, rfl⟩
            · rw [if_neg hi]
              simp only
              have := ih { row with values := row.values.set col_index (some new_val) }
                (row_map.set col_name new_val)
              simp only [List.length_set] at this
              exact this

theorem update_rows_frame (table : Table) (pq : ParsedQuery) (rows : List Row) :
    ∀ (count : Nat) (x : Row), x ∈ (update_rows table pq rows count).2 →
      ∃ r ∈ rows, x.values.length = r.values.length ∧ x.id = r.id := by
  induction rows with
  | nil =>
    intro count x hx
    simp [update_rows] at hx
  | cons row rest ih =>
    intro count x hx
    unfold update_rows at hx
    simp only at hx
    have hself : ∀ y : Row, y ∈ row :: rest →
        ∃ r ∈ row :: rest, y.values.length = r.values.length ∧ y.id = r.id :=
      fun y hy => ⟨y, hy, rfl, rfl⟩
    have htail : ∀ (c : Nat) (y : Row), y ∈ (update_rows table pq rest c).2 →
        ∃ r ∈ row :: rest, y.values.length = r.values.length ∧ y.id = r.id := by
      intro c y hy
      obtain ⟨r, hr, h1, h2⟩ := ih c y hy
      exact ⟨r, List.mem_cons_of_mem _ hr, h1, h2⟩
    cases hc : eval_condition "WHERE clause" pq.update_where_clause
        (row_map_of table.columns row) with
    | error e =>
      rw [hc] at hx
      exact hself x hx
    | ok b =>
      rw [hc] at hx
      cases b with
      | false =>
        simp only [List.mem_cons] at hx
        rcases hx with hx | hx
        · exact ⟨row, List.mem_cons_self _ _, by rw [hx], by rw [hx]⟩
        · exact htail count x hx
      | true =>
        simp only at hx
        have hframe := apply_assignments_frame table pq.update_assignments row
          (row_map_of table.columns row)
        cases ha : apply_assignments table pq.update_assignments row
            (row_map_of table.columns row) with
        | mk outcome row1 =>
          rw [ha] at hx hframe
          simp only at hframe
          cases outcome with
          | error e =>
            simp only [List.mem_cons] at hx
            rcases hx with hx | hx
            · exact ⟨row, List.mem_cons_self _ _, by rw [hx, hframe.1], by rw [hx, hframe.2]⟩
            · exact ⟨x, List.mem_cons_of_mem _ hx, rfl, rfl⟩
          | ok u =>
            simp only [List.mem_cons] at hx
            rcases hx with hx | hx
            · exact ⟨row, List.mem_cons_self _ _, by rw [hx, hframe.1], by rw [hx, hframe.2]⟩
            · exact htail (count + 1) x hx

theorem execute_update_database (pq : ParsedQuery) (db : Database) (t : Table)
    (h : db.get_table pq.table_name = .ok t) :
    (execute_update pq db).2 =
      db.put_table pq.table_name { t with rows := (update_rows t pq t.rows 0).2 } := by
  unfold execute_update
  rw [h]
  simp only
  cases (update_rows t pq t.rows 0).1 with
  | error e =>
    simp only
    split <;> rfl
  | ok n => rfl

/-- Claim C13 (row-length invariant): a new table satisfies the invariant, and on a table
in which every stored row has as many slots as there are columns, every successful
`Table::insert_row` (both overloads), `Table::add_column` and `Table::delete_row` leaves
such a table, `Row::set_value` keeps the length of the row, and the table an update
leaves behind (whatever its outcome) again has only rows as long as the column list. -/
theorem row_length_invariant (t : Table) (h : t.rows_full) :
    (∀ (name : String) (columns : List Column) (t0 : Table),
      Table.new name columns = .ok t0 → t0.rows_full) ∧
    (∀ (values : List (Option Value)) (id : RowID) (t1 : Table),
      t.insert_row values = (.ok id, t1) → t1.rows_full) ∧
    (∀ (values : List (Option Value)) (id new_id : RowID) (t1 : Table),
      t.insert_row_id values id = (.ok new_id, t1) → t1.rows_full) ∧
    (∀ (column : Column) (t1 : Table), t.add_column column = (.ok (), t1) → t1.rows_full) ∧
    (∀ (id : RowID) (t1 : Table), t.delete_row id = (.ok (), t1) → t1.rows_full) ∧
    (∀ r ∈ t.rows, ∀ (index : Nat) (value : Value) (r1 : Row),
      r.set_value index value = (.ok (), r1) → r1.values.length = t.columns.length) ∧
    (∀ (pq : ParsedQuery) (db : Database), db.get_table pq.table_name = .ok t →
      ∀ t1 : Table, (execute_update pq db).2.get_table pq.table_name = .ok t1 →
        t1.rows_full) := by
  refine ⟨?_, ?_, ?_, ?_, ?_, ?_, ?_⟩
  · intro name columns t0 h0
    rw [(table_new_ok h0).1]
    intro r hr
    exact absurd hr (List.not_mem_nil _)
  · intro values id t1 hins
    unfold Table.insert_row at hins
    cases hv : t.validate_row values with
    | error e => rw [hv] at hins; simp at hins
    | ok u =>
      rw [hv] at hins
      simp only [Prod.mk.injEq] at hins
      rw [← hins.2]
      intro r hr
      rcases mem_map_emplace hr with hr | hr
      · exact h r hr
      · rw [hr]
        simp
  · intro values id new_id t1 hins
    unfold Table.insert_row_id at hins
    cases hv : t.validate_row values with
    | error e => rw [hv] at hins; simp at hins
    | ok u =>
      rw [hv] at hins
      by_cases hl : values.length ≠ t.columns.length
      · rw [if_pos hl] at hins; simp at hins
      · rw [if_neg hl] at hins
        simp only at hins
        split at hins
        · simp at hins
        · simp only [Prod.mk.injEq] at hins
          rw [← hins.2]
          intro r hr
          rcases mem_map_emplace hr with hr | hr
          · exact h r hr
          · rw [hr]
            simp
  · intro column t1 hadd
    unfold Table.add_column at hadd
    by_cases hc : t.has_column column.name = true
    · rw [if_pos hc] at hadd; simp at hadd
    · rw [if_neg hc] at hadd
      simp only [Prod.mk.injEq, true_and] at hadd
      rw [← hadd]
      intro r hr
      simp only [List.mem_map] at hr
      obtain ⟨r0, hr0, hr⟩ := hr
      rw [← hr]
      simp only [List.length_append, List.length_singleton]
      rw [h r0 hr0]
  · intro id t1 hdel
    unfold Table.delete_row at hdel
    cases hf : map_find t.rows id with
    | none => rw [hf] at hdel; simp at hdel
    | some r0 =>
      rw [hf] at hdel
      simp only [Prod.mk.injEq, true_and] at hdel
      rw [← hdel]
      intro r hr
      exact h r (mem_map_erase hr)
  · intro r hr index value r1 hset
    unfold Row.set_value at hset
    by_cases hi : index ≥ r.values.length
    · rw [if_pos hi] at hset; simp at hset
    · rw [if_neg hi] at hset
      simp only [Prod.mk.injEq, true_and] at hset
      rw [← hset]
      simp only [List.length_set]
      exact h r hr
  · intro pq db hget t1 hget1
    have hput := get_table_put_table db pq.table_name t
      { t with rows := (update_rows t pq t.rows 0).2 } hget
    rw [execute_update_database pq db t hget, hput] at hget1
    have ht1 : t1 = { t with rows := (update_rows t pq t.rows 0).2 } :=
      (Except.ok.inj hget1).symm
    rw [ht1]
    intro x hx
    obtain ⟨r, hr, hlen, _⟩ := update_rows_frame t pq t.rows 0 x hx
    rw [hlen]
    exact h r hr

theorem s4_users_rows_full : s4_users.rows_full := by
  intro r hr
  simp only [s4_users, List.mem_cons, List.mem_singleton, List.not_mem_nil, or_false] at hr
  rcases hr with hr | hr <;> rw [hr] <;> rfl

/-- Claim C13 at the table `users` of scenario S4. -/
theorem row_length_invariant_witness :
    s4_users.rows_full ∧
    (∀ (values : List (Option Value)) (id : RowID) (t1 : Table),
      s4_users.insert_row values = (.ok id, t1) → t1.rows_full) ∧
    (∀ (column : Column) (t1 : Table),
      s4_users.add_column column = (.ok (), t1) → t1.rows_full) :=
  ⟨s4_users_rows_full, (row_length_invariant s4_users s4_users_rows_full).2.1,
    (row_length_invariant s4_users s4_users_rows_full).2.2.2.1⟩

/-- Claim C14, as stated, fails on the code: `next_row_id_` is a 32-bit counter, and an
insert under the last RowID moves it to `new_id + 1`, which is 0. On a new table the
insert with the explicit RowID 4294967295 succeeds and leaves `next_row_id` 0, not
greater than the stored RowID; the next `insert_row(values)` then returns 0, a RowID
smaller than the one returned before. -/
theorem next_row_id_wraps :
    ∃ t0 t1 t2 : Table,
      Table.new "t" [⟨"v", ⟨Ty.Int32, 0⟩, [], none⟩] = .ok t0 ∧
      t0.next_row_id = 1 ∧
      t0.insert_row_id [some (.int32 5)] 4294967295 = (.ok 4294967295, t1) ∧
      t1.rows = [⟨4294967295, [some (.int32 5)]⟩] ∧
      t1.next_row_id = 0 ∧
      ¬ t1.ids_below_next ∧
      t1.insert_row [some (.int32 6)] = (.ok 0, t2) := by
  refine ⟨⟨"t", [⟨"v", ⟨Ty.Int32, 0⟩, [], none⟩], [], [], 1⟩,
    ⟨"t", [⟨"v", ⟨Ty.Int32, 0⟩, [], none⟩], [⟨4294967295, [some (.int32 5)]⟩], [], 0⟩,
    ⟨"t", [⟨"v", ⟨Ty.Int32, 0⟩, [], none⟩],
      [⟨0, [some (.int32 6)]⟩, ⟨4294967295, [some (.int32 5)]⟩], [], 1⟩,
    by decide, rfl, by decide, rfl, rfl, ?_, by decide⟩
  intro h
  have h1 := h ⟨4294967295, [some (.int32 5)]⟩ (List.mem_singleton.mpr rfl)
  exact absurd h1 (by decide)

theorem mem_of_map_find {rows : List Row} {id : RowID} {r : Row}
    (h : map_find rows id = some r) : r ∈ rows ∧ r.id = id := by
  unfold map_find at h
  refine ⟨List.mem_of_find?_eq_some h, ?_⟩
  have := List.find?_some h
  simpa using this

/-- Claim C14, amended (RowID invariant below the last RowID): a new table has
`next_row_id` 1. On a table whose `next_row_id` is greater than every stored RowID and
smaller than 4294967295, a successful `Table::insert_row(values)` returns the pre-call
`next_row_id`, which no stored row carries, and increments it; a successful insert with
an explicit RowID smaller than 4294967295 and a successful `Table::delete_row` never
lower `next_row_id`; after each of them `next_row_id` is greater than every stored RowID;
so a second insert returns a greater RowID than the first, and an insert after a delete
returns a RowID greater than the deleted one. -/
theorem row_id_invariant (t : Table) (h : t.ids_below_next)
    (hbound : t.next_row_id < 2 ^ 32 - 1) :
    (∀ (name : String) (columns : List Column) (t0 : Table),
      Table.new name columns = .ok t0 → t0.next_row_id = 1 ∧ t0.ids_below_next) ∧
    (∀ (values : List (Option Value)) (id : RowID) (t1 : Table),
      t.insert_row values = (.ok id, t1) →
        id = t.next_row_id ∧ (∀ r ∈ t.rows, r.id ≠ id) ∧
        t1.next_row_id = t.next_row_id + 1 ∧ t1.ids_below_next) ∧
    (∀ (values : List (Option Value)) (id new_id : RowID) (t1 : Table), id < 2 ^ 32 - 1 →
      t.insert_row_id values id = (.ok new_id, t1) →
        t.next_row_id ≤ t1.next_row_id ∧ t1.ids_below_next) ∧
    (∀ (id : RowID) (t1 : Table), t.delete_row id = (.ok (), t1) →
      t1.next_row_id = t.next_row_id ∧ t1.ids_below_next) ∧
    (∀ (values values2 : List (Option Value)) (id id2 : RowID) (t1 t2 : Table),
      t.insert_row values = (.ok id, t1) → t1.insert_row values2 = (.ok id2, t2) →
        id < id2) ∧
    (∀ (id id2 : RowID) (values : List (Option Value)) (t1 t2 : Table),
      t.delete_row id = (.ok (), t1) → t1.insert_row values = (.ok id2, t2) → id < id2) := by
  have hins : ∀ (s : Table) (values : List (Option Value)) (id : RowID) (s1 : Table),
      s.insert_row values = (.ok id, s1) →
        id = s.next_row_id ∧ s1.next_row_id = (s.next_row_id + 1) % 2 ^ 32 ∧
        s1.rows = map_emplace s.rows ⟨s.next_row_id,
          (List.range s.columns.length).map (Table.complete_value s values)⟩ := by
    intro s values id s1 hs
    unfold Table.insert_row at hs
    cases hv : s.validate_row values with
    | error e => rw [hv] at hs; simp at hs
    | ok u =>
      rw [hv] at hs
      simp only [Prod.mk.injEq, Except.ok.injEq] at hs
      rw [← hs.2]
      exact ⟨hs.1.symm, rfl, rfl⟩
  have hdel : ∀ (id : RowID) (t1 : Table), t.delete_row id = (.ok (), t1) →
      t1.next_row_id = t.next_row_id ∧ t1.ids_below_next ∧ id < t.next_row_id := by
    intro id t1 hd
    unfold Table.delete_row at hd
    cases hf : map_find t.rows id with
    | none => rw [hf] at hd; simp at hd
    | some r0 =>
      rw [hf] at hd
      simp only [Prod.mk.injEq, true_and] at hd
      rw [← hd]
      obtain ⟨hmem, hid⟩ := mem_of_map_find hf
      refine ⟨rfl, fun r hr => h r (mem_map_erase hr), ?_⟩
      rw [← hid]
      exact h r0 hmem
  have hmod : (t.next_row_id + 1) % 2 ^ 32 = t.next_row_id + 1 :=
    Nat.mod_eq_of_lt (by unfold RowID at *; omega)
  refine ⟨?_, ?_, ?_, ?_, ?_, ?_⟩
  · intro name columns t0 h0
    rw [(table_new_ok h0).1]
    exact ⟨rfl, fun r hr => absurd hr (List.not_mem_nil _)⟩
  · intro values id t1 h1
    obtain ⟨hid, hnext, hrows⟩ := hins t values id t1 h1
    rw [hmod] at hnext
    refine ⟨hid, ?_, hnext, ?_⟩
    · intro r hr heq
      have := h r hr
      rw [heq, hid] at this
      exact Nat.lt_irrefl _ this
    · intro r hr
      rw [hrows] at hr
      rw [hnext]
      rcases mem_map_emplace hr with hr | hr
      · exact Nat.lt_succ_of_lt (h r hr)
      · rw [hr]
        exact Nat.lt_succ_self _
  · intro values id new_id t1 hid h1
    unfold Table.insert_row_id at h1
    cases hv : t.validate_row values with
    | error e => rw [hv] at h1; simp at h1
    | ok u =>
      rw [hv] at h1
      by_cases hl : values.length ≠ t.columns.length
      · rw [if_pos hl] at h1; simp at h1
      · rw [if_neg hl] at h1
        simp only at h1
        split at h1
        · simp at h1
        · simp only [Prod.mk.injEq, Except.ok.injEq] at h1
          rw [← h1.2]
          simp only
          have hmod2 : (id + 1) % 2 ^ 32 = id + 1 := Nat.mod_eq_of_lt (by unfold RowID at *; omega)
          rw [hmod, hmod2]
          by_cases h0 : id ≠ 0
          · simp only [if_pos h0]
            by_cases hge : id ≥ t.next_row_id
            · simp only [if_pos hge]
              refine ⟨by unfold RowID at *; omega, ?_⟩
              intro r hr
              rcases mem_map_emplace hr with hr | hr
              · have := h r hr
                show r.id < id + 1
                unfold RowID at *
                omega
              · rw [hr]
                exact Nat.lt_succ_self _
            · simp only [if_neg hge]
              refine ⟨Nat.le_refl _, ?_⟩
              intro r hr
              rcases mem_map_emplace hr with hr | hr
              · exact h r hr
              · rw [hr]
                show id < t.next_row_id
                unfold RowID at *
                omega
          · simp only [if_neg h0]
            refine ⟨Nat.le_succ _, ?_⟩
            intro r hr
            rcases mem_map_emplace hr with hr | hr
            · exact Nat.lt_succ_of_lt (h r hr)
            · rw [hr]
              exact Nat.lt_succ_self _
  · intro id t1 hd
    exact ⟨(hdel id t1 hd).1, (hdel id t1 hd).2.1⟩
  · intro values values2 id id2 t1 t2 h1 h2
    obtain ⟨hid, hnext, _⟩ := hins t values id t1 h1
    obtain ⟨hid2, _, _⟩ := hins t1 values2 id2 t2 h2
    rw [hid, hid2, hnext, hmod]
    exact Nat.lt_succ_self _
  · intro id id2 values t1 t2 hd h2
    obtain ⟨hnext, _, hlt⟩ := hdel id t1 hd
    obtain ⟨hid2, _, _⟩ := hins t1 values id2 t2 h2
    rw [hid2, hnext]
    exact hlt

theorem s4_users_ids_below_next : s4_users.ids_below_next := by
  intro r hr
  simp only [s4_users, List.mem_cons, List.mem_singleton, List.not_mem_nil, or_false] at hr
  rcases hr with hr | hr <;> rw [hr] <;> decide

/-- The amended claim C14 at the table `users` of scenario S4, whose `next_row_id` is 3. -/
theorem row_id_invariant_witness :
    s4_users.ids_below_next ∧ s4_users.next_row_id < 2 ^ 32 - 1 ∧
    (∀ (values : List (Option Value)) (id : RowID) (t1 : Table),
      s4_users.insert_row values = (.ok id, t1) →
        id = s4_users.next_row_id ∧ (∀ r ∈ s4_users.rows, r.id ≠ id) ∧
        t1.next_row_id = s4_users.next_row_id + 1 ∧ t1.ids_below_next) :=
  ⟨s4_users_ids_below_next, by decide,
    (row_id_invariant s4_users s4_users_ids_below_next (by decide)).2.1⟩

/-! ## Claims on the values of an insert -/

theorem hex_byte_xdigits (a b : Char) (ha : isxdigit a = true) (hb : isxdigit b = true) :
    ∃ v, hex_byte [a, b] = some v := by
  simp [hex_byte, ha, hb]

theorem hex_bytes_xdigits (what : String) (k : Nat) :
    ∀ digits : List Char, digits.length = 2 * k → (∀ c ∈ digits, isxdigit c = true) →
      ∃ bytes, hex_bytes what digits = .ok bytes ∧ bytes.length = k := by
  induction k with
  | zero =>
    intro digits hlen _
    have : digits = [] := List.length_eq_zero.mp (by omega)
    subst this
    exact ⟨[], rfl, rfl⟩
  | succ k ih =>
    intro digits hlen hx
    match digits, hlen, hx with
    | a :: b :: rest, hlen, hx =>
      obtain ⟨v, hv⟩ := hex_byte_xdigits a b (hx a (by simp)) (hx b (by simp))
      obtain ⟨bytes, hb, hl⟩ := ih rest (by simp at hlen; omega)
        (fun c hc => hx c (by simp [hc]))
      refine ⟨v :: bytes, ?_, by simp [hl]⟩
      simp only [hex_bytes, hv, hb]
    | [a], hlen, _ => simp at hlen; omega
    | [], hlen, _ => simp at hlen

theorem validate_row_value_string (columns : List Column) (values : List (Option Value))
    (i : Nat) (c : Column) (s : String) (N : Nat) (hc : columns[i]? = some c)
    (ht : c.type = ⟨Ty.String, N⟩) (hv : values[i]? = some (some (.string s))) :
    Table.validate_row_value columns values i =
      if s.length > N then
        .error ⟨.invalid_argument, "Value for column \"" ++ c.name ++
          "\" exceeds maximum length."⟩
      else .ok () := by
  unfold Table.validate_row_value
  rw [hv, hc]
  simp [ht, Value.get_type, DataType.get_type, DataType.is_string, DataType.is_bytes,
    Value.get_string, DataType.get_size]

theorem validate_row_value_bytes (columns : List Column) (values : List (Option Value))
    (i : Nat) (c : Column) (b : List Nat) (N : Nat) (hc : columns[i]? = some c)
    (ht : c.type = ⟨Ty.Bytes, N⟩) (hv : values[i]? = some (some (.bytes b))) :
    Table.validate_row_value columns values i =
      if b.length > N then
        .error ⟨.invalid_argument, "Value for column \"" ++ c.name ++
          "\" exceeds maximum byte size."⟩
      else .ok () := by
  unfold Table.validate_row_value
  rw [hv, hc]
  simp [ht, Value.get_type, DataType.get_type, DataType.is_string, DataType.is_bytes,
    Value.get_bytes, DataType.get_size]

theorem validate_row_rejects (t : Table) (values : List (Option Value)) (i : Nat)
    (slot : Option Value) (hv : values[i]? = some slot)
    (h : Table.validate_row_value t.columns values i ≠ .ok ()) :
    ∃ e, t.validate_row values = .error e := by
  unfold Table.validate_row
  by_cases hl : values.length > t.columns.length
  · rw [if_pos hl]
    exact ⟨_, rfl⟩
  · rw [if_neg hl]
    rcases except_unit_cases (forRange values.length (Table.validate_row_value t.columns values))
      with hok | ⟨e, he⟩
    · rw [forRange_ok_iff] at hok
      exact absurd (hok i (lt_length_of_getElem? hv)) h
    · rw [he]
      exact ⟨e, rfl⟩

theorem validate_row_single (name : String) (c : Column) (indexes : List Index) (nx : RowID)
    (v : Value) (h : Table.validate_row_value [c] [some v] 0 = .ok ()) :
    Table.validate_row ⟨name, [c], [], indexes, nx⟩ [some v] = .ok () := by
  unfold Table.validate_row
  rw [if_neg (by simp)]
  have h1 : forRange [some v].length (Table.validate_row_value [c] [some v]) = .ok () := by
    rw [forRange_ok_iff]
    intro i hi
    have : i = 0 := by simp at hi; omega
    rw [this]
    exact h
  simp only [h1]
  rw [forRange_ok_iff]
  intro i hi
  have : i = 0 := by simp at hi; omega
  rw [this]
  simp only [Table.validate_row_unique, List.getElem?_cons_zero]
  split <;> rfl

theorem parse_value_string (s : String) (N : Nat) (hN : 0 < N) :
    QueryParser.parse_value .StringLiteral s N =
      if s.length > N then
        .error ⟨.invalid_argument, "String value exceeds defined size of " ++ Nat.repr N⟩
      else .ok (.string s) := by
  unfold QueryParser.parse_value
  by_cases h : s.length > N
  · rw [if_pos ⟨hN, h⟩, if_pos h]
  · rw [if_neg (fun hh => h hh.2), if_neg h]

theorem parse_value_bytes (a b : Char) (digits : List Char) (k N : Nat)
    (hlen : digits.length = 2 * k) (hmax : digits.length < 2 ^ 64)
    (hx : ∀ c ∈ digits, isxdigit c = true) :
    (k ≤ N → ∃ bytes, QueryParser.parse_value .BytesLiteral ⟨a :: b :: digits⟩ N =
        .ok (.bytes bytes) ∧ bytes.length = k) ∧
    (N < k → QueryParser.parse_value .BytesLiteral ⟨a :: b :: digits⟩ N =
        .error ⟨.invalid_argument, "Bytes value exceeds defined size of " ++ Nat.repr N⟩) := by
  have hsub : substr (a :: b :: digits) 2 (2 ^ 64 - 1) = .ok digits := by
    unfold substr
    rw [if_neg (by simp)]
    simp only [List.drop_succ_cons, List.drop_zero]
    rw [List.take_of_length_le (by omega)]
  have heven : ¬ digits.length % 2 ≠ 0 := by omega
  have hhalf : digits.length / 2 = k := by omega
  constructor
  · intro hk
    obtain ⟨bytes, hb, hl⟩ := hex_bytes_xdigits "stoul" k digits hlen hx
    refine ⟨bytes, ?_, hl⟩
    unfold QueryParser.parse_value
    simp only [hsub]
    rw [if_neg heven, hhalf, if_neg (by omega), hb]
  · intro hk
    unfold QueryParser.parse_value
    simp only [hsub]
    rw [if_neg heven, hhalf, if_pos hk]

/-- Claim C15 (size bound): for a declared size `N ≥ 1`, `parse_value` accepts a string
literal for a `string[N]` column exactly when it has at most `N` characters, and a bytes
literal (a prefix and an even number of hex digits) for a `bytes[N]` column exactly when
it denotes at most `N` octets; the check of `Table::validate_row` on a slot of a
`string[N]` (`bytes[N]`) column passes exactly when the String (Bytes) value has at most
`N` characters (octets), a longer value makes `validate_row` fail, and a value of at most
`N` is accepted by `validate_row` on a table with that one column and no rows. In
particular length `N` is accepted and length `N + 1` rejected. -/
theorem size_bound (N : Nat) (hN : 0 < N) :
    (∀ s : String,
      (QueryParser.parse_value .StringLiteral s N = .ok (.string s) ↔ s.length ≤ N) ∧
      (N < s.length → ∃ e, QueryParser.parse_value .StringLiteral s N = .error e)) ∧
    (∀ (a b : Char) (digits : List Char) (k : Nat), digits.length = 2 * k →
      digits.length < 2 ^ 64 → (∀ c ∈ digits, isxdigit c = true) →
      ((∃ bytes, QueryParser.parse_value .BytesLiteral ⟨a :: b :: digits⟩ N =
          .ok (.bytes bytes) ∧ bytes.length = k) ↔ k ≤ N) ∧
      (N < k → ∃ e, QueryParser.parse_value .BytesLiteral ⟨a :: b :: digits⟩ N = .error e)) ∧
    (∀ (t : Table) (values : List (Option Value)) (i : Nat) (c : Column) (s : String),
      t.columns[i]? = some c → c.type = ⟨Ty.String, N⟩ →
      values[i]? = some (some (.string s)) →
        (Table.validate_row_value t.columns values i = .ok () ↔ s.length ≤ N) ∧
        (N < s.length → ∃ e, t.validate_row values = .error e)) ∧
    (∀ (t : Table) (values : List (Option Value)) (i : Nat) (c : Column) (b : List Nat),
      t.columns[i]? = some c → c.type = ⟨Ty.Bytes, N⟩ →
      values[i]? = some (some (.bytes b)) →
        (Table.validate_row_value t.columns values i = .ok () ↔ b.length ≤ N) ∧
        (N < b.length → ∃ e, t.validate_row values = .error e)) ∧
    (∀ (name : String) (c : Column) (indexes : List Index) (nx : RowID) (s : String),
      c.type = ⟨Ty.String, N⟩ → s.length ≤ N →
        Table.validate_row ⟨name, [c], [], indexes, nx⟩ [some (.string s)] = .ok ()) ∧
    (∀ (name : String) (c : Column) (indexes : List Index) (nx : RowID) (b : List Nat),
      c.type = ⟨Ty.Bytes, N⟩ → b.length ≤ N →
        Table.validate_row ⟨name, [c], [], indexes, nx⟩ [some (.bytes b)] = .ok ()) := by
  refine ⟨?_, ?_, ?_, ?_, ?_, ?_⟩
  · intro s
    rw [parse_value_string s N hN]
    constructor
    · constructor
      · intro h
        by_cases hl : s.length > N
        · rw [if_pos hl] at h; cases h
        · exact Nat.le_of_not_gt hl
      · intro h
        rw [if_neg (Nat.not_lt.mpr h)]
    · intro h
      rw [if_pos h]
      exact ⟨_, rfl⟩
  · intro a b digits k hlen hmax hx
    obtain ⟨hacc, hrej⟩ := parse_value_bytes a b digits k N hlen hmax hx
    constructor
    · constructor
      · intro ⟨bytes, hb, _⟩
        by_cases hk : N < k
        · rw [hrej hk] at hb; cases hb
        · exact Nat.le_of_not_gt hk
      · exact hacc
    · intro hk
      exact ⟨_, hrej hk⟩
  · intro t values i c s hc ht hv
    have hval := validate_row_value_string t.columns values i c s N hc ht hv
    constructor
    · rw [hval]
      constructor
      · intro h
        by_cases hl : s.length > N
        · rw [if_pos hl] at h; cases h
        · exact Nat.le_of_not_gt hl
      · intro h
        rw [if_neg (Nat.not_lt.mpr h)]
    · intro h
      apply validate_row_rejects t values i _ hv
      rw [hval, if_pos h]
      intro hh
      cases hh
  · intro t values i c b hc ht hv
    have hval := validate_row_value_bytes t.columns values i c b N hc ht hv
    constructor
    · rw [hval]
      constructor
      · intro h
        by_cases hl : b.length > N
        · rw [if_pos hl] at h; cases h
        · exact Nat.le_of_not_gt hl
      · intro h
        rw [if_neg (Nat.not_lt.mpr h)]
    · intro h
      apply validate_row_rejects t values i _ hv
      rw [hval, if_pos h]
      intro hh
      cases hh
  · intro name c indexes nx s ht hs
    apply validate_row_single
    rw [validate_row_value_string [c] [some (.string s)] 0 c s N rfl ht rfl,
      if_neg (Nat.not_lt.mpr hs)]
  · intro name c indexes nx b ht hb
    apply validate_row_single
    rw [validate_row_value_bytes [c] [some (.bytes b)] 0 c b N rfl ht rfl,
      if_neg (Nat.not_lt.mpr hb)]

/-- Claim C15 at the declared size 5 of `InsertTest.StringExceedsSize`: `"12345"` is
accepted and `"123456"` rejected by `parse_value`. -/
theorem size_bound_witness :
    0 < 5 ∧
    QueryParser.parse_value .StringLiteral "12345" 5 = .ok (.string "12345") ∧
    ∃ e, QueryParser.parse_value .StringLiteral "123456" 5 = .error e :=
  ⟨by decide, ((size_bound 5 (by decide)).1 "12345").1.mpr (by decide),
    ((size_bound 5 (by decide)).1 "123456").2 (by decide)⟩

/-- Claim C16, evaluated on the code, on the table of `InsertTest.MissingValues`. The
statement that omits the last value is rejected by the parser with `Missing value for
column: age`. The statement `insert (1, , 30) to users`, which leaves the slot of `name`
empty between two commas, is parsed into the values `(1, NULL, 30)`: the comma branch of
`parse_values` stores NULL without the check the other branches make. The `Insert` case
of `QueryExecutor::execute` hands them to `Table::insert_row`, which stores the row and
returns RowID 1. `Database::insert_row`, the path the test takes, rejects the same
values with `Missing value for column: name`. -/
theorem insert_empty_slot_is_stored
    (named_format : String → List Column → Except Exception (List (Option Value)))
    (other_branches : String → String → List Char → Except Exception ParsedQuery) :
    QueryParser.parse (QueryParser.with_insert named_format missing_values_db other_branches)
      "insert (1, \"Bob\") to users;" =
      .error ⟨.invalid_argument, "Missing value for column: age"⟩ ∧
    QueryParser.parse (QueryParser.with_insert named_format missing_values_db other_branches)
      "insert (1, , 30) to users;" = .ok insert_empty_slot ∧
    execute_insert insert_empty_slot missing_values_db =
      (.ok (QueryResult.of_data [[some (.int32 1)]]),
        ⟨[("users", { missing_values_users with
            rows := [⟨1, [some (.int32 1), none, some (.int32 30)]⟩]
            next_row_id := 2 })]⟩) ∧
    (Database.execute_handlers (execute_insert insert_empty_slot missing_values_db).1).is_ok =
      true ∧
    missing_values_db.insert_row "users" [some (.int32 1), none, some (.int32 30)] =
      (.error ⟨.invalid_argument, "Missing value for column: name"⟩, missing_values_db) := by
  refine ⟨by rfl, by rfl, by decide, by decide, by decide⟩

/-! ## Claims on the evaluator -/

theorem evaluate_binary (op : BinaryOperator) (left right : Expression) (row : Binding)
    (l r : Value) (hl : left.evaluate row = .ok l) (hr : right.evaluate row = .ok r) :
    (Expression.Binary op left right).evaluate row = binary_apply op l r := by
  simp only [Expression.evaluate, hl, hr]

/-- Claim C17: a Binary node with operator `/` or `%` whose operands evaluate to Int32
values, the right one to 0, evaluates to an error (`Division by zero.`, `Modulo by
zero.`) and to no value, for every left operand and every binding. -/
theorem division_by_zero_is_error (left right : Expression) (row : Binding) (a : Int)
    (hl : left.evaluate row = .ok (.int32 a)) (hr : right.evaluate row = .ok (.int32 0)) :
    (Expression.Binary .Divide left right).evaluate row =
      .error ⟨.TypeMismatchException, "Division by zero."⟩ ∧
    (Expression.Binary .Modulo left right).evaluate row =
      .error ⟨.TypeMismatchException, "Modulo by zero."⟩ := by
  rw [evaluate_binary _ _ _ _ _ _ hl hr, evaluate_binary _ _ _ _ _ _ hl hr]
  exact ⟨rfl, rfl⟩

/-- Claim C17 at `7 / 0` and `7 % 0`. -/
theorem division_by_zero_is_error_witness :
    (Expression.Binary .Divide (.Literal (.int32 7)) (.Literal (.int32 0))).evaluate [] =
      .error ⟨.TypeMismatchException, "Division by zero."⟩ ∧
    (Expression.Binary .Modulo (.Literal (.int32 7)) (.Literal (.int32 0))).evaluate [] =
      .error ⟨.TypeMismatchException, "Modulo by zero."⟩ :=
  division_by_zero_is_error (.Literal (.int32 7)) (.Literal (.int32 0)) [] 7 rfl rfl

theorem string_compare_eq (a : List Char) :
    ∀ b : List Char, string_compare a b = if a < b then -1 else if b < a then 1 else 0 := by
  induction a with
  | nil =>
    intro b
    cases b with
    | nil => simp [string_compare]
    | cons y ys => simp [string_compare, List.nil_lt_cons]
  | cons x xs ih =>
    intro b
    cases b with
    | nil =>
      have h1 : ¬ (x :: xs < ([] : List Char)) := not_lt_of_lt (List.nil_lt_cons x xs)
      simp [string_compare, h1, List.nil_lt_cons]
    | cons y ys =>
      unfold string_compare
      by_cases hxy : x.toNat < y.toNat
      · have hlt : x :: xs < y :: ys := List.Lex.rel hxy
        rw [if_pos hxy, if_pos hlt]
      · rw [if_neg hxy]
        by_cases hyx : y.toNat < x.toNat
        · have hgt : y :: ys < x :: xs := List.Lex.rel hyx
          rw [if_pos hyx, if_neg (not_lt_of_lt hgt), if_pos hgt]
        · rw [if_neg hyx]
          have heq : x = y := by
            apply Char.ext
            apply UInt32.ext
            exact Nat.le_antisymm (Nat.le_of_not_lt hyx) (Nat.le_of_not_lt hxy)
          subst heq
          rw [ih ys]
          have h1 : (x :: xs < x :: ys) ↔ xs < ys := List.Lex.cons_iff
          have h2 : (x :: ys < x :: xs) ↔ ys < xs := List.Lex.cons_iff
          simp only [h1, h2]

theorem compare_values_spec (l r : Value) (ht : l.get_type = r.get_type) (hn : l ≠ .null) :
    ∃ c : Int, compare_values l r = .ok c ∧ (c < 0 ↔ l.natural_lt r) ∧ (c = 0 ↔ l = r) ∧
      (c > 0 ↔ r.natural_lt l) := by
  cases l with
  | null => exact absurd rfl hn
  | int32 a =>
    cases r with
    | int32 b =>
      refine ⟨_, by simp [compare_values, Value.get_type]; rfl, ?_, ?_, ?_⟩
      · simp only [Value.natural_lt]
        by_cases h1 : a < b
        · simp [h1]
        · by_cases h2 : a > b
          · simp [h1, h2]
          · simp [h1, h2]
      · simp only [Value.int32.injEq]
        by_cases h1 : a < b
        · simp [h1]; omega
        · by_cases h2 : a > b
          · simp [h1, h2]; omega
          · simp [h1, h2]; omega
      · simp only [Value.natural_lt]
        by_cases h1 : a < b
        · simp [h1]; omega
        · by_cases h2 : a > b
          · simp [h1, h2]
          · simp [h1, h2]
    | null => simp [Value.get_type] at ht
    | bool b => simp [Value.get_type] at ht
    | string b => simp [Value.get_type] at ht
    | bytes b => simp [Value.get_type] at ht
  | bool a =>
    cases r with
    | bool b =>
      refine ⟨_, by simp [compare_values, Value.get_type]; rfl, ?_, ?_, ?_⟩ <;>
        cases a <;> cases b <;> simp [Value.natural_lt]
    | null => simp [Value.get_type] at ht
    | int32 b => simp [Value.get_type] at ht
    | string b => simp [Value.get_type] at ht
    | bytes b => simp [Value.get_type] at ht
  | string a =>
    cases r with
    | string b =>
      have hc := string_compare_eq a.data b.data
      have hab : a < b ↔ a.data < b.data := String.lt_iff_toList_lt
      have hba : b < a ↔ b.data < a.data := String.lt_iff_toList_lt
      refine ⟨string_compare a.data b.data, by simp [compare_values, Value.get_type],
        ?_, ?_, ?_⟩
      · simp only [Value.natural_lt]
        rw [hc, hab]
        by_cases h1 : a.data < b.data
        · simp [h1]
        · by_cases h2 : b.data < a.data
          · simp [h1, h2]
          · simp [h1, h2]
      · simp only [Value.string.injEq]
        rw [hc]
        by_cases h1 : a.data < b.data
        · have : a ≠ b := fun h => by rw [h] at h1; exact lt_irrefl _ h1
          simp [h1, this]
        · by_cases h2 : b.data < a.data
          · have : a ≠ b := fun h => by rw [h] at h2; exact lt_irrefl _ h2
            simp [h1, h2, this]
          · have : a = b := by
              apply String.ext
              rcases lt_trichotomy a.data b.data with h | h | h
              · exact absurd h h1
              · exact h
              · exact absurd h h2
            simp [h1, h2, this]
      · simp only [Value.natural_lt]
        rw [hc, hba]
        by_cases h1 : a.data < b.data
        · simp [h1, not_lt_of_lt h1]
        · by_cases h2 : b.data < a.data
          · simp [h1, h2]
          · simp [h1, h2]
    | null => simp [Value.get_type] at ht
    | int32 b => simp [Value.get_type] at ht
    | bool b => simp [Value.get_type] at ht
    | bytes b => simp [Value.get_type] at ht
  | bytes a =>
    cases r with
    | bytes b =>
      refine ⟨_, by simp [compare_values, Value.get_type]; rfl, ?_, ?_, ?_⟩
      · simp only [Value.natural_lt]
        by_cases h0 : a = b
        · subst h0
          simp
        · by_cases h1 : a < b
          · simp [h0, h1]
          · simp [h0, h1]
      · simp only [Value.bytes.injEq]
        by_cases h0 : a = b
        · simp [h0]
        · by_cases h1 : a < b
          · simp [h0, h1]
          · simp [h0, h1]
      · simp only [Value.natural_lt]
        by_cases h0 : a = b
        · subst h0
          simp
        · by_cases h1 : a < b
          · simp [h0, h1, not_lt_of_lt h1]
          · have : b < a := by
              rcases lt_trichotomy a b with h | h | h
              · exact absurd h h1
              · exact absurd h h0
              · exact h
            simp [h0, h1, this]
    | null => simp [Value.get_type] at ht
    | int32 b => simp [Value.get_type] at ht
    | bool b => simp [Value.get_type] at ht
    | string b => simp [Value.get_type] at ht

theorem compare_op_mismatch (msg : String) (test : Int → Bool) (l r : Value)
    (h : l.get_type ≠ r.get_type) :
    compare_op msg test l r = .error ⟨.TypeMismatchException, msg⟩ := by
  unfold compare_op
  rw [if_pos h]

theorem compare_op_same (msg : String) (test : Int → Bool) (l r : Value) (c : Int)
    (h : l.get_type = r.get_type) (hc : compare_values l r = .ok c) :
    compare_op msg test l r = .ok (.bool (test c)) := by
  unfold compare_op
  rw [if_neg (fun hne => hne h), hc]

/-- Claim C18: when the operands of `<`, `<=`, `>`, `>=`, `=` or `!=` evaluate to values
of different types, the node evaluates to a type-mismatch error; when they evaluate to
values of one type among Int32, Bool, String and Bytes, it evaluates to the Bool that
the natural order of that type gives (integers numerically, false before true, strings
and byte sequences lexicographically). -/
theorem comparison_semantics (left right : Expression) (row : Binding) (l r : Value)
    (hl : left.evaluate row = .ok l) (hr : right.evaluate row = .ok r) :
    (l.get_type ≠ r.get_type →
      ∀ op : BinaryOperator,
        op = .Less ∨ op = .LessEqual ∨ op = .Greater ∨ op = .GreaterEqual ∨ op = .Equal ∨
          op = .NotEqual →
        ∃ msg, (Expression.Binary op left right).evaluate row =
          .error ⟨.TypeMismatchException, msg⟩) ∧
    (l.get_type = r.get_type → l ≠ .null →
      ∃ lt le gt ge eq ne : Bool,
        (Expression.Binary .Less left right).evaluate row = .ok (.bool lt) ∧
        (Expression.Binary .LessEqual left right).evaluate row = .ok (.bool le) ∧
        (Expression.Binary .Greater left right).evaluate row = .ok (.bool gt) ∧
        (Expression.Binary .GreaterEqual left right).evaluate row = .ok (.bool ge) ∧
        (Expression.Binary .Equal left right).evaluate row = .ok (.bool eq) ∧
        (Expression.Binary .NotEqual left right).evaluate row = .ok (.bool ne) ∧
        (lt = true ↔ l.natural_lt r) ∧ (le = true ↔ l.natural_lt r ∨ l = r) ∧
        (gt = true ↔ r.natural_lt l) ∧ (ge = true ↔ r.natural_lt l ∨ l = r) ∧
        (eq = true ↔ l = r) ∧ (ne = true ↔ l ≠ r)) := by
  constructor
  · intro hne op hop
    rw [evaluate_binary op left right row l r hl hr]
    rcases hop with h | h | h | h | h | h <;> subst h <;>
      exact ⟨_, compare_op_mismatch _ _ l r hne⟩
  · intro ht hn
    obtain ⟨c, hc, hlt, heq, hgt⟩ := compare_values_spec l r ht hn
    refine ⟨decide (c < 0), decide (c ≤ 0), decide (c > 0), decide (c ≥ 0), decide (c = 0),
      decide (c ≠ 0), ?_, ?_, ?_, ?_, ?_, ?_, ?_, ?_, ?_, ?_, ?_, ?_⟩
    · rw [evaluate_binary _ left right row l r hl hr]
      exact compare_op_same _ _ l r c ht hc
    · rw [evaluate_binary _ left right row l r hl hr]
      exact compare_op_same _ _ l r c ht hc
    · rw [evaluate_binary _ left right row l r hl hr]
      exact compare_op_same _ _ l r c ht hc
    · rw [evaluate_binary _ left right row l r hl hr]
      exact compare_op_same _ _ l r c ht hc
    · rw [evaluate_binary _ left right row l r hl hr]
      exact compare_op_same _ _ l r c ht hc
    · rw [evaluate_binary _ left right row l r hl hr]
      exact compare_op_same _ _ l r c ht hc
    · rw [decide_eq_true_iff]; exact hlt
    · rw [decide_eq_true_iff, ← hlt, ← heq]; omega
    · rw [decide_eq_true_iff]; exact hgt
    · rw [decide_eq_true_iff, ← hgt, ← heq]; omega
    · rw [decide_eq_true_iff]; exact heq
    · rw [decide_eq_true_iff]; exact not_congr heq

/-- Claim C18 at `1 < "a"` (an error) and `"ab" < "b"` (true). -/
theorem comparison_semantics_witness :
    (∃ msg, (Expression.Binary .Less (.Literal (.int32 1)) (.Literal (.string "a"))).evaluate [] =
      .error ⟨.TypeMismatchException, msg⟩) ∧
    ∃ lt : Bool,
      (Expression.Binary .Less (.Literal (.string "ab")) (.Literal (.string "b"))).evaluate [] =
        .ok (.bool lt) ∧
      (lt = true ↔ (Value.string "ab").natural_lt (.string "b")) :=
  ⟨(comparison_semantics (.Literal (.int32 1)) (.Literal (.string "a")) [] _ _ rfl rfl).1
      (by decide) .Less (Or.inl rfl),
    match (comparison_semantics (.Literal (.string "ab")) (.Literal (.string "b")) [] _ _
      rfl rfl).2 rfl (by decide) with
    | ⟨lt, _, _, _, _, _, h1, _, _, _, _, _, h7, _⟩ => ⟨lt, h1, h7⟩⟩

/-- Claim C19, as stated, fails on the code: `BinaryExpression::evaluate` adds, subtracts
and multiplies Int32 operands without any range check. `2147483647 + 1`,
`-2147483648 - 1` and `65536 * 65536` evaluate to values (the results of 32-bit
wrap-around: -2147483648, 2147483647 and 0), not to errors. -/
theorem arithmetic_overflow_wraps :
    (Expression.Binary .Add (.Literal (.int32 2147483647)) (.Literal (.int32 1))).evaluate [] =
      .ok (.int32 (-2147483648)) ∧
    (Expression.Binary .Subtract (.Literal (.int32 (-2147483648)))
      (.Literal (.int32 1))).evaluate [] = .ok (.int32 2147483647) ∧
    (Expression.Binary .Multiply (.Literal (.int32 65536)) (.Literal (.int32 65536))).evaluate [] =
      .ok (.int32 0) := by
  refine ⟨by decide, by decide, by decide⟩

theorem wrap_int32_spec (x : Int) :
    -(2 ^ 31) ≤ wrap_int32 x ∧ wrap_int32 x < 2 ^ 31 ∧ (wrap_int32 x - x) % 2 ^ 32 = 0 := by
  unfold wrap_int32
  omega

/-- Claim C19, amended: evaluating `+`, `-` or `*` on two Int32 operands never yields an
error. It yields the Int32 value that is congruent to the mathematical result modulo
2^32, which is the mathematical result itself whenever that lies within
[-2^31, 2^31 - 1]. -/
theorem arithmetic_never_fails (left right : Expression) (row : Binding) (a b : Int)
    (hl : left.evaluate row = .ok (.int32 a)) (hr : right.evaluate row = .ok (.int32 b)) :
    (Expression.Binary .Add left right).evaluate row = .ok (.int32 (wrap_int32 (a + b))) ∧
    (Expression.Binary .Subtract left right).evaluate row =
      .ok (.int32 (wrap_int32 (a - b))) ∧
    (Expression.Binary .Multiply left right).evaluate row =
      .ok (.int32 (wrap_int32 (a * b))) ∧
    (∀ x : Int, -(2 ^ 31) ≤ wrap_int32 x ∧ wrap_int32 x < 2 ^ 31 ∧
      (wrap_int32 x - x) % 2 ^ 32 = 0) ∧
    (∀ x : Int, -(2 ^ 31) ≤ x → x < 2 ^ 31 → wrap_int32 x = x) := by
  rw [evaluate_binary _ _ _ _ _ _ hl hr, evaluate_binary _ _ _ _ _ _ hl hr,
    evaluate_binary _ _ _ _ _ _ hl hr]
  exact ⟨rfl, rfl, rfl, wrap_int32_spec, wrap_int32_of_range⟩

/-- The amended claim C19 at `2 + 3` and `2147483647 + 1`. -/
theorem arithmetic_never_fails_witness :
    (Expression.Binary .Add (.Literal (.int32 2)) (.Literal (.int32 3))).evaluate [] =
      .ok (.int32 (wrap_int32 (2 + 3))) ∧
    (Expression.Binary .Add (.Literal (.int32 2147483647)) (.Literal (.int32 1))).evaluate [] =
      .ok (.int32 (wrap_int32 (2147483647 + 1))) :=
  ⟨(arithmetic_never_fails (.Literal (.int32 2)) (.Literal (.int32 3)) [] 2 3 rfl rfl).1,
    (arithmetic_never_fails (.Literal (.int32 2147483647)) (.Literal (.int32 1)) [] _ _
      rfl rfl).1⟩

/-! ## Claims on integer literals -/

/-- Claim C20, evaluated on the code. `parse_value` converts with `std::stoi`: it
accepts the decimal rendering of an integer exactly when the integer lies within the
signed 32-bit range, so it rejects `2147483648`; it accepts `-2147483648` and `2147483647` with exactly those values, and
so does `ExpressionParser::parse_primary`. But `parse_primary` converts with
`std::stoll` and narrows the result to `int32_t`: the expressions `2147483648`,
`-2147483649` and `4294967297` are parsed without error into the literals -2147483648,
2147483647 and 1. The statement `update numbers set value = 2147483648 where id = 1`
is parsed into the assignment of -2147483648, while `insert (1, 2147483648) to numbers`
is rejected. -/
theorem expression_literal_out_of_range_wraps
    (named_format : String → List Column → Except Exception (List (Option Value)))
    (other_branches : String → String → List Char → Except Exception ParsedQuery) :
    (∀ v : Int, QueryParser.parse_value .IntLiteral v.repr 0 =
      if v < -(2 ^ 31) ∨ v > 2 ^ 31 - 1 then
        .error ⟨.invalid_argument, "Invalid integer value: " ++ v.repr⟩
      else .ok (.int32 v)) ∧
    QueryParser.parse_value .IntLiteral "2147483648" 0 =
      .error ⟨.invalid_argument, "Invalid integer value: 2147483648"⟩ ∧
    QueryParser.parse_value .IntLiteral "-2147483648" 0 = .ok (.int32 (-2147483648)) ∧
    QueryParser.parse_value .IntLiteral "2147483647" 0 = .ok (.int32 2147483647) ∧
    parse_expression_of "-2147483648" = .ok (.Literal (.int32 (-2147483648))) ∧
    parse_expression_of "2147483647" = .ok (.Literal (.int32 2147483647)) ∧
    parse_expression_of "2147483648" = .ok (.Literal (.int32 (-2147483648))) ∧
    parse_expression_of "-2147483649" = .ok (.Literal (.int32 2147483647)) ∧
    parse_expression_of "4294967297" = .ok (.Literal (.int32 1)) ∧
    QueryParser.parse other_branches "update numbers set value = 2147483648 where id = 1;" =
      .ok update_out_of_range_plan ∧
    QueryParser.parse
      (QueryParser.with_insert named_format ⟨[("numbers", numbers_table)]⟩ other_branches)
      "insert (1, 2147483648) to numbers;" =
      .error ⟨.invalid_argument, "Invalid integer value: 2147483648"⟩ := by
  refine ⟨?_, by decide, by decide, by decide, by decide, by decide, by decide, by decide,
    by decide, by rfl, by rfl⟩
  intro v
  simp only [QueryParser.parse_value, stoi, parse_decimal_int_repr]
  by_cases h : v < -(2 ^ 31) ∨ v > 2 ^ 31 - 1
  · rw [if_pos h, if_pos h]
  · rw [if_neg h, if_neg h]

/-! ## Claims on the laws of the operators -/

theorem evaluate_unary (op : UnaryOperator) (operand : Expression) (row : Binding) (v : Value)
    (h : operand.evaluate row = .ok v) :
    (Expression.Unary op operand).evaluate row = unary_apply op v := by
  simp only [Expression.evaluate, h]

/-- Claim C21 (operator laws): under a binding on which `a` and `b` evaluate
successfully, `a + b` and `b + a` evaluate to the same value when both are Int32;
`a && b` and `b && a`, `a || b` and `b || a`, `a ^^ b` and `b ^^ a` evaluate to the same
value when both are Bool; and `!!a` evaluates to the value of `a` when `a` is Bool. -/
theorem operator_laws (a b : Expression) (row : Binding) (va vb : Value)
    (ha : a.evaluate row = .ok va) (hb : b.evaluate row = .ok vb) :
    (va.get_type = Ty.Int32 → vb.get_type = Ty.Int32 →
      ∃ v, (Expression.Binary .Add a b).evaluate row = .ok v ∧
        (Expression.Binary .Add b a).evaluate row = .ok v) ∧
    (va.get_type = Ty.Bool → vb.get_type = Ty.Bool →
      (∃ v, (Expression.Binary .And a b).evaluate row = .ok v ∧
        (Expression.Binary .And b a).evaluate row = .ok v) ∧
      (∃ v, (Expression.Binary .Or a b).evaluate row = .ok v ∧
        (Expression.Binary .Or b a).evaluate row = .ok v) ∧
      (∃ v, (Expression.Binary .Xor a b).evaluate row = .ok v ∧
        (Expression.Binary .Xor b a).evaluate row = .ok v)) ∧
    (va.get_type = Ty.Bool →
      (Expression.Unary .Not (Expression.Unary .Not a)).evaluate row = .ok va) := by
  refine ⟨?_, ?_, ?_⟩
  · intro h1 h2
    cases va <;> simp [Value.get_type] at h1
    cases vb <;> simp [Value.get_type] at h2
    rename_i x y
    refine ⟨.int32 (wrap_int32 (x + y)), ?_, ?_⟩
    · rw [evaluate_binary _ _ _ _ _ _ ha hb]
      rfl
    · rw [evaluate_binary _ _ _ _ _ _ hb ha, Int.add_comm]
      rfl
  · intro h1 h2
    cases va <;> simp [Value.get_type] at h1
    cases vb <;> simp [Value.get_type] at h2
    rename_i x y
    refine ⟨⟨.bool (x && y), ?_, ?_⟩, ⟨.bool (x || y), ?_, ?_⟩, ⟨.bool (xor x y), ?_, ?_⟩⟩
    · rw [evaluate_binary _ _ _ _ _ _ ha hb]
      rfl
    · rw [evaluate_binary _ _ _ _ _ _ hb ha, Bool.and_comm]
      rfl
    · rw [evaluate_binary _ _ _ _ _ _ ha hb]
      rfl
    · rw [evaluate_binary _ _ _ _ _ _ hb ha, Bool.or_comm]
      rfl
    · rw [evaluate_binary _ _ _ _ _ _ ha hb]
      rfl
    · rw [evaluate_binary _ _ _ _ _ _ hb ha, Bool.xor_comm]
      rfl
  · intro h1
    cases va <;> simp [Value.get_type] at h1
    rename_i x
    have h2 : (Expression.Unary .Not a).evaluate row = .ok (.bool (!x)) := by
      rw [evaluate_unary _ _ _ _ ha]
      rfl
    rw [evaluate_unary _ _ _ _ h2]
    simp [unary_apply]

/-- Claim C21 at `2 + 3`, `3 + 2` and `!!true`. -/
theorem operator_laws_witness :
    (∃ v, (Expression.Binary .Add (.Literal (.int32 2)) (.Literal (.int32 3))).evaluate [] =
        .ok v ∧
      (Expression.Binary .Add (.Literal (.int32 3)) (.Literal (.int32 2))).evaluate [] =
        .ok v) ∧
    (Expression.Unary .Not (Expression.Unary .Not (.Literal (.bool true)))).evaluate [] =
      .ok (.bool true) :=
  ⟨(operator_laws (.Literal (.int32 2)) (.Literal (.int32 3)) [] _ _ rfl rfl).1 rfl rfl,
    (operator_laws (.Literal (.bool true)) (.Literal (.bool true)) [] _ _ rfl rfl).2.2 rfl⟩

/-! ## Claims on the update that assigns a column to itself -/

/-- Claim C22, as stated, fails on the code: a column that holds NULL is not bound in the
row's binding, so the assignment `name = name` cannot be evaluated on such a row. On the
table whose second row holds NULL in `name`, `update users set name = name where true`
leaves `execute_update` with the exception `Column not found: name`, which
`Database::execute` turns into an error result. -/
theorem update_to_itself_fails_on_null :
    execute_update update_name_to_itself ⟨[("users", null_name_users)]⟩ =
      (.error ⟨.TypeMismatchException, "Column not found: name"⟩,
        ⟨[("users", null_name_users)]⟩) ∧
    Database.execute_handlers
      (execute_update update_name_to_itself ⟨[("users", null_name_users)]⟩).1 =
      QueryResult.of_error "Standard exception: Column not found: name" := by
  refine ⟨by decide, by decide⟩

theorem binding_find_set (m : Binding) (k k1 : String) (v : Value) :
    (m.set k v).find k1 = if k = k1 then some v else m.find k1 := by
  induction m with
  | nil =>
    simp only [Binding.set, Binding.find]
  | cons e rest ih =>
    obtain ⟨k0, v0⟩ := e
    simp only [Binding.set]
    by_cases h0 : k0 = k
    · subst h0
      rw [if_pos rfl]
      simp only [Binding.find]
      by_cases h1 : k0 = k1
      · rw [if_pos h1, if_pos h1]
      · rw [if_neg h1, if_neg h1, if_neg h1]
    · rw [if_neg h0]
      simp only [Binding.find, ih]
      by_cases h1 : k0 = k1
      · subst h1
        rw [if_pos rfl, if_neg (fun h => h0 h.symm), if_pos rfl]
      · rw [if_neg h1, if_neg h1]

theorem names_differ (columns : List Column) (hnd : (columns.map (fun c => c.name)).Nodup)
    (i j : Nat) (ci cj : Column) (hi : columns[i]? = some ci) (hj : columns[j]? = some cj)
    (hne : i ≠ j) : ci.name ≠ cj.name := by
  intro heq
  have hli := lt_length_of_getElem? hi
  have hlj := lt_length_of_getElem? hj
  have h1 : (columns.map (fun c => c.name))[i]? = some ci.name := by
    rw [List.getElem?_map, hi]; rfl
  have h2 : (columns.map (fun c => c.name))[j]? = some cj.name := by
    rw [List.getElem?_map, hj]; rfl
  have hli1 : i < (columns.map (fun c => c.name)).length := by simpa using hli
  have hlj1 : j < (columns.map (fun c => c.name)).length := by simpa using hlj
  rw [List.getElem?_eq_getElem hli1] at h1
  rw [List.getElem?_eq_getElem hlj1] at h2
  have h3 : (columns.map (fun c => c.name))[i] = (columns.map (fun c => c.name))[j] := by
    rw [Option.some.inj h1, Option.some.inj h2, heq]
  exact hne ((List.Nodup.getElem_inj_iff hnd).mp h3)

theorem row_map_of_find (columns : List Column) (row : Row)
    (hnd : (columns.map (fun c => c.name)).Nodup) (i : Nat) (column : Column) (v : Value)
    (hc : columns[i]? = some column) (hv : row.values[i]? = some (some v)) :
    (row_map_of columns row).find column.name = some v := by
  have key : ∀ n, n ≤ columns.length →
      Binding.find ((List.range n).foldl
        (fun row_map k =>
          match columns[k]?, row.values[k]? with
          | some c, some (some w) => Binding.set row_map c.name w
          | _, _ => row_map) ([] : Binding)) column.name =
        if i < n then some v else none := by
    intro n
    induction n with
    | zero => intro _; rfl
    | succ n ih =>
      intro hn
      rw [List.range_succ, List.foldl_append, List.foldl_cons, List.foldl_nil]
      have ih1 := ih (by omega)
      by_cases hni : n = i
      · subst hni
        simp only [hc, hv]
        rw [binding_find_set, if_pos rfl, if_pos (Nat.lt_succ_self _)]
      · have hr : (if i < n + 1 then some v else none) =
            (if i < n then some v else (none : Option Value)) := by
          by_cases h : i < n
          · rw [if_pos h, if_pos (Nat.lt_succ_of_lt h)]
          · rw [if_neg h, if_neg (by omega)]
        rw [hr, ← ih1]
        cases hcn : columns[n]? with
        | none => rfl
        | some cn =>
          cases hvn : row.values[n]? with
          | none => rfl
          | some slot =>
            cases slot with
            | none => rfl
            | some w =>
              simp only
              rw [binding_find_set, if_neg (names_differ columns hnd n i cn column hcn hc hni)]
  have := key columns.length (Nat.le_refl _)
  rw [if_pos (lt_length_of_getElem? hc)] at this
  exact this

theorem get_column_index_ok (t : Table) (name : String) (i : Nat)
    (h : t.get_column_index name = .ok i) :
    ∃ column, t.columns[i]? = some column ∧ column.name = name := by
  unfold Table.get_column_index at h
  split at h
  · rename_i j hf
    simp only [Except.ok.injEq] at h
    subst h
    have hp := List.find?_some hf
    cases hc : t.columns[j]? with
    | none => rw [hc] at hp; cases hp
    | some c =>
      rw [hc] at hp
      exact ⟨c, rfl, by simpa using hp⟩
  · cases h

theorem apply_assignments_self (t : Table) (c : String) (i : Nat) (column : Column)
    (row : Row) (v : Value) (hnd : (t.columns.map (fun x => x.name)).Nodup)
    (hidx : t.get_column_index c = .ok i) (hcol : t.columns[i]? = some column)
    (hv : row.values[i]? = some (some v)) (hty : v.get_type = column.type.get_type)
    (hhas : v.has_value = true) :
    apply_assignments t [(c, .Variable c)] row (row_map_of t.columns row) = (.ok (), row) := by
  obtain ⟨column1, hcol1, hname⟩ := get_column_index_ok t c i hidx
  rw [hcol] at hcol1
  cases hcol1
  have hfind := row_map_of_find t.columns row hnd i column v hcol hv
  rw [hname] at hfind
  have heval : (Expression.Variable c).evaluate (row_map_of t.columns row) = .ok v := by
    simp [Expression.evaluate, hfind, hhas]
  have hlt : ¬ i ≥ row.values.length := Nat.not_le.mpr (lt_length_of_getElem? hv)
  have hset : row.values.set i (some v) = row.values := by
    apply List.ext_getElem?
    intro k
    by_cases hk : i = k
    · subst hk
      rw [List.getElem?_set_self (lt_length_of_getElem? hv), hv]
    · rw [List.getElem?_set_ne hk]
  unfold apply_assignments
  simp only [hidx, hcol, heval]
  rw [if_neg (by simp [hty])]
  simp only [Row.set_value, if_neg hlt, hset]
  rfl

theorem update_rows_self (t : Table) (pq : ParsedQuery) (c : String) (i : Nat)
    (column : Column) (hassign : pq.update_assignments = [(c, .Variable c)])
    (hnd : (t.columns.map (fun x => x.name)).Nodup)
    (hidx : t.get_column_index c = .ok i) (hcol : t.columns[i]? = some column)
    (rows : List Row) :
    (∀ row ∈ rows, ∀ e, pq.update_where_clause = some e →
      ∃ b, e.evaluate (row_map_of t.columns row) = .ok (.bool b)) →
    (∀ row ∈ rows, where_holds pq.update_where_clause (row_map_of t.columns row) = true →
      ∃ v, row.values[i]? = some (some v) ∧ v.get_type = column.type.get_type ∧
        v.has_value = true) →
    ∀ count : Nat, update_rows t pq rows count =
      (.ok (count + (rows.filter (fun row =>
        where_holds pq.update_where_clause (row_map_of t.columns row))).length), rows) := by
  induction rows with
  | nil => intro _ _ count; rfl
  | cons row rest ih =>
    intro hw hval count
    have hw1 := eval_condition_eq "WHERE clause" pq.update_where_clause
      (row_map_of t.columns row) (hw row (List.mem_cons_self _ _))
    have ihr := ih (fun r hr => hw r (List.mem_cons_of_mem _ hr))
      (fun r hr => hval r (List.mem_cons_of_mem _ hr))
    unfold update_rows
    simp only [hw1]
    cases hb : where_holds pq.update_where_clause (row_map_of t.columns row) with
    | false =>
      simp only [ihr count, List.filter_cons, hb]
      rfl
    | true =>
      obtain ⟨v, hv, hty, hhas⟩ := hval row (List.mem_cons_self _ _) hb
      simp only [hassign, apply_assignments_self t c i column row v hnd hidx hcol hv hty hhas,
        ihr (count + 1), List.filter_cons, hb, if_true, List.length_cons]
      congr 2
      omega

/-- Claim C22, amended: let `c` be a column of a table with distinct column names and
fewer than 2^31 rows, let the condition `p` evaluate to a Bool on every row, and let every
row on which `p` holds carry in `c` a value of the column's type (not NULL). Then
`update t set c = c where p` succeeds, returns the number of rows on which `p` holds,
and leaves the table, and every other table, as it was. -/
theorem update_to_itself (pq : ParsedQuery) (db : Database) (t : Table) (c : String)
    (i : Nat) (column : Column)
    (ht : db.get_table pq.table_name = .ok t)
    (hassign : pq.update_assignments = [(c, .Variable c)])
    (hnd : (t.columns.map (fun x => x.name)).Nodup)
    (hidx : t.get_column_index c = .ok i) (hcol : t.columns[i]? = some column)
    (hsize : t.rows.length < 2 ^ 31)
    (hw : ∀ row ∈ t.rows, ∀ e, pq.update_where_clause = some e →
      ∃ b, e.evaluate (row_map_of t.columns row) = .ok (.bool b))
    (hval : ∀ row ∈ t.rows,
      where_holds pq.update_where_clause (row_map_of t.columns row) = true →
      ∃ v, row.values[i]? = some (some v) ∧ v.get_type = column.type.get_type ∧
        v.has_value = true) :
    (execute_update pq db).1 = .ok (QueryResult.of_data [[some (Value.int32
      ((t.rows.filter (fun row =>
        where_holds pq.update_where_clause (row_map_of t.columns row))).length : Nat))]]) ∧
    (execute_update pq db).2.get_table pq.table_name = .ok t ∧
    (∀ other, other ≠ pq.table_name →
      (execute_update pq db).2.get_table other = db.get_table other) := by
  have hrows := update_rows_self t pq c i column hassign hnd hidx hcol t.rows hw hval 0
  have hcount : to_int32 (t.rows.filter (fun row =>
      where_holds pq.update_where_clause (row_map_of t.columns row))).length =
      ((t.rows.filter (fun row =>
        where_holds pq.update_where_clause (row_map_of t.columns row))).length : Nat) := by
    have hle := List.length_filter_le (fun row =>
      where_holds pq.update_where_clause (row_map_of t.columns row)) t.rows
    unfold to_int32
    rw [Nat.mod_eq_of_lt (by omega), if_pos (by omega)]
  have hdb := execute_update_database pq db t ht
  rw [hrows] at hdb
  refine ⟨?_, ?_, ?_⟩
  · unfold execute_update
    rw [ht]
    simp only [hrows, Nat.zero_add, hcount]
  · rw [hdb]
    exact get_table_put_table db pq.table_name t _ ht
  · intro other hne
    rw [hdb]
    exact get_table_put_table_other db pq.table_name other _ hne

/-- The amended claim C22 at `update users set name = name where true` on the table
`users` of scenario S4. -/
theorem update_to_itself_witness :
    (execute_update update_name_to_itself s4_db).1 =
      .ok (QueryResult.of_data [[some (Value.int32 2)]]) ∧
    (execute_update update_name_to_itself s4_db).2.get_table "users" = .ok s4_users :=
  have h := update_to_itself update_name_to_itself s4_db s4_users "name" 1
    ⟨"name", ⟨Ty.String, 8⟩, [], none⟩ (by decide) rfl (by decide) (by decide) rfl (by decide)
    (fun row hrow e he => by
      cases he
      exact ⟨true, rfl⟩)
    (fun row hrow _ => by
      simp only [s4_users, List.mem_cons, List.mem_singleton, List.not_mem_nil, or_false] at hrow
      rcases hrow with rfl | rfl
      · exact ⟨.string "ada", rfl, rfl, rfl⟩
      · exact ⟨.string "bob", rfl, rfl, rfl⟩)
  ⟨h.1.trans (by decide), h.2.1⟩

/-! ## Claims on the expression parser -/

/-- Claim C23, evaluated on the code: `parse_logical_or` reads its left operand with
`parse_logical_xor` but the operand behind every `||` with `parse_logical_and`. So in
`a || b ^^ c` the right operand of `||` ends before `^^`, the tree `Or(a, b)` is returned
to `parse_expression` with `^^` as the current token, and the text is rejected. The `^^`
on the left of `||` is read (`a ^^ b || c` yields Or(Xor(a, b), c)), and so is the right
operand in parentheses. -/
theorem or_right_operand_stops_before_xor :
    parse_expression_of "a || b ^^ c" =
      .error ⟨.TypeMismatchException, "Unexpected token in expression."⟩ ∧
    parse_expression_of "a ^^ b || c" =
      .ok (.Binary .Or (.Binary .Xor (.Variable "a") (.Variable "b")) (.Variable "c")) ∧
    parse_expression_of "a || (b ^^ c)" =
      .ok (.Binary .Or (.Variable "a") (.Binary .Xor (.Variable "b") (.Variable "c"))) ∧
    parse_expression_of "a || b && c" =
      .ok (.Binary .Or (.Variable "a") (.Binary .And (.Variable "b") (.Variable "c"))) := by
  refine ⟨by decide, by decide, by decide, by decide⟩

/-! ## Claims on precedence: the ladder on texts -/

/-- The ladder on texts, with the fuel of `parse_expression_of`: for every pair of
operators of the five levels, `a o1 b o2 c` parses to `o1(a, o2(b, c))` when `o2` binds
tighter than `o1`, and to `o2(o1(a, b), c)` otherwise; a parenthesised operand is a unit
on either side; and the two texts `a + b * 2 + 1` and `(a + b) * 2 + 1` parse to
Add(Add(a, Mul(b, 2)), 1) and Add(Mul(Add(a, b), 2), 1). -/
theorem ladder_texts (o1 o2 : LadderOp) :
    parse_expression_of ("a " ++ o1.text ++ " b " ++ o2.text ++ " c") =
      .ok (if o1.level < o2.level
        then .Binary o1.op (.Variable "a") (.Binary o2.op (.Variable "b") (.Variable "c"))
        else .Binary o2.op (.Binary o1.op (.Variable "a") (.Variable "b")) (.Variable "c")) ∧
    parse_expression_of ("a " ++ o1.text ++ " (b " ++ o2.text ++ " c)") =
      .ok (.Binary o1.op (.Variable "a") (.Binary o2.op (.Variable "b") (.Variable "c"))) ∧
    parse_expression_of ("(a " ++ o1.text ++ " b) " ++ o2.text ++ " c") =
      .ok (.Binary o2.op (.Binary o1.op (.Variable "a") (.Variable "b")) (.Variable "c")) ∧
    parse_expression_of "a + b * 2 + 1" =
      .ok (.Binary .Add
        (.Binary .Add (.Variable "a")
          (.Binary .Multiply (.Variable "b") (.Literal (.int32 2))))
        (.Literal (.int32 1))) ∧
    parse_expression_of "(a + b) * 2 + 1" =
      .ok (.Binary .Add
        (.Binary .Multiply (.Binary .Add (.Variable "a") (.Variable "b"))
          (.Literal (.int32 2)))
        (.Literal (.int32 1))) := by
  cases o1 <;> cases o2 <;> decide

/-! ## Claims on balanced delimiters -/

/-- A well-nested text in front of the input leaves the stack of `validate_chars` as it
was. -/
theorem validate_chars_well_nested (a : List Char) (h : WellNested a) :
    ∀ rest s, QueryParser.validate_chars (a ++ rest) s = QueryParser.validate_chars rest s := by
  induction h with
  | empty => intro rest s; rfl
  | paren a b _ _ iha ihb =>
    intro rest s
    have e : ('(' :: a ++ ')' :: b) ++ rest = '(' :: (a ++ (')' :: (b ++ rest))) := by simp
    rw [e]
    simp only [QueryParser.validate_chars, true_or, if_true]
    rw [iha]
    simp [QueryParser.validate_chars, ihb]
  | brace a b _ _ iha ihb =>
    intro rest s
    have e : ('\x7b' :: a ++ '\x7d' :: b) ++ rest = '\x7b' :: (a ++ ('\x7d' :: (b ++ rest))) := by
      simp
    rw [e]
    simp only [QueryParser.validate_chars, or_true, if_true]
    rw [iha]
    simp [QueryParser.validate_chars, ihb]
  | other ch a hch _ iha =>
    intro rest s
    simp only [is_delimiter, Bool.or_eq_false_iff, decide_eq_false_iff_not] at hch
    obtain ⟨⟨⟨h1, h2⟩, h3⟩, h4⟩ := hch
    simp [QueryParser.validate_chars, h1, h2, h3, h4, iha]

/-- A character that is no delimiter may stand in front of a text that closes a stack. -/
theorem nested_from_other (ch : Char) (hch : is_delimiter ch = false) :
    ∀ s cs, NestedFrom s cs → NestedFrom s (ch :: cs) := by
  intro s cs h
  cases s with
  | nil => exact WellNested.other ch cs hch h
  | cons o s =>
    obtain ⟨a, b, ha, hcs, hb⟩ := h
    exact ⟨ch :: a, b, WellNested.other ch a hch ha, by simp [hcs], hb⟩

/-- A closed pair in front of a text that closes a stack. -/
theorem nested_from_pair (o : Char) (ho : o = '(' ∨ o = '\x7b') (a : List Char)
    (ha : WellNested a) : ∀ s b, NestedFrom s b → NestedFrom s (o :: a ++ closer o :: b) := by
  intro s b h
  have pair : ∀ b1, WellNested b1 → WellNested (o :: a ++ closer o :: b1) := by
    intro b1 hb1
    rcases ho with ho | ho
    · subst ho; exact WellNested.paren a b1 ha hb1
    · subst ho; exact WellNested.brace a b1 ha hb1
  cases s with
  | nil => exact pair b h
  | cons o2 s =>
    obtain ⟨a2, b2, ha2, hb, hb2⟩ := h
    exact ⟨o :: a ++ closer o :: a2, b2, pair a2 ha2, by simp [hb], hb2⟩

/-- When `validate_chars` accepts an input on a stack, the input closes that stack. -/
theorem nested_from_of_validate_chars :
    ∀ cs s, QueryParser.validate_chars cs s = true → NestedFrom s cs := by
  intro cs
  induction cs with
  | nil =>
    intro s h
    cases s with
    | nil => exact WellNested.empty
    | cons o s => simp [QueryParser.validate_chars] at h
  | cons ch rest ih =>
    intro s h
    unfold QueryParser.validate_chars at h
    by_cases hopen : ch = '(' ∨ ch = '\x7b'
    · rw [if_pos hopen] at h
      obtain ⟨a, b, ha, hrest, hb⟩ := ih (ch :: s) h
      rw [hrest]
      exact nested_from_pair ch hopen a ha s b hb
    · rw [if_neg hopen] at h
      by_cases hclose : ch = ')' ∨ ch = '\x7d'
      · rw [if_pos hclose] at h
        cases s with
        | nil => simp at h
        | cons o s1 =>
          simp only at h
          split at h
          · simp at h
          · rename_i hne
            have hco : ch = closer o := by
              rcases hclose with hc | hc
              · have : o = '(' := by
                  by_contra hno
                  exact hne (Or.inl ⟨hc, hno⟩)
                simp [closer, this, hc]
              · have : o = '\x7b' := by
                  by_contra hno
                  exact hne (Or.inr ⟨hc, hno⟩)
                subst this
                rw [hc]
                decide
            exact ⟨[], rest, WellNested.empty, by simp [hco], ih s1 h⟩
      · rw [if_neg hclose] at h
        have hch : is_delimiter ch = false := by
          simp only [is_delimiter, Bool.or_eq_false_iff, decide_eq_false_iff_not]
          exact ⟨⟨⟨fun e => hopen (Or.inl e), fun e => hclose (Or.inl e)⟩,
            fun e => hopen (Or.inr e)⟩, fun e => hclose (Or.inr e)⟩
        exact nested_from_other ch hch s rest (ih s h)

/-- Claim C29: `validate_query` returns true exactly on the queries that are
well-nested in the delimiters `(`, `)` and the two braces, and `parse` fails with the
error "Unbalanced parentheses or braces in query." on every query on which
`validate_query` returns false, whatever the branches behind the frame do. -/
theorem validate_query_iff_well_nested
    (other_branches : String → String → List Char → Except Exception ParsedQuery)
    (query : String) :
    (QueryParser.validate_query query = true ↔ WellNested query.data) ∧
    (QueryParser.validate_query query = false →
      QueryParser.parse other_branches query =
        .error ⟨.invalid_argument, "Unbalanced parentheses or braces in query."⟩) := by
  refine ⟨⟨fun h => nested_from_of_validate_chars query.data [] h, fun h => ?_⟩, fun h => ?_⟩
  · have := validate_chars_well_nested query.data h [] []
    rw [List.append_nil] at this
    unfold QueryParser.validate_query
    rw [this]
    rfl
  · unfold QueryParser.parse
    rw [h]
    rfl

/-- The query of the test `CreateTableTest.UnbalancedParentheses` is not well-nested and
is rejected. -/
theorem validate_query_iff_well_nested_witness :
    QueryParser.validate_query
        "create table users (\x7bkey\x7d id : int32, login: string[32];" = false ∧
    QueryParser.parse (fun _ _ _ => .error ⟨.invalid_argument, "not modelled"⟩)
        "create table users (\x7bkey\x7d id : int32, login: string[32];" =
      .error ⟨.invalid_argument, "Unbalanced parentheses or braces in query."⟩ :=
  ⟨by decide,
    (validate_query_iff_well_nested (fun _ _ _ => .error ⟨.invalid_argument, "not modelled"⟩)
      "create table users (\x7bkey\x7d id : int32, login: string[32];").2 (by decide)⟩

/-! ## Claims on string literals -/

theorem string_body_quote (rest str : List Char) :
    Lexer.string_body ('"' :: rest) str = .ok (⟨.StringLiteral, ⟨str⟩⟩, rest) := by
  rw [Lexer.string_body.eq_def]
  simp

theorem string_body_nul (rest str : List Char) :
    Lexer.string_body ('\x00' :: rest) str =
      .error ⟨.TypeMismatchException, "Unterminated string literal."⟩ := by
  rw [Lexer.string_body.eq_def]
  simp

theorem string_body_lone_backslash (str : List Char) :
    Lexer.string_body ['\\'] str =
      .error ⟨.TypeMismatchException, "Unterminated string literal."⟩ := by
  rw [Lexer.string_body.eq_def]
  simp

theorem string_body_escaped (x : Char) (rest str : List Char) :
    Lexer.string_body ('\\' :: x :: rest) str =
      Lexer.string_body rest (str ++ [Lexer.unescape x]) := by
  rw [Lexer.string_body.eq_def]
  simp

theorem string_body_plain (c : Char) (rest str : List Char)
    (hq : c ≠ '"') (hb : c ≠ '\\') (hn : c ≠ '\x00') :
    Lexer.string_body (c :: rest) str = Lexer.string_body rest (str ++ [c]) := by
  rw [Lexer.string_body.eq_def]
  simp [hq, hb, hn]

/-- The escape switch of the lexer yields the character the specification names. -/
theorem unescape_decoded (x : Char) :
    Lexer.unescape x = (LiteralPiece.escaped x).decoded := by
  unfold Lexer.unescape LiteralPiece.decoded
  by_cases h1 : x = 'n'
  · simp [h1]
  by_cases h2 : x = 't'
  · simp [h2]
  by_cases h3 : x = 'r'
  · simp [h3]
  by_cases h4 : x = '\\'
  · simp [h4]
  by_cases h5 : x = '"'
  · simp [h5]
  simp [h1, h2, h3, h4, h5]

/-- The loop of `string_literal` reads a sequence of pieces and collects what they stand
for. -/
theorem string_body_pieces (pieces : List LiteralPiece)
    (h : ∀ p ∈ pieces, p.is_piece = true ∧ p.nul_free = true) :
    ∀ (tail str : List Char),
      Lexer.string_body (literal_source pieces ++ tail) str =
        Lexer.string_body tail (str ++ pieces.map LiteralPiece.decoded) := by
  induction pieces with
  | nil => intro tail str; simp [literal_source]
  | cons p ps ih =>
    intro tail str
    have hp := h p (List.mem_cons_self _ _)
    have ih1 := ih (fun q hq => h q (List.mem_cons_of_mem _ hq))
    cases p with
    | plain c =>
      simp only [LiteralPiece.is_piece, LiteralPiece.nul_free, Bool.and_eq_true,
        decide_eq_true_eq] at hp
      obtain ⟨⟨hq, hb⟩, hn⟩ := hp
      simp only [literal_source, LiteralPiece.source, List.cons_append, List.nil_append]
      rw [string_body_plain c _ str hq hb hn, ih1]
      simp [LiteralPiece.decoded]
    | escaped x =>
      simp only [literal_source, LiteralPiece.source, List.cons_append, List.nil_append]
      rw [string_body_escaped, ih1, unescape_decoded]
      simp

/-- A NUL character outside an escape is read as the end of the input: the literal
`"a<NUL>b"` has a closing quote and is rejected as unterminated. -/
theorem string_literal_stops_at_nul :
    (∀ p ∈ [LiteralPiece.plain 'a', .plain '\x00', .plain 'b'], p.is_piece = true) ∧
    Lexer.string_literal
        ('"' :: (literal_source [.plain 'a', .plain '\x00', .plain 'b'] ++ ['"'])) ≠
      .ok (⟨.StringLiteral, literal_decoded [.plain 'a', .plain '\x00', .plain 'b']⟩, []) ∧
    Lexer.string_literal ['"', 'a', '\x00', 'b', '"'] =
      .error ⟨.TypeMismatchException, "Unterminated string literal."⟩ := by
  decide

/-- Claim C26, amended: for pieces without a NUL character outside an escape,
`Lexer::string_literal` reads the pieces up to the closing quote and yields the string
they stand for (the five escapes decoded, a backslash before another character dropped,
every other character copied), with the input behind the closing quote left; and it fails
with "Unterminated string literal." when the input ends, or a NUL character stands,
where the closing quote should be, also behind a lone backslash. -/
theorem string_literal_escapes (pieces : List LiteralPiece) (rest : List Char)
    (h : ∀ p ∈ pieces, p.is_piece = true ∧ p.nul_free = true) :
    Lexer.string_literal ('"' :: (literal_source pieces ++ '"' :: rest)) =
      .ok (⟨.StringLiteral, literal_decoded pieces⟩, rest) ∧
    Lexer.string_literal ('"' :: literal_source pieces) =
      .error ⟨.TypeMismatchException, "Unterminated string literal."⟩ ∧
    Lexer.string_literal ('"' :: (literal_source pieces ++ ['\\'])) =
      .error ⟨.TypeMismatchException, "Unterminated string literal."⟩ ∧
    Lexer.string_literal ('"' :: (literal_source pieces ++ '\x00' :: rest)) =
      .error ⟨.TypeMismatchException, "Unterminated string literal."⟩ := by
  have hb := string_body_pieces pieces h
  refine ⟨?_, ?_, ?_, ?_⟩
  · simp only [Lexer.string_literal, List.drop_succ_cons, List.drop_zero, hb,
      string_body_quote, List.nil_append, literal_decoded]
  · have := hb [] []
    rw [List.append_nil] at this
    simp only [Lexer.string_literal, List.drop_succ_cons, List.drop_zero, this]
    rfl
  · simp only [Lexer.string_literal, List.drop_succ_cons, List.drop_zero, hb,
      string_body_lone_backslash]
  · simp only [Lexer.string_literal, List.drop_succ_cons, List.drop_zero, hb,
      string_body_nul]

/-- The literal of the test `InsertTest.InsertWithEscapedCharacters`, cut to
`"Hi, \"W\"!\nNew"`, yields the text with the two quotes and the newline. -/
theorem string_literal_escapes_witness :
    Lexer.string_literal "\"Hi, \\\"W\\\"!\\nNew\") to messages".data =
      .ok (⟨.StringLiteral, "Hi, \"W\"!\nNew"⟩, ") to messages".data) :=
  (string_literal_escapes
    [.plain 'H', .plain 'i', .plain ',', .plain ' ', .escaped '"', .plain 'W', .escaped '"',
      .plain '!', .escaped 'n', .plain 'N', .plain 'e', .plain 'w']
    ") to messages".data (by decide)).1

/-! ## Claims on the round trip of literals -/

/-- A token that is no operator matches none of the operator tests of the loops. -/
theorem match_token_operator_false (p : ExpressionParser) (value : String)
    (h : p.current_token.type ≠ .Operator) :
    p.match_token .Operator value = false := by
  simp [ExpressionParser.match_token, h]

/-- The test `match(type)` without a text compares the token types only. -/
theorem match_token_type (p : ExpressionParser) (type : TokenType) :
    p.match_token type = decide (p.current_token.type = type) := by
  have : ("" : String).isEmpty = true := rfl
  simp [ExpressionParser.match_token, this]

/-- When `parse_unary` has read an operand and the token behind it is no operator, every
loop of the ladder ends at once and `parse_logical_or` yields the operand. -/
theorem parse_logical_or_of_unary (f : Nat) (p q : ExpressionParser) (e : Expression)
    (h : ExpressionParser.parse_unary (f + 1) p = .ok (e, q))
    (hq : q.current_token.type ≠ .Operator) :
    ExpressionParser.parse_logical_or (f + 8) p = .ok (e, q) := by
  have m := fun value => match_token_operator_false q value hq
  have h1 : ExpressionParser.parse_factor (f + 2) p = .ok (e, q) := by
    simp [ExpressionParser.parse_factor, h, ExpressionParser.factor_loop, m]
  have h2 : ExpressionParser.parse_term (f + 3) p = .ok (e, q) := by
    simp [ExpressionParser.parse_term, h1, ExpressionParser.term_loop, m]
  have h3 : ExpressionParser.parse_comparison (f + 4) p = .ok (e, q) := by
    simp [ExpressionParser.parse_comparison, h2, ExpressionParser.comparison_loop, m]
  have h4 : ExpressionParser.parse_equality (f + 5) p = .ok (e, q) := by
    simp [ExpressionParser.parse_equality, h3, ExpressionParser.equality_loop, m]
  have h5 : ExpressionParser.parse_logical_and (f + 6) p = .ok (e, q) := by
    simp [ExpressionParser.parse_logical_and, h4, ExpressionParser.logical_and_loop, m]
  have h6 : ExpressionParser.parse_logical_xor (f + 7) p = .ok (e, q) := by
    simp [ExpressionParser.parse_logical_xor, h5, ExpressionParser.logical_xor_loop, m]
  simp [ExpressionParser.parse_logical_or, h6, ExpressionParser.logical_or_loop, m]
/-- At the end of the input the lexer yields `EndOfInput`. -/
theorem get_next_token_nil :
    Lexer.get_next_token [] = .ok (⟨.EndOfInput, ""⟩, []) := rfl

/-- A digit is no letter, underscore, NUL, quote or sign. -/
theorem isdigit_not_other {c : Char} (h : isdigit c = true) :
    c ≠ '\x00' ∧ isalpha c = false ∧ c ≠ '_' ∧ c ≠ 'x' ∧ c ≠ 'X' ∧ c ≠ '-' ∧ c ≠ '+' := by
  have hb := isdigit_bounds h
  refine ⟨?_, ?_, ?_, ?_, ?_, ?_, ?_⟩
  · intro hc; rw [hc] at hb; revert hb; decide
  · simp only [isalpha, Bool.or_eq_false_iff, Bool.and_eq_false_iff, decide_eq_false_iff_not]
    have h1 : 'a'.toNat = 97 := rfl
    have h2 : 'A'.toNat = 65 := rfl
    have h3 : 'Z'.toNat = 90 := rfl
    constructor
    · left; omega
    · left; omega
  · intro hc; rw [hc] at hb; revert hb; decide
  · intro hc; rw [hc] at hb; revert hb; decide
  · intro hc; rw [hc] at hb; revert hb; decide
  · intro hc; rw [hc] at hb; revert hb; decide
  · intro hc; rw [hc] at hb; revert hb; decide

theorem dropWhile_all {α : Type} (p : α → Bool) (l : List α) (h : ∀ c ∈ l, p c = true) :
    l.dropWhile p = [] := by
  induction l with
  | nil => rfl
  | cons a as ih =>
    simp [List.dropWhile, h a (List.mem_cons_self _ _),
      ih (fun c hc => h c (List.mem_cons_of_mem _ hc))]

/-- A run of digits alone is one integer literal. -/
theorem get_next_token_digits (digits : List Char) (hne : digits ≠ [])
    (hall : ∀ c ∈ digits, isdigit c = true) :
    Lexer.get_next_token digits = .ok (⟨.IntLiteral, ⟨digits⟩⟩, []) := by
  obtain ⟨c, rest, hcr⟩ := List.exists_cons_of_ne_nil hne
  subst hcr
  have hc : isdigit c = true := hall c (List.mem_cons_self _ _)
  obtain ⟨h0, ha, hu, hx, hX, hm, hp⟩ := isdigit_not_other hc
  have hrest : ¬ (rest.head? = some 'x' ∨ rest.head? = some 'X') := by
    cases rest with
    | nil => simp
    | cons d rest1 =>
      have hd : isdigit d = true := hall d (by simp)
      obtain ⟨_, _, _, hdx, hdX, _, _⟩ := isdigit_not_other hd
      simp [hdx, hdX]
  unfold Lexer.get_next_token
  rw [skip_whitespace_digit c rest hc]
  simp only [h0, ha, hu, hc, if_false, Bool.false_or, decide_False, Bool.true_or, if_true,
    Bool.false_eq_true]
  have hbytes : (decide (c = '0') && (decide (rest.head? = some 'x') ||
      decide (rest.head? = some 'X'))) = false := by
    simp only [Bool.and_eq_false_iff, Bool.or_eq_false_iff, decide_eq_false_iff_not]
    right
    exact ⟨fun e => hrest (Or.inl e), fun e => hrest (Or.inr e)⟩
  rw [hbytes]
  simp only [Bool.false_eq_true, if_false]
  unfold Lexer.number
  simp only [hm, hp, or_self, if_false]
  rw [takeWhile_all isdigit _ hall, dropWhile_all isdigit _ hall]

/-- A minus sign and a run of digits alone are one integer literal. -/
theorem get_next_token_minus_digits (digits : List Char) (hne : digits ≠ [])
    (hall : ∀ c ∈ digits, isdigit c = true) :
    Lexer.get_next_token ('-' :: digits) = .ok (⟨.IntLiteral, ⟨'-' :: digits⟩⟩, []) := by
  obtain ⟨c, rest, hcr⟩ := List.exists_cons_of_ne_nil hne
  subst hcr
  have hc : isdigit c = true := hall c (List.mem_cons_self _ _)
  unfold Lexer.get_next_token
  have hs : Lexer.skip_whitespace ('-' :: c :: rest) = '-' :: c :: rest := by
    simp [Lexer.skip_whitespace, isspace]
  rw [hs]
  have e1 : ¬ ('-' = '\x00') := by decide
  have e2 : (isalpha '-' || decide ('-' = '_')) = false := by decide
  have e3 : decide ('-' = '0') = false := by decide
  have e4 : isdigit '-' = false := by decide
  simp only [e1, e2, e3, e4, hc, if_false, Bool.false_and, Bool.false_eq_true, List.head?_cons,
    Option.map_some', Option.getD_some, Bool.false_or, decide_True, Bool.true_or, Bool.and_self,
    if_true]
  unfold Lexer.number
  simp only [true_or, if_true]
  rw [takeWhile_all isdigit _ hall, dropWhile_all isdigit _ hall]

/-- The text of an integer is one integer literal with that text. -/
theorem get_next_token_int_repr (v : Int) :
    Lexer.get_next_token v.repr.data = .ok (⟨.IntLiteral, v.repr⟩, []) := by
  cases v with
  | ofNat n =>
    obtain ⟨_, hne, hall, _⟩ := repr_digits n
    simpa [Int.repr] using get_next_token_digits _ hne hall
  | negSucc m =>
    obtain ⟨_, hne, hall, _⟩ := repr_digits (m + 1)
    have := get_next_token_minus_digits _ hne hall
    simp only [Int.repr, Nat.succ_eq_add_one]
    have hd : ("-" ++ Nat.repr (m + 1)).data = '-' :: (Nat.repr (m + 1)).data := by
      simp [String.data_append]
    rw [hd, this]
    congr 2
/-- The digits that `hex_digits` writes are hexadecimal digits. -/
theorem hex_digits_isxdigit (bs : List Nat) : ∀ c ∈ hex_digits bs, isxdigit c = true := by
  induction bs with
  | nil => intro c hc; simp [hex_digits] at hc
  | cons b rest ih =>
    intro c hc
    simp only [hex_digits, List.mem_cons] at hc
    rcases hc with hc | hc | hc
    · rw [hc]; exact (hex_char_spec _ (Nat.mod_lt _ (by omega))).1
    · rw [hc]; exact (hex_char_spec _ (Nat.mod_lt _ (by omega))).1
    · exact ih c hc

/-- The text `0x` with hexadecimal digits behind it, alone, is one bytes literal. -/
theorem get_next_token_hex (digits : List Char) (hall : ∀ c ∈ digits, isxdigit c = true) :
    Lexer.get_next_token ('0' :: 'x' :: digits) =
      .ok (⟨.BytesLiteral, ⟨'0' :: 'x' :: digits⟩⟩, []) := by
  unfold Lexer.get_next_token
  have hs : Lexer.skip_whitespace ('0' :: 'x' :: digits) = '0' :: 'x' :: digits := by
    simp [Lexer.skip_whitespace, isspace]
  rw [hs]
  have e1 : ¬ ('0' = '\x00') := by decide
  have e2 : (isalpha '0' || decide ('0' = '_')) = false := by decide
  simp only [e1, e2, if_false, Bool.false_eq_true, List.head?_cons, decide_True, Bool.true_or,
    Bool.and_self, if_true]
  unfold Lexer.bytes_literal
  simp only [List.take_succ_cons, List.take_zero, List.drop_succ_cons, List.drop_zero]
  rw [takeWhile_all isxdigit _ hall, dropWhile_all isxdigit _ hall]
  rfl

/-- The lexer enters `string_literal` on a double quote. -/
theorem get_next_token_quote (cs : List Char) :
    Lexer.get_next_token ('"' :: cs) = Lexer.string_literal ('"' :: cs) := by
  unfold Lexer.get_next_token
  have hs : Lexer.skip_whitespace ('"' :: cs) = '"' :: cs := by
    simp [Lexer.skip_whitespace, isspace]
  rw [hs]
  have e1 : ¬ ('"' = '\x00') := by decide
  have e2 : (isalpha '"' || decide ('"' = '_')) = false := by decide
  have e3 : decide ('"' = '0') = false := by decide
  have e4 : isdigit '"' = false := by decide
  have e5 : (decide ('"' = '-') || decide ('"' = '+')) = false := by decide
  simp only [e1, e2, e3, e4, e5, if_false, Bool.false_and, Bool.false_eq_true, Bool.false_or,
    if_true]

/-- Plain characters as pieces: their text and what they stand for are the characters. -/
theorem literal_source_plain (cs : List Char) :
    literal_source (cs.map LiteralPiece.plain) = cs ∧
      (cs.map LiteralPiece.plain).map LiteralPiece.decoded = cs := by
  induction cs with
  | nil => exact ⟨rfl, rfl⟩
  | cons c rest ih =>
    simp only [List.map_cons, literal_source, LiteralPiece.source, LiteralPiece.decoded,
      List.cons_append, List.nil_append, ih.1, ih.2, and_self]

/-- A text without quote, backslash and NUL between two quotes, alone, is one string
literal with that text. -/
theorem get_next_token_quoted (cs : List Char)
    (hq : '"' ∉ cs) (hb : '\\' ∉ cs) (hn : '\x00' ∉ cs) :
    Lexer.get_next_token ('"' :: (cs ++ ['"'])) = .ok (⟨.StringLiteral, ⟨cs⟩⟩, []) := by
  rw [get_next_token_quote]
  have hp : ∀ p ∈ cs.map LiteralPiece.plain, p.is_piece = true ∧ p.nul_free = true := by
    intro p hp
    obtain ⟨c, hc, rfl⟩ := List.mem_map.mp hp
    simp only [LiteralPiece.is_piece, LiteralPiece.nul_free, Bool.and_eq_true,
      decide_eq_true_eq]
    exact ⟨⟨fun e => hq (e ▸ hc), fun e => hb (e ▸ hc)⟩, fun e => hn (e ▸ hc)⟩
  have := string_body_pieces _ hp ['"'] []
  rw [(literal_source_plain cs).1, (literal_source_plain cs).2] at this
  simp only [Lexer.string_literal, List.drop_succ_cons, List.drop_zero, this, List.nil_append,
    string_body_quote]
/-- An input of one token that `parse_primary` turns into an expression parses to that
expression. -/
theorem parse_expression_of_single (input : String) (token : Token) (e : Expression)
    (hlex : Lexer.get_next_token input.data = .ok (token, []))
    (hop : token.type ≠ .Operator)
    (hprim : ∀ f, ExpressionParser.parse_primary (f + 1) ⟨[], token⟩ =
      .ok (e, ⟨[], ⟨.EndOfInput, ""⟩⟩)) :
    parse_expression_of input = .ok e := by
  have hnew : ExpressionParser.new input = .ok ⟨[], token⟩ := by
    simp [ExpressionParser.new, ExpressionParser.advance, hlex]
  have hu : ExpressionParser.parse_unary (12 * input.length + 15 + 1) ⟨[], token⟩ =
      .ok (e, ⟨[], ⟨.EndOfInput, ""⟩⟩) := by
    rw [ExpressionParser.parse_unary, match_token_operator_false _ _ hop]
    simp only [Bool.false_eq_true, if_false]
    exact hprim (12 * input.length + 14)
  have hor := parse_logical_or_of_unary _ _ _ _ hu (by decide)
  have hfuel : parse_fuel input = 12 * input.length + 15 + 8 + 1 := by
    unfold parse_fuel; omega
  unfold parse_expression_of
  rw [hnew, hfuel]
  simp only [ExpressionParser.parse_expression, hor]
  simp

theorem stoll_repr (v : Int) (h1 : -(2 ^ 63) ≤ v) (h2 : v < 2 ^ 63) : stoll v.repr = .ok v := by
  unfold stoll
  rw [parse_decimal_int_repr]
  simp only
  rw [if_neg (by omega)]

/-- The text of a Bytes value passes the checks of the BytesLiteral branch of
`parse_primary` and converts back to the octets. -/
theorem bytes_of_literal_hex_str (b : List Nat) (h : ∀ x ∈ b, x < 256) :
    ExpressionParser.bytes_of_literal (hex_str b) = .ok b := by
  unfold ExpressionParser.bytes_of_literal
  have hl : (hex_str b).length = 2 + 2 * b.length := by
    simp [hex_str, String.length, hex_digits_length]; omega
  rw [if_neg, if_neg]
  · simp only [hex_str, List.drop_succ_cons, List.drop_zero]
    exact hex_bytes_digits "stoi" b h
  · rw [hl]; omega
  · rw [hl]
    simp [hex_str]
/-- A String that holds a backslash does not come back: the text of the two-character
string `\n` (a backslash and the letter n, no double quote) lexes to one string literal
whose value is the newline character, and both conversions yield that other string. -/
theorem literal_round_trip_fails_on_backslash :
    '"' ∉ ("\\n" : String).data ∧
    Lexer.get_next_token (Value.to_string (.string "\\n")).data =
      .ok (⟨.StringLiteral, "\n"⟩, []) ∧
    QueryParser.parse_value .StringLiteral "\n" 0 = .ok (.string "\n") ∧
    parse_expression_of (Value.to_string (.string "\\n")) = .ok (.Literal (.string "\n")) ∧
    Value.string "\n" ≠ Value.string "\\n" := by
  decide

/-- Claim C25, amended: for every non-NULL value `v` (an Int32 within 32 bits, a Bool, a
String without double quote, backslash and NUL character, or a Bytes of octets) whose text
fits a `std::string`, the lexer reads `Value::to_string(v)` as one literal token with
nothing left, so that `EndOfInput` follows; `parse_value` turns the token into `v` under
every size that admits `v`, `parse_primary` turns it into the literal `v`, and the
expression parser reads the whole text as the literal `v`. -/
theorem literal_round_trip (v : Value) (h : v.in_range)
    (hs : ∀ s, v = .string s → '"' ∉ s.data ∧ '\\' ∉ s.data ∧ '\x00' ∉ s.data)
    (hlen : v.to_string.length < 2 ^ 64) :
    ∃ token,
      Lexer.get_next_token v.to_string.data = .ok (token, []) ∧
      Lexer.get_next_token [] = .ok (⟨.EndOfInput, ""⟩, []) ∧
      QueryParser.is_literal token = true ∧
      (∀ size, v.admitted_by size →
        QueryParser.parse_value token.type token.value size = .ok v) ∧
      (∀ fuel, ExpressionParser.parse_primary (fuel + 1) ⟨[], token⟩ =
        .ok (.Literal v, ⟨[], ⟨.EndOfInput, ""⟩⟩)) ∧
      parse_expression_of v.to_string = .ok (.Literal v) := by
  cases v with
  | null => exact absurd h (by simp [Value.in_range])
  | int32 n =>
    simp only [Value.in_range] at h
    have hlex := get_next_token_int_repr n
    have hprim : ∀ fuel, ExpressionParser.parse_primary (fuel + 1) ⟨[], ⟨.IntLiteral, n.repr⟩⟩ =
        .ok (.Literal (.int32 n), ⟨[], ⟨.EndOfInput, ""⟩⟩) := by
      intro fuel
      simp [ExpressionParser.parse_primary, match_token_type,
        stoll_repr n (by omega) (by omega), wrap_int32_of_range n h.1 h.2,
        ExpressionParser.advance, get_next_token_nil]
    refine ⟨⟨.IntLiteral, n.repr⟩, hlex, rfl, rfl, ?_, hprim, ?_⟩
    · intro size _
      simp [QueryParser.parse_value, stoi_repr n h.1 h.2]
    · exact parse_expression_of_single _ _ _ hlex (by simp) hprim
  | bool b =>
    cases b
    · refine ⟨⟨.BoolLiteral, "false"⟩, by decide, rfl, rfl, ?_, ?_, by decide⟩
      · intro size _; rfl
      · intro fuel; rfl
    · refine ⟨⟨.BoolLiteral, "true"⟩, by decide, rfl, rfl, ?_, ?_, by decide⟩
      · intro size _; rfl
      · intro fuel; rfl
  | string s =>
    obtain ⟨hq, hb, hn⟩ := hs s rfl
    have hdata : (Value.to_string (.string s)).data = '"' :: (s.data ++ ['"']) := by
      simp [Value.to_string, String.data_append]
    have hlex : Lexer.get_next_token (Value.to_string (.string s)).data =
        .ok (⟨.StringLiteral, s⟩, []) := by
      rw [hdata]
      exact get_next_token_quoted s.data hq hb hn
    have hprim : ∀ fuel, ExpressionParser.parse_primary (fuel + 1) ⟨[], ⟨.StringLiteral, s⟩⟩ =
        .ok (.Literal (.string s), ⟨[], ⟨.EndOfInput, ""⟩⟩) := by
      intro fuel
      simp [ExpressionParser.parse_primary, match_token_type,
        ExpressionParser.advance, get_next_token_nil]
    refine ⟨⟨.StringLiteral, s⟩, hlex, rfl, rfl, ?_, hprim, ?_⟩
    · intro size hsize
      simp only [Value.admitted_by] at hsize
      unfold QueryParser.parse_value
      simp only
      rw [if_neg]
      intro hc
      omega
    · exact parse_expression_of_single _ _ _ hlex (by simp) hprim
  | bytes b =>
    simp only [Value.in_range] at h
    have hx := hex_digits_isxdigit b
    have hlex : Lexer.get_next_token (Value.to_string (.bytes b)).data =
        .ok (⟨.BytesLiteral, hex_str b⟩, []) := by
      simp only [Value.to_string, hex_str]
      exact get_next_token_hex _ hx
    have hprim : ∀ fuel, ExpressionParser.parse_primary (fuel + 1) ⟨[], ⟨.BytesLiteral, hex_str b⟩⟩ =
        .ok (.Literal (.bytes b), ⟨[], ⟨.EndOfInput, ""⟩⟩) := by
      intro fuel
      simp [ExpressionParser.parse_primary, match_token_type,
        ExpressionParser.advance, get_next_token_nil, bytes_of_literal_hex_str b h]
    refine ⟨⟨.BytesLiteral, hex_str b⟩, hlex, rfl, rfl, ?_, hprim, ?_⟩
    · intro size hsize
      simp only [Value.admitted_by] at hsize
      have hl := hex_digits_length b
      have hlen2 : (hex_digits b).length + 2 < 2 ^ 64 := by
        simpa [Value.to_string, hex_str, String.length] using hlen
      unfold QueryParser.parse_value
      simp only [hex_str, substr, List.length_cons, List.drop_succ_cons, List.drop_zero]
      rw [if_neg (by omega), List.take_of_length_le (by omega)]
      simp only
      rw [if_neg (by omega), if_neg (by omega), hex_bytes_digits "stoul" b h]
    · exact parse_expression_of_single _ _ _ hlex (by simp) hprim

/-- The round trip on the string `Alice`. -/
theorem literal_round_trip_witness :
    ∃ token,
      Lexer.get_next_token (Value.to_string (.string "Alice")).data = .ok (token, []) ∧
      Lexer.get_next_token [] = .ok (⟨.EndOfInput, ""⟩, []) ∧
      QueryParser.is_literal token = true ∧
      (∀ size, (Value.string "Alice").admitted_by size →
        QueryParser.parse_value token.type token.value size = .ok (.string "Alice")) ∧
      (∀ fuel, ExpressionParser.parse_primary (fuel + 1) ⟨[], token⟩ =
        .ok (.Literal (.string "Alice"), ⟨[], ⟨.EndOfInput, ""⟩⟩)) ∧
      parse_expression_of (Value.to_string (.string "Alice")) =
        .ok (.Literal (.string "Alice")) :=
  literal_round_trip (.string "Alice") (by simp [Value.in_range])
    (by intro s hs; cases hs; decide) (by decide)

/-! ## Claims on the Length token -/

/-- Claim C27 on the code: the qualified name `users.login` is an identifier for
`Lexer::identifier`, which reads the dot, but the text `|users.login|` is rejected, since
the loop behind the first bar stops at the dot; the expression parser fails on it in the
same way. A name without dot between the bars is one Length token followed by
`EndOfInput`, and `||` is the or-operator. -/
theorem length_token_rejects_qualified_name :
    Lexer.get_next_token "users.login".data = .ok (⟨.Identifier, "users.login"⟩, []) ∧
    Lexer.get_next_token "|users.login|".data =
      .error ⟨.TypeMismatchException, "Invalid operator after '|': expected '|'"⟩ ∧
    parse_expression_of "|users.login|" =
      .error ⟨.TypeMismatchException, "Invalid operator after '|': expected '|'"⟩ ∧
    Lexer.get_next_token "|login|".data = .ok (⟨.Length, "login"⟩, []) ∧
    Lexer.get_next_token [] = .ok (⟨.EndOfInput, ""⟩, []) ∧
    parse_expression_of "|login|" = .ok (.Unary .Length (.Variable "login")) ∧
    Lexer.get_next_token "||".data = .ok (⟨.Operator, "||"⟩, []) := by
  decide

/-- A name of letters, digits and underscores between two bars is one Length token whose
value is the name, with the input behind the second bar left. -/
theorem length_token_of_plain_name (name rest : List Char) (hne : name ≠ [])
    (hall : ∀ c ∈ name, (isalnum c || c = '_') = true) :
    Lexer.get_next_token ('|' :: (name ++ '|' :: rest)) = .ok (⟨.Length, ⟨name⟩⟩, rest) := by
  obtain ⟨c, tail, hct⟩ := List.exists_cons_of_ne_nil hne
  have hc : (isalnum c || c = '_') = true := hall c (by rw [hct]; exact List.mem_cons_self _ _)
  have hbar : c ≠ '|' := by
    intro e
    rw [e] at hc
    revert hc
    decide
  have htake : ∀ (l : List Char), (∀ x ∈ l, (isalnum x || x = '_') = true) →
      (l ++ '|' :: rest).takeWhile (fun x => isalnum x || x = '_') = l ∧
      (l ++ '|' :: rest).dropWhile (fun x => isalnum x || x = '_') = '|' :: rest := by
    intro l
    induction l with
    | nil =>
      intro _
      have hb : (isalnum '|' || decide ('|' = '_')) = false := by decide
      rw [List.nil_append, List.takeWhile_cons, List.dropWhile_cons]
      simp only [hb, Bool.false_eq_true, if_false, and_self]
    | cons a as ih =>
      intro hl
      have ha := hl a (List.mem_cons_self _ _)
      have := ih (fun x hx => hl x (List.mem_cons_of_mem _ hx))
      rw [List.cons_append, List.takeWhile_cons, List.dropWhile_cons]
      simp only [ha, if_true, this.1, this.2, and_self]
  obtain ⟨h1, h2⟩ := htake name hall
  unfold Lexer.get_next_token
  have hs : Lexer.skip_whitespace ('|' :: (name ++ '|' :: rest)) = '|' :: (name ++ '|' :: rest) := by
    simp [Lexer.skip_whitespace, isspace]
  rw [hs]
  have e1 : ¬ ('|' = '\x00') := by decide
  have e2 : (isalpha '|' || decide ('|' = '_')) = false := by decide
  have e3 : decide ('|' = '0') = false := by decide
  have e4 : isdigit '|' = false := by decide
  have e5 : (decide ('|' = '-') || decide ('|' = '+')) = false := by decide
  simp only [e1, e2, e3, e4, e5, if_false, Bool.false_and, Bool.false_eq_true, Bool.false_or]
  simp only [Char.reduceEq, if_false, if_true]
  unfold Lexer.bar
  rw [hct] at h1 h2 ⊢
  simp only [List.cons_append] at h1 h2 ⊢
  split
  · rename_i heq
    exact absurd (List.cons.inj heq).1 hbar
  · rw [h1, h2]
    rfl

/-- The names of the tests, `title` among them, between bars. -/
theorem length_token_of_plain_name_witness :
    Lexer.get_next_token "|title| > 5".data = .ok (⟨.Length, "title"⟩, " > 5".data) :=
  length_token_of_plain_name "title".data " > 5".data (by decide) (by decide)

/-! ## Claims on signed integer literals -/

/-- A run of characters with a property is what `takeWhile` takes, and what `dropWhile`
leaves behind it, when the text behind the run does not start with such a character. -/
theorem takeWhile_dropWhile_run {α : Type} (p : α → Bool) (l rest : List α)
    (hl : ∀ c ∈ l, p c = true) (hrest : ∀ c ∈ rest.head?, p c = false) :
    (l ++ rest).takeWhile p = l ∧ (l ++ rest).dropWhile p = rest := by
  induction l with
  | nil =>
    cases rest with
    | nil => exact ⟨rfl, rfl⟩
    | cons a as =>
      have ha : p a = false := hrest a (by simp)
      rw [List.nil_append, List.takeWhile_cons, List.dropWhile_cons]
      simp only [ha, Bool.false_eq_true, if_false, and_self]
  | cons a as ih =>
    have ha := hl a (List.mem_cons_self _ _)
    have := ih (fun x hx => hl x (List.mem_cons_of_mem _ hx))
    rw [List.cons_append, List.takeWhile_cons, List.dropWhile_cons]
    simp only [ha, if_true, this.1, this.2, and_self]

/-- A letter is no white space, NUL or digit. -/
theorem isalpha_not_other {c : Char} (h : (isalpha c || c = '_') = true) :
    isspace c = false ∧ c ≠ '\x00' := by
  have hb : (97 ≤ c.toNat ∧ c.toNat ≤ 122) ∨ (65 ≤ c.toNat ∧ c.toNat ≤ 90) ∨ c = '_' := by
    simp only [isalpha, Bool.or_eq_true, Bool.and_eq_true, decide_eq_true_eq] at h
    rcases h with (h | h) | h
    · exact Or.inl h
    · exact Or.inr (Or.inl h)
    · exact Or.inr (Or.inr h)
  constructor
  · simp only [isspace, Bool.or_eq_false_iff, decide_eq_false_iff_not]
    refine ⟨⟨⟨⟨⟨?_, ?_⟩, ?_⟩, ?_⟩, ?_⟩, ?_⟩ <;>
      (intro hc; rw [hc] at hb; revert hb; decide)
  · intro hc; rw [hc] at hb; revert hb; decide

/-- White space in front of a token is skipped. -/
theorem get_next_token_space (c : Char) (cs : List Char) (h : isspace c = true) :
    Lexer.get_next_token (c :: cs) = Lexer.get_next_token cs := by
  unfold Lexer.get_next_token
  simp only [Lexer.skip_whitespace, h, if_true]

/-- An identifier in front of a text that does not continue it is one Identifier token. -/
theorem get_next_token_identifier (name rest : List Char) (hname : is_identifier name = true)
    (hrest : ∀ c ∈ rest.head?, is_identifier_char c = false) :
    Lexer.get_next_token (name ++ rest) = .ok (⟨.Identifier, ⟨name⟩⟩, rest) := by
  cases name with
  | nil => simp [is_identifier] at hname
  | cons c tail =>
    simp only [is_identifier, Bool.and_eq_true, List.all_eq_true, bne_iff_ne, ne_eq,
      decide_eq_true_eq, decide_not, Bool.not_eq_true', decide_eq_false_iff_not] at hname
    obtain ⟨⟨⟨hc, htail⟩, ht⟩, hf⟩ := hname
    obtain ⟨hsp, h0⟩ := isalpha_not_other hc
    have hcc : is_identifier_char c = true := by
      simp only [is_identifier_char, isalnum, Bool.or_eq_true, decide_eq_true_eq] at hc ⊢
      rcases hc with hc | hc
      · exact Or.inl (Or.inl (Or.inl hc))
      · exact Or.inl (Or.inr hc)
    have hall : ∀ x ∈ c :: tail, is_identifier_char x = true := by
      intro x hx
      rcases List.mem_cons.mp hx with hx | hx
      · rw [hx]; exact hcc
      · exact htail x hx
    obtain ⟨h1, h2⟩ := takeWhile_dropWhile_run is_identifier_char (c :: tail) rest hall hrest
    unfold Lexer.get_next_token
    have hs : Lexer.skip_whitespace (c :: tail ++ rest) = c :: tail ++ rest := by
      simp [Lexer.skip_whitespace, hsp]
    rw [hs]
    simp only [List.cons_append, h0, if_false, hc, if_true]
    unfold Lexer.identifier
    have e : (fun c => isalnum c || decide (c = '_') || decide (c = '.')) = is_identifier_char := rfl
    rw [e]
    simp only [List.cons_append] at h1 h2
    rw [h1, h2]
    have ht2 : ¬ (String.mk (c :: tail) = "true") := fun e => ht (congrArg String.data e)
    have hf2 : ¬ (String.mk (c :: tail) = "false") := fun e => hf (congrArg String.data e)
    simp only [ht2, hf2, or_self, if_false]
/-- A sign with a digit right behind it starts an integer literal, whatever was read
before: the literal takes the sign and the digits. -/
theorem get_next_token_signed (sign : Char) (digits rest : List Char)
    (hsign : sign = '-' ∨ sign = '+') (hd : is_digits digits = true)
    (hrest : ∀ c ∈ rest.head?, isdigit c = false) :
    Lexer.get_next_token (sign :: (digits ++ rest)) =
      .ok (⟨.IntLiteral, ⟨sign :: digits⟩⟩, rest) := by
  simp only [is_digits, Bool.and_eq_true, Bool.not_eq_true', List.isEmpty_eq_false,
    List.all_eq_true] at hd
  obtain ⟨hne, hall⟩ := hd
  obtain ⟨c, tail, hct⟩ := List.exists_cons_of_ne_nil (by
    intro e; rw [e] at hne; simp at hne : digits ≠ [])
  have hc : isdigit c = true := hall c (by rw [hct]; exact List.mem_cons_self _ _)
  obtain ⟨h1, h2⟩ := takeWhile_dropWhile_run isdigit digits rest hall hrest
  unfold Lexer.get_next_token
  have hs : Lexer.skip_whitespace (sign :: (digits ++ rest)) = sign :: (digits ++ rest) := by
    rcases hsign with h | h <;> subst h <;> simp [Lexer.skip_whitespace, isspace]
  rw [hs]
  have e1 : ¬ (sign = '\x00') := by rcases hsign with h | h <;> subst h <;> decide
  have e2 : (isalpha sign || decide (sign = '_')) = false := by
    rcases hsign with h | h <;> subst h <;> decide
  have e3 : decide (sign = '0') = false := by rcases hsign with h | h <;> subst h <;> decide
  have e5 : (decide (sign = '-') || decide (sign = '+')) = true := by
    rcases hsign with h | h <;> subst h <;> decide
  have e6 : ((digits ++ rest).head?.map isdigit).getD false = true := by
    rw [hct]; simp [hc]
  simp only [e1, e2, e3, e5, e6, if_false, Bool.false_and, Bool.false_eq_true, Bool.and_self,
    Bool.or_true, if_true]
  unfold Lexer.number
  simp only [hsign, if_true, h1, h2]

/-- A sign with no digit right behind it is an operator. -/
theorem get_next_token_sign_operator (sign : Char) (rest : List Char)
    (hsign : sign = '-' ∨ sign = '+') (hrest : ∀ c ∈ rest.head?, isdigit c = false) :
    Lexer.get_next_token (sign :: rest) = .ok (⟨.Operator, ⟨[sign]⟩⟩, rest) := by
  unfold Lexer.get_next_token
  have hs : Lexer.skip_whitespace (sign :: rest) = sign :: rest := by
    rcases hsign with h | h <;> subst h <;> simp [Lexer.skip_whitespace, isspace]
  rw [hs]
  have e6 : (rest.head?.map isdigit).getD false = false := by
    cases rest with
    | nil => rfl
    | cons c tail => simpa using hrest c (by simp)
  rcases hsign with h | h <;> subst h
  · have e2 : (isalpha '-' || decide ('-' = '_')) = false := by decide
    have e4 : isdigit '-' = false := by decide
    simp only [e2, e4, e6, Char.reduceEq, if_false, if_true, decide_False, Bool.false_and,
      Bool.and_false, Bool.false_eq_true, Bool.or_self]
    rfl
  · have e2 : (isalpha '+' || decide ('+' = '_')) = false := by decide
    have e4 : isdigit '+' = false := by decide
    simp only [e2, e4, e6, Char.reduceEq, if_false, if_true, decide_False, Bool.false_and,
      Bool.and_false, Bool.false_eq_true, Bool.or_self]
    rfl

/-- An opening parenthesis is one token. -/
theorem get_next_token_left_paren (rest : List Char) :
    Lexer.get_next_token ('(' :: rest) = .ok (⟨.LeftParen, "("⟩, rest) := by
  unfold Lexer.get_next_token
  have hs : Lexer.skip_whitespace ('(' :: rest) = '(' :: rest := by
    simp [Lexer.skip_whitespace, isspace]
  rw [hs]
  have e2 : isalpha '(' = false := by decide
  have e4 : isdigit '(' = false := by decide
  simp only [e2, e4, Char.reduceEq, if_false, if_true, decide_False, Bool.false_and,
    Bool.false_eq_true, Bool.or_self]

/-- A closing parenthesis is one token. -/
theorem get_next_token_right_paren (rest : List Char) :
    Lexer.get_next_token (')' :: rest) = .ok (⟨.RightParen, ")"⟩, rest) := by
  unfold Lexer.get_next_token
  have hs : Lexer.skip_whitespace (')' :: rest) = ')' :: rest := by
    simp [Lexer.skip_whitespace, isspace]
  rw [hs]
  have e2 : isalpha ')' = false := by decide
  have e4 : isdigit ')' = false := by decide
  simp only [e2, e4, Char.reduceEq, if_false, if_true, decide_False, Bool.false_and,
    Bool.false_eq_true, Bool.or_self]
/-- The test `match(Operator, text)` on an operator token compares the texts. -/
theorem match_token_operator (p : ExpressionParser) (v value : String)
    (h : p.current_token = ⟨.Operator, v⟩) (hne : value.isEmpty = false) :
    p.match_token .Operator value = decide (v = value) := by
  simp [ExpressionParser.match_token, h, hne]

/-- An identifier is an operand of `parse_unary`: the variable of that name. -/
theorem parse_unary_identifier (f : Nat) (p p1 : ExpressionParser) (name : String)
    (h : p.current_token = ⟨.Identifier, name⟩) (hadv : p.advance = .ok p1) :
    ExpressionParser.parse_unary (f + 2) p = .ok (.Variable name, p1) := by
  have hop : p.current_token.type ≠ .Operator := by rw [h]; simp
  rw [ExpressionParser.parse_unary, match_token_operator_false _ _ hop]
  simp [ExpressionParser.parse_primary, match_token_type, h, hadv]

/-- An integer literal is an operand of `parse_unary`: its value in 32 bits. -/
theorem parse_unary_int_literal (f : Nat) (p p1 : ExpressionParser) (text : String) (n : Int)
    (h : p.current_token = ⟨.IntLiteral, text⟩) (hn : stoll text = .ok n)
    (hadv : p.advance = .ok p1) :
    ExpressionParser.parse_unary (f + 2) p = .ok (.Literal (.int32 (wrap_int32 n)), p1) := by
  have hop : p.current_token.type ≠ .Operator := by rw [h]; simp
  rw [ExpressionParser.parse_unary, match_token_operator_false _ _ hop]
  simp [ExpressionParser.parse_primary, match_token_type, h, hadv, hn]

/-- When `parse_term` has read its operand and the token behind it is no operator, the
loops above it end at once. -/
theorem parse_logical_or_of_term (f : Nat) (p q : ExpressionParser) (e : Expression)
    (h : ExpressionParser.parse_term (f + 1) p = .ok (e, q))
    (hq : q.current_token.type ≠ .Operator) :
    ExpressionParser.parse_logical_or (f + 6) p = .ok (e, q) := by
  have m := fun value => match_token_operator_false q value hq
  have h3 : ExpressionParser.parse_comparison (f + 2) p = .ok (e, q) := by
    simp [ExpressionParser.parse_comparison, h, ExpressionParser.comparison_loop, m]
  have h4 : ExpressionParser.parse_equality (f + 3) p = .ok (e, q) := by
    simp [ExpressionParser.parse_equality, h3, ExpressionParser.equality_loop, m]
  have h5 : ExpressionParser.parse_logical_and (f + 4) p = .ok (e, q) := by
    simp [ExpressionParser.parse_logical_and, h4, ExpressionParser.logical_and_loop, m]
  have h6 : ExpressionParser.parse_logical_xor (f + 5) p = .ok (e, q) := by
    simp [ExpressionParser.parse_logical_xor, h5, ExpressionParser.logical_xor_loop, m]
  simp [ExpressionParser.parse_logical_or, h6, ExpressionParser.logical_or_loop, m]

/-- The operand, a `-` and a second operand with no operator behind it are a subtraction
for `parse_term`. -/
theorem parse_term_subtraction (f : Nat) (p p1 p2 p3 : ExpressionParser) (left right : Expression)
    (hleft : ExpressionParser.parse_unary (f + 2) p = .ok (left, p1))
    (hop : p1.current_token = ⟨.Operator, "-"⟩) (hadv : p1.advance = .ok p2)
    (hright : ExpressionParser.parse_unary (f + 1) p2 = .ok (right, p3))
    (hq : p3.current_token.type ≠ .Operator) :
    ExpressionParser.parse_term (f + 4) p = .ok (.Binary .Subtract left right, p3) := by
  have m := fun value => match_token_operator_false p3 value hq
  have m1 := fun value hne => match_token_operator p1 "-" value hop hne
  have hf1 : ExpressionParser.parse_factor (f + 3) p = .ok (left, p1) := by
    simp [ExpressionParser.parse_factor, hleft, ExpressionParser.factor_loop,
      m1 "*" rfl, m1 "/" rfl, m1 "%" rfl]
  have hf2 : ExpressionParser.parse_factor (f + 2) p2 = .ok (right, p3) := by
    simp [ExpressionParser.parse_factor, hright, ExpressionParser.factor_loop, m]
  simp [ExpressionParser.parse_term, hf1, ExpressionParser.term_loop, m1 "+" rfl, m1 "-" rfl,
    hop, hadv, hf2, m]

/-- The fuel of `parse_expression_of` in the form the lemmas on the levels use. -/
theorem parse_fuel_eq (input : String) : parse_fuel input = 12 * input.length + 14 + 9 + 1 := by
  unfold parse_fuel; omega

/-- An input whose first operand is followed by a token that is no operator and cannot
end an expression is rejected. -/
theorem parse_expression_of_rejects (input : String) (p q : ExpressionParser) (e : Expression)
    (hnew : ExpressionParser.new input = .ok p)
    (hu : ExpressionParser.parse_unary (12 * input.length + 14 + 1 + 1) p = .ok (e, q))
    (hq : q.current_token.type = .IntLiteral) :
    parse_expression_of input =
      .error ⟨.TypeMismatchException, "Unexpected token in expression."⟩ := by
  have hor := parse_logical_or_of_unary _ _ _ _ hu (by rw [hq]; decide)
  unfold parse_expression_of
  rw [hnew, parse_fuel_eq]
  simp only [ExpressionParser.parse_expression, hor]
  simp [hq]

/-- An input that `parse_logical_or` reads up to the end parses to what it has read. -/
theorem parse_expression_of_accepts (input : String) (p q : ExpressionParser) (e : Expression)
    (hnew : ExpressionParser.new input = .ok p)
    (hor : ExpressionParser.parse_logical_or (12 * input.length + 14 + 9) p = .ok (e, q))
    (hq : q.current_token.type = .EndOfInput) :
    parse_expression_of input = .ok e := by
  unfold parse_expression_of
  rw [hnew, parse_fuel_eq]
  simp only [ExpressionParser.parse_expression, hor]
  simp [hq]
/-- A parenthesised operand is an operand of `parse_unary`. -/
theorem parse_unary_paren (g : Nat) (p pa prp q : ExpressionParser) (e : Expression) (v : String)
    (h : p.current_token = ⟨.LeftParen, v⟩) (hadv : p.advance = .ok pa)
    (hin : ExpressionParser.parse_unary (g + 2) pa = .ok (e, prp))
    (hrp : prp.current_token.type = .RightParen) (hadv2 : prp.advance = .ok q) :
    ExpressionParser.parse_unary (g + 12) p = .ok (e, q) := by
  have hop : p.current_token.type ≠ .Operator := by rw [h]; simp
  have hor := parse_logical_or_of_unary (g + 1) pa prp e hin (by rw [hrp]; decide)
  have hex : ExpressionParser.parse_expression (g + 10) pa = .ok (e, prp) := by
    simp only [ExpressionParser.parse_expression, hor]
    simp [hrp]
  rw [ExpressionParser.parse_unary, match_token_operator_false _ _ hop]
  simp [ExpressionParser.parse_primary, match_token_type, h, hadv, hex,
    ExpressionParser.consume, hrp, hadv2]

/-- The text of digits converts to their value. -/
theorem stoll_digits (digits : List Char) (hd : is_digits digits = true)
    (hv : digits_value digits < 2 ^ 63) :
    stoll ⟨digits⟩ = .ok (digits_value digits : Int) := by
  simp only [is_digits, Bool.and_eq_true, Bool.not_eq_true', List.isEmpty_eq_false,
    List.all_eq_true] at hd
  obtain ⟨hne, hall⟩ := hd
  have hne2 : digits ≠ [] := by intro e; rw [e] at hne; simp at hne
  obtain ⟨c, rest, hcr⟩ := List.exists_cons_of_ne_nil hne2
  have hc : isdigit c = true := hall c (by rw [hcr]; exact List.mem_cons_self _ _)
  obtain ⟨_, _, _, _, _, hcm, hcp⟩ := isdigit_not_other hc
  have hp : parse_decimal ⟨digits⟩ = some (digits_value digits : Int) := by
    unfold parse_decimal
    simp only [hcr, skip_whitespace_digit c rest hc, List.head?_cons, Option.some.injEq, hcm,
      hcp, or_self, if_false, decide_False]
    rw [← hcr, takeWhile_all isdigit _ hall]
    simp [hne2]
  unfold stoll
  rw [hp]
  simp only
  rw [if_neg (by omega)]

/-- The texts `a-1`, `a -1` and `(a) -1` do not lex as operand, operator `-` and literal
`1`: the token behind the operand is the literal `-1`, and the expression parser rejects
each text. -/
theorem sign_is_folded_behind_operand :
    Lexer.get_next_token "a-1".data = .ok (⟨.Identifier, "a"⟩, "-1".data) ∧
    Lexer.get_next_token "-1".data = .ok (⟨.IntLiteral, "-1"⟩, []) ∧
    Lexer.get_next_token ") -1".data = .ok (⟨.RightParen, ")"⟩, " -1".data) ∧
    Lexer.get_next_token " -1".data = .ok (⟨.IntLiteral, "-1"⟩, []) ∧
    parse_expression_of "a-1" ≠
      .ok (.Binary .Subtract (.Variable "a") (.Literal (.int32 1))) ∧
    parse_expression_of "a-1" =
      .error ⟨.TypeMismatchException, "Unexpected token in expression."⟩ ∧
    parse_expression_of "a -1" =
      .error ⟨.TypeMismatchException, "Unexpected token in expression."⟩ ∧
    parse_expression_of "(a) -1" =
      .error ⟨.TypeMismatchException, "Unexpected token in expression."⟩ := by
  decide

/-- Claim C28, amended: the lexer folds a leading `+` or `-` into an integer literal
whenever a digit follows the sign at once, whatever was read before, and reads the sign
as an operator otherwise. For an identifier `a` and digits `d`, the text `a - d` lexes as
the operand, the operator `-` and the literal `d` and parses as the subtraction; in
`a-d`, `a -d` and `(a) -d` the token behind the operand is the literal `-d`, and the
expression parser rejects each of the three texts. -/
theorem sign_folds_before_digit (a d : List Char) (ha : is_identifier a = true)
    (hd : is_digits d = true) (hv : digits_value d < 2 ^ 63) :
    (∀ rest, (∀ c ∈ rest.head?, isdigit c = false) →
      Lexer.get_next_token ('-' :: (d ++ rest)) = .ok (⟨.IntLiteral, ⟨'-' :: d⟩⟩, rest) ∧
      Lexer.get_next_token ('+' :: (d ++ rest)) = .ok (⟨.IntLiteral, ⟨'+' :: d⟩⟩, rest) ∧
      Lexer.get_next_token ('-' :: rest) = .ok (⟨.Operator, "-"⟩, rest) ∧
      Lexer.get_next_token ('+' :: rest) = .ok (⟨.Operator, "+"⟩, rest)) ∧
    Lexer.get_next_token (a ++ '-' :: d) = .ok (⟨.Identifier, ⟨a⟩⟩, '-' :: d) ∧
    Lexer.get_next_token (a ++ ' ' :: '-' :: d) = .ok (⟨.Identifier, ⟨a⟩⟩, ' ' :: '-' :: d) ∧
    Lexer.get_next_token (' ' :: '-' :: d) = .ok (⟨.IntLiteral, ⟨'-' :: d⟩⟩, []) ∧
    parse_expression_of ⟨a ++ '-' :: d⟩ =
      .error ⟨.TypeMismatchException, "Unexpected token in expression."⟩ ∧
    parse_expression_of ⟨a ++ ' ' :: '-' :: d⟩ =
      .error ⟨.TypeMismatchException, "Unexpected token in expression."⟩ ∧
    parse_expression_of ⟨'(' :: (a ++ ')' :: ' ' :: '-' :: d)⟩ =
      .error ⟨.TypeMismatchException, "Unexpected token in expression."⟩ ∧
    Lexer.get_next_token (a ++ ' ' :: '-' :: ' ' :: d) =
      .ok (⟨.Identifier, ⟨a⟩⟩, ' ' :: '-' :: ' ' :: d) ∧
    Lexer.get_next_token (' ' :: '-' :: ' ' :: d) = .ok (⟨.Operator, "-"⟩, ' ' :: d) ∧
    Lexer.get_next_token (' ' :: d) = .ok (⟨.IntLiteral, ⟨d⟩⟩, []) ∧
    parse_expression_of ⟨a ++ ' ' :: '-' :: ' ' :: d⟩ =
      .ok (.Binary .Subtract (.Variable ⟨a⟩)
        (.Literal (.int32 (wrap_int32 (digits_value d))))) := by
  have hd0 := hd
  simp only [is_digits, Bool.and_eq_true, Bool.not_eq_true', List.isEmpty_eq_false,
    List.all_eq_true] at hd0
  obtain ⟨hne, hall⟩ := hd0
  have hne2 : d ≠ [] := by intro e; rw [e] at hne; simp at hne
  have hsp : isspace ' ' = true := by decide
  -- the lexer on the pieces
  have stop_minus : ∀ rest : List Char, ∀ c ∈ ('-' :: rest).head?, is_identifier_char c = false := by
    intro rest c hc
    simp only [List.head?_cons, Option.mem_def, Option.some.injEq] at hc
    rw [← hc]; decide
  have stop_space : ∀ rest : List Char, ∀ c ∈ (' ' :: rest).head?, is_identifier_char c = false := by
    intro rest c hc
    simp only [List.head?_cons, Option.mem_def, Option.some.injEq] at hc
    rw [← hc]; decide
  have stop_paren : ∀ rest : List Char, ∀ c ∈ (')' :: rest).head?, is_identifier_char c = false := by
    intro rest c hc
    simp only [List.head?_cons, Option.mem_def, Option.some.injEq] at hc
    rw [← hc]; decide
  have lex_a1 := get_next_token_identifier a ('-' :: d) ha (stop_minus d)
  have lex_a2 := get_next_token_identifier a (' ' :: '-' :: d) ha (stop_space _)
  have lex_a3 := get_next_token_identifier a (')' :: ' ' :: '-' :: d) ha (stop_paren _)
  have lex_a4 := get_next_token_identifier a (' ' :: '-' :: ' ' :: d) ha (stop_space _)
  have lex_md : Lexer.get_next_token ('-' :: d) = .ok (⟨.IntLiteral, ⟨'-' :: d⟩⟩, []) := by
    have := get_next_token_signed '-' d [] (Or.inl rfl) hd (by simp)
    rwa [List.append_nil] at this
  have lex_smd : Lexer.get_next_token (' ' :: '-' :: d) = .ok (⟨.IntLiteral, ⟨'-' :: d⟩⟩, []) := by
    rw [get_next_token_space _ _ hsp]; exact lex_md
  have lex_d : Lexer.get_next_token d = .ok (⟨.IntLiteral, ⟨d⟩⟩, []) :=
    get_next_token_digits d hne2 hall
  have lex_sd : Lexer.get_next_token (' ' :: d) = .ok (⟨.IntLiteral, ⟨d⟩⟩, []) := by
    rw [get_next_token_space _ _ hsp]; exact lex_d
  have lex_op : Lexer.get_next_token (' ' :: '-' :: ' ' :: d) =
      .ok (⟨.Operator, "-"⟩, ' ' :: d) := by
    rw [get_next_token_space _ _ hsp]
    exact get_next_token_sign_operator '-' (' ' :: d) (Or.inl rfl) (by
      intro c hc
      simp only [List.head?_cons, Option.mem_def, Option.some.injEq] at hc
      rw [← hc]; decide)
  have lex_rp : Lexer.get_next_token (')' :: ' ' :: '-' :: d) =
      .ok (⟨.RightParen, ")"⟩, ' ' :: '-' :: d) := get_next_token_right_paren _
  have lex_lp := get_next_token_left_paren (a ++ ')' :: ' ' :: '-' :: d)
  refine ⟨?_, lex_a1, lex_a2, lex_smd, ?_, ?_, ?_, lex_a4, lex_op, lex_sd, ?_⟩
  · intro rest hrest
    exact ⟨get_next_token_signed '-' d rest (Or.inl rfl) hd hrest,
      get_next_token_signed '+' d rest (Or.inr rfl) hd hrest,
      get_next_token_sign_operator '-' rest (Or.inl rfl) hrest,
      get_next_token_sign_operator '+' rest (Or.inr rfl) hrest⟩
  · -- a-d
    refine parse_expression_of_rejects _ ⟨'-' :: d, ⟨.Identifier, ⟨a⟩⟩⟩
      ⟨[], ⟨.IntLiteral, ⟨'-' :: d⟩⟩⟩ (.Variable ⟨a⟩) ?_ ?_ rfl
    · simp [ExpressionParser.new, ExpressionParser.advance, lex_a1]
    · exact parse_unary_identifier _ _ _ _ rfl (by simp [ExpressionParser.advance, lex_md])
  · -- a -d
    refine parse_expression_of_rejects _ ⟨' ' :: '-' :: d, ⟨.Identifier, ⟨a⟩⟩⟩
      ⟨[], ⟨.IntLiteral, ⟨'-' :: d⟩⟩⟩ (.Variable ⟨a⟩) ?_ ?_ rfl
    · simp [ExpressionParser.new, ExpressionParser.advance, lex_a2]
    · exact parse_unary_identifier _ _ _ _ rfl (by simp [ExpressionParser.advance, lex_smd])
  · -- (a) -d
    refine parse_expression_of_rejects _ ⟨a ++ ')' :: ' ' :: '-' :: d, ⟨.LeftParen, "("⟩⟩
      ⟨[], ⟨.IntLiteral, ⟨'-' :: d⟩⟩⟩ (.Variable ⟨a⟩) ?_ ?_ rfl
    · simp [ExpressionParser.new, ExpressionParser.advance, lex_lp]
    · have hin : ∀ g, ExpressionParser.parse_unary (g + 2)
          ⟨')' :: ' ' :: '-' :: d, ⟨.Identifier, ⟨a⟩⟩⟩ =
          .ok (.Variable ⟨a⟩, ⟨' ' :: '-' :: d, ⟨.RightParen, ")"⟩⟩) := fun g =>
        parse_unary_identifier g _ _ _ rfl (by simp [ExpressionParser.advance, lex_rp])
      have := parse_unary_paren
        (12 * (String.mk ('(' :: (a ++ ')' :: ' ' :: '-' :: d))).length + 4)
        ⟨a ++ ')' :: ' ' :: '-' :: d, ⟨.LeftParen, "("⟩⟩ _ _
        ⟨[], ⟨.IntLiteral, ⟨'-' :: d⟩⟩⟩ _ "(" rfl
        (by simp [ExpressionParser.advance, lex_a3]) (hin _) rfl
        (by simp [ExpressionParser.advance, lex_smd])
      exact this
  · -- a - d
    have hleft : ∀ f, ExpressionParser.parse_unary (f + 2)
        ⟨' ' :: '-' :: ' ' :: d, ⟨.Identifier, ⟨a⟩⟩⟩ =
        .ok (.Variable ⟨a⟩, ⟨' ' :: d, ⟨.Operator, "-"⟩⟩) := fun f =>
      parse_unary_identifier f _ _ _ rfl (by simp [ExpressionParser.advance, lex_op])
    have hright : ∀ f, ExpressionParser.parse_unary (f + 2) ⟨[], ⟨.IntLiteral, ⟨d⟩⟩⟩ =
        .ok (.Literal (.int32 (wrap_int32 (digits_value d))), ⟨[], ⟨.EndOfInput, ""⟩⟩) := fun f =>
      parse_unary_int_literal f _ _ _ _ rfl (stoll_digits d hd hv)
        (by simp [ExpressionParser.advance, get_next_token_nil])
    have hterm := parse_term_subtraction
      (12 * (String.mk (a ++ ' ' :: '-' :: ' ' :: d)).length + 13 + 1)
      _ _ _ _ _ _ (hleft _) rfl (by simp [ExpressionParser.advance, lex_sd]) (hright _)
      (by decide)
    have hor := parse_logical_or_of_term _ _ _ _ hterm (by decide)
    refine parse_expression_of_accepts _ ⟨' ' :: '-' :: ' ' :: d, ⟨.Identifier, ⟨a⟩⟩⟩ _ _ ?_ hor rfl
    simp [ExpressionParser.new, ExpressionParser.advance, lex_a4]

/-- The expression `balance - 200` of the tests, and `balance-200`. -/
theorem sign_folds_before_digit_witness :
    parse_expression_of "balance-200" =
      .error ⟨.TypeMismatchException, "Unexpected token in expression."⟩ ∧
    parse_expression_of "balance - 200" =
      .ok (.Binary .Subtract (.Variable "balance") (.Literal (.int32 200))) :=
  ⟨(sign_folds_before_digit "balance".data "200".data (by decide) (by decide)
      (by decide)).2.2.2.2.1,
    (sign_folds_before_digit "balance".data "200".data (by decide) (by decide)
      (by decide)).2.2.2.2.2.2.2.2.2.2⟩

/-! ## Claims on the letter case of keywords -/

/-- Claim C30 on the code: the lower-case update statement parses to the plan with one
assignment and the condition, and so does the statement with `UPDATE` and `SET` in upper
case; but with `WHERE` in upper case the search `rest.find("where")` finds nothing, the
whole rest is read as the assignment, and the parse fails on the token `WHERE`. The delete
branch lower-cases its `where` and accepts `DELETE t WHERE d = 2`. In an expression only
the lower-case `as` may follow: `x as y` parses to the variable `x`, `x AS y` is
rejected. -/
theorem upper_case_where_and_as_rejected
    (other_branches : String → String → List Char → Except Exception ParsedQuery) :
    QueryParser.parse other_branches "update t set c = 1 where d = 2" =
      .ok update_keywords_plan ∧
    QueryParser.parse other_branches "UPDATE t SET c = 1 where d = 2" =
      .ok update_keywords_plan ∧
    QueryParser.parse other_branches "UPDATE t SET c = 1 WHERE d = 2" =
      .error ⟨.TypeMismatchException, "Unexpected token in expression."⟩ ∧
    QueryParser.parse other_branches "delete t where d = 2" = .ok delete_keywords_plan ∧
    QueryParser.parse other_branches "DELETE t WHERE d = 2" = .ok delete_keywords_plan ∧
    parse_expression_of "x as y" = .ok (.Variable "x") ∧
    parse_expression_of "x AS y" =
      .error ⟨.TypeMismatchException, "Unexpected token in expression."⟩ := by
  refine ⟨by rfl, by rfl, by rfl, by rfl, by rfl, by decide, by decide⟩

/-! ## Claims on precedence: the ladder on arbitrary operands -/

/-- A token other than the operator with a text does not match that text. -/
theorem match_token_ne (p : ExpressionParser) (value : String) (hne : value.isEmpty = false)
    (h : p.current_token ≠ ⟨.Operator, value⟩) :
    p.match_token .Operator value = false := by
  cases hm : p.match_token .Operator value with
  | false => rfl
  | true =>
    exfalso
    apply h
    simp only [ExpressionParser.match_token, hne, Bool.false_or, Bool.and_eq_true,
      decide_eq_true_eq] at hm
    obtain ⟨ht, hv⟩ := hm
    cases hp : p.current_token with
    | mk type v =>
      rw [hp] at ht hv
      simp only at ht hv
      rw [ht, hv]

/-- The texts of the ladder operators tell the levels apart. -/
theorem ladder_text_level (o1 o2 : LadderOp) (h : o1.text = o2.text) : o1.level = o2.level := by
  cases o1 <;> cases o2 <;> first | rfl | (exfalso; revert h; decide)

/-- A loop of the ladder ends at once on a token that is no operator of its level. -/
theorem loop_exit (L : Nat) (h1 : 1 ≤ L) (h5 : L ≤ 5) (node : Expression) (p : ExpressionParser)
    (hno : ∀ o : LadderOp, o.level = L → p.current_token ≠ ⟨.Operator, o.text⟩) :
    LoopReads (level_loop L) node p node p := by
  refine ⟨1, fun f hf => ?_⟩
  obtain ⟨f1, rfl⟩ : ∃ f1, f = f1 + 1 := ⟨f - 1, by omega⟩
  have m := fun (o : LadderOp) (hl : o.level = L) =>
    match_token_ne p o.text (by cases o <;> rfl) (hno o hl)
  interval_cases L
  · have m1 := m .and rfl
    simp only [LadderOp.text] at m1
    simp [level_loop, ExpressionParser.logical_and_loop, m1]
  · have m1 := m .eq rfl
    have m2 := m .eqeq rfl
    have m3 := m .ne rfl
    simp only [LadderOp.text] at m1 m2 m3
    simp [level_loop, ExpressionParser.equality_loop, m1, m2, m3]
  · have m1 := m .lt rfl
    have m2 := m .le rfl
    have m3 := m .gt rfl
    have m4 := m .ge rfl
    simp only [LadderOp.text] at m1 m2 m3 m4
    simp [level_loop, ExpressionParser.comparison_loop, m1, m2, m3, m4]
  · have m1 := m .add rfl
    have m2 := m .sub rfl
    simp only [LadderOp.text] at m1 m2
    simp [level_loop, ExpressionParser.term_loop, m1, m2]
  · have m1 := m .mul rfl
    have m2 := m .div rfl
    have m3 := m .mod rfl
    simp only [LadderOp.text] at m1 m2 m3
    simp [level_loop, ExpressionParser.factor_loop, m1, m2, m3]

/-- The function of a level reads its first operand with the next tighter level and
hands it to its loop. -/
theorem parse_level_of_loop (L : Nat) (h1 : 1 ≤ L) (h5 : L ≤ 5) (p p1 q : ExpressionParser)
    (x r : Expression) (hx : Reads (parse_level (L + 1)) p x p1)
    (hl : LoopReads (level_loop L) x p1 r q) :
    Reads (parse_level L) p r q := by
  obtain ⟨k1, hx⟩ := hx
  obtain ⟨k2, hl⟩ := hl
  refine ⟨k1 + k2 + 1, fun f hf => ?_⟩
  obtain ⟨f1, rfl⟩ : ∃ f1, f = f1 + 1 := ⟨f - 1, by omega⟩
  have hx1 := hx f1 (by omega)
  have hl1 := hl f1 (by omega)
  interval_cases L
  · simp only [parse_level, level_loop] at hx1 hl1 ⊢
    simp only [ExpressionParser.parse_logical_and, hx1, hl1]
  · simp only [parse_level, level_loop] at hx1 hl1 ⊢
    simp only [ExpressionParser.parse_equality, hx1, hl1]
  · simp only [parse_level, level_loop] at hx1 hl1 ⊢
    simp only [ExpressionParser.parse_comparison, hx1, hl1]
  · simp only [parse_level, level_loop] at hx1 hl1 ⊢
    simp only [ExpressionParser.parse_term, hx1, hl1]
  · simp only [parse_level, level_loop] at hx1 hl1 ⊢
    simp only [ExpressionParser.parse_factor, hx1, hl1]

/-- One turn of a loop of the ladder: on an operator of its level the loop reads the
right operand with the next tighter level, builds the node of the operator over the tree
so far and the operand, and goes on with that node. -/
theorem loop_step (o : LadderOp) (x y r : Expression) (p1 p2 p3 q : ExpressionParser)
    (h1 : p1.current_token = ⟨.Operator, o.text⟩) (ha : p1.advance = .ok p2)
    (hy : Reads (parse_level (o.level + 1)) p2 y p3)
    (hl : LoopReads (level_loop o.level) (.Binary o.op x y) p3 r q) :
    LoopReads (level_loop o.level) x p1 r q := by
  obtain ⟨k1, hy⟩ := hy
  obtain ⟨k2, hl⟩ := hl
  refine ⟨k1 + k2 + 1, fun f hf => ?_⟩
  obtain ⟨f1, rfl⟩ : ∃ f1, f = f1 + 1 := ⟨f - 1, by omega⟩
  have hy1 := hy f1 (by omega)
  have hl1 := hl f1 (by omega)
  have m := fun value hne => match_token_operator p1 o.text value h1 hne
  cases o <;>
    simp only [parse_level, level_loop, LadderOp.level, LadderOp.text, LadderOp.op]
      at hy1 hl1 h1 m ⊢
  · simp [ExpressionParser.factor_loop, m "*" rfl, h1, ha, hy1, hl1]
  · simp [ExpressionParser.factor_loop, m "*" rfl, m "/" rfl, h1, ha, hy1, hl1]
  · simp [ExpressionParser.factor_loop, m "*" rfl, m "/" rfl, m "%" rfl, h1, ha, hy1, hl1]
  · simp [ExpressionParser.term_loop, m "+" rfl, h1, ha, hy1, hl1]
  · simp [ExpressionParser.term_loop, m "+" rfl, m "-" rfl, h1, ha, hy1, hl1]
  · simp [ExpressionParser.comparison_loop, m "<" rfl, h1, ha, hy1, hl1]
  · simp [ExpressionParser.comparison_loop, m "<" rfl, m "<=" rfl, h1, ha, hy1, hl1]
  · simp [ExpressionParser.comparison_loop, m "<" rfl, m "<=" rfl, m ">" rfl, h1, ha, hy1, hl1]
  · simp [ExpressionParser.comparison_loop, m "<" rfl, m "<=" rfl, m ">" rfl, m ">=" rfl, h1,
      ha, hy1, hl1]
  · simp [ExpressionParser.equality_loop, m "==" rfl, m "!=" rfl, m "=" rfl, h1, ha, hy1, hl1]
  · simp [ExpressionParser.equality_loop, m "==" rfl, h1, ha, hy1, hl1]
  · simp [ExpressionParser.equality_loop, m "==" rfl, m "!=" rfl, h1, ha, hy1, hl1]
  · simp [ExpressionParser.logical_and_loop, m "&&" rfl, h1, ha, hy1, hl1]
/-- An operand of a level is an operand of the looser levels up to which the token behind
it is no operator. -/
theorem lift_levels (p q : ExpressionParser) (e : Expression) :
    ∀ (n j : Nat), 1 ≤ j → j + n ≤ 6 → Reads (parse_level (j + n)) p e q →
      (∀ o : LadderOp, j ≤ o.level → o.level < j + n → q.current_token ≠ ⟨.Operator, o.text⟩) →
      Reads (parse_level j) p e q := by
  intro n
  induction n with
  | zero => intro j _ _ h _; exact h
  | succ n ih =>
    intro j h1 h6 h hno
    have hstep : Reads (parse_level (j + n)) p e q :=
      parse_level_of_loop (j + n) (by omega) (by omega) p q q e e h
        (loop_exit (j + n) (by omega) (by omega) e q
          (fun o ho => hno o (by omega) (by omega)))
    exact ih j h1 (by omega) hstep (fun o ho1 ho2 => hno o ho1 (by omega))

/-- An operand of the level of `&&` in front of a token that is no operator is what
`parse_logical_or` reads. -/
theorem lift_top (p q : ExpressionParser) (e : Expression)
    (h : Reads (parse_level 1) p e q) (hq : q.current_token.type ≠ .Operator) :
    Reads ExpressionParser.parse_logical_or p e q := by
  obtain ⟨k, h⟩ := h
  refine ⟨k + 4, fun f hf => ?_⟩
  obtain ⟨f1, rfl⟩ : ∃ f1, f = f1 + 4 := ⟨f - 4, by omega⟩
  have m := fun value => match_token_operator_false q value hq
  have h1 : ExpressionParser.parse_logical_and (f1 + 2) p = .ok (e, q) := h (f1 + 2) (by omega)
  have h2 : ExpressionParser.parse_logical_xor (f1 + 3) p = .ok (e, q) := by
    simp [ExpressionParser.parse_logical_xor, h1, ExpressionParser.logical_xor_loop, m]
  simp [ExpressionParser.parse_logical_or, h2, ExpressionParser.logical_or_loop, m]

/-- A token that is no operator is no ladder operator. -/
theorem not_ladder_operator (q : ExpressionParser) (hq : q.current_token.type ≠ .Operator)
    (o : LadderOp) : q.current_token ≠ ⟨.Operator, o.text⟩ := by
  intro h
  rw [h] at hq
  exact hq rfl

/-- The operator token of one level is no operator of another level. -/
theorem other_level_operator (q : ExpressionParser) (o2 : LadderOp)
    (h : q.current_token = ⟨.Operator, o2.text⟩) (o : LadderOp) (hne : o.level ≠ o2.level) :
    q.current_token ≠ ⟨.Operator, o.text⟩ := by
  intro h2
  rw [h] at h2
  injection h2 with _ ht
  exact hne (ladder_text_level o o2 ht.symm)

theorem ladder_level_bounds (o : LadderOp) : 1 ≤ o.level ∧ o.level ≤ 5 := by
  cases o <;> decide

/-- The ladder on two operators: the tree of `x o1 y o2 z` for operands read by
`parse_unary`. -/
theorem ladder_two_operators (o1 o2 : LadderOp) (x y z : Expression)
    (p0 p1 p2 p3 p4 p5 : ExpressionParser)
    (hx : Reads ExpressionParser.parse_unary p0 x p1)
    (h1 : p1.current_token = ⟨.Operator, o1.text⟩) (ha1 : p1.advance = .ok p2)
    (hy : Reads ExpressionParser.parse_unary p2 y p3)
    (h2 : p3.current_token = ⟨.Operator, o2.text⟩) (ha2 : p3.advance = .ok p4)
    (hz : Reads ExpressionParser.parse_unary p4 z p5)
    (h5 : p5.current_token.type ≠ .Operator) :
    Reads ExpressionParser.parse_logical_or p0 (ladder_tree o1 o2 x y z) p5 := by
  obtain ⟨b1, c1⟩ := ladder_level_bounds o1
  obtain ⟨b2, c2⟩ := ladder_level_bounds o2
  have hx6 : Reads (parse_level (o1.level + 1 + (5 - o1.level))) p0 x p1 := by
    have e : o1.level + 1 + (5 - o1.level) = 6 := by omega
    rw [e]; exact hx
  have hx1 : Reads (parse_level (o1.level + 1)) p0 x p1 :=
    lift_levels p0 p1 x (5 - o1.level) (o1.level + 1) (by omega) (by omega) hx6
      (fun o ho _ => other_level_operator p1 o1 h1 o (by omega))
  have no5 := not_ladder_operator p5 h5
  apply lift_top _ _ _ _ h5
  unfold ladder_tree
  by_cases hlt : o1.level < o2.level
  · rw [if_pos hlt]
    -- the right operand of o1 is `y o2 z`
    have hy6 : Reads (parse_level (o2.level + 1 + (5 - o2.level))) p2 y p3 := by
      have e : o2.level + 1 + (5 - o2.level) = 6 := by omega
      rw [e]; exact hy
    have hy2 : Reads (parse_level (o2.level + 1)) p2 y p3 :=
      lift_levels p2 p3 y (5 - o2.level) (o2.level + 1) (by omega) (by omega) hy6
        (fun o ho _ => other_level_operator p3 o2 h2 o (by omega))
    have hz6 : Reads (parse_level (o2.level + 1 + (5 - o2.level))) p4 z p5 := by
      have e : o2.level + 1 + (5 - o2.level) = 6 := by omega
      rw [e]; exact hz
    have hz2 : Reads (parse_level (o2.level + 1)) p4 z p5 :=
      lift_levels p4 p5 z (5 - o2.level) (o2.level + 1) (by omega) (by omega) hz6
        (fun o _ _ => no5 o)
    have hyz : Reads (parse_level o2.level) p2 (.Binary o2.op y z) p5 :=
      parse_level_of_loop o2.level b2 c2 p2 p3 p5 y _ hy2
        (loop_step o2 y z _ p3 p4 p5 p5 h2 ha2 hz2
          (loop_exit o2.level b2 c2 _ p5 (fun o _ => no5 o)))
    have hyz1 : Reads (parse_level (o1.level + 1)) p2 (.Binary o2.op y z) p5 := by
      have e : o2.level = o1.level + 1 + (o2.level - (o1.level + 1)) := by omega
      rw [e] at hyz
      exact lift_levels p2 p5 _ (o2.level - (o1.level + 1)) (o1.level + 1) (by omega) (by omega)
        hyz (fun o _ _ => no5 o)
    have hall : Reads (parse_level o1.level) p0 (.Binary o1.op x (.Binary o2.op y z)) p5 :=
      parse_level_of_loop o1.level b1 c1 p0 p1 p5 x _ hx1
        (loop_step o1 x _ _ p1 p2 p5 p5 h1 ha1 hyz1
          (loop_exit o1.level b1 c1 _ p5 (fun o _ => no5 o)))
    have e : o1.level = 1 + (o1.level - 1) := by omega
    rw [e] at hall
    exact lift_levels p0 p5 _ (o1.level - 1) 1 (by omega) (by omega) hall (fun o _ _ => no5 o)
  · rw [if_neg hlt]
    have hy6 : Reads (parse_level (o1.level + 1 + (5 - o1.level))) p2 y p3 := by
      have e : o1.level + 1 + (5 - o1.level) = 6 := by omega
      rw [e]; exact hy
    have hy1 : Reads (parse_level (o1.level + 1)) p2 y p3 :=
      lift_levels p2 p3 y (5 - o1.level) (o1.level + 1) (by omega) (by omega) hy6
        (fun o ho _ => other_level_operator p3 o2 h2 o (by omega))
    have hz6 : Reads (parse_level (o2.level + 1 + (5 - o2.level))) p4 z p5 := by
      have e : o2.level + 1 + (5 - o2.level) = 6 := by omega
      rw [e]; exact hz
    have hz2 : Reads (parse_level (o2.level + 1)) p4 z p5 :=
      lift_levels p4 p5 z (5 - o2.level) (o2.level + 1) (by omega) (by omega) hz6
        (fun o _ _ => no5 o)
    by_cases heq : o2.level = o1.level
    · -- one loop reads both operators
      have hloop2 : LoopReads (level_loop o1.level) (.Binary o1.op x y) p3
          (.Binary o2.op (.Binary o1.op x y) z) p5 := by
        rw [← heq]
        exact loop_step o2 _ z _ p3 p4 p5 p5 h2 ha2 hz2
          (loop_exit o2.level b2 c2 _ p5 (fun o _ => no5 o))
      have hall : Reads (parse_level o1.level) p0 (.Binary o2.op (.Binary o1.op x y) z) p5 :=
        parse_level_of_loop o1.level b1 c1 p0 p1 p5 x _ hx1
          (loop_step o1 x y _ p1 p2 p3 p5 h1 ha1 hy1 hloop2)
      have e : o1.level = 1 + (o1.level - 1) := by omega
      rw [e] at hall
      exact lift_levels p0 p5 _ (o1.level - 1) 1 (by omega) (by omega) hall (fun o _ _ => no5 o)
    · -- the loop of o1 ends before o2, which a looser level reads
      have hxy : Reads (parse_level o1.level) p0 (.Binary o1.op x y) p3 :=
        parse_level_of_loop o1.level b1 c1 p0 p1 p3 x _ hx1
          (loop_step o1 x y _ p1 p2 p3 p3 h1 ha1 hy1
            (loop_exit o1.level b1 c1 _ p3
              (fun o ho => other_level_operator p3 o2 h2 o (by omega))))
      have hxy2 : Reads (parse_level (o2.level + 1)) p0 (.Binary o1.op x y) p3 := by
        have e : o1.level = o2.level + 1 + (o1.level - (o2.level + 1)) := by omega
        rw [e] at hxy
        exact lift_levels p0 p3 _ (o1.level - (o2.level + 1)) (o2.level + 1) (by omega)
          (by omega) hxy (fun o ho _ => other_level_operator p3 o2 h2 o (by omega))
      have hall : Reads (parse_level o2.level) p0 (.Binary o2.op (.Binary o1.op x y) z) p5 :=
        parse_level_of_loop o2.level b2 c2 p0 p3 p5 _ _ hxy2
          (loop_step o2 _ z _ p3 p4 p5 p5 h2 ha2 hz2
            (loop_exit o2.level b2 c2 _ p5 (fun o _ => no5 o)))
      have e : o2.level = 1 + (o2.level - 1) := by omega
      rw [e] at hall
      exact lift_levels p0 p5 _ (o2.level - 1) 1 (by omega) (by omega) hall (fun o _ _ => no5 o)
/-- An identifier is an operand: `parse_unary` reads the variable of that name. -/
theorem reads_identifier (p p1 : ExpressionParser) (name : String)
    (h : p.current_token = ⟨.Identifier, name⟩) (hadv : p.advance = .ok p1) :
    Reads ExpressionParser.parse_unary p (.Variable name) p1 := by
  refine ⟨2, fun f hf => ?_⟩
  obtain ⟨f1, rfl⟩ : ∃ f1, f = f1 + 2 := ⟨f - 2, by omega⟩
  exact parse_unary_identifier f1 p p1 name h hadv

/-- A parenthesised expression is an operand: `parse_unary` reads what `parse_expression`
reads between the parentheses. -/
theorem reads_parenthesised (p pa prp q : ExpressionParser) (e : Expression)
    (h : p.current_token.type = .LeftParen) (hadv : p.advance = .ok pa)
    (hin : Reads ExpressionParser.parse_expression pa e prp)
    (hrp : prp.current_token.type = .RightParen) (hadv2 : prp.advance = .ok q) :
    Reads ExpressionParser.parse_unary p e q := by
  obtain ⟨k, hin⟩ := hin
  refine ⟨k + 2, fun f hf => ?_⟩
  obtain ⟨f1, rfl⟩ : ∃ f1, f = f1 + 2 := ⟨f - 2, by omega⟩
  have hop : p.current_token.type ≠ .Operator := by rw [h]; decide
  have hex := hin f1 (by omega)
  rw [ExpressionParser.parse_unary, match_token_operator_false _ _ hop]
  simp [ExpressionParser.parse_primary, match_token_type, h, hadv, hex,
    ExpressionParser.consume, hrp, hadv2]

/-- What `parse_logical_or` reads up to the end of the input or a closing parenthesis is
what `parse_expression` reads. -/
theorem reads_expression (p q : ExpressionParser) (e : Expression)
    (h : Reads ExpressionParser.parse_logical_or p e q)
    (hq : q.current_token.type = .EndOfInput ∨ q.current_token.type = .RightParen) :
    Reads ExpressionParser.parse_expression p e q := by
  obtain ⟨k, h⟩ := h
  refine ⟨k + 1, fun f hf => ?_⟩
  obtain ⟨f1, rfl⟩ : ∃ f1, f = f1 + 1 := ⟨f - 1, by omega⟩
  have h1 := h f1 (by omega)
  simp only [ExpressionParser.parse_expression, h1]
  rcases hq with hq | hq <;> simp [hq]

/-- Claim C24. For all operands `x`, `y`, `z` that `parse_unary` reads (identifiers,
literals, negations, lengths, parenthesised expressions) and every two operators `o1`,
`o2` of the five levels `* / %`, `+ -`, `< <= > >=`, `= == !=`, `&&`, the parser reads
`x o1 y o2 z` as `o1(x, o2(y, z))` when `o2` is of a tighter level than `o1` and as
`o2(o1(x, y), z)` otherwise, so operators of one level associate to the left; a
parenthesised expression is an operand, read as a unit; and on the texts, with the fuel
of `parse_expression_of`: `a o1 b o2 c`, `a o1 (b o2 c)` and `(a o1 b) o2 c` parse to
these trees, `a + b * 2 + 1` to Add(Add(a, Mul(b, 2)), 1) and `(a + b) * 2 + 1` to
Add(Mul(Add(a, b), 2), 1). -/
theorem precedence_ladder (o1 o2 : LadderOp) (x y z : Expression)
    (p0 p1 p2 p3 p4 p5 : ExpressionParser)
    (hx : Reads ExpressionParser.parse_unary p0 x p1)
    (h1 : p1.current_token = ⟨.Operator, o1.text⟩) (ha1 : p1.advance = .ok p2)
    (hy : Reads ExpressionParser.parse_unary p2 y p3)
    (h2 : p3.current_token = ⟨.Operator, o2.text⟩) (ha2 : p3.advance = .ok p4)
    (hz : Reads ExpressionParser.parse_unary p4 z p5)
    (h5 : p5.current_token.type = .EndOfInput ∨ p5.current_token.type = .RightParen) :
    Reads ExpressionParser.parse_expression p0
      (if o1.level < o2.level then .Binary o1.op x (.Binary o2.op y z)
        else .Binary o2.op (.Binary o1.op x y) z) p5 ∧
    (∀ (p pa prp q : ExpressionParser) (e : Expression),
      p.current_token.type = .LeftParen → p.advance = .ok pa →
      Reads ExpressionParser.parse_expression pa e prp →
      prp.current_token.type = .RightParen → prp.advance = .ok q →
      Reads ExpressionParser.parse_unary p e q) ∧
    parse_expression_of ("a " ++ o1.text ++ " b " ++ o2.text ++ " c") =
      .ok (if o1.level < o2.level
        then .Binary o1.op (.Variable "a") (.Binary o2.op (.Variable "b") (.Variable "c"))
        else .Binary o2.op (.Binary o1.op (.Variable "a") (.Variable "b")) (.Variable "c")) ∧
    parse_expression_of ("a " ++ o1.text ++ " (b " ++ o2.text ++ " c)") =
      .ok (.Binary o1.op (.Variable "a") (.Binary o2.op (.Variable "b") (.Variable "c"))) ∧
    parse_expression_of ("(a " ++ o1.text ++ " b) " ++ o2.text ++ " c") =
      .ok (.Binary o2.op (.Binary o1.op (.Variable "a") (.Variable "b")) (.Variable "c")) ∧
    parse_expression_of "a + b * 2 + 1" =
      .ok (.Binary .Add
        (.Binary .Add (.Variable "a")
          (.Binary .Multiply (.Variable "b") (.Literal (.int32 2))))
        (.Literal (.int32 1))) ∧
    parse_expression_of "(a + b) * 2 + 1" =
      .ok (.Binary .Add
        (.Binary .Multiply (.Binary .Add (.Variable "a") (.Variable "b"))
          (.Literal (.int32 2)))
        (.Literal (.int32 1))) := by
  have hop : p5.current_token.type ≠ .Operator := by
    rcases h5 with h | h <;> rw [h] <;> decide
  exact ⟨reads_expression _ _ _
      (ladder_two_operators o1 o2 x y z p0 p1 p2 p3 p4 p5 hx h1 ha1 hy h2 ha2 hz hop) h5,
    reads_parenthesised, ladder_texts o1 o2⟩

/-- Claim C24 on the states that the text `a + b * c` runs through: the tree is
Add(a, Mul(b, c)). -/
theorem precedence_ladder_witness :
    Reads ExpressionParser.parse_expression ⟨" + b * c".data, ⟨.Identifier, "a"⟩⟩
      (.Binary .Add (.Variable "a") (.Binary .Multiply (.Variable "b") (.Variable "c")))
      ⟨[], ⟨.EndOfInput, ""⟩⟩ :=
  (precedence_ladder .add .mul (.Variable "a") (.Variable "b") (.Variable "c")
    ⟨" + b * c".data, ⟨.Identifier, "a"⟩⟩ ⟨" b * c".data, ⟨.Operator, "+"⟩⟩
    ⟨" * c".data, ⟨.Identifier, "b"⟩⟩ ⟨" c".data, ⟨.Operator, "*"⟩⟩
    ⟨[], ⟨.Identifier, "c"⟩⟩ ⟨[], ⟨.EndOfInput, ""⟩⟩
    (reads_identifier _ _ _ rfl (by decide)) rfl (by decide)
    (reads_identifier _ _ _ rfl (by decide)) rfl (by decide)
    (reads_identifier _ _ _ rfl (by decide)) (Or.inl rfl)).1

/-! ## Claims on the static type of an expression -/

/-- A comparison yields a Bool or fails. -/
theorem compare_op_bool (msg : String) (test : Int → Bool) (l r v : Value)
    (h : compare_op msg test l r = .ok v) : v.get_type = Ty.Bool := by
  unfold compare_op at h
  split at h
  · cases h
  · split at h
    · cases h
    · cases h
      rfl

/-- A logical operator yields a Bool or fails. -/
theorem logical_op_bool (msg : String) (f : Bool → Bool → Bool) (l r v : Value)
    (h : logical_op msg f l r = .ok v) : v.get_type = Ty.Bool := by
  unfold logical_op at h
  split at h
  · cases h
    rfl
  · cases h

/-- The type of the value of a binary operator: the static type of the node, or a String
from `+`. -/
theorem binary_apply_type (op : BinaryOperator) (left right : Expression) (l r v : Value)
    (h : binary_apply op l r = .ok v) :
    v.get_type = (Expression.Binary op left right).get_type ∨
      (op = .Add ∧ ∃ s, v = .string s) := by
  cases op
  case Add =>
    cases l <;> cases r <;> simp [binary_apply] at h
    · left; subst h; rfl
    · right; exact ⟨rfl, _, h.symm⟩
  case Subtract =>
    left
    cases l <;> cases r <;> simp [binary_apply] at h
    subst h; rfl
  case Multiply =>
    left
    cases l <;> cases r <;> simp [binary_apply] at h
    subst h; rfl
  case Divide =>
    left
    cases l <;> cases r <;> try (simp [binary_apply] at h; done)
    rename_i a b
    by_cases hb : b = 0
    · simp [binary_apply, hb] at h
    · simp only [binary_apply, hb, if_false, Except.ok.injEq] at h
      subst h; rfl
  case Modulo =>
    left
    cases l <;> cases r <;> try (simp [binary_apply] at h; done)
    rename_i a b
    by_cases hb : b = 0
    · simp [binary_apply, hb] at h
    · simp only [binary_apply, hb, if_false, Except.ok.injEq] at h
      subst h; rfl
  case Less => exact Or.inl (compare_op_bool _ _ _ _ _ h)
  case LessEqual => exact Or.inl (compare_op_bool _ _ _ _ _ h)
  case Greater => exact Or.inl (compare_op_bool _ _ _ _ _ h)
  case GreaterEqual => exact Or.inl (compare_op_bool _ _ _ _ _ h)
  case Equal => exact Or.inl (compare_op_bool _ _ _ _ _ h)
  case NotEqual => exact Or.inl (compare_op_bool _ _ _ _ _ h)
  case And => exact Or.inl (logical_op_bool _ _ _ _ _ h)
  case Or => exact Or.inl (logical_op_bool _ _ _ _ _ h)
  case Xor => exact Or.inl (logical_op_bool _ _ _ _ _ h)

/-- Claim C36 on the code: whenever an expression evaluates to a value and its static
type is not Unknown, the type of the value is the static type, unless the expression is a
sum that yields a String: `BinaryExpression::get_type` reports Int32 for every `+`, while
`evaluate` concatenates two Strings. So `"a" + "b"` has the static type Int32 and the
String value `ab`, and `select name + name as twice from users` reports a column of type
int32 whose values are the Strings `adaada` and `bobbob`. -/
theorem static_type_of_string_sum_is_int32 (e : Expression) (row : Binding) :
    (∀ v, e.evaluate row = .ok v → e.get_type ≠ Ty.Unknown →
      v.get_type = e.get_type ∨ ∃ l r s, e = .Binary .Add l r ∧ v = .string s) ∧
    (Expression.Binary .Add (.Literal (.string "a")) (.Literal (.string "b"))).get_type =
      Ty.Int32 ∧
    (Expression.Binary .Add (.Literal (.string "a")) (.Literal (.string "b"))).evaluate row =
      .ok (.string "ab") ∧
    execute_select select_twice s4_db =
      QueryResult.of_data_columns [[some (.string "adaada")], [some (.string "bobbob")]]
        [⟨"twice", ⟨Ty.Int32, 0⟩⟩] := by
  refine ⟨?_, rfl, rfl, by decide⟩
  intro v hv hty
  cases e with
  | Literal value =>
    simp only [Expression.evaluate, Except.ok.injEq] at hv
    subst hv
    exact Or.inl rfl
  | Variable name => exact absurd rfl hty
  | Unary op operand =>
    simp only [Expression.evaluate] at hv
    cases ho : operand.evaluate row with
    | error err => rw [ho] at hv; cases hv
    | ok val =>
      rw [ho] at hv
      left
      cases op <;> cases val <;> simp [unary_apply] at hv <;> subst hv <;> rfl
  | Binary op left right =>
    simp only [Expression.evaluate] at hv
    cases hl : left.evaluate row with
    | error err => rw [hl] at hv; cases hv
    | ok lv =>
      cases hr : right.evaluate row with
      | error err => rw [hl, hr] at hv; cases hv
      | ok rv =>
        rw [hl, hr] at hv
        rcases binary_apply_type op left right lv rv v hv with h | ⟨hop, s, hs⟩
        · exact Or.inl h
        · subst hop
          exact Or.inr ⟨left, right, s, rfl, hs⟩

/-- Claim C36 at `1 + 2`: the value 3 has the static type Int32 of the sum. -/
theorem static_type_of_string_sum_is_int32_witness :
    (Value.int32 3).get_type =
        (Expression.Binary .Add (.Literal (.int32 1)) (.Literal (.int32 2))).get_type ∨
      ∃ l r s, Expression.Binary .Add (.Literal (.int32 1)) (.Literal (.int32 2)) =
        .Binary .Add l r ∧ Value.int32 3 = .string s :=
  (static_type_of_string_sum_is_int32
    (.Binary .Add (.Literal (.int32 1)) (.Literal (.int32 2))) []).1 (.int32 3) rfl (by decide)
/-! ## Claims on the strictness of binary evaluation -/

/-- Claim C37: `BinaryExpression::evaluate` evaluates the left operand and then the right
operand before it looks at the operator. For every operator, operands and binding: when
the left operand fails, `l op r` fails with the exception of the left operand; when the
left operand yields a value and the right operand fails, `l op r` fails with the exception
of the right operand. In particular `l && r` with `l` false and `l || r` with `l` true
fail when `r` fails. -/
theorem binary_evaluation_is_strict (op : BinaryOperator) (l r : Expression) (row : Binding) :
    (∀ e, l.evaluate row = .error e → (Expression.Binary op l r).evaluate row = .error e) ∧
    (∀ v e, l.evaluate row = .ok v → r.evaluate row = .error e →
      (Expression.Binary op l r).evaluate row = .error e) ∧
    (∀ e, l.evaluate row = .ok (.bool false) → r.evaluate row = .error e →
      (Expression.Binary .And l r).evaluate row = .error e) ∧
    (∀ e, l.evaluate row = .ok (.bool true) → r.evaluate row = .error e →
      (Expression.Binary .Or l r).evaluate row = .error e) := by
  refine ⟨?_, ?_, ?_, ?_⟩
  · intro e hl
    simp only [Expression.evaluate, hl]
  · intro v e hl hr
    simp only [Expression.evaluate, hl, hr]
  · intro e hl hr
    simp only [Expression.evaluate, hl, hr]
  · intro e hl hr
    simp only [Expression.evaluate, hl, hr]

/-- Claim C37 at `false && (1 / 0 = 1)` and `true || (1 / 0 = 1)`: both fail with
`Division by zero.`. -/
theorem binary_evaluation_is_strict_witness :
    (Expression.Binary .And (.Literal (.bool false))
      (.Binary .Equal (.Binary .Divide (.Literal (.int32 1)) (.Literal (.int32 0)))
        (.Literal (.int32 1)))).evaluate [] =
      .error ⟨.TypeMismatchException, "Division by zero."⟩ ∧
    (Expression.Binary .Or (.Literal (.bool true))
      (.Binary .Equal (.Binary .Divide (.Literal (.int32 1)) (.Literal (.int32 0)))
        (.Literal (.int32 1)))).evaluate [] =
      .error ⟨.TypeMismatchException, "Division by zero."⟩ :=
  ⟨(binary_evaluation_is_strict .And (.Literal (.bool false))
      (.Binary .Equal (.Binary .Divide (.Literal (.int32 1)) (.Literal (.int32 0)))
        (.Literal (.int32 1))) []).2.2.1 _ rfl rfl,
    (binary_evaluation_is_strict .Or (.Literal (.bool true))
      (.Binary .Equal (.Binary .Divide (.Literal (.int32 1)) (.Literal (.int32 0)))
        (.Literal (.int32 1))) []).2.2.2 _ rfl rfl⟩

/-! ## Claims on the split of an update statement at `where` -/

/-- Claim C40 on the code: the update branch splits the text behind `set` at the first
occurrence of the letters `where`, wherever they stand. `update t set note = "some"`
parses to the plan with that assignment and no condition; in
`update t set note = "somewhere"` the assignment is cut to `note = "some` and the parse
fails with `Unterminated string literal.`; in `update t set nowhere = 1` the assignment is
cut to `no` and the parse fails with `Invalid assignment in UPDATE: no`. -/
theorem update_splits_inside_literal
    (other_branches : String → String → List Char → Except Exception ParsedQuery) :
    QueryParser.parse other_branches "update t set note = \"some\"" = .ok update_note_plan ∧
    QueryParser.parse other_branches "update t set note = \"somewhere\"" =
      .error ⟨.TypeMismatchException, "Unterminated string literal."⟩ ∧
    QueryParser.parse other_branches "update t set nowhere = 1" =
      .error ⟨.invalid_argument, "Invalid assignment in UPDATE: no"⟩ := by
  refine ⟨by rfl, by rfl, by rfl⟩

/-! ## Claims on the delete statement -/

theorem dropWhile_head_false {α : Type} (p : α → Bool) (l : List α) (a : α)
    (h : l.head? = some a) (ha : p a = false) : l.dropWhile p = l := by
  cases l with
  | nil => rfl
  | cons x xs =>
    simp only [List.head?_cons, Option.some.injEq] at h
    subst h
    simp [List.dropWhile_cons, ha]

/-- Trimming leaves a text that starts and ends with a character outside the trimmed
class as it is. -/
theorem trim_outer {α : Type} (p : α → Bool) (l : List α) (a b : α)
    (hh : l.head? = some a) (hl : l.getLast? = some b) (ha : p a = false) (hb : p b = false) :
    ((l.dropWhile p).reverse.dropWhile p).reverse = l := by
  rw [dropWhile_head_false p l a hh ha,
    dropWhile_head_false p l.reverse b (by rw [List.head?_reverse]; exact hl) hb,
    List.reverse_reverse]

/-- A character of a plain name is no white space, no delimiter, no `;` and no newline. -/
theorem is_word_not_other {c : Char} (h : QueryParser.is_word c = true) :
    isspace c = false ∧ is_delimiter c = false ∧ c ≠ ';' := by
  have hb : (97 ≤ c.toNat ∧ c.toNat ≤ 122) ∨ (65 ≤ c.toNat ∧ c.toNat ≤ 90) ∨
      (48 ≤ c.toNat ∧ c.toNat ≤ 57) ∨ c = '_' := by
    simp only [QueryParser.is_word, isalnum, isalpha, isdigit, Bool.or_eq_true,
      Bool.and_eq_true, decide_eq_true_eq] at h
    rcases h with ((h | h) | h) | h
    · exact Or.inl h
    · exact Or.inr (Or.inl h)
    · exact Or.inr (Or.inr (Or.inl h))
    · exact Or.inr (Or.inr (Or.inr h))
  refine ⟨?_, ?_, ?_⟩
  · simp only [isspace, Bool.or_eq_false_iff, decide_eq_false_iff_not]
    refine ⟨⟨⟨⟨⟨?_, ?_⟩, ?_⟩, ?_⟩, ?_⟩, ?_⟩ <;>
      (intro hc; rw [hc] at hb; revert hb; decide)
  · simp only [is_delimiter, Bool.or_eq_false_iff, decide_eq_false_iff_not]
    refine ⟨⟨⟨?_, ?_⟩, ?_⟩, ?_⟩ <;>
      (intro hc; rw [hc] at hb; revert hb; decide)
  · intro hc; rw [hc] at hb; revert hb; decide

/-- A text without delimiters does not change the stack of `validate_chars`. -/
theorem validate_chars_plain (a : List Char) (ha : ∀ c ∈ a, is_delimiter c = false)
    (rest s : List Char) :
    QueryParser.validate_chars (a ++ rest) s = QueryParser.validate_chars rest s := by
  have hw : WellNested a := by
    induction a with
    | nil => exact WellNested.empty
    | cons c cs ih =>
      exact WellNested.other c cs (ha c (List.mem_cons_self _ _))
        (ih (fun x hx => ha x (List.mem_cons_of_mem _ hx)))
  exact validate_chars_well_nested a hw rest s

/-- The extraction `iss >> word` on a blank, a word and a text that does not continue
the word. -/
theorem read_word_plain (word rest : List Char) (hne : word ≠ [])
    (hword : ∀ c ∈ word, isspace c = false) (hrest : ∀ c ∈ rest.head?, isspace c = true) :
    QueryParser.read_word (' ' :: (word ++ rest)) = (⟨word⟩, rest) := by
  obtain ⟨c, tail, hct⟩ := List.exists_cons_of_ne_nil hne
  have hc : isspace c = false := hword c (by rw [hct]; exact List.mem_cons_self _ _)
  have hs : Lexer.skip_whitespace (' ' :: (word ++ rest)) = word ++ rest := by
    have hsp : isspace ' ' = true := by decide
    rw [hct]
    simp [Lexer.skip_whitespace, hsp, hc]
  obtain ⟨h1, h2⟩ := takeWhile_dropWhile_run (fun c => !isspace c) word rest
    (fun x hx => by simp [hword x hx]) (fun x hx => by simp [hrest x hx])
  unfold QueryParser.read_word
  simp only [hs, h1, h2]

/-- At the end of the stream the extraction yields the empty word. -/
theorem read_word_nil : QueryParser.read_word [] = ("", []) := rfl
/-- The frame of `QueryParser::parse` on a statement that starts with `delete` and a
blank: the text behind the command word goes to the delete branch. -/
theorem parse_delete_frame
    (other_branches : String → String → List Char → Except Exception ParsedQuery)
    (stream : List Char) (b : Char) (hv : QueryParser.validate_chars stream [] = true)
    (hlast : stream.getLast? = some b) (hb : isspace b = false) (hsemi : b ≠ ';') :
    QueryParser.parse other_branches ⟨"delete ".data ++ stream⟩ =
      QueryParser.parse_delete (' ' :: stream) := by
  have hne : stream ≠ [] := by intro e; rw [e] at hlast; cases hlast
  have hvq : QueryParser.validate_query ⟨"delete ".data ++ stream⟩ = true := by
    unfold QueryParser.validate_query
    rw [validate_chars_plain "delete ".data (by decide)]
    exact hv
  have hl : ("delete ".data ++ stream).getLast? = some b := by
    rw [List.getLast?_append_of_ne_nil _ hne]; exact hlast
  have htrim : QueryParser.trim ⟨"delete ".data ++ stream⟩ = ⟨"delete ".data ++ stream⟩ := by
    unfold QueryParser.trim
    rw [trim_outer isspace ("delete ".data ++ stream) 'd' b rfl hl (by decide) hb]
  have hword : QueryParser.read_word ("delete ".data ++ stream) = ("delete", ' ' :: stream) := by
    have hs : Lexer.skip_whitespace ("delete ".data ++ stream) = "delete ".data ++ stream := by
      have hd : isspace 'd' = false := by decide
      show Lexer.skip_whitespace ('d' :: _) = _
      simp [Lexer.skip_whitespace, hd]
    obtain ⟨h1, h2⟩ := takeWhile_dropWhile_run (fun c => !isspace c) "delete".data
      (' ' :: stream) (by decide) (by
        intro c hc
        simp only [List.head?_cons, Option.mem_def, Option.some.injEq] at hc
        rw [← hc]; decide)
    unfold QueryParser.read_word
    have e : "delete ".data ++ stream = "delete".data ++ ' ' :: stream := by
      show _ = 'd' :: 'e' :: 'l' :: 'e' :: 't' :: 'e' :: ' ' :: stream
      rfl
    rw [hs, e]
    simp only [h1, h2]
  unfold QueryParser.parse
  rw [hvq, htrim]
  simp only [Bool.not_true, Bool.false_eq_true, if_false, hl, Option.some.injEq, hsemi,
    and_false, hword]
  rfl

/-- The delete branch on a blank and a table name with nothing behind it. -/
theorem parse_delete_name_only (name : List Char) (hname : is_plain_name name = true) :
    QueryParser.parse_delete (' ' :: name) =
      .error ⟨.invalid_argument, "Expected 'where' in DELETE."⟩ := by
  simp only [is_plain_name, Bool.and_eq_true, Bool.not_eq_true', List.isEmpty_eq_false,
    List.all_eq_true] at hname
  obtain ⟨hne, hall⟩ := hname
  have hne2 : name ≠ [] := by intro e; rw [e] at hne; simp at hne
  have h1 := read_word_plain name [] hne2 (fun c hc => (is_word_not_other (hall c hc)).1)
    (by simp)
  rw [List.append_nil] at h1
  unfold QueryParser.parse_delete
  simp only [h1, read_word_nil]
  rfl

/-- The delete branch on `from`, a table name and `where`: the name stands where the
word `where` is expected. -/
theorem parse_delete_from (name rest : List Char) (hname : is_plain_name name = true)
    (hw : to_lower ⟨name⟩ ≠ "where") :
    QueryParser.parse_delete (" from ".data ++ name ++ ' ' :: rest) =
      .error ⟨.invalid_argument, "Expected 'where' in DELETE."⟩ := by
  simp only [is_plain_name, Bool.and_eq_true, Bool.not_eq_true', List.isEmpty_eq_false,
    List.all_eq_true] at hname
  obtain ⟨hne, hall⟩ := hname
  have hne2 : name ≠ [] := by intro e; rw [e] at hne; simp at hne
  have hsp : ∀ (t : List Char), ∀ c ∈ (' ' :: t).head?, isspace c = true := by
    intro t c hc
    simp only [List.head?_cons, Option.mem_def, Option.some.injEq] at hc
    rw [← hc]; decide
  have h1 := read_word_plain "from".data (' ' :: (name ++ ' ' :: rest)) (by decide) (by decide)
    (hsp _)
  have h2 := read_word_plain name (' ' :: rest) hne2
    (fun c hc => (is_word_not_other (hall c hc)).1) (hsp _)
  have e : " from ".data ++ name ++ ' ' :: rest =
      ' ' :: ("from".data ++ ' ' :: (name ++ ' ' :: rest)) := by
    show (' ' :: 'f' :: 'r' :: 'o' :: 'm' :: ' ' :: []) ++ name ++ _ = _
    simp
  unfold QueryParser.parse_delete
  rw [e]
  simp only [h1, h2]
  rw [if_pos hw]

/-- The delete branch on a table name, `where` and a condition text. -/
theorem parse_delete_where (name cond : List Char) (hname : is_plain_name name = true)
    (hcond : is_condition_text cond = true) :
    QueryParser.parse_delete (' ' :: (name ++ " where ".data ++ cond)) =
      match parse_expression_of ⟨cond⟩ with
      | .error e => .error e
      | .ok condition => .ok (delete_plan ⟨name⟩ condition) := by
  simp only [is_plain_name, Bool.and_eq_true, Bool.not_eq_true', List.isEmpty_eq_false,
    List.all_eq_true] at hname
  obtain ⟨hne, hall⟩ := hname
  have hne2 : name ≠ [] := by intro e; rw [e] at hne; simp at hne
  unfold is_condition_text at hcond
  split at hcond
  · rename_i a b hh hl
    simp only [Bool.and_eq_true, Bool.not_eq_true', bne_iff_ne, ne_eq, decide_eq_true_eq,
      List.all_eq_true, decide_not] at hcond
    obtain ⟨⟨⟨⟨ha, hb⟩, _⟩, hnl⟩, _⟩ := hcond
    have hsp : ∀ (t : List Char), ∀ c ∈ (' ' :: t).head?, isspace c = true := by
      intro t c hc
      simp only [List.head?_cons, Option.mem_def, Option.some.injEq] at hc
      rw [← hc]; decide
    have h1 := read_word_plain name (' ' :: ("where".data ++ ' ' :: cond)) hne2
      (fun c hc => (is_word_not_other (hall c hc)).1) (hsp _)
    have h2 := read_word_plain "where".data (' ' :: cond) (by decide) (by decide) (hsp _)
    have e : ' ' :: (name ++ " where ".data ++ cond) =
        ' ' :: (name ++ ' ' :: ("where".data ++ ' ' :: cond)) := by
      show ' ' :: (name ++ (' ' :: 'w' :: 'h' :: 'e' :: 'r' :: 'e' :: ' ' :: []) ++ cond) = _
      simp
    have hline : QueryParser.getline (' ' :: cond) = (⟨' ' :: cond⟩, []) := by
      unfold QueryParser.getline
      have hall2 : ∀ c ∈ ' ' :: cond, (decide (c ≠ '\n')) = true := by
        intro c hc
        rcases List.mem_cons.mp hc with hc | hc
        · rw [hc]; decide
        · simpa using hnl c hc
      rw [takeWhile_all _ _ hall2, dropWhile_all _ _ hall2]
      rfl
    have hblank_a : QueryParser.is_blank a = false := by
      simp only [QueryParser.is_blank, Bool.or_eq_false_iff, decide_eq_false_iff_not]
      simp only [isspace, Bool.or_eq_false_iff, decide_eq_false_iff_not] at ha
      exact ⟨⟨⟨ha.1.1.1.1.1, ha.1.1.1.1.2⟩, ha.2⟩, ha.1.1.1.2⟩
    have hblank_b : QueryParser.is_blank b = false := by
      simp only [QueryParser.is_blank, Bool.or_eq_false_iff, decide_eq_false_iff_not]
      simp only [isspace, Bool.or_eq_false_iff, decide_eq_false_iff_not] at hb
      exact ⟨⟨⟨hb.1.1.1.1.1, hb.1.1.1.1.2⟩, hb.2⟩, hb.1.1.1.2⟩
    have hcne : cond ≠ [] := by intro e; rw [e] at hh; cases hh
    obtain ⟨c0, ct, hc0⟩ := List.exists_cons_of_ne_nil hcne
    have hc0a : c0 = a := by rw [hc0] at hh; simpa using hh
    have hnotall : (' ' :: cond).all QueryParser.is_blank = false := by
      rw [hc0, hc0a]
      simp [hblank_a]
    have htrimb : QueryParser.trim_blank ⟨' ' :: cond⟩ = ⟨cond⟩ := by
      unfold QueryParser.trim_blank
      have hd : (' ' :: cond).dropWhile QueryParser.is_blank = cond := by
        have hsb : QueryParser.is_blank ' ' = true := by decide
        rw [List.dropWhile_cons, if_pos hsb]
        exact dropWhile_head_false _ cond a hh hblank_a
      simp only [hd]
      rw [dropWhile_head_false _ cond.reverse b (by rw [List.head?_reverse]; exact hl) hblank_b,
        List.reverse_reverse]
    unfold QueryParser.parse_delete
    rw [e]
    simp only [h1, h2, hline]
    have hwl : to_lower ⟨"where".data⟩ = "where" := by decide
    rw [hwl]
    simp only [ne_eq, not_true_eq_false, if_false, hnotall, Bool.false_eq_true, htrimb]
    rfl
  · cases hcond
/-- Claim C31, as stated, fails on the code: `delete users` is rejected, since the word
`where` must follow the table name, and so is `delete from users where id = 1`, in which
`from` is read as the table name and `users` as the word that should be `where`. -/
theorem delete_without_where_is_rejected :
    QueryParser.parse (fun _ _ _ => .error ⟨.invalid_argument, "not modelled"⟩)
        "delete users" =
      .error ⟨.invalid_argument, "Expected 'where' in DELETE."⟩ ∧
    QueryParser.parse (fun _ _ _ => .error ⟨.invalid_argument, "not modelled"⟩)
        "delete from users where id = 1" =
      .error ⟨.invalid_argument, "Expected 'where' in DELETE."⟩ := by
  decide

/-- Claim C31, amended: for every table name of letters, digits and underscores and
every condition text, `QueryParser::parse` rejects `delete NAME` with the error
`Expected 'where' in DELETE.`, rejects `delete from NAME where expr` with the same error
(unless NAME is itself the word `where`), and on `delete NAME where expr` yields what the
expression parser yields for `expr`: its error, or the Delete plan with the table name
NAME and the condition parsed from `expr`. -/
theorem delete_requires_where
    (other_branches : String → String → List Char → Except Exception ParsedQuery)
    (name cond : List Char) (hname : is_plain_name name = true)
    (hcond : is_condition_text cond = true) :
    QueryParser.parse other_branches ⟨"delete ".data ++ name⟩ =
      .error ⟨.invalid_argument, "Expected 'where' in DELETE."⟩ ∧
    (to_lower ⟨name⟩ ≠ "where" →
      QueryParser.parse other_branches
          ⟨"delete from ".data ++ name ++ " where ".data ++ cond⟩ =
        .error ⟨.invalid_argument, "Expected 'where' in DELETE."⟩) ∧
    QueryParser.parse other_branches ⟨"delete ".data ++ name ++ " where ".data ++ cond⟩ =
      match parse_expression_of ⟨cond⟩ with
      | .error e => .error e
      | .ok condition => .ok (delete_plan ⟨name⟩ condition) := by
  have hname0 := hname
  simp only [is_plain_name, Bool.and_eq_true, Bool.not_eq_true', List.isEmpty_eq_false,
    List.all_eq_true] at hname0
  obtain ⟨hne, hall⟩ := hname0
  have hne2 : name ≠ [] := by intro e; rw [e] at hne; simp at hne
  have hplain : ∀ c ∈ name, is_delimiter c = false := fun c hc => (is_word_not_other (hall c hc)).2.1
  -- the last character of the name
  obtain ⟨z, hz⟩ : ∃ z, name.getLast? = some z := by
    cases h : name.getLast? with
    | none => exact absurd (List.getLast?_eq_none_iff.mp h) hne2
    | some z => exact ⟨z, rfl⟩
  have hzmem : z ∈ name := List.mem_of_getLast?_eq_some hz
  have hzw := is_word_not_other (hall z hzmem)
  -- the condition text
  have hcond0 := hcond
  unfold is_condition_text at hcond0
  split at hcond0
  swap
  · cases hcond0
  rename_i a b hh hl
  simp only [Bool.and_eq_true, Bool.not_eq_true', bne_iff_ne, ne_eq, decide_eq_true_eq,
    List.all_eq_true, decide_not] at hcond0
  obtain ⟨⟨⟨⟨_, hb⟩, hsemi0⟩, _⟩, hval⟩ := hcond0
  have hsemi : b ≠ ';' := by simpa using hsemi0
  have hcne : cond ≠ [] := by intro e; rw [e] at hh; cases hh
  refine ⟨?_, ?_, ?_⟩
  · rw [parse_delete_frame other_branches name z
      (by
        have := validate_chars_plain name hplain [] []
        rw [List.append_nil] at this
        rw [this]; rfl)
      hz hzw.1 hzw.2.2]
    exact parse_delete_name_only name hname
  · intro hw
    have e1 : "delete from ".data ++ name ++ " where ".data ++ cond =
        "delete ".data ++ ("from ".data ++ name ++ " where ".data ++ cond) := by
      simp
    rw [e1, parse_delete_frame other_branches _ b
      (by
        have hp : ∀ c ∈ "from ".data ++ name ++ " where ".data, is_delimiter c = false := by
          intro c hc
          simp only [List.mem_append] at hc
          rcases hc with (hc | hc) | hc
          · revert c; decide
          · exact hplain c hc
          · revert c; decide
        rw [validate_chars_plain _ hp]
        exact hval)
      (by rw [List.getLast?_append_of_ne_nil _ hcne]; exact hl) hb hsemi]
    have e2 : ' ' :: ("from ".data ++ name ++ " where ".data ++ cond) =
        " from ".data ++ name ++ ' ' :: ("where ".data ++ cond) := by
      simp
    rw [e2]
    exact parse_delete_from name _ hname hw
  · have e1 : "delete ".data ++ name ++ " where ".data ++ cond =
        "delete ".data ++ (name ++ " where ".data ++ cond) := by
      simp
    rw [e1, parse_delete_frame other_branches _ b
      (by
        have hp : ∀ c ∈ name ++ " where ".data, is_delimiter c = false := by
          intro c hc
          simp only [List.mem_append] at hc
          rcases hc with hc | hc
          · exact hplain c hc
          · revert c; decide
        rw [validate_chars_plain _ hp]
        exact hval)
      (by rw [List.getLast?_append_of_ne_nil _ hcne]; exact hl) hb hsemi]
    exact parse_delete_where name cond hname hcond

/-- The amended claim C31 on the table `users` and the condition `name = "Bob"` of the
test `DeleteTest`: the statement with `where` yields the plan, the two others are
rejected. -/
theorem delete_requires_where_witness :
    QueryParser.parse (fun _ _ _ => .error ⟨.invalid_argument, "not modelled"⟩)
        "delete users" =
      .error ⟨.invalid_argument, "Expected 'where' in DELETE."⟩ ∧
    QueryParser.parse (fun _ _ _ => .error ⟨.invalid_argument, "not modelled"⟩)
        "delete from users where name = \"Bob\"" =
      .error ⟨.invalid_argument, "Expected 'where' in DELETE."⟩ ∧
    QueryParser.parse (fun _ _ _ => .error ⟨.invalid_argument, "not modelled"⟩)
        "delete users where name = \"Bob\"" =
      .ok (delete_plan "users"
        (.Binary .Equal (.Variable "name") (.Literal (.string "Bob")))) :=
  have h := delete_requires_where (fun _ _ _ => .error ⟨.invalid_argument, "not modelled"⟩)
    "users".data "name = \"Bob\"".data (by decide) (by decide)
  ⟨h.1, h.2.1 (by decide), h.2.2.trans (by decide)⟩

/-! ## Claims on the format of an insert value list -/

/-- A comma is one token. -/
theorem get_next_token_comma (rest : List Char) :
    Lexer.get_next_token (',' :: rest) = .ok (⟨.Comma, ","⟩, rest) := by
  unfold Lexer.get_next_token
  have hs : Lexer.skip_whitespace (',' :: rest) = ',' :: rest := by
    simp [Lexer.skip_whitespace, isspace]
  rw [hs]
  have e2 : isalpha ',' = false := by decide
  have e4 : isdigit ',' = false := by decide
  simp only [e2, e4, Char.reduceEq, if_false, if_true, decide_False, Bool.false_and,
    Bool.false_eq_true, Bool.or_self]

/-- The digit `1` in front of a comma is one integer literal. -/
theorem get_next_token_one (rest : List Char) :
    Lexer.get_next_token ('1' :: ',' :: rest) = .ok (⟨.IntLiteral, "1"⟩, ',' :: rest) := by
  unfold Lexer.get_next_token
  have hs : Lexer.skip_whitespace ('1' :: ',' :: rest) = '1' :: ',' :: rest := by
    simp [Lexer.skip_whitespace, isspace]
  rw [hs]
  have e2 : isalpha '1' = false := by decide
  have e4 : isdigit '1' = true := by decide
  have e5 : isdigit ',' = false := by decide
  simp only [e2, e4, Char.reduceEq, if_false, if_true, decide_False, Bool.false_and,
    Bool.false_eq_true, Bool.or_self, Bool.true_or, Lexer.number, or_self, List.takeWhile_cons,
    List.dropWhile_cons, e5]

/-- The tokens of the text `1, "s"` for a string `s` that needs no escape. -/
theorem tokens_of_one_and_string (s : List Char)
    (hq : '"' ∉ s) (hb : '\\' ∉ s) (hn : '\x00' ∉ s) :
    Lexer.get_next_token ('1' :: ',' :: ' ' :: '"' :: (s ++ ['"'])) =
      .ok (⟨.IntLiteral, "1"⟩, ',' :: ' ' :: '"' :: (s ++ ['"'])) ∧
    Lexer.get_next_token (',' :: ' ' :: '"' :: (s ++ ['"'])) =
      .ok (⟨.Comma, ","⟩, ' ' :: '"' :: (s ++ ['"'])) ∧
    Lexer.get_next_token (' ' :: '"' :: (s ++ ['"'])) = .ok (⟨.StringLiteral, ⟨s⟩⟩, []) :=
  ⟨get_next_token_one _, get_next_token_comma _, by
    rw [get_next_token_space _ _ (by decide)]
    exact get_next_token_quoted s hq hb hn⟩

/-- Claim C39 on the code: `parse_values` takes the named branch whenever the text holds
the character `=`, also inside a string literal. For columns `(Int32, String[N])` and a
string `s` of at most `N` characters that needs no escape, the text `1, "s"` yields the
two values `[1, s]` when `s` holds no `=`, and fails with
`Expected '=' after column name` when it does. -/
theorem equals_in_literal_selects_named_format (c1 c2 : Column) (N : Nat) (s : List Char)
    (h1 : c1.type.type = Ty.Int32) (h2 : c2.type = ⟨Ty.String, N⟩)
    (hq : '"' ∉ s) (hb : '\\' ∉ s) (hn : '\x00' ∉ s) (hlen : s.length ≤ N) :
    ('=' ∉ s →
      QueryParser.parse_values QueryParser.named_values
          ⟨'1' :: ',' :: ' ' :: '"' :: (s ++ ['"'])⟩ [c1, c2] =
        .ok [some (.int32 1), some (.string ⟨s⟩)]) ∧
    ('=' ∈ s →
      QueryParser.parse_values QueryParser.named_values
          ⟨'1' :: ',' :: ' ' :: '"' :: (s ++ ['"'])⟩ [c1, c2] =
        .error ⟨.invalid_argument, "Expected '=' after column name"⟩) := by
  obtain ⟨t0, t1, t2⟩ := tokens_of_one_and_string s hq hb hn
  have hmem : '=' ∈ '1' :: ',' :: ' ' :: '"' :: (s ++ ['"']) ↔ '=' ∈ s := by
    simp
  have hlen2 : (String.mk ('1' :: ',' :: ' ' :: '"' :: (s ++ ['"']))).length + 1 =
      s.length + 3 + 3 := by
    simp [String.length]
  constructor
  · intro he
    have hsz1 : QueryParser.literal_size c1 = .ok 0 := by
      simp [QueryParser.literal_size, Column.type, DataType.get_type, h1]
    have hsz2 : QueryParser.literal_size c2 = .ok N := by
      simp [QueryParser.literal_size, DataType.get_type, DataType.get_size, DataType.is_string,
        DataType.is_bytes, h2]
    have hv1 : QueryParser.parse_value .IntLiteral "1" 0 = .ok (.int32 1) := by decide
    have hv2 : QueryParser.parse_value .StringLiteral ⟨s⟩ N = .ok (.string ⟨s⟩) := by
      unfold QueryParser.parse_value
      simp only
      rw [if_neg]
      intro hc
      have : (String.mk s).length = s.length := rfl
      omega
    unfold QueryParser.parse_values
    simp only [t0, hmem, he, if_false, hlen2]
    simp [QueryParser.positional_loop, QueryParser.is_literal, hsz1, hsz2, hv1, hv2, t1, t2,
      get_next_token_nil, QueryParser.fill_trailing]
  · intro he
    unfold QueryParser.parse_values
    simp only [t0, hmem, he, if_true]
    unfold QueryParser.named_values
    simp only [t0, hlen2]
    by_cases hs : String.mk s = "="
    · simp [QueryParser.named_loop, QueryParser.named_skip, t1, t2, hs]
    · simp [QueryParser.named_loop, QueryParser.named_skip, t1, t2, hs, get_next_token_nil]

/-- Claim C39 on the strings `ab` and `a=b`, and the two insert statements through
`QueryParser::parse`: the one with `a=b` is rejected. -/
theorem equals_in_literal_selects_named_format_witness :
    QueryParser.parse_values QueryParser.named_values "1, \"ab\"" id_name_columns =
      .ok [some (.int32 1), some (.string "ab")] ∧
    QueryParser.parse_values QueryParser.named_values "1, \"a=b\"" id_name_columns =
      .error ⟨.invalid_argument, "Expected '=' after column name"⟩ ∧
    QueryParser.parse
        (QueryParser.with_insert QueryParser.named_values people_db
          (fun _ _ _ => .error ⟨.invalid_argument, "not modelled"⟩))
        "insert (1, \"ab\") to people" = .ok insert_ab_plan ∧
    QueryParser.parse
        (QueryParser.with_insert QueryParser.named_values people_db
          (fun _ _ _ => .error ⟨.invalid_argument, "not modelled"⟩))
        "insert (1, \"a=b\") to people" =
      .error ⟨.invalid_argument, "Expected '=' after column name"⟩ :=
  ⟨(equals_in_literal_selects_named_format _ _ 8 "ab".data rfl rfl (by decide) (by decide)
      (by decide) (by decide)).1 (by decide),
    (equals_in_literal_selects_named_format _ _ 8 "a=b".data rfl rfl (by decide) (by decide)
      (by decide) (by decide)).2 (by decide),
    by decide, by decide⟩

/-! ## Claims on `Table::add_index` -/

/-- A NULL in an index column of a row makes the loop over the index columns fail. -/
theorem index_row_map_null (t : Table) (row : Row) (col : String) (i : Nat)
    (hi : t.get_column_index col = .ok i) (hnull : row.values[i]? = some none) :
    ∀ (columns : List String) (row_map : Binding), col ∈ columns →
      ∃ e, t.index_row_map row columns row_map = .error e := by
  intro columns
  induction columns with
  | nil => intro _ h; cases h
  | cons c rest ih =>
    intro row_map hmem
    unfold Table.index_row_map
    by_cases hc : c = col
    · subst hc
      simp only [hi, hnull]
      exact ⟨_, rfl⟩
    · have hrest : col ∈ rest := by
        rcases List.mem_cons.mp hmem with h | h
        · exact absurd h.symm hc
        · exact h
      cases hg : t.get_column_index c with
      | error e => exact ⟨e, rfl⟩
      | ok j =>
        simp only
        cases hv : row.values[j]? with
        | none => exact ⟨_, rfl⟩
        | some slot =>
          cases slot with
          | none => exact ⟨_, rfl⟩
          | some v => exact ih _ hrest

/-- A row with a NULL in an index column makes the loop over the rows fail. -/
theorem index_rows_null (t : Table) (columns : List String) (row : Row) (col : String) (i : Nat)
    (hcol : col ∈ columns) (hi : t.get_column_index col = .ok i)
    (hnull : row.values[i]? = some none) :
    ∀ (rows : List Row) (index : Index), row ∈ rows →
      ∃ e, t.index_rows columns rows index = .error e := by
  intro rows
  induction rows with
  | nil => intro _ h; cases h
  | cons r rest ih =>
    intro index hmem
    unfold Table.index_rows
    by_cases hr : r = row
    · subst hr
      obtain ⟨e, he⟩ := index_row_map_null t r col i hi hnull columns [] hcol
      rw [he]
      exact ⟨e, rfl⟩
    · have hrest : row ∈ rest := by
        rcases List.mem_cons.mp hmem with h | h
        · exact absurd h.symm hr
        · exact h
      cases hm : t.index_row_map r columns [] with
      | error e => exact ⟨e, rfl⟩
      | ok row_map =>
        simp only
        cases ha : index.add_row r.id row_map with
        | mk outcome index1 =>
          cases outcome with
          | error e => exact ⟨e, rfl⟩
          | ok u => exact ih index1 hrest

/-- Claim C33 on the code: the test on the number of columns of an ordered index stands in
`Index::add_row`, which `Table::add_index` calls once per row. On a table without rows
`add_index` with the kind `ordered` therefore succeeds for every column list, also the
empty one and one of several columns, and the index joins the table. On a table with rows
it fails for a column list that is not of length one and leaves the table as it was; and
for every kind it fails, leaving the table as it was, when a row holds NULL in an index
column. -/
theorem ordered_index_on_empty_table_takes_any_columns (t : Table) (columns : List String) :
    (∀ (name : String) (cols : List Column) (indexes : List Index) (next : RowID),
      Table.add_index ⟨name, cols, [], indexes, next⟩ "ordered" columns =
        (.ok (), ⟨name, cols, [], indexes ++ [⟨.Ordered, columns, [], []⟩], next⟩)) ∧
    (t.rows ≠ [] → columns.length ≠ 1 →
      ∃ e, t.add_index "ordered" columns = (.error e, t)) ∧
    (∀ (kind : String) (row : Row) (col : String) (i : Nat),
      row ∈ t.rows → col ∈ columns → t.get_column_index col = .ok i →
      row.values[i]? = some none →
      ∃ e, t.add_index kind columns = (.error e, t)) := by
  refine ⟨?_, ?_, ?_⟩
  · intro name cols indexes next
    simp [Table.add_index, Table.index_rows, Index.new]
  · intro hrows hlen
    obtain ⟨r, rs, hr⟩ := List.exists_cons_of_ne_nil hrows
    have hloop : ∃ e, t.index_rows columns t.rows (Index.new .Ordered columns) = .error e := by
      rw [hr]
      unfold Table.index_rows
      cases hm : t.index_row_map r columns [] with
      | error e => exact ⟨e, rfl⟩
      | ok row_map =>
        simp only
        have hadd : ∃ e, (Index.new .Ordered columns).add_row r.id row_map =
            (.error e, Index.new .Ordered columns) := by
          unfold Index.add_row
          simp only [Index.new]
          match columns, hlen with
          | [], _ => exact ⟨_, rfl⟩
          | [c], h => exact absurd rfl h
          | _ :: _ :: _, _ => exact ⟨_, rfl⟩
        obtain ⟨e, he⟩ := hadd
        rw [he]
        exact ⟨e, rfl⟩
    obtain ⟨e, he⟩ := hloop
    refine ⟨e, ?_⟩
    simp [Table.add_index, he]
  · intro kind row col i hrow hcol hi hnull
    unfold Table.add_index
    by_cases hk : kind ≠ "ordered" ∧ kind ≠ "unordered"
    · rw [if_pos hk]
      exact ⟨_, rfl⟩
    · rw [if_neg hk]
      obtain ⟨e, he⟩ := index_rows_null t columns row col i hcol hi hnull t.rows
        (Index.new (if kind = "ordered" then IndexType.Ordered else IndexType.Unordered) columns)
        hrow
      simp only [he]
      exact ⟨e, rfl⟩

/-- Claim C33 on the tables of the scenarios: the empty table `numbers` takes an ordered
index over two columns; `users`, which holds rows, does not; and `users` with a NULL name
takes no index over `name`. -/
theorem ordered_index_on_empty_table_takes_any_columns_witness :
    Table.add_index numbers_table "ordered" ["id", "value"] =
      (.ok (), { numbers_table with indexes := [⟨.Ordered, ["id", "value"], [], []⟩] }) ∧
    s4_users.add_index "ordered" ["id", "name"] =
      (.error ⟨.invalid_argument, "Ordered index can only be created on a single column."⟩,
        s4_users) ∧
    (∃ e, s4_users.add_index "ordered" ["id", "name"] = (.error e, s4_users)) ∧
    null_name_users.add_index "unordered" ["name"] =
      (.error ⟨.invalid_argument, "Cannot index NULL value in column 'name'."⟩,
        null_name_users) ∧
    (∃ e, null_name_users.add_index "unordered" ["name"] = (.error e, null_name_users)) :=
  ⟨(ordered_index_on_empty_table_takes_any_columns numbers_table ["id", "value"]).1
      "numbers" _ [] 1,
    by decide,
    (ordered_index_on_empty_table_takes_any_columns s4_users ["id", "name"]).2.1
      (by decide) (by decide),
    by decide,
    (ordered_index_on_empty_table_takes_any_columns null_name_users ["name"]).2.2
      "unordered" ⟨2, [some (.int32 2), none]⟩ "name" 1 (by decide) (by decide) (by decide)
      (by decide)⟩

/-! ## Claims on index coherence -/

/-- Claim C32 on the code: `Table::insert_row` and `Table::delete_row` leave the indices
of the table as they are, and so does `execute_update`; `Index::add_row` is called by
`Table::add_index` only and `Index::remove_row` by nothing. On the table of
`CreateIndexTest.DuplicateValuesInIndex` (values 5, 7, 5): the unordered index built by
`add_index` is coherent; the ordered index holds one RowID per key, so the row 1 is
missing under `5` right after `add_index`; after an insert the new row 4 is in no index;
after `delete_row(2)` the index still holds the RowID 2; after an update of the row 2 to
the value 8 the index still holds it under `7|`. -/
theorem indexes_are_not_maintained (t : Table) :
    (∀ values, (t.insert_row values).2.indexes = t.indexes) ∧
    (∀ id, (t.delete_row id).2.indexes = t.indexes) ∧
    (∀ (pq : ParsedQuery) (db : Database), db.get_table pq.table_name = .ok t →
      ∃ t1, (execute_update pq db).2.get_table pq.table_name = .ok t1 ∧
        t1.indexes = t.indexes) ∧
    duplicates_table.add_index "unordered" ["value"] =
      (.ok (), { duplicates_table with indexes := [duplicates_unordered] }) ∧
    Table.index_coherent { duplicates_table with indexes := [duplicates_unordered] } = true ∧
    duplicates_table.add_index "ordered" ["value"] =
      (.ok (), { duplicates_table with indexes := [duplicates_ordered] }) ∧
    Table.index_coherent { duplicates_table with indexes := [duplicates_ordered] } = false ∧
    duplicates_ordered.holds_row duplicates_table.columns
      ⟨1, [some (.int32 1), some (.int32 5)]⟩ = false ∧
    (Table.insert_row { duplicates_table with indexes := [duplicates_unordered] }
        [none, some (.int32 9)]).1 = .ok 4 ∧
    (Table.insert_row { duplicates_table with indexes := [duplicates_unordered] }
        [none, some (.int32 9)]).2.index_coherent = false ∧
    (Table.delete_row { duplicates_table with indexes := [duplicates_unordered] } 2).1 =
      .ok () ∧
    (Table.delete_row { duplicates_table with indexes := [duplicates_unordered] }
        2).2.index_coherent = false ∧
    (execute_update update_duplicates_plan
      ⟨[("duplicates_test", { duplicates_table with indexes := [duplicates_unordered] })]⟩) =
      (.ok (QueryResult.of_data [[some (.int32 1)]]),
        ⟨[("duplicates_test",
          { duplicates_table with
            rows := [⟨1, [some (.int32 1), some (.int32 5)]⟩,
              ⟨2, [some (.int32 2), some (.int32 8)]⟩,
              ⟨3, [some (.int32 3), some (.int32 5)]⟩]
            indexes := [duplicates_unordered] })]⟩) ∧
    Table.index_coherent
      { duplicates_table with
        rows := [⟨1, [some (.int32 1), some (.int32 5)]⟩,
          ⟨2, [some (.int32 2), some (.int32 8)]⟩,
          ⟨3, [some (.int32 3), some (.int32 5)]⟩]
        indexes := [duplicates_unordered] } = false := by
  refine ⟨?_, ?_, ?_, by decide, by decide, by decide, by decide, by decide, by decide,
    by decide, by decide, by decide, by decide, by decide⟩
  · intro values
    unfold Table.insert_row
    split <;> rfl
  · intro id
    unfold Table.delete_row
    split <;> rfl
  · intro pq db h
    refine ⟨{ t with rows := (update_rows t pq t.rows 0).2 }, ?_, rfl⟩
    rw [execute_update_database pq db t h]
    exact get_table_put_table db pq.table_name t _ h

/-- Claim C32 on the indexed table of the test: the table that `execute_update` leaves
behind carries the index it had before. -/
theorem indexes_are_not_maintained_witness :
    ∃ t1,
      (execute_update update_duplicates_plan
        ⟨[("duplicates_test",
          { duplicates_table with indexes := [duplicates_unordered] })]⟩).2.get_table
          "duplicates_test" = .ok t1 ∧
      t1.indexes = [duplicates_unordered] :=
  (indexes_are_not_maintained { duplicates_table with indexes := [duplicates_unordered] }).2.2.1
    update_duplicates_plan
    ⟨[("duplicates_test", { duplicates_table with indexes := [duplicates_unordered] })]⟩ rfl

/-! ## Claims on the search in an ordered index -/

theorem string_compare_lt_iff (a b : List Char) : string_compare a b < 0 ↔ a < b := by
  rw [string_compare_eq]
  by_cases h1 : a < b
  · simp [h1]
  · by_cases h2 : b < a
    · simp [h1, h2]
    · simp [h1, h2]

theorem string_compare_gt_iff (a b : List Char) : string_compare a b > 0 ↔ b < a := by
  rw [string_compare_eq]
  by_cases h1 : a < b
  · simp [h1, not_lt_of_lt h1]
  · by_cases h2 : b < a
    · simp [h1, h2]
    · simp [h1, h2]

theorem string_compare_le_iff (a b : List Char) : string_compare a b ≤ 0 ↔ a ≤ b := by
  rw [← not_lt, ← not_lt]
  exact not_congr (string_compare_gt_iff a b)

theorem string_compare_ge_iff (a b : List Char) : string_compare a b ≥ 0 ↔ b ≤ a := by
  rw [ge_iff_le, ← not_lt, ← not_lt]
  exact not_congr (string_compare_lt_iff a b)

/-- On a list in ascending order a property that passes from an element to every smaller
one holds on a prefix: `takeWhile` takes what `filter` keeps, and `dropWhile` leaves the
rest. -/
theorem takeWhile_eq_filter {α : Type} (R : α → α → Prop) (p : α → Bool) (l : List α)
    (hs : l.Pairwise R) (hp : ∀ a b, R a b → p b = true → p a = true) :
    l.takeWhile p = l.filter p ∧ l.dropWhile p = l.filter (fun a => !p a) := by
  induction l with
  | nil => exact ⟨rfl, rfl⟩
  | cons a rest ih =>
    obtain ⟨hrel, hrest⟩ := List.pairwise_cons.mp hs
    obtain ⟨ih1, ih2⟩ := ih hrest
    by_cases ha : p a = true
    · simp [List.takeWhile_cons, List.dropWhile_cons, List.filter_cons, ha, ih1, ih2]
    · have hall : ∀ b ∈ rest, p b = false := by
        intro b hb
        cases hpb : p b with
        | false => rfl
        | true => exact absurd (hp a b (hrel b hb) hpb) ha
      have hf1 : rest.filter p = [] := List.filter_eq_nil_iff.mpr (fun b hb => by simp [hall b hb])
      have hf2 : rest.filter (fun a => !p a) = rest :=
        List.filter_eq_self.mpr (fun b hb => by simp [hall b hb])
      simp [List.takeWhile_cons, List.dropWhile_cons, List.filter_cons, ha, hf1, hf2]

theorem take_length_takeWhile {α : Type} (p : α → Bool) (l : List α) :
    l.take (l.takeWhile p).length = l.takeWhile p := by
  induction l with
  | nil => rfl
  | cons a rest ih =>
    by_cases ha : p a = true
    · simp [List.takeWhile_cons, ha, ih]
    · simp [List.takeWhile_cons, ha]

/-- The loop between two positions that stand in order yields the RowIDs of the entries
between them. -/
theorem walk_in_order : ∀ (rest : List (String × RowID)) (it it_upper : Nat),
    it ≤ it_upper → it_upper ≤ it + rest.length →
    Index.walk rest it it_upper = .ok ((rest.take (it_upper - it)).map (fun e => e.2)) := by
  intro rest
  induction rest with
  | nil =>
    intro it up h1 h2
    simp only [List.length_nil, Nat.add_zero] at h2
    have : it = up := Nat.le_antisymm h1 h2
    simp [Index.walk, this]
  | cons e rest ih =>
    intro it up h1 h2
    unfold Index.walk
    by_cases he : it = up
    · simp [he]
    · rw [if_neg he]
      have h3 : it + 1 ≤ up := by omega
      rw [ih (it + 1) up h3 (by simp only [List.length_cons] at h2; omega)]
      have : up - it = (up - (it + 1)) + 1 := by omega
      rw [this]
      simp

/-- The loop from a position behind its end position runs to `end()`. -/
theorem walk_crossed : ∀ (rest : List (String × RowID)) (it it_upper : Nat),
    it_upper < it →
    Index.walk rest it it_upper =
      .error ⟨.undefined_behaviour, "iterator at end() dereferenced"⟩ := by
  intro rest
  induction rest with
  | nil =>
    intro it up h
    have : it ≠ up := by omega
    simp [Index.walk, this]
  | cons e rest ih =>
    intro it up h
    unfold Index.walk
    have : it ≠ up := by omega
    rw [if_neg this, ih (it + 1) up (by omega)]

/-- Strictly more elements pass a property than pass a stronger one that an element
fails. -/
theorem length_filter_lt {α : Type} (p q : α → Bool) (l : List α)
    (hqp : ∀ a ∈ l, q a = true → p a = true) (e : α) (he : e ∈ l) (hpe : p e = true)
    (hqe : q e = false) : (l.filter q).length < (l.filter p).length := by
  induction l with
  | nil => cases he
  | cons a rest ih =>
    have hle : (rest.filter q).length ≤ (rest.filter p).length := by
      have : ∀ (r : List α), (∀ a ∈ r, q a = true → p a = true) →
          (r.filter q).length ≤ (r.filter p).length := by
        intro r
        induction r with
        | nil => intro _; simp
        | cons b bs ihb =>
          intro h
          have h1 := ihb (fun a ha => h a (List.mem_cons_of_mem _ ha))
          by_cases hq : q b = true
          · have hpb := h b (List.mem_cons_self _ _) hq
            simp [List.filter_cons, hq, hpb, h1]
          · by_cases hpb : p b = true
            · simp [List.filter_cons, hq, hpb]; omega
            · simp [List.filter_cons, hq, hpb, h1]
      exact this rest (fun a ha => hqp a (List.mem_cons_of_mem _ ha))
    rcases List.mem_cons.mp he with h | h
    · subst h
      simp [List.filter_cons, hpe, hqe]
      omega
    · have h1 := ih (fun a ha => hqp a (List.mem_cons_of_mem _ ha)) h
      by_cases hq : q a = true
      · have hpa := hqp a (List.mem_cons_self _ _) hq
        simp [List.filter_cons, hq, hpa, h1]
      · by_cases hpa : p a = true
        · simp [List.filter_cons, hq, hpa]; omega
        · simp [List.filter_cons, hq, hpa, h1]
theorem drop_length_takeWhile {α : Type} (p : α → Bool) (l : List α) :
    l.drop (l.takeWhile p).length = l.dropWhile p := by
  induction l with
  | nil => rfl
  | cons a rest ih =>
    by_cases ha : p a = true
    · simp [List.takeWhile_cons, List.dropWhile_cons, ha, ih]
    · simp [List.takeWhile_cons, List.dropWhile_cons, ha]

theorem length_filter_split {α : Type} (p q : α → Bool) (l : List α)
    (hpq : ∀ a ∈ l, p a = true → q a = true) :
    (l.filter q).length = (l.filter p).length + (l.filter (fun a => !p a && q a)).length := by
  induction l with
  | nil => rfl
  | cons a rest ih =>
    have ih1 := ih (fun b hb => hpq b (List.mem_cons_of_mem _ hb))
    by_cases hp : p a = true
    · have hqa := hpq a (List.mem_cons_self _ _) hp
      simp [List.filter_cons, hp, hqa, ih1]
      omega
    · by_cases hqa : q a = true
      · simp [List.filter_cons, hp, hqa, ih1]
        omega
      · simp [List.filter_cons, hp, hqa, ih1]

/-- Two positions in a list in ascending key order, each the end of the prefix on which a
property holds that passes to smaller keys: when the first property implies the second on
the list, the positions stand in order and the elements between them are those that fail
the first and pass the second; when an element passes the first and fails the second, the
second position stands before the first. -/
theorem range_positions {α : Type} (key : α → List Char) (p q : α → Bool) (l : List α)
    (hs : l.Pairwise (fun a b => key a < key b))
    (hp : ∀ a b, key a ≤ key b → p b = true → p a = true)
    (hq : ∀ a b, key a ≤ key b → q b = true → q a = true) :
    ((∀ a ∈ l, p a = true → q a = true) →
      (l.takeWhile p).length ≤ (l.takeWhile q).length ∧
      (l.takeWhile q).length ≤ (l.takeWhile p).length + (l.drop (l.takeWhile p).length).length ∧
      (l.drop (l.takeWhile p).length).take ((l.takeWhile q).length - (l.takeWhile p).length) =
        l.filter (fun a => !p a && q a)) ∧
    (∀ e ∈ l, p e = true → q e = false → (l.takeWhile q).length < (l.takeWhile p).length) := by
  have hp1 : ∀ a b, key a < key b → p b = true → p a = true :=
    fun a b h => hp a b (le_of_lt h)
  have hq1 : ∀ a b, key a < key b → q b = true → q a = true :=
    fun a b h => hq a b (le_of_lt h)
  obtain ⟨tp, dp⟩ := takeWhile_eq_filter _ p l hs hp1
  obtain ⟨tq, _⟩ := takeWhile_eq_filter _ q l hs hq1
  constructor
  · intro hpq
    have hsplit := length_filter_split p q l hpq
    have hs2 : (l.filter (fun a => !p a)).Pairwise (fun a b => key a < key b) :=
      List.Pairwise.sublist (List.filter_sublist _) hs
    obtain ⟨tq2, _⟩ := takeWhile_eq_filter _ q (l.filter (fun a => !p a)) hs2 hq1
    have hff : (l.filter (fun a => !p a)).filter q = l.filter (fun a => !p a && q a) := by
      rw [List.filter_filter]
      congr 1
      funext a
      exact Bool.and_comm _ _
    have hlen : (l.takeWhile q).length - (l.takeWhile p).length =
        ((l.filter (fun a => !p a)).takeWhile q).length := by
      rw [tq, tp, tq2, hff, hsplit]
      omega
    refine ⟨by rw [tp, tq, hsplit]; omega, ?_, ?_⟩
    · rw [drop_length_takeWhile, dp, tp, tq, hsplit]
      have : (l.filter (fun a => !p a && q a)).length ≤ (l.filter (fun a => !p a)).length := by
        rw [← hff]
        exact List.length_filter_le _ _
      omega
    · rw [hlen, drop_length_takeWhile, dp, take_length_takeWhile, tq2, hff]
  · intro e he hpe hqe
    rw [tp, tq]
    apply length_filter_lt p q l _ e he hpe hqe
    intro b _ hqb
    rcases lt_or_le (key b) (key e) with h | h
    · exact hp1 b e h hpe
    · have := hq e b h hqb
      rw [hqe] at this
      cases this
theorem satisfies_lower_iff (lower : Option Value) (inclusive : Bool) (key : String) :
    satisfies_lower lower inclusive key = true ↔
      ∀ l, lower = some l →
        if inclusive then l.to_string.data ≤ key.data else l.to_string.data < key.data := by
  cases lower with
  | none => simp [satisfies_lower]
  | some l =>
    cases inclusive
    · simp [satisfies_lower, string_compare_gt_iff]
    · simp [satisfies_lower, string_compare_ge_iff]

theorem satisfies_upper_iff (upper : Option Value) (inclusive : Bool) (key : String) :
    satisfies_upper upper inclusive key = true ↔
      ∀ u, upper = some u →
        if inclusive then key.data ≤ u.to_string.data else key.data < u.to_string.data := by
  cases upper with
  | none => simp [satisfies_upper]
  | some u =>
    cases inclusive
    · simp [satisfies_upper, string_compare_lt_iff]
    · simp [satisfies_upper, string_compare_le_iff]

/-- The position `it_lower` of `search_ordered` is the end of the prefix of entries that
fail the lower bound. -/
theorem it_lower_eq (map : List (String × RowID)) (lower : Option Value) (inclusive : Bool) :
    (match lower with
      | some l =>
        if inclusive then Index.lower_bound map l.to_string
        else Index.upper_bound map l.to_string
      | none => 0) =
      (map.takeWhile (fun e => !satisfies_lower lower inclusive e.1)).length := by
  cases lower with
  | none =>
    have : (fun (e : String × RowID) => !satisfies_lower none inclusive e.1) = fun _ => false := by
      funext e
      simp [satisfies_lower]
    rw [this]
    cases map <;> simp [List.takeWhile]
  | some l =>
    cases inclusive
    · have : (fun (e : String × RowID) => !satisfies_lower (some l) false e.1) =
          fun entry => decide (¬ (string_compare l.to_string.data entry.1.data < 0)) := by
        funext e
        have h1 := string_compare_gt_iff e.1.data l.to_string.data
        have h2 := string_compare_lt_iff l.to_string.data e.1.data
        by_cases h : l.to_string.data < e.1.data
        · simp [satisfies_lower, h1.mpr h, h2.mpr h]
        · have h3 : ¬ string_compare e.1.data l.to_string.data > 0 := fun x => h (h1.mp x)
          have h4 : ¬ string_compare l.to_string.data e.1.data < 0 := fun x => h (h2.mp x)
          simp only [satisfies_lower, h3, h4]
          simp
      rw [this]
      simp [Index.upper_bound]
    · have : (fun (e : String × RowID) => !satisfies_lower (some l) true e.1) =
          fun entry => decide (string_compare entry.1.data l.to_string.data < 0) := by
        funext e
        by_cases h : string_compare e.1.data l.to_string.data < 0
        · have h3 : ¬ string_compare e.1.data l.to_string.data ≥ 0 := by omega
          simp only [satisfies_lower, h, h3]
          simp
        · have h3 : string_compare e.1.data l.to_string.data ≥ 0 := by omega
          simp only [satisfies_lower, h, h3]
          simp
      rw [this]
      simp [Index.lower_bound]

/-- The position `it_upper` of `search_ordered` is the end of the prefix of entries that
satisfy the upper bound. -/
theorem it_upper_eq (map : List (String × RowID)) (upper : Option Value) (inclusive : Bool) :
    (match upper with
      | some u =>
        if inclusive then Index.upper_bound map u.to_string
        else Index.lower_bound map u.to_string
      | none => map.length) =
      (map.takeWhile (fun e => satisfies_upper upper inclusive e.1)).length := by
  cases upper with
  | none =>
    have : (fun (e : String × RowID) => satisfies_upper none inclusive e.1) = fun _ => true := by
      funext e
      simp [satisfies_upper]
    rw [this]
    have : ∀ (l : List (String × RowID)), l.takeWhile (fun _ => true) = l := by
      intro l
      induction l with
      | nil => rfl
      | cons a rest ih => simp [List.takeWhile_cons, ih]
    rw [this]
  | some u =>
    cases inclusive
    · have : (fun (e : String × RowID) => satisfies_upper (some u) false e.1) =
          fun entry => decide (string_compare entry.1.data u.to_string.data < 0) := by
        funext e
        simp [satisfies_upper]
      rw [this]
      simp [Index.lower_bound]
    · have : (fun (e : String × RowID) => satisfies_upper (some u) true e.1) =
          fun entry => decide (¬ (string_compare u.to_string.data entry.1.data < 0)) := by
        funext e
        have h1 := string_compare_le_iff e.1.data u.to_string.data
        have h2 := string_compare_lt_iff u.to_string.data e.1.data
        by_cases h : e.1.data ≤ u.to_string.data
        · have h4 : ¬ string_compare u.to_string.data e.1.data < 0 :=
            fun x => not_lt_of_le h (h2.mp x)
          simp only [satisfies_upper, h1.mpr h, h4]
          simp
        · have h3 : ¬ string_compare e.1.data u.to_string.data ≤ 0 := fun x => h (h1.mp x)
          have h4 : string_compare u.to_string.data e.1.data < 0 := h2.mpr (not_le.mp h)
          simp only [satisfies_upper, h3, h4]
          simp
      rw [this]
      simp [Index.upper_bound]

theorem fails_lower_passes_down (lower : Option Value) (inclusive : Bool)
    (a b : String × RowID) (hab : a.1.data ≤ b.1.data)
    (hb : (!satisfies_lower lower inclusive b.1) = true) :
    (!satisfies_lower lower inclusive a.1) = true := by
  rw [Bool.not_eq_true'] at hb ⊢
  cases hsa : satisfies_lower lower inclusive a.1 with
  | false => rfl
  | true =>
    have hsb : satisfies_lower lower inclusive b.1 = true := by
      rw [satisfies_lower_iff] at hsa ⊢
      intro l hl
      have := hsa l hl
      cases inclusive
      · simp only [Bool.false_eq_true, if_false] at this ⊢
        exact lt_of_lt_of_le this hab
      · simp only [if_true] at this ⊢
        exact le_trans this hab
    rw [hsb] at hb
    cases hb

theorem satisfies_upper_passes_down (upper : Option Value) (inclusive : Bool)
    (a b : String × RowID) (hab : a.1.data ≤ b.1.data)
    (hb : satisfies_upper upper inclusive b.1 = true) :
    satisfies_upper upper inclusive a.1 = true := by
  rw [satisfies_upper_iff] at hb ⊢
  intro u hu
  have := hb u hu
  cases inclusive
  · simp only [Bool.false_eq_true, if_false] at this ⊢
    exact lt_of_le_of_lt hab this
  · simp only [if_true] at this ⊢
    exact le_trans hab this

theorem keys_ascending_iff (map : List (String × RowID)) :
    keys_ascending map ↔ map.Pairwise (fun a b => a.1.data < b.1.data) := by
  unfold keys_ascending
  constructor
  · intro h
    exact h.imp (fun hab => (string_compare_lt_iff _ _).mp hab)
  · intro h
    exact h.imp (fun hab => (string_compare_lt_iff _ _).mpr hab)
theorem ordered_assign_mem (map : List (String × RowID)) (key : String) (row_id : RowID)
    (e : String × RowID) (he : e ∈ Index.ordered_assign map key row_id) :
    e.1.data = key.data ∨ e ∈ map := by
  induction map with
  | nil =>
    simp only [Index.ordered_assign, List.mem_singleton] at he
    left
    rw [he]
  | cons a rest ih =>
    obtain ⟨k, v⟩ := a
    unfold Index.ordered_assign at he
    split at he
    · rcases List.mem_cons.mp he with h | h
      · left
        rw [h]
      · right
        exact h
    · split at he
      · rcases List.mem_cons.mp he with h | h
        · right
          rw [h]
          exact List.mem_cons_self _ _
        · rcases ih h with h1 | h1
          · left
            exact h1
          · right
            exact List.mem_cons_of_mem _ h1
      · rename_i h1 h2
        have hk : k.data = key.data := by
          have a1 : ¬ key.data < k.data := fun x => h1 ((string_compare_lt_iff _ _).mpr x)
          have a2 : ¬ k.data < key.data := fun x => h2 ((string_compare_lt_iff _ _).mpr x)
          exact le_antisymm (not_lt.mp a1) (not_lt.mp a2)
        rcases List.mem_cons.mp he with h | h
        · left
          rw [h]
          exact hk
        · right
          exact List.mem_cons_of_mem _ h

/-- The assignment `ordered_map_[key] = row_id` keeps the keys in ascending order. -/
theorem ordered_assign_ascending (map : List (String × RowID)) (key : String) (row_id : RowID)
    (hs : keys_ascending map) : keys_ascending (Index.ordered_assign map key row_id) := by
  rw [keys_ascending_iff] at hs ⊢
  induction map with
  | nil => simp [Index.ordered_assign]
  | cons a rest ih =>
    obtain ⟨k, v⟩ := a
    obtain ⟨hrel, hrest⟩ := List.pairwise_cons.mp hs
    unfold Index.ordered_assign
    split
    · rename_i h1
      have h1 := (string_compare_lt_iff _ _).mp h1
      refine List.pairwise_cons.mpr ⟨?_, hs⟩
      intro b hb
      rcases List.mem_cons.mp hb with h | h
      · rw [h]
        exact h1
      · exact lt_trans h1 (hrel b h)
    · split
      · rename_i h1 h2
        have h2 := (string_compare_lt_iff _ _).mp h2
        refine List.pairwise_cons.mpr ⟨?_, ih hrest⟩
        intro b hb
        rcases ordered_assign_mem rest key row_id b hb with h | h
        · show k.data < b.1.data
          rw [h]
          exact h2
        · exact hrel b h
      · exact List.pairwise_cons.mpr ⟨hrel, hrest⟩

/-- Every index that `add_row` leaves behind has its ordered keys in ascending order when
the index had before. -/
theorem add_row_keys_ascending (index : Index) (row_id : RowID) (row : Binding)
    (hs : keys_ascending index.ordered_map) :
    keys_ascending (index.add_row row_id row).2.ordered_map := by
  unfold Index.add_row
  split
  · split
    · exact hs
    · exact hs
  · split
    · split
      · exact hs
      · exact ordered_assign_ascending _ _ _ hs
    · exact hs

/-- On its own column `search_ordered` runs the loop between the end of the entries that
fail the lower bound and the end of the entries that satisfy the upper bound. -/
theorem search_ordered_on_column (index : Index) (col : String)
    (lower : Option Value) (lower_inclusive : Bool) (upper : Option Value)
    (upper_inclusive : Bool) (hcol : index.columns = [col]) :
    index.search_ordered col lower lower_inclusive upper upper_inclusive =
      Index.walk
        (index.ordered_map.drop
          (index.ordered_map.takeWhile
            (fun e => !satisfies_lower lower lower_inclusive e.1)).length)
        (index.ordered_map.takeWhile
          (fun e => !satisfies_lower lower lower_inclusive e.1)).length
        (index.ordered_map.takeWhile
          (fun e => satisfies_upper upper upper_inclusive e.1)).length := by
  have hguard : ¬ (index.columns.length ≠ 1 ∨ index.columns[0]? ≠ some col) := by
    rw [hcol]
    simp
  have hl := it_lower_eq index.ordered_map lower lower_inclusive
  have hu := it_upper_eq index.ordered_map upper upper_inclusive
  unfold Index.search_ordered
  rw [if_neg hguard]
  cases lower <;> cases upper <;> simp only [] at hl hu ⊢ <;> rw [← hl, ← hu]

/-- Claim C35 on the code: for an index over the one column `col` whose ordered keys are
in ascending order, `search_ordered` on another column returns the empty list; on `col` it
returns, in ascending key order, exactly the RowIDs of the entries whose key satisfies both
bounds, provided every entry that fails the lower bound satisfies the upper bound; when an
entry fails both bounds, as with `render(lower) > key > render(upper)`, the start position
stands behind the end position and the loop runs past `end()`, so that no empty list is
returned. The last parts evaluate this on the index with the one key `4`, as `add_row`
builds it, with the inclusive bounds 5 and 3. -/
theorem search_ordered_crossed_bounds_run_past_end (index : Index) (col : String)
    (lower : Option Value) (lower_inclusive : Bool) (upper : Option Value)
    (upper_inclusive : Bool) (hcol : index.columns = [col])
    (hs : keys_ascending index.ordered_map) :
    (∀ column, column ≠ col →
      index.search_ordered column lower lower_inclusive upper upper_inclusive = .ok []) ∧
    ((∀ e ∈ index.ordered_map, satisfies_lower lower lower_inclusive e.1 = false →
        satisfies_upper upper upper_inclusive e.1 = true) →
      index.search_ordered col lower lower_inclusive upper upper_inclusive =
        .ok ((index.ordered_map.filter (fun e =>
          satisfies_lower lower lower_inclusive e.1 &&
            satisfies_upper upper upper_inclusive e.1)).map (fun e => e.2))) ∧
    ((∃ e ∈ index.ordered_map, satisfies_lower lower lower_inclusive e.1 = false ∧
        satisfies_upper upper upper_inclusive e.1 = false) →
      index.search_ordered col lower lower_inclusive upper upper_inclusive =
        .error ⟨.undefined_behaviour, "iterator at end() dereferenced"⟩) ∧
    ((Index.new .Ordered ["value"]).add_row 1 [("value", .int32 4)] = (.ok (), four_index) ∧
      four_index.search_ordered "value" (some (.int32 5)) true (some (.int32 3)) true =
        .error ⟨.undefined_behaviour, "iterator at end() dereferenced"⟩) := by
  have hpos := range_positions (fun (e : String × RowID) => e.1.data)
    (fun e => !satisfies_lower lower lower_inclusive e.1)
    (fun e => satisfies_upper upper upper_inclusive e.1) index.ordered_map
    ((keys_ascending_iff _).mp hs)
    (fun a b => fails_lower_passes_down lower lower_inclusive a b)
    (fun a b => satisfies_upper_passes_down upper upper_inclusive a b)
  refine ⟨?_, ?_, ?_, by decide, by decide⟩
  · intro column hne
    unfold Index.search_ordered
    rw [hcol]
    have : [col].length ≠ 1 ∨ [col][0]? ≠ some column := by
      right
      simpa using fun h => hne h.symm
    rw [if_pos this]
  · intro hall
    rw [search_ordered_on_column index col lower lower_inclusive upper upper_inclusive hcol]
    obtain ⟨h1, h2, h3⟩ := hpos.1 (fun a ha hpa => hall a ha (by simpa using hpa))
    rw [walk_in_order _ _ _ h1 h2, h3]
    simp
  · rintro ⟨e, he, hl, hu⟩
    rw [search_ordered_on_column index col lower lower_inclusive upper upper_inclusive hcol]
    exact walk_crossed _ _ _ (hpos.2 e he (by simp [hl]) hu)

theorem search_ordered_crossed_bounds_run_past_end_witness :
    four_index.columns = ["value"] ∧ keys_ascending four_index.ordered_map ∧
    (∀ column, column ≠ "value" →
      four_index.search_ordered column (some (.int32 3)) true (some (.int32 5)) false =
        .ok []) ∧
    four_index.search_ordered "value" (some (.int32 3)) true (some (.int32 5)) false =
      .ok [1] :=
  have hs : keys_ascending four_index.ordered_map := by
    simp [keys_ascending, four_index]
  have h := search_ordered_crossed_bounds_run_past_end four_index "value" (some (.int32 3)) true
    (some (.int32 5)) false rfl hs
  ⟨rfl, hs, h.1, (h.2.1 (by decide)).trans (by decide)⟩

/-! ## Claims on the order of the keys of an ordered index -/

theorem digits_fold (l : List Char) : ∀ acc : Nat,
    l.foldl (fun acc c => 10 * acc + (c.toNat - '0'.toNat)) acc =
      acc * 10 ^ l.length + digits_value l := by
  induction l with
  | nil => intro acc; simp [digits_value]
  | cons c rest ih =>
    intro acc
    have h0 := ih (10 * 0 + (c.toNat - '0'.toNat))
    have h1 := ih (10 * acc + (c.toNat - '0'.toNat))
    simp only [digits_value, List.foldl_cons, List.length_cons] at h0 h1 ⊢
    rw [h1, h0]
    ring

theorem digits_value_cons (c : Char) (l : List Char) :
    digits_value (c :: l) = (c.toNat - '0'.toNat) * 10 ^ l.length + digits_value l := by
  have := digits_fold l (10 * 0 + (c.toNat - '0'.toNat))
  simp only [digits_value, List.foldl_cons] at this ⊢
  rw [this]
  simp

theorem digits_value_lt (l : List Char) (hall : ∀ c ∈ l, isdigit c = true) :
    digits_value l < 10 ^ l.length := by
  induction l with
  | nil => simp [digits_value]
  | cons c rest ih =>
    have h1 := ih (fun d hd => hall d (List.mem_cons_of_mem _ hd))
    have hb := isdigit_bounds (hall c (List.mem_cons_self _ _))
    rw [digits_value_cons]
    have h0 : '0'.toNat = 48 := by decide
    rw [h0]
    have h2 : c.toNat - 48 ≤ 9 := by omega
    have h3 : (c.toNat - 48) * 10 ^ rest.length ≤ 9 * 10 ^ rest.length :=
      Nat.mul_le_mul_right _ h2
    simp only [List.length_cons, pow_succ]
    omega

/-- Decimal digit strings of one length stand in the order of `std::string` as their
numbers stand. -/
theorem digits_lt_iff : ∀ (l1 l2 : List Char), l1.length = l2.length →
    (∀ c ∈ l1, isdigit c = true) → (∀ c ∈ l2, isdigit c = true) →
    (l1 < l2 ↔ digits_value l1 < digits_value l2) := by
  intro l1
  induction l1 with
  | nil =>
    intro l2 hlen _ _
    cases l2 with
    | nil => simp [digits_value]
    | cons b bs => simp at hlen
  | cons a as ih =>
    intro l2 hlen h1 h2
    cases l2 with
    | nil => simp at hlen
    | cons b bs =>
      have hlen1 : as.length = bs.length := by simpa using hlen
      have ha := isdigit_bounds (h1 a (List.mem_cons_self _ _))
      have hb := isdigit_bounds (h2 b (List.mem_cons_self _ _))
      have has := digits_value_lt as (fun d hd => h1 d (List.mem_cons_of_mem _ hd))
      have hbs := digits_value_lt bs (fun d hd => h2 d (List.mem_cons_of_mem _ hd))
      have ih1 := ih bs hlen1 (fun d hd => h1 d (List.mem_cons_of_mem _ hd))
        (fun d hd => h2 d (List.mem_cons_of_mem _ hd))
      rw [digits_value_cons, digits_value_cons, hlen1]
      have h0 : '0'.toNat = 48 := by decide
      rw [h0]
      rw [hlen1] at has
      generalize 10 ^ bs.length = P at has hbs
      by_cases hab : a.toNat < b.toNat
      · have hlt : a :: as < b :: bs := List.Lex.rel hab
        have : (a.toNat - 48 + 1) * P ≤ (b.toNat - 48) * P :=
          Nat.mul_le_mul_right _ (by omega)
        have e : (a.toNat - 48 + 1) * P = (a.toNat - 48) * P + P := by ring
        constructor
        · intro _
          omega
        · intro _
          exact hlt
      · by_cases hba : b.toNat < a.toNat
        · have hgt : b :: bs < a :: as := List.Lex.rel hba
          have : (b.toNat - 48 + 1) * P ≤ (a.toNat - 48) * P :=
            Nat.mul_le_mul_right _ (by omega)
          have e : (b.toNat - 48 + 1) * P = (b.toNat - 48) * P + P := by ring
          constructor
          · intro h
            exact absurd h (not_lt_of_lt hgt)
          · intro h
            omega
        · have heq : a = b := by
            apply Char.ext
            apply UInt32.ext
            exact Nat.le_antisymm (Nat.le_of_not_lt hba) (Nat.le_of_not_lt hab)
          subst heq
          have hc : (a :: as < a :: bs) ↔ as < bs := List.Lex.cons_iff
          rw [hc, ih1]
          omega

/-- The renderings of two non-negative Int32 values that have the same number of digits
stand in the order of `std::string` as the values stand. -/
theorem render_lt_iff (a b : Nat)
    (hlen : (Value.int32 a).to_string.length = (Value.int32 b).to_string.length) :
    ((Value.int32 a).to_string.data < (Value.int32 b).to_string.data ↔ a < b) := by
  have ha := repr_digits a
  have hb := repr_digits b
  have ea : (Value.int32 (a : Int)).to_string = Nat.repr a := by
    simp [Value.to_string, Int.repr]
  have eb : (Value.int32 (b : Int)).to_string = Nat.repr b := by
    simp [Value.to_string, Int.repr]
  rw [ea, eb] at hlen ⊢
  have := digits_lt_iff (Nat.repr a).data (Nat.repr b).data hlen ha.2.2.1 hb.2.2.1
  rw [this, ha.1, hb.1]

theorem render_le_iff (a b : Nat)
    (hlen : (Value.int32 a).to_string.length = (Value.int32 b).to_string.length) :
    ((Value.int32 a).to_string.data ≤ (Value.int32 b).to_string.data ↔ a ≤ b) := by
  rw [← not_lt, ← not_lt]
  exact not_congr (render_lt_iff b a hlen.symm)
/-- On its own column, when every entry that fails the lower bound satisfies the upper
bound, `search_ordered` returns the RowIDs of the entries whose key satisfies both bounds,
in ascending key order. -/
theorem search_ordered_in_order (index : Index) (col : String)
    (lower : Option Value) (lower_inclusive : Bool) (upper : Option Value)
    (upper_inclusive : Bool) (hcol : index.columns = [col])
    (hs : keys_ascending index.ordered_map)
    (hall : ∀ e ∈ index.ordered_map, satisfies_lower lower lower_inclusive e.1 = false →
      satisfies_upper upper upper_inclusive e.1 = true) :
    index.search_ordered col lower lower_inclusive upper upper_inclusive =
      .ok ((index.ordered_map.filter (fun e =>
        satisfies_lower lower lower_inclusive e.1 &&
          satisfies_upper upper upper_inclusive e.1)).map (fun e => e.2)) := by
  have hpos := range_positions (fun (e : String × RowID) => e.1.data)
    (fun e => !satisfies_lower lower lower_inclusive e.1)
    (fun e => satisfies_upper upper upper_inclusive e.1) index.ordered_map
    ((keys_ascending_iff _).mp hs)
    (fun a b => fails_lower_passes_down lower lower_inclusive a b)
    (fun a b => satisfies_upper_passes_down upper upper_inclusive a b)
  rw [search_ordered_on_column index col lower lower_inclusive upper upper_inclusive hcol]
  obtain ⟨h1, h2, h3⟩ := hpos.1 (fun a ha hpa => hall a ha (by simpa using hpa))
  rw [walk_in_order _ _ _ h1 h2, h3]
  simp

theorem render_lt_iff_int (a b : Int) (ha : 0 ≤ a) (hb : 0 ≤ b)
    (hlen : (Value.int32 a).to_string.length = (Value.int32 b).to_string.length) :
    ((Value.int32 a).to_string.data < (Value.int32 b).to_string.data ↔ a < b) := by
  obtain ⟨n, rfl⟩ := Int.eq_ofNat_of_zero_le ha
  obtain ⟨m, rfl⟩ := Int.eq_ofNat_of_zero_le hb
  rw [render_lt_iff n m hlen]
  exact Int.ofNat_lt.symm

theorem render_le_iff_int (a b : Int) (ha : 0 ≤ a) (hb : 0 ≤ b)
    (hlen : (Value.int32 a).to_string.length = (Value.int32 b).to_string.length) :
    ((Value.int32 a).to_string.data ≤ (Value.int32 b).to_string.data ↔ a ≤ b) := by
  rw [← not_lt, ← not_lt]
  exact not_congr (render_lt_iff_int b a hb ha hlen.symm)

theorem satisfies_lower_numeric (lower v : Int) (inclusive : Bool) (hl : 0 ≤ lower)
    (hv : 0 ≤ v)
    (hlen : (Value.int32 lower).to_string.length = (Value.int32 v).to_string.length) :
    satisfies_lower (some (.int32 lower)) inclusive (Value.int32 v).to_string =
      (if inclusive then decide (lower ≤ v) else decide (lower < v)) := by
  cases inclusive
  · simp [satisfies_lower, string_compare_gt_iff, render_lt_iff_int lower v hl hv hlen]
  · simp [satisfies_lower, string_compare_ge_iff, render_le_iff_int lower v hl hv hlen]

theorem satisfies_upper_numeric (upper v : Int) (inclusive : Bool) (hu : 0 ≤ upper)
    (hv : 0 ≤ v)
    (hlen : (Value.int32 v).to_string.length = (Value.int32 upper).to_string.length) :
    satisfies_upper (some (.int32 upper)) inclusive (Value.int32 v).to_string =
      (if inclusive then decide (v ≤ upper) else decide (v < upper)) := by
  cases inclusive
  · simp [satisfies_upper, string_compare_lt_iff, render_lt_iff_int v upper hv hu hlen]
  · simp [satisfies_upper, string_compare_le_iff, render_le_iff_int v upper hv hu hlen]

/-- Claim C38 fails at its own example: on the table with the values 1 to 10 the ordered
index that `add_index` builds holds the key `10` between `1` and `2`, and the search with
the inclusive bounds 2 and 10 returns no RowID, while the rows with a value from 2 to 10
are the nine rows 10, 2, ..., 9. -/
theorem ordered_range_misses_two_to_ten :
    (one_to_ten_table.add_index "ordered" ["value"]).2.indexes = [one_to_ten_index] ∧
    one_to_ten_index.ordered_map = render_entries one_to_ten_entries ∧
    one_to_ten_index.search_ordered "value" (some (.int32 2)) true (some (.int32 10)) true =
      .ok [] ∧
    (one_to_ten_entries.filter (fun e => in_numeric_range 2 true 10 true e.1)).map
      (fun e => e.2) = [10, 2, 3, 4, 5, 6, 7, 8, 9] := by
  refine ⟨by decide, by decide, by decide, by decide⟩

/-- Claim C38, amended: for an ordered index over the column `col` whose entries are the
renderings of Int32 values, with the keys in ascending order of `std::string`, a search
with Int32 bounds returns the RowIDs of the entries whose rendering lies between the
renderings of the bounds in the order of `std::string` (with the stated inclusiveness),
provided every entry that fails the lower bound satisfies the upper bound. When the
values and both bounds are non-negative and have the same number of decimal digits, and
`lower <= upper` with not both bounds exclusive at `lower = upper`, these are exactly the
RowIDs of the entries whose value lies in the numeric range. -/
theorem ordered_range_is_textual (index : Index) (col : String)
    (entries : List (Int × RowID)) (lower upper : Int) (lower_inclusive upper_inclusive : Bool)
    (hcol : index.columns = [col]) (hmap : index.ordered_map = render_entries entries)
    (hs : keys_ascending index.ordered_map) :
    ((∀ e ∈ entries,
        satisfies_lower (some (.int32 lower)) lower_inclusive (Value.int32 e.1).to_string =
          false →
        satisfies_upper (some (.int32 upper)) upper_inclusive (Value.int32 e.1).to_string =
          true) →
      index.search_ordered col (some (.int32 lower)) lower_inclusive (some (.int32 upper))
          upper_inclusive =
        .ok ((entries.filter (fun e =>
          satisfies_lower (some (.int32 lower)) lower_inclusive (Value.int32 e.1).to_string &&
            satisfies_upper (some (.int32 upper)) upper_inclusive
              (Value.int32 e.1).to_string)).map (fun e => e.2))) ∧
    (∀ d : Nat, (∀ e ∈ entries, 0 ≤ e.1 ∧ (Value.int32 e.1).to_string.length = d) →
      0 ≤ lower → (Value.int32 lower).to_string.length = d →
      0 ≤ upper → (Value.int32 upper).to_string.length = d →
      lower ≤ upper → (lower < upper ∨ lower_inclusive = true ∨ upper_inclusive = true) →
      index.search_ordered col (some (.int32 lower)) lower_inclusive (some (.int32 upper))
          upper_inclusive =
        .ok ((entries.filter (fun e =>
          in_numeric_range lower lower_inclusive upper upper_inclusive e.1)).map
            (fun e => e.2))) := by
  have htext : (∀ e ∈ entries,
        satisfies_lower (some (.int32 lower)) lower_inclusive (Value.int32 e.1).to_string =
          false →
        satisfies_upper (some (.int32 upper)) upper_inclusive (Value.int32 e.1).to_string =
          true) →
      index.search_ordered col (some (.int32 lower)) lower_inclusive (some (.int32 upper))
          upper_inclusive =
        .ok ((entries.filter (fun e =>
          satisfies_lower (some (.int32 lower)) lower_inclusive (Value.int32 e.1).to_string &&
            satisfies_upper (some (.int32 upper)) upper_inclusive
              (Value.int32 e.1).to_string)).map (fun e => e.2)) := by
    intro hall
    have hall1 : ∀ e ∈ index.ordered_map,
        satisfies_lower (some (.int32 lower)) lower_inclusive e.1 = false →
          satisfies_upper (some (.int32 upper)) upper_inclusive e.1 = true := by
      intro e he
      rw [hmap] at he
      obtain ⟨x, hx, rfl⟩ := List.mem_map.mp he
      exact hall x hx
    rw [search_ordered_in_order index col _ _ _ _ hcol hs hall1, hmap]
    simp only [render_entries, List.filter_map, List.map_map]
    rfl
  refine ⟨htext, ?_⟩
  intro d hd hl0 hld hu0 hud hle hne
  have hpoint : ∀ e ∈ entries,
      (satisfies_lower (some (.int32 lower)) lower_inclusive (Value.int32 e.1).to_string &&
        satisfies_upper (some (.int32 upper)) upper_inclusive (Value.int32 e.1).to_string) =
        in_numeric_range lower lower_inclusive upper upper_inclusive e.1 := by
    intro e he
    obtain ⟨h0, hlen⟩ := hd e he
    rw [satisfies_lower_numeric lower e.1 lower_inclusive hl0 h0 (hld.trans hlen.symm),
      satisfies_upper_numeric upper e.1 upper_inclusive hu0 h0 (hlen.trans hud.symm)]
    rfl
  rw [htext ?_]
  · rw [List.filter_congr hpoint]
  · intro e he
    obtain ⟨h0, hlen⟩ := hd e he
    rw [satisfies_lower_numeric lower e.1 lower_inclusive hl0 h0 (hld.trans hlen.symm),
      satisfies_upper_numeric upper e.1 upper_inclusive hu0 h0 (hlen.trans hud.symm)]
    cases lower_inclusive <;> cases upper_inclusive <;> simp at hne ⊢ <;> omega

theorem ordered_range_is_textual_witness :
    two_digit_index.columns = ["value"] ∧
    two_digit_index.ordered_map = render_entries two_digit_entries ∧
    keys_ascending two_digit_index.ordered_map ∧
    two_digit_index.search_ordered "value" (some (.int32 10)) false (some (.int32 40)) true =
      .ok [2, 3] :=
  have hs : keys_ascending two_digit_index.ordered_map := by
    simp [keys_ascending, two_digit_index]
    decide
  have h := (ordered_range_is_textual two_digit_index "value" two_digit_entries 10 40 false true
    rfl (by decide) hs).2 2 (by decide) (by decide) (by decide) (by decide) (by decide)
    (by decide) (by decide)
  ⟨rfl, by decide, hs, h.trans (by decide)⟩

/-! ## Claims on the search in an unordered index -/

theorem ids_at_of_not_mem (map : List (String × List RowID)) (key : String)
    (h : key ∉ map.map (fun e => e.1)) : ids_at map key = [] := by
  induction map with
  | nil => rfl
  | cons a rest ih =>
    have h1 : a.1 ≠ key := fun x => h (by simp [x])
    have h2 : key ∉ rest.map (fun e => e.1) := fun x => h (by simp at x ⊢; right; exact x)
    have := ih h2
    simp only [ids_at, List.find?_cons, h1, decide_False] at this ⊢
    exact this

theorem push_back_at_keys (map : List (String × List RowID)) (key : String) (row_id : RowID) :
    ∀ k, k ∈ (Index.push_back_at map key row_id).map (fun e => e.1) ↔
      k = key ∨ k ∈ map.map (fun e => e.1) := by
  induction map with
  | nil => intro k; simp [Index.push_back_at]
  | cons a rest ih =>
    intro k
    obtain ⟨k0, ids⟩ := a
    unfold Index.push_back_at
    by_cases h : k0 = key
    · rw [if_pos h]
      simp only [List.map_cons, List.mem_cons]
      constructor
      · intro hk
        right
        exact hk
      · rintro (hk | hk)
        · left
          rw [hk, h]
        · exact hk
    · rw [if_neg h]
      simp only [List.map_cons, List.mem_cons, ih k]
      tauto

theorem push_back_at_nodup (map : List (String × List RowID)) (key : String) (row_id : RowID)
    (hn : (map.map (fun e => e.1)).Nodup) :
    ((Index.push_back_at map key row_id).map (fun e => e.1)).Nodup := by
  induction map with
  | nil => simp [Index.push_back_at]
  | cons a rest ih =>
    obtain ⟨k0, ids⟩ := a
    simp only [List.map_cons, List.nodup_cons] at hn
    unfold Index.push_back_at
    by_cases h : k0 = key
    · rw [if_pos h]
      simp only [List.map_cons, List.nodup_cons]
      exact hn
    · rw [if_neg h]
      simp only [List.map_cons, List.nodup_cons]
      refine ⟨?_, ih hn.2⟩
      intro hk
      rcases (push_back_at_keys rest key row_id k0).mp hk with h1 | h1
      · exact h h1
      · exact hn.1 h1

theorem ids_at_push_back (map : List (String × List RowID)) (key : String) (row_id : RowID)
    (k : String) :
    ids_at (Index.push_back_at map key row_id) k =
      if key = k then ids_at map k ++ [row_id] else ids_at map k := by
  induction map with
  | nil =>
    by_cases h : key = k
    · simp [Index.push_back_at, ids_at, h]
    · simp [Index.push_back_at, ids_at, h]
  | cons a rest ih =>
    obtain ⟨k0, ids⟩ := a
    unfold Index.push_back_at
    by_cases h0 : k0 = key
    · rw [if_pos h0]
      by_cases h : key = k
      · simp [ids_at, h0, h]
      · have : k0 ≠ k := fun x => h (h0 ▸ x)
        simp [ids_at, h, this]
    · rw [if_neg h0]
      by_cases h1 : k0 = k
      · have : key ≠ k := fun x => h0 (h1.trans x.symm)
        simp [ids_at, h1, this]
      · simp only [ids_at, List.find?_cons, h1, decide_False] at ih ⊢
        exact ih

theorem erase_at_keys (map : List (String × List RowID)) (key : String) (row_id : RowID) :
    ∀ k, k ∈ (Index.erase_at map key row_id).map (fun e => e.1) →
      k ∈ map.map (fun e => e.1) := by
  induction map with
  | nil => intro k hk; simp [Index.erase_at] at hk
  | cons a rest ih =>
    intro k hk
    obtain ⟨k0, ids⟩ := a
    unfold Index.erase_at at hk
    by_cases h : k0 = key
    · rw [if_pos h] at hk
      split at hk
      · simp only [List.map_cons, List.mem_cons]
        right
        exact hk
      · simpa using hk
    · rw [if_neg h] at hk
      simp only [List.map_cons, List.mem_cons] at hk ⊢
      rcases hk with hk | hk
      · left
        exact hk
      · right
        exact ih k hk

theorem erase_at_nodup (map : List (String × List RowID)) (key : String) (row_id : RowID)
    (hn : (map.map (fun e => e.1)).Nodup) :
    ((Index.erase_at map key row_id).map (fun e => e.1)).Nodup := by
  induction map with
  | nil => simp [Index.erase_at]
  | cons a rest ih =>
    obtain ⟨k0, ids⟩ := a
    simp only [List.map_cons, List.nodup_cons] at hn
    unfold Index.erase_at
    by_cases h : k0 = key
    · rw [if_pos h]
      split
      · exact hn.2
      · simp only [List.map_cons, List.nodup_cons]
        exact hn
    · rw [if_neg h]
      simp only [List.map_cons, List.nodup_cons]
      exact ⟨fun hk => hn.1 (erase_at_keys rest key row_id k0 hk), ih hn.2⟩

theorem ids_at_erase (map : List (String × List RowID)) (key : String) (row_id : RowID)
    (k : String) (hn : (map.map (fun e => e.1)).Nodup) :
    ids_at (Index.erase_at map key row_id) k =
      if key = k then (ids_at map k).filter (fun id => id ≠ row_id) else ids_at map k := by
  induction map with
  | nil =>
    by_cases h : key = k
    · simp [Index.erase_at, ids_at, h]
    · simp [Index.erase_at, ids_at, h]
  | cons a rest ih =>
    obtain ⟨k0, ids⟩ := a
    simp only [List.map_cons, List.nodup_cons] at hn
    unfold Index.erase_at
    by_cases h0 : k0 = key
    · rw [if_pos h0]
      by_cases h : key = k
      · rw [if_pos h]
        have h0k : k0 = k := h0.trans h
        have hrest : ids_at rest k = [] := ids_at_of_not_mem rest k (h0k ▸ hn.1)
        split
        · rename_i hempty
          rw [hrest]
          have : ids_at ((k0, ids) :: rest) k = ids := by simp [ids_at, h0k]
          rw [this]
          exact (List.isEmpty_iff.mp hempty).symm
        · simp [ids_at, h0k]
      · rw [if_neg h]
        have : k0 ≠ k := fun x => h (h0 ▸ x)
        split
        · simp [ids_at, this]
        · simp [ids_at, this]
    · rw [if_neg h0]
      by_cases h1 : k0 = k
      · have : key ≠ k := fun x => h0 (h1.trans x.symm)
        simp [ids_at, h1, this]
      · have ih1 := ih hn.2
        simp only [ids_at, List.find?_cons, h1, decide_False] at ih1 ⊢
        exact ih1
theorem composite_key_text (row : Binding) (columns : List String) : ∀ key : String,
    (∀ text, key_text row columns = some text →
      Index.composite_key row columns key = .ok ⟨key.data ++ text⟩) ∧
    (key_text row columns = none → ∃ e, Index.composite_key row columns key = .error e) := by
  induction columns with
  | nil =>
    intro key
    refine ⟨?_, ?_⟩
    · intro text h
      simp only [key_text, Option.some.injEq] at h
      simp [Index.composite_key, ← h]
    · intro h
      simp [key_text] at h
  | cons col rest ih =>
    intro key
    cases hf : row.find col with
    | none =>
      refine ⟨?_, ?_⟩
      · intro text h
        simp [key_text, hf] at h
      · intro _
        refine ⟨⟨.invalid_argument, "Column '" ++ col ++ "' not found in row for index."⟩, ?_⟩
        simp only [Index.composite_key, hf]
    | some v =>
      have ih1 := ih (key ++ v.to_string ++ "|")
      cases ht : key_text row rest with
      | none =>
        refine ⟨?_, ?_⟩
        · intro text h
          simp [key_text, hf, ht] at h
        · intro _
          obtain ⟨e, he⟩ := ih1.2 ht
          exact ⟨e, by simp only [Index.composite_key, hf, he]⟩
      | some t =>
        refine ⟨?_, ?_⟩
        · intro text h
          simp only [key_text, hf, ht, Option.some.injEq] at h
          simp only [Index.composite_key, hf]
          rw [ih1.1 t ht, ← h]
          simp [String.data_append]
        · intro h
          simp [key_text, hf, ht] at h

theorem search_key_text (binding : Binding) (columns : List String) : ∀ key : String,
    Index.search_key binding columns key =
      (key_text binding columns).map (fun text => ⟨key.data ++ text⟩) := by
  induction columns with
  | nil =>
    intro key
    simp [Index.search_key, key_text]
  | cons col rest ih =>
    intro key
    cases hf : binding.find col with
    | none => simp [Index.search_key, key_text, hf]
    | some v =>
      have ih1 := ih (key ++ v.to_string ++ "|")
      simp only [Index.search_key, hf, ih1]
      cases ht : key_text binding rest with
      | none => simp [key_text, hf, ht]
      | some t => simp [key_text, hf, ht, String.data_append]

theorem key_text_none_iff (row : Binding) (columns : List String) :
    key_text row columns = none ↔ ∃ col ∈ columns, row.find col = none := by
  induction columns with
  | nil => simp [key_text]
  | cons col rest ih =>
    cases hf : row.find col with
    | none =>
      simp only [key_text, hf, List.mem_cons, true_iff]
      exact ⟨col, Or.inl rfl, hf⟩
    | some v =>
      cases ht : key_text row rest with
      | none =>
        obtain ⟨c, hc, hcn⟩ := ih.mp ht
        simp only [key_text, hf, ht, List.mem_cons, true_iff]
        exact ⟨c, Or.inr hc, hcn⟩
      | some t =>
        simp only [key_text, hf, ht, List.mem_cons]
        refine ⟨fun h => (by cases h), ?_⟩
        rintro ⟨c, hc | hc, hcn⟩
        · rw [hc, hf] at hcn
          cases hcn
        · have := ih.mpr ⟨c, hc, hcn⟩
          rw [ht] at this
          cases this

/-- The composite key of a row is the key of a binding exactly when their key texts are
equal. -/
theorem composite_key_eq_search_key (row binding : Binding) (columns : List String)
    (key : String) (hb : Index.search_key binding columns "" = some key) :
    Index.composite_key row columns "" = .ok key ↔
      (key_text row columns).isSome = true ∧ key_text row columns = key_text binding columns := by
  rw [search_key_text] at hb
  cases htb : key_text binding columns with
  | none => simp [htb] at hb
  | some tb =>
    simp only [htb, Option.map_some', Option.some.injEq] at hb
    cases htr : key_text row columns with
    | none =>
      obtain ⟨e, he⟩ := (composite_key_text row columns "").2 htr
      simp [he]
    | some tr =>
      rw [(composite_key_text row columns "").1 tr htr, ← hb]
      simp [String.ext_iff]
theorem add_row_unordered (index : Index) (row_id : RowID) (row : Binding)
    (ht : index.type = .Unordered) :
    (index.add_row row_id row).2 =
      match Index.composite_key row index.columns "" with
      | .error _ => index
      | .ok key =>
        { index with unordered_map := Index.push_back_at index.unordered_map key row_id } := by
  unfold Index.add_row
  rw [ht]
  simp only
  cases Index.composite_key row index.columns "" <;> rfl

theorem remove_row_unordered (index : Index) (row_id : RowID) (row : Binding)
    (ht : index.type = .Unordered) :
    (index.remove_row row_id row).2 =
      match Index.composite_key row index.columns "" with
      | .error _ => index
      | .ok key =>
        { index with unordered_map := Index.erase_at index.unordered_map key row_id } := by
  unfold Index.remove_row
  rw [ht]
  simp only
  cases Index.composite_key row index.columns "" <;> rfl

/-- One call on an unordered index whose map holds every key once: type and columns stay,
every key is still held once, and the list under every key changes as `key_step` says. -/
theorem call_spec (index : Index) (call : IndexCall) (ht : index.type = .Unordered)
    (hn : (index.unordered_map.map (fun e => e.1)).Nodup) :
    (index.call call).type = .Unordered ∧ (index.call call).columns = index.columns ∧
    ((index.call call).unordered_map.map (fun e => e.1)).Nodup ∧
    ∀ key, ids_at (index.call call).unordered_map key =
      key_step index.columns key (ids_at index.unordered_map key) call := by
  cases call with
  | add row_id row =>
    simp only [Index.call, add_row_unordered index row_id row ht, key_step]
    cases hk : Index.composite_key row index.columns "" with
    | error e => exact ⟨ht, rfl, hn, fun key => by simp⟩
    | ok k =>
      refine ⟨ht, rfl, push_back_at_nodup _ _ _ hn, ?_⟩
      intro key
      simp only [ids_at_push_back, Except.ok.injEq]
  | remove row_id row =>
    simp only [Index.call, remove_row_unordered index row_id row ht, key_step]
    cases hk : Index.composite_key row index.columns "" with
    | error e => exact ⟨ht, rfl, hn, fun key => by simp⟩
    | ok k =>
      refine ⟨ht, rfl, erase_at_nodup _ _ _ hn, ?_⟩
      intro key
      simp only [ids_at_erase _ _ _ _ hn, Except.ok.injEq]

theorem after_spec : ∀ (calls : List IndexCall) (index : Index), index.type = .Unordered →
    (index.unordered_map.map (fun e => e.1)).Nodup →
    (index.after calls).columns = index.columns ∧
    ∀ key, ids_at (index.after calls).unordered_map key =
      calls.foldl (key_step index.columns key) (ids_at index.unordered_map key) := by
  intro calls
  induction calls with
  | nil => intro index _ _; exact ⟨rfl, fun _ => rfl⟩
  | cons call rest ih =>
    intro index ht hn
    obtain ⟨h1, h2, h3, h4⟩ := call_spec index call ht hn
    obtain ⟨i1, i2⟩ := ih (index.call call) h1 h3
    refine ⟨?_, ?_⟩
    · show ((index.call call).after rest).columns = index.columns
      rw [i1, h2]
    · intro key
      show ids_at ((index.call call).after rest).unordered_map key = _
      rw [i2 key, h2, h4 key]
      rfl

/-- The search in an unordered index built by calls of `add_row` and `remove_row` from the
empty index: the empty list when the binding lacks a column, and otherwise the history of
the key of the binding. -/
theorem search_unordered_after (columns : List String) (calls : List IndexCall)
    (binding : Binding) :
    ((Index.new .Unordered columns).after calls).search_unordered binding =
      match Index.search_key binding columns "" with
      | none => []
      | some key => ids_under_key columns key calls := by
  obtain ⟨h1, h2⟩ := after_spec calls (Index.new .Unordered columns) rfl (by simp [Index.new])
  unfold Index.search_unordered
  rw [h1]
  simp only [Index.new]
  cases hk : Index.search_key binding columns "" with
  | none => rfl
  | some key =>
    exact h2 key
theorem int_repr_chars (v : Int) : ∀ c ∈ (Int.repr v).data, isdigit c = true ∨ c = '-' := by
  intro c hc
  cases v with
  | ofNat n =>
    left
    exact (repr_digits n).2.2.1 c (by simpa [Int.repr] using hc)
  | negSucc m =>
    have hd : (Int.repr (Int.negSucc m)).data = '-' :: (Nat.repr (m + 1)).data := by
      simp [Int.repr, String.data_append]
    rw [hd] at hc
    rcases List.mem_cons.mp hc with h | h
    · right
      exact h
    · left
      exact (repr_digits (m + 1)).2.2.1 c h

theorem hex_str_chars (b : List Nat) : ∀ c ∈ (hex_str b).data, isxdigit c = true ∨ c = 'x' := by
  intro c hc
  simp only [hex_str, List.mem_cons] at hc
  rcases hc with h | h | h
  · left
    rw [h]
    decide
  · right
    exact h
  · left
    exact hex_digits_isxdigit b c h

theorem int_repr_injective (a b : Int) (h : Int.repr a = Int.repr b) : a = b := by
  have h1 := parse_decimal_int_repr a
  rw [h, parse_decimal_int_repr b] at h1
  exact (Option.some.inj h1).symm

theorem hex_str_injective (a b : List Nat) (ha : ∀ x ∈ a, x < 256) (hb : ∀ x ∈ b, x < 256)
    (h : hex_str a = hex_str b) : a = b := by
  have hd : hex_digits a = hex_digits b := by
    have h0 := String.ext_iff.mp h
    simp only [hex_str, List.cons.injEq, true_and] at h0
    exact h0
  have h1 := hex_bytes_digits "" a ha
  rw [hd, hex_bytes_digits "" b hb] at h1
  exact (Except.ok.inj h1).symm

/-- The rendering of a value that is no String holds neither the character `"` nor the
character `|`, and differs from every rendering of a String. -/
theorem render_chars (v : Value) (hv : ∀ s, v ≠ .string s) :
    ∀ c ∈ v.to_string.data, c ≠ '"' ∧ c ≠ '|' := by
  intro c hc
  cases v with
  | null =>
    simp only [Value.to_string] at hc
    revert c
    decide
  | int32 a =>
    rcases int_repr_chars a c hc with h | h
    · have hb := isdigit_bounds h
      constructor <;> (intro e; rw [e] at hb; revert hb; decide)
    · rw [h]
      decide
  | bool b =>
    cases b
    · simp only [Value.to_string] at hc
      revert c
      decide
    · simp only [Value.to_string] at hc
      revert c
      decide
  | string s => exact absurd rfl (hv s)
  | bytes b =>
    rcases hex_str_chars b c hc with h | h
    · constructor <;> (intro e; rw [e] at h; revert h; decide)
    · rw [h]
      decide

theorem string_render_data (s : String) :
    (Value.string s).to_string.data = '"' :: (s.data ++ ['"']) := by
  simp [Value.to_string, String.data_append]

/-- `Value::to_string` is injective on the values of the four types. -/
theorem to_string_injective (v1 v2 : Value) (h1 : v1.in_range) (h2 : v2.in_range)
    (h : v1.to_string = v2.to_string) : v1 = v2 := by
  have hmem : ∀ c, c ∈ v1.to_string.data ↔ c ∈ v2.to_string.data := by
    intro c
    rw [h]
  cases v1 with
  | null => exact absurd h1 (by simp [Value.in_range])
  | int32 a =>
    cases v2 with
    | null => exact absurd h2 (by simp [Value.in_range])
    | int32 b => rw [int_repr_injective a b h]
    | bool b =>
      exfalso
      have : 'e' ∈ (Value.int32 a).to_string.data := (hmem 'e').mpr (by cases b <;> decide)
      rcases int_repr_chars a 'e' this with x | x
      · revert x
        decide
      · revert x
        decide
    | string s =>
      exfalso
      have : '"' ∈ (Value.int32 a).to_string.data :=
        (hmem '"').mpr (by rw [string_render_data]; exact List.mem_cons_self _ _)
      exact (render_chars (.int32 a) (fun _ x => by cases x) '"' this).1 rfl
    | bytes b =>
      exfalso
      have : 'x' ∈ (Value.int32 a).to_string.data :=
        (hmem 'x').mpr (by simp [Value.to_string, hex_str])
      rcases int_repr_chars a 'x' this with x | x
      · revert x
        decide
      · revert x
        decide
  | bool a =>
    cases v2 with
    | null => exact absurd h2 (by simp [Value.in_range])
    | int32 b =>
      exfalso
      have : 'e' ∈ (Value.int32 b).to_string.data := (hmem 'e').mp (by cases a <;> decide)
      rcases int_repr_chars b 'e' this with x | x
      · revert x
        decide
      · revert x
        decide
    | bool b =>
      cases a <;> cases b <;> first | rfl | (exfalso; revert h; decide)
    | string s =>
      exfalso
      have : '"' ∈ (Value.bool a).to_string.data :=
        (hmem '"').mpr (by rw [string_render_data]; exact List.mem_cons_self _ _)
      exact (render_chars (.bool a) (fun _ x => by cases x) '"' this).1 rfl
    | bytes b =>
      exfalso
      have : 'x' ∈ (Value.bool a).to_string.data :=
        (hmem 'x').mpr (by simp [Value.to_string, hex_str])
      revert this
      cases a <;> decide
  | string a =>
    have hq : '"' ∈ (Value.string a).to_string.data := by
      rw [string_render_data]
      exact List.mem_cons_self _ _
    cases v2 with
    | null => exact absurd h2 (by simp [Value.in_range])
    | int32 b =>
      exact absurd rfl (render_chars (.int32 b) (fun _ x => by cases x) '"' ((hmem '"').mp hq)).1
    | bool b =>
      exact absurd rfl (render_chars (.bool b) (fun _ x => by cases x) '"' ((hmem '"').mp hq)).1
    | string b =>
      have hd : (Value.string a).to_string.data = (Value.string b).to_string.data := by rw [h]
      rw [string_render_data, string_render_data] at hd
      have := List.append_cancel_right (List.cons.inj hd).2
      rw [String.ext_iff.mpr this]
    | bytes b =>
      exact absurd rfl (render_chars (.bytes b) (fun _ x => by cases x) '"' ((hmem '"').mp hq)).1
  | bytes a =>
    have hx : 'x' ∈ (Value.bytes a).to_string.data := by simp [Value.to_string, hex_str]
    cases v2 with
    | null => exact absurd h2 (by simp [Value.in_range])
    | int32 b =>
      exfalso
      rcases int_repr_chars b 'x' ((hmem 'x').mp hx) with x | x
      · revert x
        decide
      · revert x
        decide
    | bool b =>
      exfalso
      have := (hmem 'x').mp hx
      revert this
      cases b <;> decide
    | string s =>
      exfalso
      have : '"' ∈ (Value.bytes a).to_string.data :=
        (hmem '"').mpr (by rw [string_render_data]; exact List.mem_cons_self _ _)
      exact (render_chars (.bytes a) (fun _ x => by cases x) '"' this).1 rfl
    | bytes b =>
      rw [hex_str_injective a b h1 h2 h]

/-- Two texts that agree and hold a delimiter behind a part without it agree in the parts
before and behind the delimiter. -/
theorem split_at_first (d : Char) : ∀ (a b x y : List Char), d ∉ a → d ∉ b →
    a ++ d :: x = b ++ d :: y → a = b ∧ x = y := by
  intro a
  induction a with
  | nil =>
    intro b x y _ hb h
    cases b with
    | nil => exact ⟨rfl, (List.cons.inj h).2⟩
    | cons c cs =>
      have := (List.cons.inj h).1
      exact absurd (this ▸ List.mem_cons_self _ _) hb
  | cons c cs ih =>
    intro b x y ha hb h
    cases b with
    | nil =>
      have := (List.cons.inj h).1
      exact absurd (this ▸ List.mem_cons_self _ _) ha
    | cons e es =>
      obtain ⟨h1, h2⟩ := List.cons.inj h
      obtain ⟨i1, i2⟩ := ih es x y (fun m => ha (List.mem_cons_of_mem _ m))
        (fun m => hb (List.mem_cons_of_mem _ m)) h2
      exact ⟨by rw [h1, i1], i2⟩

/-- The renderings of two values that show where they end, each with a `|` behind it, are
a prefix code: texts that start with them and agree start with the same rendering. -/
theorem render_split (v1 v2 : Value) (s1 : v1.key_safe) (s2 : v2.key_safe)
    (x y : List Char)
    (h : v1.to_string.data ++ '|' :: x = v2.to_string.data ++ '|' :: y) :
    v1.to_string = v2.to_string ∧ x = y := by
  by_cases c1 : ∃ a, v1 = .string a
  · obtain ⟨a, rfl⟩ := c1
    by_cases c2 : ∃ b, v2 = .string b
    · obtain ⟨b, rfl⟩ := c2
      rw [string_render_data, string_render_data] at h
      simp only [List.cons_append, List.append_assoc, List.singleton_append,
        List.cons.injEq, true_and] at h
      obtain ⟨e1, e2⟩ := split_at_first '"' a.data b.data _ _ s1 s2 h
      refine ⟨?_, (List.cons.inj e2).2⟩
      rw [String.ext_iff.mpr e1]
    · exfalso
      have hc := render_chars v2 (fun s hs => c2 ⟨s, hs⟩)
      rw [string_render_data] at h
      cases hd : v2.to_string.data with
      | nil =>
        rw [hd] at h
        have := (List.cons.inj h).1
        revert this
        decide
      | cons e es =>
        rw [hd] at h
        have := (List.cons.inj h).1
        exact (hc e (by rw [hd]; exact List.mem_cons_self _ _)).1 this.symm
  · by_cases c2 : ∃ b, v2 = .string b
    · exfalso
      obtain ⟨b, rfl⟩ := c2
      have hc := render_chars v1 (fun s hs => c1 ⟨s, hs⟩)
      rw [string_render_data] at h
      cases hd : v1.to_string.data with
      | nil =>
        rw [hd] at h
        have := (List.cons.inj h).1
        revert this
        decide
      | cons e es =>
        rw [hd] at h
        have := (List.cons.inj h).1
        exact (hc e (by rw [hd]; exact List.mem_cons_self _ _)).1 this
    · have hc1 := render_chars v1 (fun s hs => c1 ⟨s, hs⟩)
      have hc2 := render_chars v2 (fun s hs => c2 ⟨s, hs⟩)
      obtain ⟨e1, e2⟩ := split_at_first '|' _ _ x y (fun m => (hc1 _ m).2 rfl)
        (fun m => (hc2 _ m).2 rfl) h
      exact ⟨String.ext_iff.mpr e1, e2⟩
/-- The key of a binding that holds every index column is its key text, and the composite
key of a row is that key exactly when the row has the same key text. -/
theorem composite_key_iff_key_text (binding : Binding) (columns : List String) (key : String)
    (hb : Index.search_key binding columns "" = some key) :
    ∃ tb, key_text binding columns = some tb ∧
      ∀ row : Binding, Index.composite_key row columns "" = .ok key ↔
        key_text row columns = some tb := by
  rw [search_key_text] at hb
  cases htb : key_text binding columns with
  | none => simp [htb] at hb
  | some tb =>
    simp only [htb, Option.map_some', Option.some.injEq] at hb
    refine ⟨tb, rfl, ?_⟩
    intro row
    cases htr : key_text row columns with
    | none =>
      obtain ⟨e, he⟩ := (composite_key_text row columns "").2 htr
      simp [he]
    | some tr =>
      rw [(composite_key_text row columns "").1 tr htr, ← hb]
      simp [String.ext_iff]

theorem key_text_agree_safe (row binding : Binding) : ∀ (columns : List String),
    (∀ c ∈ columns, ∀ v, row.find c = some v → v.in_range ∧ v.key_safe) →
    (∀ c ∈ columns, ∀ v, binding.find c = some v → v.in_range ∧ v.key_safe) →
    ∀ tb, key_text binding columns = some tb →
      (key_text row columns = some tb ↔ values_agree columns row binding = true) := by
  intro columns
  induction columns with
  | nil =>
    intro _ _ tb htb
    simp only [key_text] at htb ⊢
    simp [values_agree, htb]
  | cons c rest ih =>
    intro hr hb tb htb
    have hr1 : ∀ c ∈ rest, ∀ v, row.find c = some v → v.in_range ∧ v.key_safe :=
      fun d hd => hr d (List.mem_cons_of_mem _ hd)
    have hb1 : ∀ c ∈ rest, ∀ v, binding.find c = some v → v.in_range ∧ v.key_safe :=
      fun d hd => hb d (List.mem_cons_of_mem _ hd)
    cases hfb : binding.find c with
    | none => simp [key_text, hfb] at htb
    | some vb =>
      cases htb1 : key_text binding rest with
      | none => simp [key_text, hfb, htb1] at htb
      | some tb1 =>
        simp only [key_text, hfb, htb1, Option.some.injEq] at htb
        have ih1 := ih hr1 hb1 tb1 htb1
        have hva : values_agree (c :: rest) row binding =
            ((match row.find c with
              | some v => decide (binding.find c = some v)
              | none => false) && values_agree rest row binding) := by
          simp [values_agree]
        rw [hva]
        cases hfr : row.find c with
        | none => simp [key_text, hfr]
        | some vr =>
          obtain ⟨rr, rs⟩ := hr c (List.mem_cons_self _ _) vr hfr
          obtain ⟨br, bs⟩ := hb c (List.mem_cons_self _ _) vb hfb
          cases htr1 : key_text row rest with
          | none =>
            have : values_agree rest row binding = false := by
              cases hv : values_agree rest row binding with
              | false => rfl
              | true =>
                have := ih1.mpr hv
                rw [htr1] at this
                cases this
            simp [key_text, hfr, htr1, this]
          | some tr1 =>
            simp only [key_text, hfr, htr1, Option.some.injEq, hfb, Bool.and_eq_true,
              decide_eq_true_eq]
            rw [← htb]
            constructor
            · intro h
              obtain ⟨e1, e2⟩ := render_split vr vb rs bs tr1 tb1 h
              have := to_string_injective vr vb rr br e1
              exact ⟨by rw [this], ih1.mp (by rw [htr1, e2])⟩
            · rintro ⟨e1, e2⟩
              have := ih1.mpr e2
              rw [htr1] at this
              rw [e1, Option.some.inj this]

theorem key_text_agree_single (row binding : Binding) (c : String)
    (hr : ∀ v, row.find c = some v → v.in_range)
    (hb : ∀ v, binding.find c = some v → v.in_range)
    (tb : List Char) (htb : key_text binding [c] = some tb) :
    (key_text row [c] = some tb ↔ values_agree [c] row binding = true) := by
  cases hfb : binding.find c with
  | none => simp [key_text, hfb] at htb
  | some vb =>
    simp only [key_text, hfb, Option.some.injEq] at htb
    cases hfr : row.find c with
    | none => simp [key_text, values_agree, hfr]
    | some vr =>
      simp only [key_text, hfr, values_agree, List.all_cons, List.all_nil, Bool.and_true,
        Option.some.injEq, hfb, decide_eq_true_eq]
      rw [← htb]
      constructor
      · intro h
        have h1 : vr.to_string.data = vb.to_string.data :=
          List.append_cancel_right h
        rw [to_string_injective vr vb (hr vr hfr) (hb vb hfb) (String.ext_iff.mpr h1)]
      · intro h
        rw [h]

/-- The key text of a row is the key text of a binding exactly when their values in the
index columns are equal, for an index over one column, and for an index over more columns
when no String value holds the character `"`. -/
theorem key_text_agree (row binding : Binding) (columns : List String)
    (hr : ∀ c ∈ columns, ∀ v, row.find c = some v →
      v.in_range ∧ (columns.length ≤ 1 ∨ v.key_safe))
    (hb : ∀ c ∈ columns, ∀ v, binding.find c = some v →
      v.in_range ∧ (columns.length ≤ 1 ∨ v.key_safe))
    (tb : List Char) (htb : key_text binding columns = some tb) :
    (key_text row columns = some tb ↔ values_agree columns row binding = true) := by
  by_cases hlen : columns.length ≤ 1
  · cases columns with
    | nil =>
      simp only [key_text, Option.some.injEq] at htb ⊢
      simp [values_agree, htb]
    | cons c rest =>
      cases rest with
      | nil =>
        exact key_text_agree_single row binding c
          (fun v hv => (hr c (List.mem_cons_self _ _) v hv).1)
          (fun v hv => (hb c (List.mem_cons_self _ _) v hv).1) tb htb
      | cons d ds => simp at hlen
  · exact key_text_agree_safe row binding columns
      (fun c hc v hv => ⟨(hr c hc v hv).1, (hr c hc v hv).2.resolve_left hlen⟩)
      (fun c hc v hv => ⟨(hb c hc v hv).1, (hb c hc v hv).2.resolve_left hlen⟩) tb htb

/-- Claim C34 fails on an index over two columns: the row with `a = x"|"y` and `b = z`
and the binding with `a = x` and `b = y"|"z` render the same composite key
`"x"|"y"|"z"|`, so the search with the binding returns the RowID of the row, whose
values differ from the binding's in both columns. -/
theorem composite_keys_collide :
    Index.composite_key quoted_row ["a", "b"] "" = .ok "\"x\"|\"y\"|\"z\"|" ∧
    Index.search_key quoted_binding ["a", "b"] "" = some "\"x\"|\"y\"|\"z\"|" ∧
    ((Index.new .Unordered ["a", "b"]).after [.add 1 quoted_row]).search_unordered
      quoted_binding = [1] ∧
    values_agree ["a", "b"] quoted_row quoted_binding = false ∧
    ids_with_values ["a", "b"] quoted_binding [.add 1 quoted_row] = [] := by
  refine ⟨by decide, by decide, by decide, by decide, by decide⟩

/-- Claim C34, amended: for an unordered index over the columns C built from the empty
index by calls of `add_row` and `remove_row`, `search_unordered(binding)` returns the
empty list when the binding lacks a column of C, and otherwise exactly the RowIDs that were
added with a row whose rendered composite key equals the binding's and not since removed
with such a row, in the order they were added. These are the RowIDs of the rows whose
values in every column of C equal the binding's when C has one column, and for more
columns when no String value in the rows and the binding holds the character `"`. -/
theorem search_unordered_by_rendered_key (columns : List String) (calls : List IndexCall)
    (binding : Binding) :
    ((∃ col ∈ columns, binding.find col = none) →
      ((Index.new .Unordered columns).after calls).search_unordered binding = []) ∧
    ((∀ col ∈ columns, binding.find col ≠ none) →
      ∃ key, Index.search_key binding columns "" = some key ∧
        ((Index.new .Unordered columns).after calls).search_unordered binding =
          ids_under_key columns key calls) ∧
    ((∀ col ∈ columns, binding.find col ≠ none) →
      (∀ call ∈ calls, ∀ c ∈ columns, ∀ v, call.row.find c = some v →
        v.in_range ∧ (columns.length ≤ 1 ∨ v.key_safe)) →
      (∀ c ∈ columns, ∀ v, binding.find c = some v →
        v.in_range ∧ (columns.length ≤ 1 ∨ v.key_safe)) →
      ((Index.new .Unordered columns).after calls).search_unordered binding =
        ids_with_values columns binding calls) := by
  have hsome : (∀ col ∈ columns, binding.find col ≠ none) →
      ∃ key, Index.search_key binding columns "" = some key := by
    intro hall
    cases hk : Index.search_key binding columns "" with
    | some key => exact ⟨key, rfl⟩
    | none =>
      exfalso
      rw [search_key_text] at hk
      have : key_text binding columns = none := by
        cases ht : key_text binding columns with
        | none => rfl
        | some t => simp [ht] at hk
      obtain ⟨c, hc, hcn⟩ := (key_text_none_iff binding columns).mp this
      exact hall c hc hcn
  refine ⟨?_, ?_, ?_⟩
  · intro hex
    rw [search_unordered_after, search_key_text, (key_text_none_iff binding columns).mpr hex]
    rfl
  · intro hall
    obtain ⟨key, hk⟩ := hsome hall
    exact ⟨key, hk, by rw [search_unordered_after, hk]⟩
  · intro hall hcalls hbind
    obtain ⟨key, hk⟩ := hsome hall
    rw [search_unordered_after, hk]
    obtain ⟨tb, htb, hrow⟩ := composite_key_iff_key_text binding columns key hk
    simp only [ids_under_key, ids_with_values]
    apply List.foldl_ext
    intro ids call hcall
    have hagree := key_text_agree call.row binding columns (hcalls call hcall) hbind tb htb
    cases call with
    | add row_id row =>
      simp only [IndexCall.row] at hagree
      simp only [key_step, value_step]
      by_cases hv : values_agree columns row binding = true
      · rw [if_pos ((hrow row).mpr (hagree.mpr hv)), if_pos hv]
      · rw [if_neg (fun x => hv (hagree.mp ((hrow row).mp x))), if_neg hv]
    | remove row_id row =>
      simp only [IndexCall.row] at hagree
      simp only [key_step, value_step]
      by_cases hv : values_agree columns row binding = true
      · rw [if_pos ((hrow row).mpr (hagree.mpr hv)), if_pos hv]
      · rw [if_neg (fun x => hv (hagree.mp ((hrow row).mp x))), if_neg hv]
theorem search_unordered_by_rendered_key_witness :
    (∀ col ∈ ["a", "b"], seven_red.find col ≠ none) ∧
    ((Index.new .Unordered ["a", "b"]).after red_blue_calls).search_unordered seven_red = [3] ∧
    ((Index.new .Unordered ["a", "b"]).after red_blue_calls).search_unordered
      [("a", .int32 7)] = [] :=
  have hall : ∀ col ∈ ["a", "b"], seven_red.find col ≠ none := by decide
  have hsafe : ∀ row : Binding, row = seven_red ∨ row = seven_blue →
      ∀ c ∈ ["a", "b"], ∀ v, row.find c = some v →
        v.in_range ∧ (["a", "b"].length ≤ 1 ∨ v.key_safe) := by
    intro row hrow c hc v hv
    simp only [List.mem_cons, List.mem_singleton, List.not_mem_nil, or_false] at hc
    rcases hrow with rfl | rfl <;> rcases hc with rfl | rfl <;>
      simp only [seven_red, seven_blue, Binding.find, if_true, Option.some.injEq] at hv <;>
      first
        | (rw [← hv]; refine ⟨by simp [Value.in_range], Or.inr ?_⟩; simp [Value.key_safe])
        | (simp at hv; rw [← hv]; refine ⟨by simp [Value.in_range], Or.inr ?_⟩
           simp [Value.key_safe])
  have hcalls : ∀ call ∈ red_blue_calls, ∀ c ∈ ["a", "b"], ∀ v, call.row.find c = some v →
      v.in_range ∧ (["a", "b"].length ≤ 1 ∨ v.key_safe) := by
    intro call hcall
    simp only [red_blue_calls, List.mem_cons, List.mem_singleton, List.not_mem_nil,
      or_false] at hcall
    rcases hcall with rfl | rfl | rfl | rfl
    · exact hsafe seven_red (Or.inl rfl)
    · exact hsafe seven_blue (Or.inr rfl)
    · exact hsafe seven_red (Or.inl rfl)
    · exact hsafe seven_red (Or.inl rfl)
  have h := search_unordered_by_rendered_key ["a", "b"] red_blue_calls seven_red
  have h1 := search_unordered_by_rendered_key ["a", "b"] red_blue_calls [("a", .int32 7)]
  ⟨hall, (h.2.2 hall hcalls (hsafe seven_red (Or.inl rfl))).trans (by decide),
    h1.1 ⟨"b", by decide, by decide⟩⟩

end memdb
